import Mathlib

/-!
# Generic transport controller: a shallow embedding

The definitions below follow `pkg/transport/generic_transport_controller.go`.

* Objects of the dynamic client (`unstructured.Unstructured`) are records holding the
  metadata fields the controller reads or writes plus the remaining content.
* The three API servers the controller talks to (Binding client of the WDS, dynamic
  client of the WDS, dynamic client of the ITS) are stores inside `World`.  Every call
  to one of them is appended to `World.trace`, and may be made to fail by the next
  entry of `World.faults` (a transient error that is not NotFound).
* A Go `error` is an `Err`: its message and whether `errors.IsNotFound` holds of it.
* A pointer to a desired wrapped object is an index into a heap (`List Unstructured`),
  so that `SetResourceVersion` on a shared object is seen by every holder of it.
-/

namespace Transport

/-! ## Constants -/

def ControllerName : String := "transport-controller"
def transportFinalizer : String := "transport.kubestellar.io/object-cleanup"
def originOwnerReferenceLabel : String := "transport.kubestellar.io/originOwnerReferenceBindingKey"
def originWdsLabel : String := "transport.kubestellar.io/originWdsName"
def originOwnerGenerationAnnotation : String :=
  "transport.kubestellar.io/originOwnerReferenceBindingGeneration"
/-- Value of `v1alpha1.TemplateExpansionAnnotationKey`. -/
def TemplateExpansionAnnotationKey : String := "edge.kubestellar.io/expand-templates"

/-! ## Data model -/

/-- A Go `error`: `notFound` is the answer of `errors.IsNotFound`. -/
structure Err where
  notFound : Bool
  msg : String
deriving DecidableEq, Repr

/-- Wrapping as `fmt.Errorf(pre + "%w", e)`: the message is prefixed, the cause is kept. -/
def Err.wrapf (pre : String) (e : Err) : Err := ⟨e.notFound, pre ++ e.msg⟩

/-- Outcome of a call: a value, a Go error, or a nil-pointer dereference. -/
inductive Res (α : Type) where
  | ok (a : α)
  | err (e : Err)
  | crash
deriving DecidableEq, Repr

/-- Equality of two answers of an API call can be decided. -/
instance decEqExcept {ε α : Type} [DecidableEq ε] [DecidableEq α] : DecidableEq (Except ε α)
  | .ok a, .ok b =>
    if h : a = b then isTrue (by rw [h]) else isFalse (fun h2 => h (by cases h2; rfl))
  | .error a, .error b =>
    if h : a = b then isTrue (by rw [h]) else isFalse (fun h2 => h (by cases h2; rfl))
  | .ok _, .error _ => isFalse (fun h => by cases h)
  | .error _, .ok _ => isFalse (fun h => by cases h)

/-- The type `v1alpha1.Destination`. -/
structure Destination where
  clusterId : String
deriving DecidableEq, Repr

/-- A string-to-string Go map, as an association list read with `List.lookup`. -/
abbrev StrMap := List (String × String)

/-- The type `unstructured.Unstructured`: the metadata the controller touches, the `status` subtree
(absent when `none`) and the rest of the content (`apiVersion`, `kind`, `spec`, ...). -/
structure Unstructured where
  apiVersion : String
  kind : String
  name : String
  ns : String
  generateName : String
  selfLink : String
  uid : String
  resourceVersion : String
  generation : Int
  labels : StrMap
  annotations : StrMap
  finalizers : List String
  ownerReferences : List String
  managedFields : List String
  status : Option String
  body : String
deriving DecidableEq, Repr

/-- An object with every field empty. -/
def Unstructured.empty : Unstructured :=
  ⟨"", "", "", "", "", "", "", "", 0, [], [], [], [], [], none, ""⟩

/-- Equality of two Go maps: the same keys with the same values. -/
def mapEqual (a b : StrMap) : Bool :=
  (a.all fun kv => b.lookup kv.1 == a.lookup kv.1) &&
  (b.all fun kv => a.lookup kv.1 == b.lookup kv.1)

/-- The test `apiequality.Semantic.DeepEqual(x.UnstructuredContent(), y.UnstructuredContent())`:
the whole content of both objects is compared, metadata and status included. -/
def deepEqual (x y : Unstructured) : Bool :=
  x.apiVersion == y.apiVersion && x.kind == y.kind && x.name == y.name && x.ns == y.ns &&
  x.generateName == y.generateName && x.selfLink == y.selfLink && x.uid == y.uid &&
  x.resourceVersion == y.resourceVersion && x.generation == y.generation &&
  mapEqual x.labels y.labels && mapEqual x.annotations y.annotations &&
  x.finalizers == y.finalizers && x.ownerReferences == y.ownerReferences &&
  x.managedFields == y.managedFields && x.status == y.status && x.body == y.body

/-- The setter `SetResourceVersion`; the empty string removes the field. -/
def Unstructured.setResourceVersion (u : Unstructured) (rv : String) : Unstructured :=
  { u with resourceVersion := rv }

/-- The type `schema.GroupVersionResource`. -/
structure GroupVersionResource where
  group : String
  version : String
  resource : String
deriving DecidableEq, Repr

/-- The method `GroupVersionResource.String` of apimachinery. -/
def GroupVersionResource.toStr (g : GroupVersionResource) : String :=
  g.group ++ "/" ++ g.version ++ ", Resource=" ++ g.resource

/-- An entry of `spec.workload.clusterScope`. -/
structure ClusterScopeDownsyncObject where
  gvr : GroupVersionResource
  name : String
deriving DecidableEq, Repr

/-- An entry of `spec.workload.namespaceScope`. -/
structure NamespaceScopeDownsyncObject where
  gvr : GroupVersionResource
  ns : String
  name : String
deriving DecidableEq, Repr

/-- The type `v1alpha1.BindingStatus`. -/
structure BindingStatus where
  observedGeneration : Int
  errors : List String
deriving DecidableEq, Repr

/-- The type `v1alpha1.Binding`. -/
structure Binding where
  name : String
  resourceVersion : String
  generation : Int
  deletionTimestamp : Option String
  finalizers : List String
  clusterScope : List ClusterScopeDownsyncObject
  namespaceScope : List NamespaceScopeDownsyncObject
  destinations : List Destination
  status : BindingStatus
deriving DecidableEq, Repr

/-- The properties of one WEC: `clusterProperties = map[string]string`. -/
abbrev clusterProperties := StrMap

/-- A call the controller issues to one of the API servers. -/
inductive Call where
  | bindingUpdate (b : Binding)
  | bindingUpdateStatus (b : Binding)
  | wdsGet (gvr : GroupVersionResource) (ns : String) (name : String)
  | itsList (selector : StrMap)
  | itsGet (ns : String) (name : String)
  | itsCreate (ns : String) (obj : Unstructured)
  | itsUpdate (ns : String) (obj : Unstructured)
  | itsDelete (ns : String) (name : String)
deriving DecidableEq, Repr

/-- Everything that changes while the controller runs. -/
structure World where
  /-- Binding objects in the API server of the WDS (what `bindingClient` writes) -/
  bindings : List Binding
  /-- Binding objects in the informer cache (what `bindingLister` reads) -/
  bindingCache : List Binding
  /-- workload objects of the WDS, each under its resource -/
  wds : List (GroupVersionResource × Unstructured)
  /-- wrapped objects of the ITS -/
  its : List Unstructured
  /-- inventory objects: name, labels, annotations -/
  inventory : List (String × StrMap × StrMap)
  /-- property ConfigMaps: name, data, binaryData -/
  propCfgMaps : List (String × StrMap × StrMap)
  /-- the field `bindingSensitiveDestinations` -/
  bindingSensitiveDestinations : List (String × List Destination)
  /-- the field `destinationProperties` -/
  destinationProperties : List (Destination × clusterProperties)
  /-- outcome of the coming API calls: `some m` makes the next call fail with message `m` -/
  faults : List (Option String)
  /-- the API calls issued so far, oldest first -/
  trace : List Call
deriving DecidableEq, Repr

/-- Record an API call and take the next fault. -/
def World.call (w : World) (c : Call) : Option String × World :=
  match w.faults with
  | [] => (none, { w with trace := w.trace ++ [c] })
  | f :: fs => (f, { w with trace := w.trace ++ [c], faults := fs })

/-! ## The API servers -/

/-- A transient failure of an API call: an error that is not NotFound. -/
def transientErr (m : String) : Err := ⟨false, m⟩

/-- Does the wrapped object sit under this namespace and name? -/
def Unstructured.isAt (u : Unstructured) (ns name : String) : Bool :=
  u.ns == ns && u.name == name

/-- Does the object carry every label the selector asks for? -/
def matchesSelector (selector : StrMap) (u : Unstructured) : Bool :=
  selector.all fun kv => u.labels.lookup kv.1 == some kv.2

/-- The call `transportClient.Resource(gvr).List` with a label selector. -/
def itsList (selector : StrMap) (w : World) : Except Err (List Unstructured) × World :=
  match w.call (Call.itsList selector) with
  | (some m, w1) => (.error (transientErr m), w1)
  | (none, w1) => (.ok (w1.its.filter (matchesSelector selector)), w1)

/-- The call `transportClient.Resource(gvr).Namespace(ns).Get`. -/
def itsGet (ns name : String) (w : World) : Except Err Unstructured × World :=
  match w.call (Call.itsGet ns name) with
  | (some m, w1) => (.error (transientErr m), w1)
  | (none, w1) =>
    match w1.its.find? (fun u => u.isAt ns name) with
    | some u => (.ok u, w1)
    | none => (.error ⟨true, "wrapped object " ++ name ++ " not found"⟩, w1)

/-- The call `transportClient.Resource(gvr).Namespace(ns).Create`.  The server files the object
under the namespace of the request, refuses an object that names another namespace and refuses
an object that exists already. -/
def itsCreate (ns : String) (obj : Unstructured) (w : World) : Except Err Unstructured × World :=
  match w.call (Call.itsCreate ns obj) with
  | (some m, w1) => (.error (transientErr m), w1)
  | (none, w1) =>
    if obj.ns ≠ "" ∧ obj.ns ≠ ns then
      (.error ⟨false, "the namespace of the provided object does not match the request"⟩, w1)
    else if w1.its.any (fun u => u.isAt ns obj.name) then
      (.error ⟨false, "wrapped object " ++ obj.name ++ " already exists"⟩, w1)
    else
      let stored := { obj with ns := ns }
      (.ok stored, { w1 with its := w1.its ++ [stored] })

/-- The call `transportClient.Resource(gvr).Namespace(ns).Update`.  The server replaces the stored
object of that namespace and name. -/
def itsUpdate (ns : String) (obj : Unstructured) (w : World) : Except Err Unstructured × World :=
  match w.call (Call.itsUpdate ns obj) with
  | (some m, w1) => (.error (transientErr m), w1)
  | (none, w1) =>
    if obj.ns ≠ "" ∧ obj.ns ≠ ns then
      (.error ⟨false, "the namespace of the provided object does not match the request"⟩, w1)
    else if w1.its.any (fun u => u.isAt ns obj.name) then
      let stored := { obj with ns := ns }
      (.ok stored, { w1 with its := w1.its.map fun u => if u.isAt ns obj.name then stored else u })
    else
      (.error ⟨true, "wrapped object " ++ obj.name ++ " not found"⟩, w1)

/-- The call `transportClient.Resource(gvr).Namespace(ns).Delete`. -/
def itsDelete (ns name : String) (w : World) : Option Err × World :=
  match w.call (Call.itsDelete ns name) with
  | (some m, w1) => (some (transientErr m), w1)
  | (none, w1) =>
    if w1.its.any (fun u => u.isAt ns name) then
      (none, { w1 with its := w1.its.filter fun u => !u.isAt ns name })
    else
      (some ⟨true, "wrapped object " ++ name ++ " not found"⟩, w1)

/-- The call `wdsDynamicClient.Resource(gvr).Namespace(ns).Get`; a cluster-scoped object has the
empty namespace. -/
def wdsGet (gvr : GroupVersionResource) (ns name : String) (w : World) :
    Except Err Unstructured × World :=
  match w.call (Call.wdsGet gvr ns name) with
  | (some m, w1) => (.error (transientErr m), w1)
  | (none, w1) =>
    match w1.wds.find? (fun e => e.1 == gvr && e.2.isAt ns name) with
    | some e => (.ok e.2, w1)
    | none => (.error ⟨true, gvr.resource ++ " \"" ++ name ++ "\" not found"⟩, w1)

/-- The call `bindingLister.Get`: a read of the informer cache, which is no API call. -/
def bindingListerGet (name : String) (w : World) : Except Err Binding :=
  match w.bindingCache.find? (fun b => b.name == name) with
  | some b => .ok b
  | none => .error ⟨true, "binding \"" ++ name ++ "\" not found"⟩

/-- The call `bindingClient.Update`: everything but the status is replaced. -/
def bindingUpdate (b : Binding) (w : World) : Except Err Binding × World :=
  match w.call (Call.bindingUpdate b) with
  | (some m, w1) => (.error (transientErr m), w1)
  | (none, w1) =>
    match w1.bindings.find? (fun x => x.name == b.name) with
    | none => (.error ⟨true, "binding \"" ++ b.name ++ "\" not found"⟩, w1)
    | some old =>
      let stored := { b with status := old.status }
      (.ok stored,
        { w1 with bindings := w1.bindings.map fun x => if x.name == b.name then stored else x })

/-- The call `bindingClient.UpdateStatus`: only the status is replaced. -/
def bindingUpdateStatus (b : Binding) (w : World) : Except Err Binding × World :=
  match w.call (Call.bindingUpdateStatus b) with
  | (some m, w1) => (.error (transientErr m), w1)
  | (none, w1) =>
    match w1.bindings.find? (fun x => x.name == b.name) with
    | none => (.error ⟨true, "binding \"" ++ b.name ++ "\" not found"⟩, w1)
    | some old =>
      let stored := { old with status := b.status }
      (.ok stored,
        { w1 with bindings := w1.bindings.map fun x => if x.name == b.name then stored else x })

/-! ## Wrapped objects in the ITS -/

/-- The loop of `popWrappedObjectByNamespace`: `todo` iterations are left and `i` is the index. -/
def popLoop (items : List Unstructured) (ns : String) :
    Nat → Nat → Option Unstructured × List Unstructured
  | 0, _ => (none, items)
  | todo + 1, i =>
    match items[i]? with
    | none => (none, items)
    | some requiredObject =>
      if requiredObject.ns = ns then
        (some requiredObject,
          (items.set i (items.getD (items.length - 1) requiredObject)).take (items.length - 1))
      else popLoop items ns todo (i + 1)

/-- The method `popWrappedObjectByNamespace`: the object found (or nil) and the list left. -/
def popWrappedObjectByNamespace (items : List Unstructured) (ns : String) :
    Option Unstructured × List Unstructured :=
  popLoop items ns items.length 0

/-- The method `deleteWrappedObject`: NotFound counts as success. -/
def deleteWrappedObject (ns objectName : String) (w : World) : Option Err × World :=
  match itsDelete ns objectName w with
  | (some e, w1) =>
    if e.notFound then (none, w1)
    else (some (e.wrapf ("failed to delete wrapped object '" ++ objectName ++
      "' from destination WEC mailbox namespace '" ++ ns ++ "' - ")), w1)
  | (none, w1) => (none, w1)

/-- The heap holding the desired wrapped objects; a pointer is an index into it. -/
abbrev Heap := List Unstructured

/-- The method `createOrUpdateWrappedObject`, given the pointer `p` to the wrapped object `obj`. -/
def createOrUpdateWrappedObject (ns : String) (p : Nat) (obj : Unstructured) (heap : Heap)
    (w : World) : Option Err × Heap × World :=
  match itsGet ns obj.name w with
  | (.error e, w1) =>
    if !e.notFound then
      (some (e.wrapf ("failed to create wrapped object '" ++ obj.name ++
        "' in destination WEC with namespace '" ++ ns ++ "' - ")), heap, w1)
    else
      let obj1 := obj.setResourceVersion ""
      let heap1 := heap.set p obj1
      match itsCreate ns obj1 w1 with
      | (.error e2, w2) =>
        (some (e2.wrapf ("failed to create wrapped object '" ++ obj1.name ++
          "' in destination WEC mailbox namespace '" ++ ns ++ "' - ")), heap1, w2)
      | (.ok _, w2) => (none, heap1, w2)
  | (.ok existingWrappedObject, w1) =>
    let obj1 := obj.setResourceVersion existingWrappedObject.resourceVersion
    let heap1 := heap.set p obj1
    match itsUpdate ns obj1 w1 with
    | (.error e2, w2) =>
      (some (e2.wrapf ("failed to update wrapped object '" ++ obj1.name ++
        "' in destination WEC mailbox namespace '" ++ ns ++ "' - ")), heap1, w2)
    | (.ok _, w2) => (none, heap1, w2)

/-- The function value `destToDesiredWrappedObject`: for a destination, the pointer to its wrapped
object (`none` is the nil pointer) and the `ok` flag. -/
abbrev DestToWrapped := Destination → Option Nat × Bool

/-- What `propagateWrappedObjectToClusters` leaves: its result, the current list, the heap and the
world. -/
structure PropagateOut where
  res : Res Unit
  items : List Unstructured
  heap : Heap
  world : World
deriving DecidableEq, Repr

/-- The body of the loop of `propagateWrappedObjectToClusters` for one destination. -/
def propagateStep (desired : DestToWrapped) (broken : Bool) (destination : Destination)
    (items : List Unstructured) (heap : Heap) (w : World) : PropagateOut :=
  let popped := popWrappedObjectByNamespace items destination.clusterId
  if broken then ⟨.ok (), popped.2, heap, w⟩
  else
    match (desired destination).1 with
    | none => ⟨.crash, popped.2, heap, w⟩
    | some p =>
      match heap[p]? with
      | none => ⟨.crash, popped.2, heap, w⟩
      | some desiredWrappedObject =>
        if popped.1.any (fun cur => deepEqual cur desiredWrappedObject) then
          ⟨.ok (), popped.2, heap, w⟩
        else
          match createOrUpdateWrappedObject destination.clusterId p desiredWrappedObject heap w with
          | (some e, heap1, w1) =>
            ⟨.err (e.wrapf ("failed to propagate wrapped object to cluster mailbox namespace '" ++
              destination.clusterId ++ "' - ")), popped.2, heap1, w1⟩
          | (none, heap1, w1) => ⟨.ok (), popped.2, heap1, w1⟩

/-- The loop of `propagateWrappedObjectToClusters` over the destinations. -/
def propagateLoop (desired : DestToWrapped) (broken : Bool) :
    List Destination → List Unstructured → Heap → World → PropagateOut
  | [], items, heap, w => ⟨.ok (), items, heap, w⟩
  | destination :: rest, items, heap, w =>
    match propagateStep desired broken destination items heap w with
    | ⟨.ok (), items1, heap1, w1⟩ => propagateLoop desired broken rest items1 heap1 w1
    | out => out

/-- The method `propagateWrappedObjectToClusters`; `none` is the nil function. -/
def propagateWrappedObjectToClusters (desired : Option DestToWrapped)
    (items : List Unstructured) (heap : Heap) (destinations : List Destination) (broken : Bool)
    (w : World) : PropagateOut :=
  match desired with
  | none => ⟨.ok (), items, heap, w⟩
  | some f => propagateLoop f broken destinations items heap w

/-! ## The controller -/

/-- The parts of `genericTransportController` that never change, and the functions of other
packages it calls.  Its two maps live in `World`. -/
structure genericTransportController where
  wdsName : String
  /-- the plugin: `convertObjectToUnstructured(transport.WrapObjects(objects))` -/
  wrapObjects : List Unstructured → Except Err Unstructured
  /-- the engine `customize.ExpandTemplates` -/
  expandTemplates : String → Unstructured → clusterProperties → Unstructured × Bool × List String
  /-- the filter `objectsFilter.CleanObjectSpecifics` -/
  cleanObjectSpecifics : Unstructured → Unstructured
  /-- the text `util.RefToRuntimeObj(obj).String()` -/
  refToString : Unstructured → String
  /-- the test `unicode.IsLetter` -/
  isLetter : Char → Bool
  /-- the test `unicode.IsDigit` -/
  isDigit : Char → Bool

/-- Assignment `m[k] = v` on a Go map. -/
def mapSet {κ ν : Type} [BEq κ] (m : List (κ × ν)) (k : κ) (v : ν) : List (κ × ν) :=
  if m.any (fun e => e.1 == k) then m.map (fun e => if e.1 == k then (k, v) else e)
  else m ++ [(k, v)]

/-- The statement `delete(m, k)` on a Go map. -/
def mapDelete {κ ν : Type} [BEq κ] (m : List (κ × ν)) (k : κ) : List (κ × ν) :=
  m.filter fun e => !(e.1 == k)

/-- The function `isObjectBeingDeleted`. -/
def isObjectBeingDeleted (binding : Binding) : Bool :=
  binding.deletionTimestamp.isSome

/-- The function `addFinalizer`. -/
def addFinalizer (binding : Binding) (finalizer : String) : Binding × Bool :=
  if binding.finalizers.any (fun item => item == finalizer) then (binding, false)
  else ({ binding with finalizers := binding.finalizers ++ [finalizer] }, true)

/-- The loop of `removeFinalizer` from position `i` on: the slice as written so far and `index`. -/
def removeFinalizerLoop (finalizer : String) :
    List String → List String → Nat → List String × Nat
  | [], finalizersList, index => (finalizersList, index)
  | item :: rest, finalizersList, index =>
    if item = finalizer then removeFinalizerLoop finalizer rest finalizersList index
    else removeFinalizerLoop finalizer rest (finalizersList.set index item) (index + 1)

/-- The function `removeFinalizer`: the Binding returned, whether it was updated, and the Binding
that was passed in as the call leaves it (its slice of finalizers is written in place). -/
def removeFinalizer (binding : Binding) (finalizer : String) : Binding × Bool × Binding :=
  let out := removeFinalizerLoop finalizer binding.finalizers binding.finalizers 0
  let given := { binding with finalizers := out.1 }
  if binding.finalizers.length = out.2 then (given, false, given)
  else ({ given with finalizers := out.1.take out.2 }, true, given)

/-- The method `updateBinding`, for an update function that may write to the Binding it is given:
the error, and the given Binding as the call leaves it. -/
def updateBinding (binding : Binding) (updateObjectFunc : Binding → Binding × Bool × Binding)
    (w : World) : Option Err × Binding × World :=
  match updateObjectFunc binding with
  | (_, false, given) => (none, given, w)
  | (updatedBinding, true, given) =>
    match bindingUpdate updatedBinding w with
    | (.error e, w1) =>
      (some (e.wrapf ("failed to update Binding object '" ++ binding.name ++ "' in WDS - ")),
        given, w1)
    | (.ok _, w1) => (none, given, w1)

/-- The method `removeFinalizerFromBinding`. -/
def removeFinalizerFromBinding (binding : Binding) (w : World) : Option Err × Binding × World :=
  updateBinding binding (fun b => removeFinalizer b transportFinalizer) w

/-- The method `addFinalizerToBinding`. -/
def addFinalizerToBinding (binding : Binding) (w : World) : Option Err × Binding × World :=
  updateBinding binding
    (fun b => ((addFinalizer b transportFinalizer).1, (addFinalizer b transportFinalizer).2, b)) w

/-- The loop of `deleteWrappedObjectsAndFinalizer` over the destinations. -/
def deleteFromDestinations (objectName : String) : List Destination → World → Option Err × World
  | [], w => (none, w)
  | destination :: rest, w =>
    match deleteWrappedObject destination.clusterId objectName w with
    | (some e, w1) =>
      (some (e.wrapf "failed to delete wrapped object from all destinations' - "), w1)
    | (none, w1) => deleteFromDestinations objectName rest w1

/-- The method `deleteWrappedObjectsAndFinalizer`: the error, and the given Binding as the call
leaves it. -/
def deleteWrappedObjectsAndFinalizer (c : genericTransportController) (binding : Binding)
    (w : World) : Option Err × Binding × World :=
  match deleteFromDestinations (binding.name ++ "-" ++ c.wdsName) binding.destinations w with
  | (some e, w1) => (some e, binding, w1)
  | (none, w1) =>
    match removeFinalizerFromBinding binding w1 with
    | (some e, given, w2) =>
      (some (e.wrapf ("failed to remove finalizer from Binding object '" ++ binding.name ++
        "' - ")), given, w2)
    | (none, given, w2) => (none, given, w2)

/-- The method `setBindingSensitivities`; `none` is the nil set. -/
def setBindingSensitivities (bindingName : String) (dests : Option (List Destination))
    (w : World) : World :=
  match dests with
  | none =>
    { w with bindingSensitiveDestinations := mapDelete w.bindingSensitiveDestinations bindingName }
  | some ds =>
    { w with bindingSensitiveDestinations := mapSet w.bindingSensitiveDestinations bindingName ds }

/-! ## Properties of a destination -/

/-- The keywords of Go, which `token.IsKeyword` recognises. -/
def goKeywords : List String :=
  ["break", "case", "chan", "const", "continue", "default", "defer", "else", "fallthrough",
   "for", "func", "go", "goto", "if", "import", "interface", "map", "package", "range",
   "return", "select", "struct", "switch", "type", "var"]

/-- The loop of `token.IsIdentifier` over the characters of the name; `first` holds at index 0. -/
def identifierChars (c : genericTransportController) : Bool → List Char → Bool
  | _, [] => true
  | first, ch :: rest =>
    if !c.isLetter ch && ch != '_' && (first || !c.isDigit ch) then false
    else identifierChars c false rest

/-- The function `token.IsIdentifier` of the Go standard library (package `go/token`): a name is
an identifier if it is not empty, is no keyword, and is made of letters, digits and underscores,
the first character being no digit. -/
def IsIdentifier (c : genericTransportController) (name : String) : Bool :=
  if name == "" || goKeywords.contains name then false
  else identifierChars c true name.toList

/-- The function `enumeratePropertiesInMapStringToString` applied to `collectProperty`: every
entry whose key is an identifier is assigned into `props`. -/
def enumeratePropertiesInMapStringToString (c : genericTransportController) (theMap : StrMap)
    (props : clusterProperties) : clusterProperties :=
  theMap.foldl (fun acc kv => if IsIdentifier c kv.1 then mapSet acc kv.1 kv.2 else acc) props

/-- The function `enumeratePropsInConfigMap` applied to `collectProperty`. -/
def enumeratePropsInConfigMap (c : genericTransportController) (data binaryData : StrMap)
    (props : clusterProperties) : clusterProperties :=
  enumeratePropertiesInMapStringToString c binaryData
    (enumeratePropertiesInMapStringToString c data props)

/-- The method `collectPropertiesForDestination`; both listers answer from their cache. -/
def collectPropertiesForDestination (c : genericTransportController) (invName : String)
    (w : World) : clusterProperties :=
  let props : clusterProperties := [("clusterName", invName)]
  let props1 :=
    match w.inventory.find? (fun e => e.1 == invName) with
    | some invObj =>
      enumeratePropertiesInMapStringToString c invObj.2.2
        (enumeratePropertiesInMapStringToString c invObj.2.1 props)
    | none => props
  match w.propCfgMaps.find? (fun e => e.1 == invName) with
  | some propCfgMap => enumeratePropsInConfigMap c propCfgMap.2.1 propCfgMap.2.2 props1
  | none => props1

/-- The method `getPropertiesForDestination`. -/
def getPropertiesForDestination (c : genericTransportController) (bindingName : String)
    (dest : Destination) (w : World) : clusterProperties × World :=
  let dests :=
    match w.bindingSensitiveDestinations.lookup bindingName with
    | none => [dest]
    | some ds => if ds.contains dest then ds else ds ++ [dest]
  let w1 := { w with
    bindingSensitiveDestinations := mapSet w.bindingSensitiveDestinations bindingName dests }
  match w1.destinationProperties.lookup dest with
  | some props => (props, w1)
  | none =>
    let props := collectPropertiesForDestination c dest.clusterId w1
    (props, { w1 with destinationProperties := mapSet w1.destinationProperties dest props })

/-! ## Desired state -/

/-- The function `cleanObject`. -/
def cleanObject (c : genericTransportController) (object : Unstructured) : Unstructured :=
  c.cleanObjectSpecifics
    { object with
      managedFields := []
      finalizers := []
      generation := 0
      ownerReferences := []
      selfLink := ""
      resourceVersion := ""
      uid := ""
      generateName := ""
      annotations := mapDelete object.annotations "kubectl.kubernetes.io/last-applied-configuration"
      status := none }

/-- The first loop of `getObjectsFromWDS`, over the cluster-scoped objects. -/
def getClusterScoped (c : genericTransportController) :
    List ClusterScopeDownsyncObject → List Unstructured → World →
      Except Err (List Unstructured) × World
  | [], objectsToPropagate, w => (.ok objectsToPropagate, w)
  | clusterScopedObject :: rest, objectsToPropagate, w =>
    match wdsGet clusterScopedObject.gvr "" clusterScopedObject.name w with
    | (.error e, w1) =>
      (.error (e.wrapf ("failed to get required cluster-scoped object '" ++
        clusterScopedObject.name ++ "' with gvr " ++ clusterScopedObject.gvr.toStr ++
        " from WDS - ")), w1)
    | (.ok object, w1) =>
      getClusterScoped c rest (objectsToPropagate ++ [cleanObject c object]) w1

/-- The second loop of `getObjectsFromWDS`, over the namespace-scoped objects. -/
def getNamespaceScoped (c : genericTransportController) :
    List NamespaceScopeDownsyncObject → List Unstructured → World →
      Except Err (List Unstructured) × World
  | [], objectsToPropagate, w => (.ok objectsToPropagate, w)
  | namespaceScopedObject :: rest, objectsToPropagate, w =>
    match wdsGet namespaceScopedObject.gvr namespaceScopedObject.ns namespaceScopedObject.name w with
    | (.error e, w1) =>
      (.error (e.wrapf ("failed to get required namespace-scoped object '" ++
        namespaceScopedObject.name ++ "' in namespace '" ++ namespaceScopedObject.ns ++
        "' with gvr '" ++ namespaceScopedObject.gvr.toStr ++ "' from WDS - ")), w1)
    | (.ok object, w1) =>
      getNamespaceScoped c rest (objectsToPropagate ++ [cleanObject c object]) w1

/-- The method `getObjectsFromWDS`. -/
def getObjectsFromWDS (c : genericTransportController) (binding : Binding) (w : World) :
    Except Err (List Unstructured) × World :=
  match getClusterScoped c binding.clusterScope [] w with
  | (.error e, w1) => (.error e, w1)
  | (.ok objectsToPropagate, w1) => getNamespaceScoped c binding.namespaceScope objectsToPropagate w1

/-- The method `customizeForDestination`. -/
def customizeForDestination (c : genericTransportController) (object : Unstructured)
    (destination : String) (properties : clusterProperties) :
    Unstructured × List String × Bool :=
  match c.expandTemplates destination object properties with
  | (objectDataExpanded, true, errs) => (objectDataExpanded, errs, true)
  | (_, false, _) => (object, [], false)

/-- The variables the loops of `computeDestToCustomizedObjects` write. -/
structure CustomizeState where
  /-- the map from destination to customized objects; `none` while it is nil -/
  destToCustomizedObjects : Option (List (Destination × List Unstructured))
  bindingErrors : List String
  customizeThisObject : Bool
  reportedSomeErrors : Bool
  world : World
deriving DecidableEq, Repr

/-- The body of the loop over the destinations in `computeDestToCustomizedObjects`, for the object
`objToPropagate` at index `objIdx` and the destination `dest` at index `destIdx`. -/
def customizeStep (c : genericTransportController) (objectsToPropagate : List Unstructured)
    (binding : Binding) (objIdx : Nat) (objToPropagate : Unstructured)
    (objRequestsExpansion : Bool) (destIdx : Nat) (dest : Destination) (s : CustomizeState) :
    CustomizeState :=
  let expanded : Unstructured × CustomizeState :=
    if objRequestsExpansion && (destIdx == 0 || s.customizeThisObject) then
      let got := getPropertiesForDestination c binding.name dest s.world
      let out := customizeForDestination c objToPropagate
        (dest.clusterId ++ "/" ++ c.refToString objToPropagate) got.1
      let report := out.2.1.length != 0 && !s.reportedSomeErrors
      (if out.2.2 then out.1 else objToPropagate,
        { s with
          world := got.2
          customizeThisObject := out.2.2
          reportedSomeErrors := if report then true else s.reportedSomeErrors
          bindingErrors := if report then s.bindingErrors ++ out.2.1 else s.bindingErrors })
    else (objToPropagate, s)
  let objC := expanded.1
  let s1 := expanded.2
  let made : Option (List (Destination × List Unstructured)) :=
    if s1.customizeThisObject && s1.destToCustomizedObjects.isNone then
      some (binding.destinations.foldl
        (fun m d => mapSet m d (objectsToPropagate.take objIdx)) [])
    else s1.destToCustomizedObjects
  match made with
  | none => { s1 with destToCustomizedObjects := none }
  | some m =>
    { s1 with destToCustomizedObjects := some (mapSet m dest ((m.lookup dest).getD [] ++ [objC])) }

/-- The loop over the destinations in `computeDestToCustomizedObjects`. -/
def customizeDests (c : genericTransportController) (objectsToPropagate : List Unstructured)
    (binding : Binding) (objIdx : Nat) (objToPropagate : Unstructured)
    (objRequestsExpansion : Bool) : Nat → List Destination → CustomizeState → CustomizeState
  | _, [], s => s
  | destIdx, dest :: rest, s =>
    customizeDests c objectsToPropagate binding objIdx objToPropagate objRequestsExpansion
      (destIdx + 1) rest
      (customizeStep c objectsToPropagate binding objIdx objToPropagate objRequestsExpansion
        destIdx dest s)

/-- The loop over the objects in `computeDestToCustomizedObjects`. -/
def customizeObjects (c : genericTransportController) (objectsToPropagate : List Unstructured)
    (binding : Binding) : Nat → List Unstructured → CustomizeState → CustomizeState
  | _, [], s => s
  | objIdx, objToPropagate :: rest, s =>
    let objRequestsExpansion :=
      objToPropagate.annotations.lookup TemplateExpansionAnnotationKey == some "true"
    customizeObjects c objectsToPropagate binding (objIdx + 1) rest
      (customizeDests c objectsToPropagate binding objIdx objToPropagate objRequestsExpansion 0
        binding.destinations
        { s with customizeThisObject := false, reportedSomeErrors := false })

/-- The set `sets.New(destinations...)`: every destination once. -/
def setsNew (destinations : List Destination) : List Destination :=
  destinations.eraseDups

/-- The method `computeDestToCustomizedObjects`. -/
def computeDestToCustomizedObjects (c : genericTransportController)
    (objectsToPropagate : List Unstructured) (binding : Binding) (w : World) :
    Option (List (Destination × List Unstructured)) × List String × World :=
  let s := customizeObjects c objectsToPropagate binding 0 objectsToPropagate
    ⟨none, [], false, false, w⟩
  let cares :=
    match s.destToCustomizedObjects with
    | some _ => setsNew binding.destinations
    | none => []
  (s.destToCustomizedObjects, s.bindingErrors, setBindingSensitivities binding.name (some cares) s.world)

/-- The method `wrap`. -/
def wrap (c : genericTransportController) (objectsToPropagate : List Unstructured)
    (binding : Binding) : Except Err Unstructured :=
  match c.wrapObjects objectsToPropagate with
  | .error e => .error (e.wrapf "failed to convert wrapped object to unstructured - ")
  | .ok wrappedObject =>
    .ok { wrappedObject with
      name := binding.name ++ "-" ++ c.wdsName
      labels := mapSet (mapSet wrappedObject.labels originOwnerReferenceLabel binding.name)
        originWdsLabel c.wdsName
      annotations := mapSet wrappedObject.annotations originOwnerGenerationAnnotation
        (toString binding.generation) }

/-- The loop of `computeDestToWrappedObjects` that wraps the objects of every destination of the
map: the destinations and the heap of their wrapped objects, in the same order. -/
def wrapAll (c : genericTransportController) (binding : Binding) :
    List (Destination × List Unstructured) → Except Err (List Destination × Heap)
  | [] => .ok ([], [])
  | (dest, objects) :: rest =>
    match wrap c objects binding with
    | .error e => .error (e.wrapf ("failure wrapping for destination \"" ++ binding.name ++ "\": "))
    | .ok wrappedObject =>
      match wrapAll c binding rest with
      | .error e => .error e
      | .ok (dests, heap) => .ok (dest :: dests, wrappedObject :: heap)

/-- The function `a.PrimitiveMapGet(asMap)`: the pointer stored for the key, or nil and false. -/
def PrimitiveMapGet (keys : List Destination) : DestToWrapped :=
  fun dest => if keys.contains dest then (some (keys.indexOf dest), true) else (none, false)

/-- What `computeDestToWrappedObjects` returns, with the heap its pointers point into. -/
structure WrappedOut where
  destToWrappedObject : Option DestToWrapped
  heap : Heap
  bindingErrors : List String

/-- The method `computeDestToWrappedObjects`. -/
def computeDestToWrappedObjects (c : genericTransportController) (binding : Binding)
    (w : World) : Except Err WrappedOut × World :=
  match getObjectsFromWDS c binding w with
  | (.error e, w1) =>
    (.error (e.wrapf ("failed to get objects to propagate to WECs from Binding object '" ++
      binding.name ++ "' - ")), w1)
  | (.ok objectsToPropagate, w1) =>
    if objectsToPropagate.length = 0 then (.ok ⟨none, [], []⟩, w1)
    else
      match computeDestToCustomizedObjects c objectsToPropagate binding w1 with
      | (some destToCustomizedObjects, bindingErrors, w2) =>
        match wrapAll c binding destToCustomizedObjects with
        | .error e => (.error e, w2)
        | .ok (dests, heap) => (.ok ⟨some (PrimitiveMapGet dests), heap, bindingErrors⟩, w2)
      | (none, bindingErrors, w2) =>
        match wrap c objectsToPropagate binding with
        | .error e =>
          (.error (e.wrapf "failed to convert wrapped object to unstructured - "), w2)
        | .ok wrappedObject =>
          (.ok ⟨some (fun _ => (some 0, true)), [wrappedObject], bindingErrors⟩, w2)

/-! ## Reconciling a Binding -/

/-- The label selector of the wrapped objects of a Binding. -/
def bindingSelector (c : genericTransportController) (bindingName : String) : StrMap :=
  [(originOwnerReferenceLabel, bindingName), (originWdsLabel, c.wdsName)]

/-- The last loop of `updateWrappedObjectsAndFinalizer`: delete what is left of the list. -/
def deleteLeftovers : List Unstructured → World → Option Err × World
  | [], w => (none, w)
  | wrappedObject :: rest, w =>
    match deleteWrappedObject wrappedObject.ns wrappedObject.name w with
    | (some e, w1) =>
      (some (e.wrapf ("failed to delete wrapped object from destinations that were removed " ++
        "from desired state - ")), w1)
    | (none, w1) => deleteLeftovers rest w1

/-- The status step of `updateWrappedObjectsAndFinalizer`: when the observed generation lags or
the errors differ, `UpdateStatus` is called with the generation and the errors. -/
def writeStatus (binding : Binding) (bindingErrors : List String) (w : World) :
    Option Err × World :=
  if binding.status.observedGeneration != binding.generation ||
      !(binding.status.errors == bindingErrors) then
    match bindingUpdateStatus { binding with status := ⟨binding.generation, bindingErrors⟩ } w with
    | (.error e, w1) =>
      (some (e.wrapf ("failed to update status of Binding '" ++ binding.name ++ "' - ")), w1)
    | (.ok _, w1) => (none, w1)
  else (none, w)

/-- The second half of `updateWrappedObjectsAndFinalizer`, once the current list and the desired
state are known: write the status, converge the ITS to the desired state, delete what is left. -/
def converge (binding : Binding) (currentWrappedObjectList : List Unstructured)
    (desired : WrappedOut) (w : World) : Res Unit × World :=
  match writeStatus binding desired.bindingErrors w with
  | (some e, w4) => (.err e, w4)
  | (none, w4) =>
  match propagateWrappedObjectToClusters desired.destToWrappedObject currentWrappedObjectList
      desired.heap binding.destinations (desired.bindingErrors.length != 0) w4 with
  | ⟨.err e, _, _, w5⟩ =>
    (.err (e.wrapf ("failed to propagate wrapped object(s) for binding '" ++ binding.name ++
      "' to all required WECs - ")), w5)
  | ⟨.crash, _, _, w5⟩ => (.crash, w5)
  | ⟨.ok (), items, _, w5⟩ =>
    match deleteLeftovers items w5 with
    | (some e, w6) => (.err e, w6)
    | (none, w6) => (.ok (), w6)

/-- The method `updateWrappedObjectsAndFinalizer`. -/
def updateWrappedObjectsAndFinalizer (c : genericTransportController) (binding : Binding)
    (w : World) : Res Unit × World :=
  match addFinalizerToBinding binding w with
  | (some e, _, w1) =>
    (.err (e.wrapf ("failed to add finalizer to Binding object '" ++ binding.name ++ "' - ")), w1)
  | (none, _, w1) =>
  match itsList (bindingSelector c binding.name) w1 with
  | (.error e, w2) =>
    (.err (e.wrapf ("failed to get current wrapped objects that are owned by Binding '" ++
      binding.name ++ "' - ")), w2)
  | (.ok currentWrappedObjectList, w2) =>
  match computeDestToWrappedObjects c binding w2 with
  | (.error e, w3) =>
    (.err (e.wrapf ("failed to build wrapped object(s) from Binding '" ++ binding.name ++
      "' - ")), w3)
  | (.ok desired, w3) => converge binding currentWrappedObjectList desired w3

/-- Put the Binding the lister handed out back into the informer cache, as the call left it. -/
def World.cacheWrite (w : World) (given : Binding) : World :=
  { w with bindingCache := w.bindingCache.map fun b => if b.name == given.name then given else b }

/-- The method `syncBinding`.  The lister reads the informer cache and fails only with NotFound. -/
def syncBinding (c : genericTransportController) (objectName : String) (w : World) :
    Res Unit × World :=
  match bindingListerGet objectName w with
  | .error e =>
    if e.notFound then (.ok (), w)
    else (.err (e.wrapf ("failed to get Binding object '" ++ objectName ++ "' - ")), w)
  | .ok binding =>
    if isObjectBeingDeleted binding then
      match deleteWrappedObjectsAndFinalizer c binding
          (setBindingSensitivities binding.name none w) with
      | (some e, given, w1) => (.err e, w1.cacheWrite given)
      | (none, given, w1) => (.ok (), w1.cacheWrite given)
    else updateWrappedObjectsAndFinalizer c binding w

/-- The trace `after` continues the trace `before` with one run of
`createOrUpdateWrappedObject` for the object `obj` in namespace `ns`: a Get of the object by its
name, then nothing more (the Get failed), or the Create of the object without resourceVersion, or
its Update with the resourceVersion of the object found. -/
def InvokesCreateOrUpdate (before after : List Call) (ns : String) (obj : Unstructured) : Prop :=
  ∃ rest, after = before ++ Call.itsGet ns obj.name :: rest ∧
    ∀ c ∈ rest, c = Call.itsCreate ns (obj.setResourceVersion "") ∨
      ∃ rv, c = Call.itsUpdate ns (obj.setResourceVersion rv)

/-- Is the call a Get, Create or Update of a wrapped object in the ITS? -/
def Call.touchesWrappedObject : Call → Bool
  | .itsGet _ _ => true
  | .itsCreate _ _ => true
  | .itsUpdate _ _ => true
  | _ => false

/-- Is the call a Delete of a wrapped object in the ITS? -/
def Call.isDelete : Call → Bool
  | .itsDelete _ _ => true
  | _ => false

/-- Is the call an update of the status of a Binding? -/
def Call.isStatusUpdate : Call → Bool
  | .bindingUpdateStatus _ => true
  | _ => false

/-- The calls issued between the world `w` and the later world `w2`. -/
def newCalls (w w2 : World) : List Call :=
  w2.trace.drop w.trace.length

/-- The Delete call that removes the wrapped object. -/
def deleteCall (u : Unstructured) : Call :=
  Call.itsDelete u.ns u.name

/-- Does the WDS hold a workload object of this resource under this namespace and name? -/
def wdsHas (w : World) (gvr : GroupVersionResource) (ns name : String) : Bool :=
  w.wds.any fun e => e.1 == gvr && e.2.isAt ns name

/-- The message contains the given text. -/
def Mentions (msg text : String) : Prop :=
  ∃ pre post, msg = pre ++ text ++ post

/-- What the desired state of a Binding is computed from: the workload objects of the WDS, the
inventory objects, the property ConfigMaps and the cached properties of the destinations. -/
def World.inputs (w : World) :
    List (GroupVersionResource × Unstructured) × List (String × StrMap × StrMap) ×
      List (String × StrMap × StrMap) × List (Destination × clusterProperties) :=
  (w.wds, w.inventory, w.propCfgMaps, w.destinationProperties)

/-- The properties customization uses for a destination in this world: the cached ones, or else
the ones collected from the inventory object and the property ConfigMap. -/
def propsFor (c : genericTransportController) (w : World) (d : Destination) : clusterProperties :=
  match w.destinationProperties.lookup d with
  | some props => props
  | none => collectPropertiesForDestination c d.clusterId w

/-- The world `w2` offers the same workload objects and the same destination properties as `w`. -/
def SameInputs (c : genericTransportController) (w w2 : World) : Prop :=
  w2.wds = w.wds ∧ ∀ d, propsFor c w2 d = propsFor c w d

/-- The Binding `b2` has the name, the generation and the spec of `b`. -/
def SameSpec (b b2 : Binding) : Prop :=
  b2.name = b.name ∧ b2.generation = b.generation ∧ b2.clusterScope = b.clusterScope ∧
    b2.namespaceScope = b.namespaceScope ∧ b2.destinations = b.destinations

/-- Two states of the loops of `computeDestToCustomizedObjects` that agree on everything but the
world, in worlds that offer the same workload objects and the same destination properties. -/
def SameCustomize (c : genericTransportController) (s s2 : CustomizeState) : Prop :=
  s2.destToCustomizedObjects = s.destToCustomizedObjects ∧
  s2.bindingErrors = s.bindingErrors ∧
  s2.customizeThisObject = s.customizeThisObject ∧
  s2.reportedSomeErrors = s.reportedSomeErrors ∧
  SameInputs c s.world s2.world

/-- Is the call a Create of a wrapped object in the ITS? -/
def Call.isCreate : Call → Bool
  | .itsCreate _ _ => true
  | _ => false

/-- Does the list of wrapped objects hold one under this namespace and name? -/
def presentIn (its : List Unstructured) (ns name : String) : Bool :=
  its.any fun u => u.isAt ns name

/-- The namespace and name under which the ITS files a wrapped object. -/
def Unstructured.key (u : Unstructured) : String × String :=
  (u.ns, u.name)

/-- One successful write of `createOrUpdateWrappedObject` for the object `s`, as the ITS files it
under namespace `ns` and name `name`: the object is added where none was, or replaces the one
that was there. -/
def WriteStep (ns name : String) (s : Unstructured) (its its2 : List Unstructured) : Prop :=
  s.ns = ns ∧ s.name = name ∧
    ((its2 = its ++ [s] ∧ presentIn its ns name = false) ∨
     (its2 = its.map (fun u => if u.isAt ns name then s else u) ∧ presentIn its ns name = true))

/-- The state of the ITS while the wrapped objects of a Binding are converged: no two objects
share namespace and name; every object with the labels of the Binding has the name of its wrapped
objects; every such object is still in the current list or lies in the namespace of a
destination; and every object of the current list is in the ITS under its namespace and name. -/
def StoreInv (sel : StrMap) (name : String) (cids : List String)
    (its items : List Unstructured) : Prop :=
  (its.map Unstructured.key).Nodup ∧
  (∀ u ∈ its, matchesSelector sel u = true → u.name = name) ∧
  (∀ u ∈ its, matchesSelector sel u = true → u ∈ items ∨ u.ns ∈ cids) ∧
  (∀ u ∈ items, presentIn its u.ns u.name = true)

/-! ## Example data -/

/-- A controller for the WDS `wds1` whose plugin packs the names of the objects into the body,
whose engine expands nothing, and whose filter changes nothing. -/
def exController : genericTransportController where
  wdsName := "wds1"
  wrapObjects := fun objects =>
    .ok { Unstructured.empty with kind := "Envelope", body := String.intercalate "," (objects.map Unstructured.name) }
  expandTemplates := fun _ object _ => (object, false, [])
  cleanObjectSpecifics := fun object => object
  refToString := fun object => object.kind ++ "/" ++ object.name
  isLetter := Char.isAlpha
  isDigit := Char.isDigit

/-- A world with nothing in it and no failure to come. -/
def exWorld : World := ⟨[], [], [], [], [], [], [], [], [], []⟩

/-- A wrapped object named `b1-wds1` in the given namespace with the given resourceVersion. -/
def exEnvelope (ns rv : String) : Unstructured :=
  { Unstructured.empty with kind := "Envelope", name := "b1-wds1", ns := ns, resourceVersion := rv }

/-- A desired function that points every destination to the object at index 0 of the heap. -/
def exDesired : DestToWrapped := fun _ => (some 0, true)

/-- The empty world whose ITS holds the given wrapped objects. -/
def exWorldWith (its : List Unstructured) : World := { exWorld with its := its }

/-- The Binding `b1` with the given deletionTimestamp, finalizers and destinations, naming no
workload object. -/
def exBinding (deletionTimestamp : Option String) (finalizers : List String)
    (destinations : List Destination) : Binding :=
  ⟨"b1", "1", 1, deletionTimestamp, finalizers, [], [], destinations, ⟨0, []⟩⟩

/-- A wrapped object named `b1-wds1` in the given namespace that carries the labels of Binding
`b1` of `wds1`. -/
def exLabelled (ns : String) : Unstructured :=
  { exEnvelope ns "1" with
    labels := [(originOwnerReferenceLabel, "b1"), (originWdsLabel, "wds1")] }

/-- A world whose WDS (server and cache) holds the Binding and whose ITS holds the objects. -/
def exWorldOf (b : Binding) (its : List Unstructured) : World :=
  { exWorld with bindings := [b], bindingCache := [b], its := its }

/-- The Binding `b1` with the transport finalizer, destination `A` and one cluster-scoped workload
object, the namespace `ns1`. -/
def exBindingNs1 : Binding :=
  ⟨"b1", "1", 1, none, [transportFinalizer], [⟨⟨"", "v1", "namespaces"⟩, "ns1"⟩], [], [⟨"A"⟩],
    ⟨0, []⟩⟩

/-- The namespace `ns1` as a workload object of the WDS. -/
def exNs1 : Unstructured :=
  { Unstructured.empty with apiVersion := "v1", kind := "Namespace", name := "ns1" }

/-- A world whose WDS holds the Binding `exBindingNs1` and the namespace `ns1`, and whose ITS is
empty. -/
def exWorldNs1 : World :=
  { exWorldOf exBindingNs1 [] with wds := [(⟨"", "v1", "namespaces"⟩, exNs1)] }

/-- The Binding `exBindingNs1` with the status the first reconcile writes. -/
def exBindingNs1Synced : Binding :=
  { exBindingNs1 with status := ⟨1, []⟩ }

/-- The wrapped object the example controller builds for `exBindingNs1`. -/
def exWrappedNs1 : Unstructured :=
  { Unstructured.empty with
    kind := "Envelope"
    name := "b1-wds1"
    body := "ns1"
    labels := [(originOwnerReferenceLabel, "b1"), (originWdsLabel, "wds1")]
    annotations := [( originOwnerGenerationAnnotation, "1")] }

/-- The example controller, serving the WDS of the given name. -/
def exControllerOf (wds : String) : genericTransportController :=
  { exController with wdsName := wds }

/-- A Binding of the given name, with nothing else in it. -/
def exBindingNamed (name : String) : Binding :=
  ⟨name, "1", 1, none, [], [], [], [], ⟨0, []⟩⟩

/-- The keys of a map. -/
def keysOf (m : StrMap) : List String :=
  m.map Prod.fst

/-- The labels of the inventory object of this name; none if the lister has no such object. -/
def inventoryLabels (w : World) (invName : String) : StrMap :=
  match w.inventory.find? (fun e => e.1 == invName) with
  | some invObj => invObj.2.1
  | none => []

/-- The annotations of the inventory object of this name; none if the lister has no such
object. -/
def inventoryAnnotations (w : World) (invName : String) : StrMap :=
  match w.inventory.find? (fun e => e.1 == invName) with
  | some invObj => invObj.2.2
  | none => []

/-- The data of the property ConfigMap of this name; none if the lister has no such object. -/
def cfgMapData (w : World) (invName : String) : StrMap :=
  match w.propCfgMaps.find? (fun e => e.1 == invName) with
  | some propCfgMap => propCfgMap.2.1
  | none => []

/-- The binaryData of the property ConfigMap of this name; none if the lister has no such
object. -/
def cfgMapBinaryData (w : World) (invName : String) : StrMap :=
  match w.propCfgMaps.find? (fun e => e.1 == invName) with
  | some propCfgMap => propCfgMap.2.2
  | none => []

/-- The empty world with the inventory object `A` and the property ConfigMap `A`. -/
def exWorldProps (labels annotations data binaryData : StrMap) : World :=
  { exWorld with
    inventory := [("A", labels, annotations)]
    propCfgMaps := [("A", data, binaryData)] }

/-- Does the object ask for the expansion of its templates, by its annotation? -/
def requestsExpansion (o : Unstructured) : Bool :=
  o.annotations.lookup TemplateExpansionAnnotationKey == some "true"

/-- What the engine returns for the object and the destination, given the properties of the
destination in this world. -/
def expansionFor (c : genericTransportController) (w : World) (o : Unstructured)
    (d : Destination) : Unstructured × Bool × List String :=
  c.expandTemplates (d.clusterId ++ "/" ++ c.refToString o) o (propsFor c w d)

/-- The object as it goes to the destination: the expansion of the engine if the object asks for
expansion and the engine wanted a change, the object itself otherwise. -/
def customizedEntry (c : genericTransportController) (w : World) (d : Destination)
    (o : Unstructured) : Unstructured :=
  if requestsExpansion o && (expansionFor c w o d).2.1 then (expansionFor c w o d).1 else o

/-- The errors of the first destination, in the order of the spec, for which the engine reports
errors for the object; none if it reports none for any destination. -/
def firstErrors (c : genericTransportController) (w : World) (dests : List Destination)
    (o : Unstructured) : List String :=
  ((dests.map fun d => (expansionFor c w o d).2.2).find? fun errs => errs.length != 0).getD []

/-- The map `computeDestToCustomizedObjects` allocates when the object at index `objIdx` is the
first to want a change: every destination holds the objects before it. -/
def backfill (objectsToPropagate : List Unstructured) (binding : Binding) (objIdx : Nat) :
    List (Destination × List Unstructured) :=
  binding.destinations.foldl (fun m d => mapSet m d (objectsToPropagate.take objIdx)) []

/-- The example controller with an engine that wants a change in every object: it writes the
cluster name into the body, and reports an error for the clusters `bad1` and `bad2`. -/
def exExpanding : genericTransportController :=
  { exController with
    expandTemplates := fun _ object props =>
      ({ object with body := object.body ++ "@" ++ (props.lookup "clusterName").getD "" },
        true,
        if ["bad1", "bad2"].contains ((props.lookup "clusterName").getD "") then
          ["no template for " ++ (props.lookup "clusterName").getD ""]
        else []) }

/-- The example controller with an engine that reports an error and wants no change. -/
def exComplaining : genericTransportController :=
  { exController with expandTemplates := fun _ object _ => (object, false, ["boom"]) }

/-- A ConfigMap of the given name that asks for the expansion of its templates. -/
def exTemplated (name : String) : Unstructured :=
  { Unstructured.empty with
    apiVersion := "v1", kind := "ConfigMap", name := name, body := "data",
    annotations := [(TemplateExpansionAnnotationKey, "true")] }

/-- A ConfigMap of the given name that does not ask for expansion. -/
def exPlain (name : String) : Unstructured :=
  { Unstructured.empty with apiVersion := "v1", kind := "ConfigMap", name := name, body := "data" }
/-- The map holds exactly the given destinations as keys, in this order, and for each of them the
list `L` gives. -/
def HoldsLists (m : List (Destination × List Unstructured)) (dests : List Destination)
    (L : Destination → List Unstructured) : Prop :=
  m.map Prod.fst = dests ∧ ∀ d ∈ dests, m.lookup d = some (L d)

/-- The reference definition of popping by namespace, in the words of its description: if no item
has the namespace, nil and the list as it is; otherwise the item at the lowest index whose
namespace matches, and the list with that position overwritten by the last item and the last
position dropped. -/
def popReference (items : List Unstructured) (ns : String) :
    Option Unstructured × List Unstructured :=
  let i := items.findIdx fun u => u.ns == ns
  match items[i]? with
  | none => (none, items)
  | some found => (some found, (items.set i (items.getD (items.length - 1) found)).dropLast)

/-- An item of the workqueue: a string holding the name of a Binding, a `recollectProperties`
holding the name of an inventory object, or a value of any other type. -/
inductive Item where
  | str (key : String)
  | recollectProperties (invName : String)
  | other (text : String)
deriving DecidableEq, Repr

/-- A call on the workqueue. -/
inductive QueueCall where
  | add (item : Item)
  | done (item : Item)
  | forget (item : Item)
  | addRateLimited (item : Item)
deriving DecidableEq, Repr

/-- Modelled from the spec: the function `a.PrimitiveMapEqual` of the package `abstract`, which is
not among the sources; the two maps are "equal as primitive string→string maps". -/
def PrimitiveMapEqual (map1 map2 : StrMap) : Bool :=
  mapEqual map1 map2

/-- The method `syncProperties`: the calls on the workqueue, and the world it leaves. -/
def syncProperties (c : genericTransportController) (invName : String) (w : World) :
    List QueueCall × World :=
  let newProps := collectPropertiesForDestination c invName w
  let dest : Destination := ⟨invName⟩
  match w.destinationProperties.lookup dest with
  | none => ([], w)
  | some oldProps =>
    if PrimitiveMapEqual oldProps newProps then ([], w)
    else
      let w1 := { w with destinationProperties := mapSet w.destinationProperties dest newProps }
      ((w1.bindingSensitiveDestinations.filter fun e => e.2.contains dest).map
        fun e => QueueCall.add (.str e.1), w1)

/-- The function `strings.Split(key, "/")` of the Go standard library, on the characters. -/
def splitOnSlash : List Char → List (List Char)
  | [] => [[]]
  | ch :: rest =>
    match splitOnSlash rest with
    | [] => [[]]
    | first :: more => if ch = '/' then [] :: first :: more else (ch :: first) :: more

/-- The function `cache.SplitMetaNamespaceKey` of the library client-go: a key without a slash is
a name, a key with one slash is a namespace and a name, any other key is an error. -/
def SplitMetaNamespaceKey (key : String) : Except Err (String × String) :=
  match splitOnSlash key.toList with
  | [name] => .ok ("", String.mk name)
  | [ns, name] => .ok (String.mk ns, String.mk name)
  | _ => .error ⟨false, "unexpected key format: \"" ++ key ++ "\""⟩

/-- The method `process`: the error and the retry flag it returns (`none` while a nil-pointer
dereference unwinds), the calls on the workqueue with the deferred `Done` last, and the world. -/
def process (c : genericTransportController) (obj : Item) (w : World) :
    Option (Option Err × Bool) × List QueueCall × World :=
  match obj with
  | .str typed =>
    match SplitMetaNamespaceKey typed with
    | .error err =>
      (some (some (err.wrapf ("invalid object key '" ++ typed ++ "' - ")), false),
        [QueueCall.done obj], w)
    | .ok (_, objectName) =>
      match syncBinding c objectName w with
      | (.err err, w1) => (some (some err, true), [QueueCall.done obj], w1)
      | (.ok (), w1) => (some (none, false), [QueueCall.done obj], w1)
      | (.crash, w1) => (none, [QueueCall.done obj], w1)
  | .recollectProperties typed =>
    match syncProperties c typed w with
    | (added, w1) => (some (none, false), added ++ [QueueCall.done obj], w1)
  | .other text =>
    (some (some ⟨false, "expected workqueue item to be a string or recollectProperties but " ++
      "instead got " ++ text⟩, false), [QueueCall.done obj], w)

/-- The method `processNextWorkItem`, for what `workqueue.Get` hands out (`none` at shutdown):
the boolean it returns (`none` while a nil-pointer dereference unwinds), the calls on the
workqueue, and the world.  The deferred function sees `err` nil unless `process` returned. -/
def processNextWorkItem (c : genericTransportController) (got : Option Item) (w : World) :
    Option Bool × List QueueCall × World :=
  match got with
  | none => (some false, [], w)
  | some obj =>
    match process c obj w with
    | (some (none, _), calls, w1) => (some true, calls ++ [QueueCall.forget obj], w1)
    | (some (some _, true), calls, w1) => (some true, calls ++ [QueueCall.addRateLimited obj], w1)
    | (some (some _, false), calls, w1) => (some true, calls ++ [QueueCall.forget obj], w1)
    | (none, calls, w1) => (none, calls ++ [QueueCall.forget obj], w1)

/-- A world that caches the properties of the clusters `A` and `B`, in which the Binding `b1` is
sensitive to `A` and the Binding `b2` to `B`, and whose inventory gives `A` the label `region`. -/
def exWorldCached : World :=
  { exWorldProps [("region", "east")] [] [] [] with
    destinationProperties := [(⟨"A"⟩, [("clusterName", "A")]), (⟨"B"⟩, [("clusterName", "B")])]
    bindingSensitiveDestinations := [("b1", [⟨"A"⟩]), ("b2", [⟨"B"⟩])] }

/-- Is the call an update of a Binding (not of its status)? -/
def Call.isBindingUpdate : Call → Bool
  | .bindingUpdate _ => true
  | _ => false

/-- The Binding with the transport finalizer appended, as `addFinalizer` builds it. -/
def withTransportFinalizer (b : Binding) : Binding :=
  { b with finalizers := b.finalizers ++ [transportFinalizer] }

/-- The key of the annotation `cleanObject` deletes. -/
def lastAppliedKey : String := "kubectl.kubernetes.io/last-applied-configuration"

/-- The fields `cleanObject` clears are unset: managedFields, finalizers, generation,
ownerReferences, selfLink, resourceVersion, uid and generateName, the annotation of the last
applied configuration, and the status. -/
def Cleaned (o : Unstructured) : Prop :=
  o.managedFields = [] ∧ o.finalizers = [] ∧ o.generation = 0 ∧ o.ownerReferences = [] ∧
  o.selfLink = "" ∧ o.resourceVersion = "" ∧ o.uid = "" ∧ o.generateName = "" ∧
  o.annotations.lookup lastAppliedKey = none ∧ o.status = none

/-- The object `r` has the apiVersion, kind, name, namespace, labels and body of `o`, and every
annotation of `o` but the one of the last applied configuration. -/
def SameRest (o r : Unstructured) : Prop :=
  r.apiVersion = o.apiVersion ∧ r.kind = o.kind ∧ r.name = o.name ∧ r.ns = o.ns ∧
  r.labels = o.labels ∧ r.body = o.body ∧
  ∀ k, k ≠ lastAppliedKey → r.annotations.lookup k = o.annotations.lookup k

/-- The example controller with a filter that empties the body of a Service. -/
def exFiltering : genericTransportController :=
  { exController with
    cleanObjectSpecifics := fun object =>
      if object.kind == "Service" then { object with body := "" } else object }

/-- A Service as the WDS holds it, with a resourceVersion, a finalizer and a status. -/
def exService : Unstructured :=
  { Unstructured.empty with
    apiVersion := "v1", kind := "Service", name := "web", ns := "default",
    resourceVersion := "7", uid := "u1", generation := 2, finalizers := ["f"],
    labels := [("app", "web")],
    annotations := [(lastAppliedKey, "old"), ("note", "keep")],
    status := some "ready", body := "clusterIP: 10.0.0.1" }

/-- The ConfigMap `t` of the namespace `default`, which asks for the expansion of its templates. -/
def exTemplatedT : Unstructured :=
  { exTemplated "t" with ns := "default" }

/-- The Binding `b1` with the transport finalizer, the destination `A` and the ConfigMap `t` as
its workload; marked for deletion when a deletionTimestamp is given. -/
def exBindingT (deletionTimestamp : Option String) : Binding :=
  ⟨"b1", "1", 1, deletionTimestamp, [transportFinalizer], [],
    [⟨⟨"", "v1", "configmaps"⟩, "default", "t"⟩], [⟨"A"⟩], ⟨0, []⟩⟩

/-- A world whose WDS holds the Binding `exBindingT` and the ConfigMap `t`. -/
def exWorldT : World :=
  { exWorldOf (exBindingT none) [] with wds := [(⟨"", "v1", "configmaps"⟩, exTemplatedT)] }

/-- The world the first reconcile of `exBindingT` leaves, after the Binding has been marked for
deletion in the WDS. -/
def exWorldTDeleted : World :=
  { (syncBinding exExpanding "b1" exWorldT).2 with
    bindings := [exBindingT (some "now")], bindingCache := [exBindingT (some "now")] }

/-- The trace `after` continues the trace of the world `before` with one run of
`createOrUpdateWrappedObject` for the object `obj` in namespace `ns`, as the answer of the ITS to
the Get decides: when the Get finds the object, a Get and the Update of `obj` with the
resourceVersion of the object found; when the Get answers NotFound, a Get and the Create of `obj`
without resourceVersion; when the Get fails otherwise, the Get alone. -/
def WritesDesired (before : World) (after : List Call) (ns : String) (obj : Unstructured) :
    Prop :=
  (∀ existing, (itsGet ns obj.name before).1 = .ok existing →
    after = before.trace ++ [Call.itsGet ns obj.name,
      Call.itsUpdate ns (obj.setResourceVersion existing.resourceVersion)]) ∧
  (∀ e, (itsGet ns obj.name before).1 = .error e → e.notFound = true →
    after = before.trace ++ [Call.itsGet ns obj.name,
      Call.itsCreate ns (obj.setResourceVersion "")]) ∧
  (∀ e, (itsGet ns obj.name before).1 = .error e → e.notFound = false →
    after = before.trace ++ [Call.itsGet ns obj.name])

/-- The answers of the ITS to the Deletes of the object `objectName` in the namespaces of the
destinations, issued one after the other. -/
def deleteAnswers (objectName : String) : List Destination → World → List (Option Err)
  | [], _ => []
  | destination :: rest, w =>
    (itsDelete destination.clusterId objectName w).1 ::
      deleteAnswers objectName rest (itsDelete destination.clusterId objectName w).2

/-- The answer of a Delete that `deleteWrappedObject` takes for done: success or NotFound. -/
def Tolerated (answer : Option Err) : Bool :=
  match answer with
  | none => true
  | some e => e.notFound

/-! ## Facts about the list of current wrapped objects -/

theorem set_last_take_perm (l1 l2 : List Unstructured) (x : Unstructured) :
    (((l1 ++ x :: l2).set l1.length ((l1 ++ x :: l2).getD ((l1 ++ x :: l2).length - 1) x)).take
      ((l1 ++ x :: l2).length - 1)).Perm (l1 ++ l2) := by
  rcases List.eq_nil_or_concat l2 with h | ⟨l3, z, h⟩
  · subst h
    simp
  · subst h
    rw [List.concat_eq_append]
    have hlen : (l1 ++ x :: (l3 ++ [z])).length - 1 = l1.length + (l3.length + 1) := by
      simp
    rw [hlen]
    have hget : (l1 ++ x :: (l3 ++ [z])).getD (l1.length + (l3.length + 1)) x = z := by
      rw [List.getD_eq_getElem?_getD, List.getElem?_append_right (by omega)]
      simp [List.getElem?_append_right]
    rw [hget]
    have hset : (l1 ++ x :: (l3 ++ [z])).set l1.length z = l1 ++ z :: (l3 ++ [z]) := by
      simp [List.set_append]
    rw [hset]
    have htake : (l1 ++ z :: (l3 ++ [z])).take (l1.length + (l3.length + 1)) = l1 ++ z :: l3 := by
      rw [List.take_append]
      simp
    rw [htake]
    refine List.Perm.append_left l1 ?_
    exact (List.perm_append_singleton z l3).symm

theorem popLoop_spec (ns : String) (suf pre : List Unstructured)
    (hpre : ∀ y ∈ pre, y.ns ≠ ns) :
    (popLoop (pre ++ suf) ns suf.length pre.length = (none, pre ++ suf) ∧
        ∀ y ∈ pre ++ suf, y.ns ≠ ns) ∨
    ∃ l1 x l2, pre ++ suf = l1 ++ x :: l2 ∧ x.ns = ns ∧ (∀ y ∈ l1, y.ns ≠ ns) ∧
      popLoop (pre ++ suf) ns suf.length pre.length =
        (some x, (((l1 ++ x :: l2).set l1.length
          ((l1 ++ x :: l2).getD ((l1 ++ x :: l2).length - 1) x)).take
            ((l1 ++ x :: l2).length - 1))) := by
  induction suf generalizing pre with
  | nil =>
    left
    simp only [List.length_nil, popLoop, List.append_nil, true_and]
    exact hpre
  | cons x suf ih =>
    have hget : (pre ++ x :: suf)[pre.length]? = some x := by
      rw [List.getElem?_append_right (le_refl _)]
      simp
    by_cases hx : x.ns = ns
    · right
      refine ⟨pre, x, suf, rfl, hx, hpre, ?_⟩
      simp only [List.length_cons, popLoop, hget, hx, if_true]
    · have hpre2 : ∀ y ∈ pre ++ [x], y.ns ≠ ns := by
        intro y hy
        rcases List.mem_append.mp hy with h | h
        · exact hpre y h
        · simp at h
          subst h
          exact hx
      have key := ih (pre ++ [x]) hpre2
      have happ : pre ++ [x] ++ suf = pre ++ x :: suf := by simp
      rw [happ] at key
      have hstep : popLoop (pre ++ x :: suf) ns (x :: suf).length pre.length =
          popLoop (pre ++ x :: suf) ns suf.length (pre ++ [x]).length := by
        simp only [List.length_cons, popLoop, hget, hx, if_false, List.length_append,
          List.length_nil, zero_add]
      rw [hstep]
      exact key

theorem pop_spec (items : List Unstructured) (ns : String) :
    (popWrappedObjectByNamespace items ns = (none, items) ∧ ∀ y ∈ items, y.ns ≠ ns) ∨
    ∃ l1 x l2, items = l1 ++ x :: l2 ∧ x.ns = ns ∧ (∀ y ∈ l1, y.ns ≠ ns) ∧
      (popWrappedObjectByNamespace items ns).1 = some x ∧
      ((popWrappedObjectByNamespace items ns).2).Perm (l1 ++ l2) := by
  have h := popLoop_spec ns items [] (by simp)
  simp only [List.nil_append, List.length_nil] at h
  rcases h with h | ⟨l1, x, l2, h1, h2, h3, h4⟩
  · left
    exact h
  · right
    refine ⟨l1, x, l2, h1, h2, h3, ?_, ?_⟩
    · simp [popWrappedObjectByNamespace, h4]
    · simp only [popWrappedObjectByNamespace, h4]
      exact set_last_take_perm l1 l2 x

theorem pop_perm_filter (items : List Unstructured) (ns : String)
    (hnd : (items.map Unstructured.ns).Nodup) :
    ((popWrappedObjectByNamespace items ns).2).Perm (items.filter fun e => decide (e.ns ≠ ns)) := by
  rcases pop_spec items ns with ⟨h1, h2⟩ | ⟨l1, x, l2, h1, h2, h3, _, h5⟩
  · rw [h1]
    have : items.filter (fun e => decide (e.ns ≠ ns)) = items := by
      apply List.filter_eq_self.mpr
      intro y hy
      simpa using h2 y hy
    rw [this]
  · subst h1
    have hl2 : ∀ y ∈ l2, y.ns ≠ ns := by
      intro y hy hyn
      rw [List.map_append, List.map_cons] at hnd
      have hnd2 := (List.nodup_append.mp hnd).2.1
      have hx := (List.nodup_cons.mp hnd2).1
      apply hx
      rw [h2, ← hyn]
      exact List.mem_map_of_mem _ hy
    have hf : (l1 ++ x :: l2).filter (fun e => decide (e.ns ≠ ns)) = l1 ++ l2 := by
      have e1 : l1.filter (fun e => decide (e.ns ≠ ns)) = l1 :=
        List.filter_eq_self.mpr (fun y hy => by simpa using h3 y hy)
      have e2 : l2.filter (fun e => decide (e.ns ≠ ns)) = l2 :=
        List.filter_eq_self.mpr (fun y hy => by simpa using hl2 y hy)
      rw [List.filter_append, List.filter_cons, e1, e2]
      simp [h2]
    rw [hf]
    exact h5

theorem propagateStep_items (desired : DestToWrapped) (broken : Bool) (d : Destination)
    (items : List Unstructured) (heap : Heap) (w : World) :
    (propagateStep desired broken d items heap w).items =
      (popWrappedObjectByNamespace items d.clusterId).2 := by
  unfold propagateStep
  simp only
  split
  · rfl
  · split
    · rfl
    · split
      · rfl
      · split
        · rfl
        · split <;> rfl

theorem propagateStep_broken (desired : DestToWrapped) (d : Destination)
    (items : List Unstructured) (heap : Heap) (w : World) :
    propagateStep desired true d items heap w =
      ⟨.ok (), (popWrappedObjectByNamespace items d.clusterId).2, heap, w⟩ := by
  simp [propagateStep]

theorem propagateLoop_cons_ok (desired : DestToWrapped) (broken : Bool) (d : Destination)
    (rest : List Destination) (items : List Unstructured) (heap : Heap) (w : World)
    (h : (propagateStep desired broken d items heap w).res = .ok ()) :
    propagateLoop desired broken (d :: rest) items heap w =
      propagateLoop desired broken rest (propagateStep desired broken d items heap w).items
        (propagateStep desired broken d items heap w).heap
        (propagateStep desired broken d items heap w).world := by
  rw [propagateLoop]
  rcases hs : propagateStep desired broken d items heap w with ⟨r, i1, h1, w1⟩
  rw [hs] at h
  simp only at h
  subst h
  rfl

theorem propagateLoop_cons_stop (desired : DestToWrapped) (broken : Bool) (d : Destination)
    (rest : List Destination) (items : List Unstructured) (heap : Heap) (w : World)
    (h : (propagateStep desired broken d items heap w).res ≠ .ok ()) :
    propagateLoop desired broken (d :: rest) items heap w =
      propagateStep desired broken d items heap w := by
  rw [propagateLoop]
  rcases hs : propagateStep desired broken d items heap w with ⟨r, i1, h1, w1⟩
  rw [hs] at h
  simp only at h
  cases r with
  | ok a => exact absurd rfl h
  | err e => rfl
  | crash => rfl

theorem propagateLoop_broken (desired : DestToWrapped) (dests : List Destination)
    (items : List Unstructured) (heap : Heap) (w : World) :
    (propagateLoop desired true dests items heap w).res = .ok () ∧
      (propagateLoop desired true dests items heap w).heap = heap ∧
      (propagateLoop desired true dests items heap w).world = w := by
  induction dests generalizing items with
  | nil => simp [propagateLoop]
  | cons d rest ih =>
    rw [propagateLoop_cons_ok _ _ _ _ _ _ _ (by rw [propagateStep_broken])]
    rw [propagateStep_broken]
    exact ih _

theorem propagateLoop_items (desired : DestToWrapped) (broken : Bool) (dests : List Destination)
    (items : List Unstructured) (heap : Heap) (w : World)
    (hnd : (items.map Unstructured.ns).Nodup)
    (h : (propagateLoop desired broken dests items heap w).res = .ok ()) :
    ((propagateLoop desired broken dests items heap w).items).Perm
      (items.filter fun e => decide (e.ns ∉ dests.map Destination.clusterId)) := by
  induction dests generalizing items heap w with
  | nil => simp [propagateLoop]
  | cons d rest ih =>
    by_cases hs : (propagateStep desired broken d items heap w).res = .ok ()
    · rw [propagateLoop_cons_ok _ _ _ _ _ _ _ hs] at h ⊢
      rw [propagateStep_items] at h ⊢
      have hp := pop_perm_filter items d.clusterId hnd
      have hnd1 : ((popWrappedObjectByNamespace items d.clusterId).2.map Unstructured.ns).Nodup := by
        have h1 := (hp.map Unstructured.ns).nodup_iff.mpr
        apply h1
        exact (List.Sublist.map _ (List.filter_sublist _)).nodup hnd
      refine (ih _ _ _ hnd1 h).trans ?_
      refine (hp.filter _).trans ?_
      rw [List.filter_filter]
      apply List.Perm.of_eq
      apply List.filter_congr
      intro e _
      simp only [List.map_cons, List.mem_cons, not_or, Bool.decide_and, ne_eq, decide_not]
      rw [Bool.and_comm]
    · rw [propagateLoop_cons_stop _ _ _ _ _ _ _ hs] at h
      exact absurd h hs

/-! ## Facts about deleting -/

theorem call_trace (w : World) (c : Call) : (w.call c).2.trace = w.trace ++ [c] := by
  unfold World.call
  split <;> rfl

theorem itsDelete_trace (ns name : String) (w : World) :
    (itsDelete ns name w).2.trace = w.trace ++ [Call.itsDelete ns name] := by
  unfold itsDelete
  have ht := call_trace w (Call.itsDelete ns name)
  rcases hc : w.call (Call.itsDelete ns name) with ⟨f, w1⟩
  rw [hc] at ht
  cases f with
  | some m => exact ht
  | none =>
    simp only
    split <;> exact ht

theorem deleteWrappedObject_trace (ns name : String) (w : World) :
    (deleteWrappedObject ns name w).2.trace = w.trace ++ [Call.itsDelete ns name] := by
  unfold deleteWrappedObject
  have ht := itsDelete_trace ns name w
  rcases hd : itsDelete ns name w with ⟨r, w1⟩
  rw [hd] at ht
  cases r with
  | none => exact ht
  | some e =>
    simp only
    split <;> exact ht

theorem deleteLeftovers_trace (items : List Unstructured) (w : World)
    (h : (deleteLeftovers items w).1 = none) :
    (deleteLeftovers items w).2.trace =
      w.trace ++ items.map fun e => Call.itsDelete e.ns e.name := by
  induction items generalizing w with
  | nil => simp [deleteLeftovers]
  | cons e rest ih =>
    rw [deleteLeftovers] at h ⊢
    have ht := deleteWrappedObject_trace e.ns e.name w
    rcases hd : deleteWrappedObject e.ns e.name w with ⟨r, w1⟩
    rw [hd] at h ht
    cases r with
    | some err => simp at h
    | none =>
      simp only at h ht ⊢
      rw [ih w1 h, ht]
      simp

/-! ## Claims about `propagateWrappedObjectToClusters` -/

/-- C2: called with a desired function that is not nil and with broken = true,
`propagateWrappedObjectToClusters` returns no error and leaves the world as it found it: the
trace of API calls is unchanged, so no Get, Create or Update of a wrapped object is issued, and
the heap of desired objects is untouched. -/
theorem propagate_broken_issues_nothing (desired : DestToWrapped) (items : List Unstructured)
    (heap : Heap) (destinations : List Destination) (w : World) :
    (propagateWrappedObjectToClusters (some desired) items heap destinations true w).res = .ok () ∧
    (propagateWrappedObjectToClusters (some desired) items heap destinations true w).world = w ∧
    (propagateWrappedObjectToClusters (some desired) items heap destinations true w).world.trace
      = w.trace ∧
    (propagateWrappedObjectToClusters (some desired) items heap destinations true w).heap = heap := by
  have h := propagateLoop_broken desired destinations items heap w
  simp only [propagateWrappedObjectToClusters]
  exact ⟨h.1, h.2.2, by rw [h.2.2], h.2.1⟩

/-- C3: when the current list holds at most one wrapped object per namespace, the desired function
is not nil and `propagateWrappedObjectToClusters` returns without error (broken or not), the list
it leaves is, up to order, the given list without the objects whose namespace is the clusterId of a
destination; and when the deletes that follow in `updateWrappedObjectsAndFinalizer` all succeed,
they are one Delete per object left, by its namespace and name. -/
theorem propagate_leaves_removed_destinations (desired : DestToWrapped)
    (items : List Unstructured) (heap : Heap) (destinations : List Destination) (broken : Bool)
    (w : World)
    (hnd : (items.map Unstructured.ns).Nodup)
    (h : (propagateWrappedObjectToClusters (some desired) items heap destinations broken w).res
      = .ok ()) :
    ((propagateWrappedObjectToClusters (some desired) items heap destinations broken w).items).Perm
      (items.filter fun e => decide (e.ns ∉ destinations.map Destination.clusterId)) ∧
    (∀ e, e ∈ (propagateWrappedObjectToClusters (some desired) items heap destinations broken
        w).items ↔ e ∈ items ∧ ∀ d ∈ destinations, e.ns ≠ d.clusterId) ∧
    ((deleteLeftovers
        (propagateWrappedObjectToClusters (some desired) items heap destinations broken w).items
        (propagateWrappedObjectToClusters (some desired) items heap destinations broken w).world).1
        = none →
      (deleteLeftovers
        (propagateWrappedObjectToClusters (some desired) items heap destinations broken w).items
        (propagateWrappedObjectToClusters (some desired) items heap destinations broken w).world
        ).2.trace =
      (propagateWrappedObjectToClusters (some desired) items heap destinations broken w).world.trace
        ++ (propagateWrappedObjectToClusters (some desired) items heap destinations broken
          w).items.map fun e => Call.itsDelete e.ns e.name) := by
  simp only [propagateWrappedObjectToClusters] at h ⊢
  have hp := propagateLoop_items desired broken destinations items heap w hnd h
  refine ⟨hp, ?_, fun hd => deleteLeftovers_trace _ _ hd⟩
  intro e
  rw [hp.mem_iff, List.mem_filter]
  simp only [List.mem_map, not_exists, not_and, decide_eq_true_eq]
  constructor
  · rintro ⟨h1, h2⟩
    exact ⟨h1, fun d hd heq => h2 d hd heq.symm⟩
  · rintro ⟨h1, h2⟩
    exact ⟨h1, fun d hd heq => h2 d hd heq.symm⟩

theorem propagate_leaves_removed_destinations_witness :
    (([exEnvelope "A" "1", exEnvelope "C" "1"].map Unstructured.ns).Nodup ∧
      (propagateWrappedObjectToClusters (some exDesired) [exEnvelope "A" "1", exEnvelope "C" "1"]
        [exEnvelope "" ""] [⟨"A"⟩, ⟨"B"⟩] true exWorld).res = .ok ()) ∧
    (propagateWrappedObjectToClusters (some exDesired) [exEnvelope "A" "1", exEnvelope "C" "1"]
        [exEnvelope "" ""] [⟨"A"⟩, ⟨"B"⟩] true exWorld).items = [exEnvelope "C" "1"] :=
  ⟨⟨by decide, by decide⟩,
    List.perm_singleton.mp
      (propagate_leaves_removed_destinations exDesired [exEnvelope "A" "1", exEnvelope "C" "1"]
        [exEnvelope "" ""] [⟨"A"⟩, ⟨"B"⟩] true exWorld (by decide) (by decide)).1⟩

/-! ## Facts about `createOrUpdateWrappedObject` -/

theorem itsGet_trace (ns name : String) (w : World) :
    (itsGet ns name w).2.trace = w.trace ++ [Call.itsGet ns name] := by
  unfold itsGet
  have ht := call_trace w (Call.itsGet ns name)
  rcases hc : w.call (Call.itsGet ns name) with ⟨f, w1⟩
  rw [hc] at ht
  cases f with
  | some m => exact ht
  | none =>
    simp only
    split <;> exact ht

theorem itsCreate_trace (ns : String) (obj : Unstructured) (w : World) :
    (itsCreate ns obj w).2.trace = w.trace ++ [Call.itsCreate ns obj] := by
  unfold itsCreate
  have ht := call_trace w (Call.itsCreate ns obj)
  rcases hc : w.call (Call.itsCreate ns obj) with ⟨f, w1⟩
  rw [hc] at ht
  cases f with
  | some m => exact ht
  | none =>
    simp only
    split
    · exact ht
    · split <;> exact ht

theorem itsUpdate_trace (ns : String) (obj : Unstructured) (w : World) :
    (itsUpdate ns obj w).2.trace = w.trace ++ [Call.itsUpdate ns obj] := by
  unfold itsUpdate
  have ht := call_trace w (Call.itsUpdate ns obj)
  rcases hc : w.call (Call.itsUpdate ns obj) with ⟨f, w1⟩
  rw [hc] at ht
  cases f with
  | some m => exact ht
  | none =>
    simp only
    split
    · exact ht
    · split <;> exact ht

theorem createOrUpdate_invokes (ns : String) (p : Nat) (obj : Unstructured) (heap : Heap)
    (w : World) :
    InvokesCreateOrUpdate w.trace (createOrUpdateWrappedObject ns p obj heap w).2.2.trace ns obj := by
  unfold createOrUpdateWrappedObject
  have hg := itsGet_trace ns obj.name w
  rcases hget : itsGet ns obj.name w with ⟨r, w1⟩
  rw [hget] at hg
  simp only at hg
  cases r with
  | error e =>
    simp only
    split
    · exact ⟨[], by simpa using hg, by simp⟩
    · have hc := itsCreate_trace ns (obj.setResourceVersion "") w1
      rcases hcr : itsCreate ns (obj.setResourceVersion "") w1 with ⟨r2, w2⟩
      rw [hcr] at hc
      simp only at hc
      refine ⟨[Call.itsCreate ns (obj.setResourceVersion "")], ?_, by simp⟩
      cases r2 <;> simp [hc, hg]
  | ok existing =>
    simp only
    have hc := itsUpdate_trace ns (obj.setResourceVersion existing.resourceVersion) w1
    rcases hcr : itsUpdate ns (obj.setResourceVersion existing.resourceVersion) w1 with ⟨r2, w2⟩
    rw [hcr] at hc
    simp only at hc
    refine ⟨[Call.itsUpdate ns (obj.setResourceVersion existing.resourceVersion)], ?_, ?_⟩
    · cases r2 <;> simp [hc, hg]
    · intro c hc2
      right
      exact ⟨existing.resourceVersion, by simpa using hc2⟩

theorem propagateLoop_single (desired : DestToWrapped) (broken : Bool) (d : Destination)
    (items : List Unstructured) (heap : Heap) (w : World) :
    propagateLoop desired broken [d] items heap w = propagateStep desired broken d items heap w := by
  by_cases hs : (propagateStep desired broken d items heap w).res = .ok ()
  · rw [propagateLoop_cons_ok _ _ _ _ _ _ _ hs, propagateLoop]
    rcases hx : propagateStep desired broken d items heap w with ⟨r, i1, h1, w1⟩
    rw [hx] at hs
    simp only at hs
    rw [hs]
  · exact propagateLoop_cons_stop _ _ _ _ _ _ _ hs

theorem propagateLoop_append_ok (desired : DestToWrapped) (broken : Bool)
    (ds : List Destination) (d : Destination) (items items1 : List Unstructured)
    (heap heap1 : Heap) (w w1 : World)
    (h : propagateLoop desired broken ds items heap w = ⟨.ok (), items1, heap1, w1⟩) :
    propagateLoop desired broken (ds ++ [d]) items heap w =
      propagateStep desired broken d items1 heap1 w1 := by
  induction ds generalizing items heap w with
  | nil =>
    rw [propagateLoop] at h
    cases h
    exact propagateLoop_single _ _ _ _ _ _
  | cons a rest ih =>
    by_cases hs : (propagateStep desired broken a items heap w).res = .ok ()
    · rw [List.cons_append, propagateLoop_cons_ok _ _ _ _ _ _ _ hs]
      rw [propagateLoop_cons_ok _ _ _ _ _ _ _ hs] at h
      exact ih _ _ _ h
    · rw [propagateLoop_cons_stop _ _ _ _ _ _ _ hs] at h
      rw [h] at hs
      exact absurd rfl hs

theorem pop_fst_none_iff (items : List Unstructured) (ns : String) :
    (popWrappedObjectByNamespace items ns).1 = none ↔ ∀ e ∈ items, e.ns ≠ ns := by
  rcases pop_spec items ns with ⟨h1, h2⟩ | ⟨l1, x, l2, h1, h2, _, h4, _⟩
  · rw [h1]
    exact ⟨fun _ => h2, fun _ => rfl⟩
  · rw [h4]
    constructor
    · intro h
      cases h
    · intro h
      exact absurd h2 (h x (by rw [h1]; simp))

theorem pop_fst_some_iff (items : List Unstructured) (ns : String)
    (hnd : (items.map Unstructured.ns).Nodup) (cur : Unstructured) :
    (popWrappedObjectByNamespace items ns).1 = some cur ↔ cur ∈ items ∧ cur.ns = ns := by
  rcases pop_spec items ns with ⟨h1, h2⟩ | ⟨l1, x, l2, h1, h2, _, h4, _⟩
  · rw [h1]
    constructor
    · intro h
      cases h
    · rintro ⟨hm, hns⟩
      exact absurd hns (h2 cur hm)
  · rw [h4]
    have hx : x ∈ items := by rw [h1]; simp
    constructor
    · intro h
      cases h
      exact ⟨hx, h2⟩
    · rintro ⟨hm, hns⟩
      have := List.inj_on_of_nodup_map hnd hx hm (by rw [h2, hns])
      rw [this]

theorem propagateStep_skip (desired : DestToWrapped) (d : Destination)
    (items : List Unstructured) (heap : Heap) (w : World) (p : Nat) (des cur : Unstructured)
    (hp : (desired d).1 = some p) (hdes : heap[p]? = some des)
    (hcur : (popWrappedObjectByNamespace items d.clusterId).1 = some cur)
    (heq : deepEqual cur des = true) :
    propagateStep desired false d items heap w =
      ⟨.ok (), (popWrappedObjectByNamespace items d.clusterId).2, heap, w⟩ := by
  simp [propagateStep, hp, hdes, hcur, heq]

theorem propagateStep_write (desired : DestToWrapped) (d : Destination)
    (items : List Unstructured) (heap : Heap) (w : World) (p : Nat) (des : Unstructured)
    (hp : (desired d).1 = some p) (hdes : heap[p]? = some des)
    (hne : ∀ cur, (popWrappedObjectByNamespace items d.clusterId).1 = some cur →
      deepEqual cur des = false) :
    (propagateStep desired false d items heap w).world =
      (createOrUpdateWrappedObject d.clusterId p des heap w).2.2 := by
  have hany : (popWrappedObjectByNamespace items d.clusterId).1.any
      (fun cur => deepEqual cur des) = false := by
    cases hc : (popWrappedObjectByNamespace items d.clusterId).1 with
    | none => rfl
    | some cur => simpa using hne cur hc
  simp only [propagateStep, hp, hdes, hany, Bool.false_eq_true, if_false]
  rcases createOrUpdateWrappedObject d.clusterId p des heap w with ⟨r, h1, w1⟩
  cases r <;> rfl

theorem createOrUpdate_writes (ns : String) (p : Nat) (obj : Unstructured) (heap : Heap)
    (w : World) :
    WritesDesired w (createOrUpdateWrappedObject ns p obj heap w).2.2.trace ns obj := by
  have hg := itsGet_trace ns obj.name w
  unfold WritesDesired createOrUpdateWrappedObject
  rcases hx : itsGet ns obj.name w with ⟨g, w1⟩
  rw [hx] at hg
  simp only at hg
  cases g with
  | ok existing =>
    simp only
    have hu := itsUpdate_trace ns (obj.setResourceVersion existing.resourceVersion) w1
    refine ⟨?_, ?_, ?_⟩
    · intro ex hex
      simp only [Except.ok.injEq] at hex
      subst hex
      rcases hy : itsUpdate ns (obj.setResourceVersion existing.resourceVersion) w1 with ⟨r, w2⟩
      rw [hy] at hu
      simp only at hu
      cases r <;> simp [hu, hg]
    · intro e he
      cases he
    · intro e he
      cases he
  | error e =>
    simp only
    refine ⟨?_, ?_, ?_⟩
    · intro ex hex
      cases hex
    · intro e2 he hn
      simp only [Except.error.injEq] at he
      subst he
      simp only [hn, Bool.not_true, Bool.false_eq_true, if_false]
      have hc := itsCreate_trace ns (obj.setResourceVersion "") w1
      rcases hy : itsCreate ns (obj.setResourceVersion "") w1 with ⟨r, w2⟩
      rw [hy] at hc
      simp only at hc
      cases r <;> simp [hc, hg]
    · intro e2 he hn
      simp only [Except.error.injEq] at he
      subst he
      simp only [hn, Bool.not_false, if_true]
      exact hg

theorem writesDesired_extends (w : World) (after : List Call) (ns : String) (obj : Unstructured)
    (h : WritesDesired w after ns obj) : after ≠ w.trace := by
  intro heq
  rcases hx : (itsGet ns obj.name w).1 with e | existing
  · cases hn : e.notFound
    · have := h.2.2 e hx hn
      rw [heq] at this
      have hl := congrArg List.length this
      simp at hl
    · have := h.2.1 e hx hn
      rw [heq] at this
      have hl := congrArg List.length this
      simp at hl
  · have := h.1 existing hx
    rw [heq] at this
    have hl := congrArg List.length this
    simp at hl

/-- C7: with a desired function that is not nil and broken = false, take any destination `d` of
the list, reached after the destinations `ds` before it were handled without error, and let `des`
be the wrapped object the desired function points to for `d` when its turn comes.
`propagateWrappedObjectToClusters` then runs create-or-update in namespace `d.clusterId` with
`des` (a Get, followed by the Update of `des` when the Get finds the object and by the Create of
`des` when the Get answers NotFound) if and only if the current list holds no object of that
namespace or the object popped for that namespace is not deep-equal to `des`; when the popped
object is deep-equal, the turn of `d` issues no API call at all.  When the given list holds at
most one object per namespace and `d` does not occur among `ds`, the popped object is the object
of the given list with that namespace. -/
theorem propagate_writes_iff_absent_or_different (desired : DestToWrapped)
    (ds : List Destination) (d : Destination) (items items1 : List Unstructured)
    (heap heap1 : Heap) (w w1 : World) (p : Nat) (des : Unstructured)
    (h0 : propagateWrappedObjectToClusters (some desired) items heap ds false w =
      ⟨.ok (), items1, heap1, w1⟩)
    (hp : (desired d).1 = some p) (hdes : heap1[p]? = some des) :
    (WritesDesired w1
        (propagateWrappedObjectToClusters (some desired) items heap (ds ++ [d]) false w).world.trace
        d.clusterId des ↔
      ((∀ e ∈ items1, e.ns ≠ d.clusterId) ∨
        ∃ cur, (popWrappedObjectByNamespace items1 d.clusterId).1 = some cur ∧
          deepEqual cur des = false)) ∧
    ((∃ cur, (popWrappedObjectByNamespace items1 d.clusterId).1 = some cur ∧
          deepEqual cur des = true) →
      (propagateWrappedObjectToClusters (some desired) items heap (ds ++ [d]) false w).world = w1 ∧
      (propagateWrappedObjectToClusters (some desired) items heap (ds ++ [d]) false w).res
        = .ok ()) ∧
    ((items.map Unstructured.ns).Nodup → d.clusterId ∉ ds.map Destination.clusterId →
      ∀ cur, (popWrappedObjectByNamespace items1 d.clusterId).1 = some cur ↔
        cur ∈ items ∧ cur.ns = d.clusterId) := by
  simp only [propagateWrappedObjectToClusters] at h0 ⊢
  rw [propagateLoop_append_ok desired false ds d items items1 heap heap1 w w1 h0]
  have hskip : (∃ cur, (popWrappedObjectByNamespace items1 d.clusterId).1 = some cur ∧
      deepEqual cur des = true) →
      (propagateStep desired false d items1 heap1 w1).world = w1 ∧
      (propagateStep desired false d items1 heap1 w1).res = .ok () := by
    rintro ⟨cur, hc, he⟩
    rw [propagateStep_skip desired d items1 heap1 w1 p des cur hp hdes hc he]
    exact ⟨rfl, rfl⟩
  refine ⟨⟨?_, ?_⟩, hskip, ?_⟩
  · intro hinv
    cases hc : (popWrappedObjectByNamespace items1 d.clusterId).1 with
    | none => exact Or.inl ((pop_fst_none_iff items1 d.clusterId).mp hc)
    | some cur =>
      right
      refine ⟨cur, rfl, ?_⟩
      cases he : deepEqual cur des with
      | false => rfl
      | true =>
        have hw := (hskip ⟨cur, hc, he⟩).1
        rw [hw] at hinv
        exact absurd rfl (writesDesired_extends _ _ _ _ hinv)
  · intro hcond
    have hne : ∀ cur, (popWrappedObjectByNamespace items1 d.clusterId).1 = some cur →
        deepEqual cur des = false := by
      intro cur hc
      rcases hcond with hnone | ⟨cur2, hc2, he2⟩
      · rw [(pop_fst_none_iff items1 d.clusterId).mpr hnone] at hc
        cases hc
      · rw [hc] at hc2
        cases hc2
        exact he2
    rw [propagateStep_write desired d items1 heap1 w1 p des hp hdes hne]
    exact createOrUpdate_writes d.clusterId p des heap1 w1
  · intro hnd hd cur
    have h1 : (propagateLoop desired false ds items heap w).res = .ok () := by rw [h0]
    have hperm := propagateLoop_items desired false ds items heap w hnd h1
    rw [h0] at hperm
    simp only at hperm
    have hnd1 : (items1.map Unstructured.ns).Nodup := by
      apply (hperm.map Unstructured.ns).nodup_iff.mpr
      exact (List.Sublist.map _ (List.filter_sublist _)).nodup hnd
    rw [pop_fst_some_iff items1 d.clusterId hnd1 cur, hperm.mem_iff, List.mem_filter]
    constructor
    · rintro ⟨⟨hm, _⟩, hns⟩
      exact ⟨hm, hns⟩
    · rintro ⟨hm, hns⟩
      refine ⟨⟨hm, ?_⟩, hns⟩
      rw [hns]
      simpa using hd

theorem propagate_writes_iff_absent_or_different_witness :
    propagateWrappedObjectToClusters (some exDesired) [exEnvelope "A" "", exEnvelope "B" "7"]
        [exEnvelope "A" ""] [⟨"A"⟩] false (exWorldWith [exEnvelope "A" "", exEnvelope "B" "7"])
      = ⟨.ok (), [exEnvelope "B" "7"], [exEnvelope "A" ""],
          exWorldWith [exEnvelope "A" "", exEnvelope "B" "7"]⟩ ∧
    (propagateWrappedObjectToClusters (some exDesired) [exEnvelope "A" "", exEnvelope "B" "7"]
        [exEnvelope "A" ""] ([⟨"A"⟩] ++ [⟨"B"⟩]) false
        (exWorldWith [exEnvelope "A" "", exEnvelope "B" "7"])).world.trace =
      (exWorldWith [exEnvelope "A" "", exEnvelope "B" "7"]).trace ++
        [Call.itsGet "B" "b1-wds1", Call.itsUpdate "B" (exEnvelope "A" "7")] :=
  ⟨by decide,
    ((propagate_writes_iff_absent_or_different exDesired [⟨"A"⟩] ⟨"B"⟩
      [exEnvelope "A" "", exEnvelope "B" "7"] [exEnvelope "B" "7"] [exEnvelope "A" ""]
      [exEnvelope "A" ""] (exWorldWith [exEnvelope "A" "", exEnvelope "B" "7"])
      (exWorldWith [exEnvelope "A" "", exEnvelope "B" "7"]) 0 (exEnvelope "A" "")
      (by decide) (by decide) (by decide)).1.mpr
      (Or.inr ⟨exEnvelope "B" "7", by decide, by decide⟩)).1 (exEnvelope "B" "7") (by decide)⟩

/-- C8, refuted: the current object of destination `A` differs from the desired one in nothing
but `metadata.resourceVersion`, and `propagateWrappedObjectToClusters` still issues a Get and an
Update for it. -/
theorem propagate_rewrites_when_only_resourceVersion_differs :
    exEnvelope "A" "7" = { exEnvelope "A" "" with resourceVersion := "7" } ∧
    (propagateWrappedObjectToClusters (some exDesired) [exEnvelope "A" "7"] [exEnvelope "A" ""]
        [⟨"A"⟩] false (exWorldWith [exEnvelope "A" "7"])).world.trace =
      [Call.itsGet "A" "b1-wds1", Call.itsUpdate "A" (exEnvelope "A" "7")] := by
  decide

theorem deepEqual_false_of_field_ne (x y : Unstructured)
    (h : x.resourceVersion ≠ y.resourceVersion ∨ x.managedFields ≠ y.managedFields ∨
      x.status ≠ y.status) : deepEqual x y = false := by
  cases hd : deepEqual x y with
  | false => rfl
  | true =>
    simp only [deepEqual, Bool.and_eq_true, beq_iff_eq] at hd
    rcases h with h | h | h
    · exact absurd hd.1.1.1.1.1.1.1.1.2 h
    · exact absurd hd.1.1.2 h
    · exact absurd hd.1.2 h

/-- C8, amended: the equality test compares the whole content, `metadata.resourceVersion`,
`metadata.managedFields` and `status` included.  For every destination whose current (popped)
object differs from the desired object in one of those three fields the test fails, and
`propagateWrappedObjectToClusters` runs create-or-update for that destination: a Get, followed by
the Update of the desired object when the Get finds the object and by its Create when the Get
answers NotFound. -/
theorem propagate_rewrites_on_metadata_difference (desired : DestToWrapped)
    (d : Destination)
    (items : List Unstructured) (heap : Heap) (w : World) (p : Nat) (des cur : Unstructured)
    (hp : (desired d).1 = some p) (hdes : heap[p]? = some des)
    (hcur : (popWrappedObjectByNamespace items d.clusterId).1 = some cur)
    (hdiff : cur.resourceVersion ≠ des.resourceVersion ∨ cur.managedFields ≠ des.managedFields ∨
      cur.status ≠ des.status) :
    deepEqual cur des = false ∧
    WritesDesired w
      (propagateWrappedObjectToClusters (some desired) items heap [d] false w).world.trace
      d.clusterId des := by
  have hf := deepEqual_false_of_field_ne cur des hdiff
  refine ⟨hf, ?_⟩
  simp only [propagateWrappedObjectToClusters]
  rw [propagateLoop_single]
  have hne : ∀ c, (popWrappedObjectByNamespace items d.clusterId).1 = some c →
      deepEqual c des = false := by
    intro c hc
    rw [hcur] at hc
    cases hc
    exact hf
  rw [propagateStep_write desired d items heap w p des hp hdes hne]
  exact createOrUpdate_writes d.clusterId p des heap w

theorem propagate_rewrites_on_metadata_difference_witness :
    deepEqual { exEnvelope "A" "" with ns := "A", status := some "applied" }
      (exEnvelope "A" "") = false ∧
    (propagateWrappedObjectToClusters (some exDesired)
        [{ exEnvelope "A" "" with status := some "applied" }] [exEnvelope "A" ""] [⟨"A"⟩] false
        (exWorldWith [{ exEnvelope "A" "" with status := some "applied" }])).world.trace =
      (exWorldWith [{ exEnvelope "A" "" with status := some "applied" }]).trace ++
        [Call.itsGet "A" "b1-wds1", Call.itsUpdate "A" (exEnvelope "A" "")] :=
  ⟨(propagate_rewrites_on_metadata_difference exDesired ⟨"A"⟩
      [{ exEnvelope "A" "" with status := some "applied" }] [exEnvelope "A" ""]
      (exWorldWith [{ exEnvelope "A" "" with status := some "applied" }]) 0
      (exEnvelope "A" "") { exEnvelope "A" "" with status := some "applied" }
      (by decide) (by decide) (by decide) (Or.inr (Or.inr (by decide)))).1,
   ((propagate_rewrites_on_metadata_difference exDesired ⟨"A"⟩
      [{ exEnvelope "A" "" with status := some "applied" }] [exEnvelope "A" ""]
      (exWorldWith [{ exEnvelope "A" "" with status := some "applied" }]) 0
      (exEnvelope "A" "") { exEnvelope "A" "" with status := some "applied" }
      (by decide) (by decide) (by decide) (Or.inr (Or.inr (by decide)))).2).1
      { exEnvelope "A" "" with status := some "applied" } (by decide)⟩

/-! ## Facts about the deletion path -/

theorem take_succ_set (fl : List String) (index : Nat) (item : String) (h : index < fl.length) :
    (fl.set index item).take (index + 1) = fl.take index ++ [item] := by
  induction fl generalizing index with
  | nil => simp at h
  | cons a t ih =>
    cases index with
    | zero => simp
    | succ n =>
      simp only [List.length_cons, Nat.add_lt_add_iff_right] at h
      simp [ih n h]

theorem removeFinalizerLoop_spec (finalizer : String) (rest fl : List String) (index : Nat)
    (h : index + rest.length ≤ fl.length) :
    (removeFinalizerLoop finalizer rest fl index).2 =
        index + (rest.filter fun x => decide (x ≠ finalizer)).length ∧
      (removeFinalizerLoop finalizer rest fl index).1.take
          (removeFinalizerLoop finalizer rest fl index).2 =
        fl.take index ++ rest.filter fun x => decide (x ≠ finalizer) := by
  induction rest generalizing fl index with
  | nil => simp [removeFinalizerLoop]
  | cons item rest ih =>
    rw [removeFinalizerLoop]
    simp only [List.length_cons] at h
    by_cases hi : item = finalizer
    · simp only [hi, if_true]
      have := ih fl index (by omega)
      simpa [List.filter_cons] using this
    · simp only [hi, if_false]
      have hlen : index + 1 + rest.length ≤ (fl.set index item).length := by
        rw [List.length_set]; omega
      have key := ih (fl.set index item) (index + 1) hlen
      rw [take_succ_set fl index item (by omega)] at key
      rw [List.filter_cons]
      simp only [ne_eq, hi, not_false_eq_true, decide_True, if_true, List.length_cons]
      constructor
      · rw [key.1]; simp; omega
      · rw [key.2]; simp

theorem removeFinalizer_updated (binding : Binding) (finalizer : String) :
    ((removeFinalizer binding finalizer).2.1 = true ↔ finalizer ∈ binding.finalizers) ∧
    ((removeFinalizer binding finalizer).2.1 = true →
      (removeFinalizer binding finalizer).1.finalizers =
        binding.finalizers.filter (fun x => decide (x ≠ finalizer)) ∧
      (removeFinalizer binding finalizer).1.name = binding.name) := by
  have hs := removeFinalizerLoop_spec finalizer binding.finalizers binding.finalizers 0 (by simp)
  simp only [zero_add, List.take_zero, List.nil_append] at hs
  unfold removeFinalizer
  simp only
  by_cases hl : binding.finalizers.length =
      (removeFinalizerLoop finalizer binding.finalizers binding.finalizers 0).2
  · simp only [hl, if_true]
    have hall := List.filter_length_eq_length.mp (hs.1.symm.trans hl.symm)
    constructor
    · constructor
      · intro h; cases h
      · intro hm
        have := hall finalizer hm
        simp at this
    · intro h; cases h
  · simp only [hl, if_false, true_iff, forall_const]
    constructor
    · by_contra hm
      apply hl
      rw [hs.1]
      symm
      apply List.filter_length_eq_length.mpr
      intro a ha
      simp only [ne_eq, decide_not, Bool.not_eq_true', decide_eq_false_iff_not]
      intro heq
      exact hm (heq ▸ ha)
    · exact ⟨hs.2, trivial⟩

theorem bindingUpdate_trace (b : Binding) (w : World) :
    (bindingUpdate b w).2.trace = w.trace ++ [Call.bindingUpdate b] := by
  unfold bindingUpdate
  have ht := call_trace w (Call.bindingUpdate b)
  rcases hc : w.call (Call.bindingUpdate b) with ⟨f, w1⟩
  rw [hc] at ht
  cases f with
  | some m => exact ht
  | none =>
    simp only
    split <;> exact ht

theorem call_its (w : World) (c : Call) : (w.call c).2.its = w.its := by
  unfold World.call
  split <;> rfl

theorem call_bindings (w : World) (c : Call) : (w.call c).2.bindings = w.bindings := by
  unfold World.call
  split <;> rfl

theorem bindingUpdate_its (b : Binding) (w : World) : (bindingUpdate b w).2.its = w.its := by
  unfold bindingUpdate
  have ht := call_its w (Call.bindingUpdate b)
  rcases hc : w.call (Call.bindingUpdate b) with ⟨f, w1⟩
  rw [hc] at ht
  cases f with
  | some m => exact ht
  | none =>
    simp only
    split <;> exact ht

theorem bindingUpdate_ok (b : Binding) (w : World) (x : Binding)
    (h : (bindingUpdate b w).1 = .ok x) :
    (∃ y ∈ (bindingUpdate b w).2.bindings, y.name = b.name) ∧
    ∀ y ∈ (bindingUpdate b w).2.bindings, y.name = b.name → y.finalizers = b.finalizers := by
  unfold bindingUpdate at h ⊢
  have hb := call_bindings w (Call.bindingUpdate b)
  rcases hc : w.call (Call.bindingUpdate b) with ⟨f, w1⟩
  rw [hc] at h hb
  simp only at hb
  cases f with
  | some m => simp at h
  | none =>
    simp only at h ⊢
    cases hf : w1.bindings.find? (fun x => x.name == b.name) with
    | none => simp [hf] at h
    | some old =>
      simp only [hf]
      have hold := List.find?_some hf
      have hmem := List.mem_of_find?_eq_some hf
      simp only [beq_iff_eq] at hold
      constructor
      · refine ⟨{ b with status := old.status }, ?_, rfl⟩
        apply List.mem_map.mpr
        exact ⟨old, hmem, by simp [hold]⟩
      · intro y hy hn
        rcases List.mem_map.mp hy with ⟨z, _, hz⟩
        by_cases hzn : z.name = b.name
        · simp [hzn] at hz
          rw [← hz]
        · simp [hzn] at hz
          rw [← hz] at hn
          exact absurd hn hzn

theorem itsDelete_bindings (ns name : String) (w : World) :
    (itsDelete ns name w).2.bindings = w.bindings := by
  unfold itsDelete
  have ht := call_bindings w (Call.itsDelete ns name)
  rcases hc : w.call (Call.itsDelete ns name) with ⟨f, w1⟩
  rw [hc] at ht
  cases f with
  | some m => exact ht
  | none =>
    simp only
    split <;> exact ht

theorem deleteWrappedObject_bindings (ns name : String) (w : World) :
    (deleteWrappedObject ns name w).2.bindings = w.bindings := by
  unfold deleteWrappedObject
  have ht := itsDelete_bindings ns name w
  rcases hd : itsDelete ns name w with ⟨r, w1⟩
  rw [hd] at ht
  cases r with
  | none => exact ht
  | some e =>
    simp only
    split <;> exact ht

theorem itsDelete_its (ns name : String) (w : World)
    (h : (itsDelete ns name w).1 = none ∨
      ∃ e, (itsDelete ns name w).1 = some e ∧ e.notFound = true) :
    (itsDelete ns name w).2.its = w.its.filter fun u => !u.isAt ns name := by
  unfold itsDelete at h ⊢
  have ht := call_its w (Call.itsDelete ns name)
  rcases hc : w.call (Call.itsDelete ns name) with ⟨f, w1⟩
  rw [hc] at ht h
  simp only at ht
  cases f with
  | some m => simp [transientErr] at h
  | none =>
    simp only
    rw [ht]
    by_cases ha : (w.its.any fun u => u.isAt ns name) = true
    · simp only [ha, if_true]
    · simp only [ha, if_false, Bool.false_eq_true, ht]
      symm
      apply List.filter_eq_self.mpr
      intro u hu
      simp only [List.any_eq_true, not_exists, not_and, Bool.not_eq_true] at ha
      simp [ha u hu]

theorem deleteWrappedObject_its (ns name : String) (w : World)
    (h : (deleteWrappedObject ns name w).1 = none) :
    (deleteWrappedObject ns name w).2.its = w.its.filter fun u => !u.isAt ns name := by
  unfold deleteWrappedObject at h ⊢
  have hi := itsDelete_its ns name w
  rcases hd : itsDelete ns name w with ⟨r, w1⟩
  rw [hd] at hi h
  cases r with
  | none => exact hi (Or.inl rfl)
  | some e =>
    simp only at h ⊢
    by_cases hn : e.notFound = true
    · simp only [hn, if_true]
      exact hi (Or.inr ⟨e, rfl, hn⟩)
    · simp [hn] at h

theorem deleteFromDestinations_trace (name : String) (dests : List Destination) (w : World) :
    ∃ k, k ≤ dests.length ∧
      (deleteFromDestinations name dests w).2.trace =
        w.trace ++ (dests.take k).map (fun d => Call.itsDelete d.clusterId name) ∧
      ((deleteFromDestinations name dests w).1 = none → k = dests.length) := by
  induction dests generalizing w with
  | nil => exact ⟨0, le_refl _, by simp [deleteFromDestinations], fun _ => rfl⟩
  | cons d rest ih =>
    rw [deleteFromDestinations]
    have ht := deleteWrappedObject_trace d.clusterId name w
    rcases hd : deleteWrappedObject d.clusterId name w with ⟨r, w1⟩
    rw [hd] at ht
    simp only at ht
    cases r with
    | some e =>
      refine ⟨1, by simp, by simp [ht], ?_⟩
      intro h
      simp at h
    | none =>
      rcases ih w1 with ⟨k, hk, h1, h2⟩
      refine ⟨k + 1, by simp [hk], ?_, ?_⟩
      · simp only
        rw [h1, ht]
        simp
      · intro h
        simp [h2 h]

theorem deleteFromDestinations_bindings (name : String) (dests : List Destination) (w : World) :
    (deleteFromDestinations name dests w).2.bindings = w.bindings := by
  induction dests generalizing w with
  | nil => rfl
  | cons d rest ih =>
    rw [deleteFromDestinations]
    have ht := deleteWrappedObject_bindings d.clusterId name w
    rcases hd : deleteWrappedObject d.clusterId name w with ⟨r, w1⟩
    rw [hd] at ht
    cases r with
    | some e => exact ht
    | none =>
      simp only
      rw [ih w1]
      exact ht

theorem deleteFromDestinations_its (name : String) (dests : List Destination) (w : World)
    (h : (deleteFromDestinations name dests w).1 = none) :
    ∀ u ∈ (deleteFromDestinations name dests w).2.its,
      u ∈ w.its ∧ ∀ d ∈ dests, u.isAt d.clusterId name = false := by
  induction dests generalizing w with
  | nil =>
    intro u hu
    exact ⟨hu, by simp⟩
  | cons d rest ih =>
    rw [deleteFromDestinations] at h ⊢
    have hi := deleteWrappedObject_its d.clusterId name w
    rcases hd : deleteWrappedObject d.clusterId name w with ⟨r, w1⟩
    rw [hd] at hi h
    cases r with
    | some e => simp at h
    | none =>
      simp only at h hi ⊢
      intro u hu
      have := ih w1 h u hu
      rw [hi trivial, List.mem_filter] at this
      refine ⟨this.1.1, ?_⟩
      intro d2 hd2
      rcases List.mem_cons.mp hd2 with h3 | h3
      · rw [h3]
        simpa using this.1.2
      · exact this.2 d2 h3

theorem removeFinalizerFromBinding_absent (binding : Binding) (w : World)
    (h : transportFinalizer ∉ binding.finalizers) :
    (removeFinalizerFromBinding binding w).1 = none ∧
      (removeFinalizerFromBinding binding w).2.2 = w := by
  have hu := (removeFinalizer_updated binding transportFinalizer).1
  unfold removeFinalizerFromBinding updateBinding
  simp only
  rcases hr : removeFinalizer binding transportFinalizer with ⟨b2, upd, given⟩
  rw [hr] at hu
  simp only at hu
  cases upd with
  | false => exact ⟨rfl, rfl⟩
  | true => exact absurd (hu.mp rfl) h

theorem removeFinalizerFromBinding_present (binding : Binding) (w : World)
    (h : transportFinalizer ∈ binding.finalizers) :
    ∃ b2, b2.finalizers = binding.finalizers.filter (fun x => decide (x ≠ transportFinalizer)) ∧
      b2.name = binding.name ∧
      (removeFinalizerFromBinding binding w).2.2 = (bindingUpdate b2 w).2 ∧
      ((removeFinalizerFromBinding binding w).1 = none → ∃ x, (bindingUpdate b2 w).1 = .ok x) := by
  have hu := removeFinalizer_updated binding transportFinalizer
  unfold removeFinalizerFromBinding updateBinding
  simp only
  rcases hr : removeFinalizer binding transportFinalizer with ⟨b2, upd, given⟩
  rw [hr] at hu
  simp only at hu
  cases upd with
  | false =>
    have := hu.1.mpr h
    cases this
  | true =>
    have h2 := hu.2 rfl
    refine ⟨b2, h2.1, h2.2, ?_, ?_⟩
    · simp only
      rcases bindingUpdate b2 w with ⟨r, w1⟩
      cases r <;> rfl
    · simp only
      rcases bindingUpdate b2 w with ⟨r, w1⟩
      cases r with
      | error e => intro hx; simp at hx
      | ok x => intro _; exact ⟨x, rfl⟩

/-! ## Claims about the deletion path -/

/-- The shape of a run of `deleteWrappedObjectsAndFinalizer`, by the result of the loop over the
destinations: a Binding update can only be the last call, after one Delete per destination; a
failed loop leaves Deletes only and the Bindings in the API server unchanged. -/
theorem deletion_trace_shape (c : genericTransportController)
    (binding : Binding) (w : World) :
    (∀ b2, Call.bindingUpdate b2 ∈
        (deleteWrappedObjectsAndFinalizer c binding w).2.2.trace.drop w.trace.length →
      (deleteWrappedObjectsAndFinalizer c binding w).2.2.trace =
        w.trace ++ binding.destinations.map
          (fun d => Call.itsDelete d.clusterId (binding.name ++ "-" ++ c.wdsName)) ++
          [Call.bindingUpdate b2] ∧
      (deleteFromDestinations (binding.name ++ "-" ++ c.wdsName) binding.destinations w).1 = none ∧
      b2.name = binding.name ∧
      b2.finalizers = binding.finalizers.filter (fun x => decide (x ≠ transportFinalizer))) ∧
    (∀ e, (deleteFromDestinations (binding.name ++ "-" ++ c.wdsName) binding.destinations w).1
        = some e →
      (deleteWrappedObjectsAndFinalizer c binding w).1 = some e ∧
      (∃ k, (deleteWrappedObjectsAndFinalizer c binding w).2.2.trace =
        w.trace ++ (binding.destinations.take k).map
          (fun d => Call.itsDelete d.clusterId (binding.name ++ "-" ++ c.wdsName))) ∧
      (∀ b2, Call.bindingUpdate b2 ∉
        (deleteWrappedObjectsAndFinalizer c binding w).2.2.trace.drop w.trace.length) ∧
      (deleteWrappedObjectsAndFinalizer c binding w).2.2.bindings = w.bindings) := by
  have ht := deleteFromDestinations_trace (binding.name ++ "-" ++ c.wdsName)
    binding.destinations w
  have hb := deleteFromDestinations_bindings (binding.name ++ "-" ++ c.wdsName)
    binding.destinations w
  unfold deleteWrappedObjectsAndFinalizer
  rcases hd : deleteFromDestinations (binding.name ++ "-" ++ c.wdsName) binding.destinations w
    with ⟨r, w1⟩
  rw [hd] at ht hb
  rcases ht with ⟨k, _, htr, hfull⟩
  simp only at htr hfull hb
  cases r with
  | some e =>
    simp only
    have hno : ∀ b2, Call.bindingUpdate b2 ∉ w1.trace.drop w.trace.length := by
      intro b2 hm
      rw [htr, List.drop_left] at hm
      rcases List.mem_map.mp hm with ⟨d, _, hd2⟩
      cases hd2
    refine ⟨fun b2 hm => absurd hm (hno b2), ?_⟩
    intro e2 he
    cases he
    exact ⟨rfl, ⟨k, htr⟩, hno, hb⟩
  | none =>
    simp only
    have hk := hfull rfl
    rw [hk, List.take_length] at htr
    refine ⟨?_, fun e he => by cases he⟩
    intro b2 hm
    by_cases hf : transportFinalizer ∈ binding.finalizers
    · rcases removeFinalizerFromBinding_present binding w1 hf with ⟨b3, h1, h2, h3, _⟩
      have hw : (match removeFinalizerFromBinding binding w1 with
          | (some e, given, w2) =>
            (some (e.wrapf ("failed to remove finalizer from Binding object '" ++ binding.name ++
              "' - ")), given, w2)
          | (none, given, w2) => (none, given, w2)).2.2 =
          (removeFinalizerFromBinding binding w1).2.2 := by
        rcases removeFinalizerFromBinding binding w1 with ⟨r, g, w2⟩
        cases r <;> rfl
      rw [hw, h3, bindingUpdate_trace, htr] at hm ⊢
      rw [List.append_assoc, List.drop_left] at hm
      simp only [List.mem_append, List.mem_map, List.mem_singleton, Call.bindingUpdate.injEq,
        reduceCtorEq, and_false, exists_false, false_or] at hm
      subst hm
      exact ⟨by simp, by simp, h2, h1⟩
    · have h0 := removeFinalizerFromBinding_absent binding w1 hf
      have hw : (match removeFinalizerFromBinding binding w1 with
          | (some e, given, w2) =>
            (some (e.wrapf ("failed to remove finalizer from Binding object '" ++ binding.name ++
              "' - ")), given, w2)
          | (none, given, w2) => (none, given, w2)).2.2 = w1 := by
        rcases hx : removeFinalizerFromBinding binding w1 with ⟨r, g, w2⟩
        rw [hx] at h0
        simp only at h0
        rw [h0.1, h0.2]
      rw [hw, htr, List.drop_left] at hm
      simp at hm

theorem deleteWrappedObject_answer (ns name : String) (w : World) :
    (deleteWrappedObject ns name w).2 = (itsDelete ns name w).2 ∧
    (Tolerated (itsDelete ns name w).1 = true → (deleteWrappedObject ns name w).1 = none) ∧
    (Tolerated (itsDelete ns name w).1 = false →
      ∃ e, (deleteWrappedObject ns name w).1 = some e) := by
  unfold deleteWrappedObject
  rcases itsDelete ns name w with ⟨r, w1⟩
  cases r with
  | none => exact ⟨rfl, fun _ => rfl, fun h => by cases h⟩
  | some e =>
    simp only [Tolerated]
    by_cases hn : e.notFound = true
    · rw [if_pos hn]
      refine ⟨rfl, fun _ => rfl, ?_⟩
      intro h
      rw [hn] at h
      cases h
    · rw [if_neg hn]
      refine ⟨rfl, ?_, fun _ => ⟨_, rfl⟩⟩
      intro h
      exact absurd h hn

theorem deleteFromDestinations_answers (name : String) (dests : List Destination) (w : World) :
    ((∀ a ∈ deleteAnswers name dests w, Tolerated a = true) →
      (deleteFromDestinations name dests w).1 = none ∧
      (deleteFromDestinations name dests w).2.trace =
        w.trace ++ dests.map (fun d => Call.itsDelete d.clusterId name)) ∧
    (∀ pre a post, deleteAnswers name dests w = pre ++ a :: post →
      (∀ x ∈ pre, Tolerated x = true) → Tolerated a = false →
      (∃ e, (deleteFromDestinations name dests w).1 = some e) ∧
      (deleteFromDestinations name dests w).2.trace =
        w.trace ++ (dests.take (pre.length + 1)).map (fun d => Call.itsDelete d.clusterId name)) := by
  induction dests generalizing w with
  | nil =>
    constructor
    · intro _
      exact ⟨rfl, by simp [deleteFromDestinations]⟩
    · intro pre a post h
      simp [deleteAnswers] at h
  | cons d rest ih =>
    have hans := deleteWrappedObject_answer d.clusterId name w
    have htr := deleteWrappedObject_trace d.clusterId name w
    rw [deleteFromDestinations]
    rcases hd : deleteWrappedObject d.clusterId name w with ⟨r, w1⟩
    rw [hd] at hans htr
    simp only at hans htr
    constructor
    · intro hall
      have h0 : Tolerated (itsDelete d.clusterId name w).1 = true :=
        hall _ (by simp [deleteAnswers])
      have hr : r = none := hans.2.1 h0
      subst hr
      simp only
      have hrest := (ih w1).1 (by
        intro a ha
        apply hall
        rw [deleteAnswers, ← hans.1]
        exact List.mem_cons_of_mem _ ha)
      refine ⟨hrest.1, ?_⟩
      rw [hrest.2, htr]
      simp
    · intro pre a post hsplit hpre ha
      rw [deleteAnswers, ← hans.1] at hsplit
      cases pre with
      | nil =>
        simp only [List.nil_append, List.cons.injEq] at hsplit
        rw [← hsplit.1] at ha
        rcases hans.2.2 ha with ⟨e, he⟩
        subst he
        simp only
        refine ⟨⟨_, rfl⟩, ?_⟩
        rw [htr]
        simp
      | cons x pre2 =>
        simp only [List.cons_append, List.cons.injEq] at hsplit
        have h0 : Tolerated (itsDelete d.clusterId name w).1 = true := by
          rw [hsplit.1]
          exact hpre x (List.mem_cons_self _ _)
        have hr : r = none := hans.2.1 h0
        subst hr
        simp only
        have hrest := (ih w1).2 pre2 a post hsplit.2
          (fun y hy => hpre y (List.mem_cons_of_mem _ hy)) ha
        refine ⟨hrest.1, ?_⟩
        rw [hrest.2, htr]
        simp

theorem tolerated_split (l : List (Option Err)) :
    (∀ a ∈ l, Tolerated a = true) ∨
    ∃ pre a post, l = pre ++ a :: post ∧ (∀ x ∈ pre, Tolerated x = true) ∧
      Tolerated a = false := by
  induction l with
  | nil => exact Or.inl (by simp)
  | cons a rest ih =>
    cases ha : Tolerated a with
    | false => exact Or.inr ⟨[], a, rest, rfl, by simp, ha⟩
    | true =>
      rcases ih with h | ⟨pre, b, post, h1, h2, h3⟩
      · left
        intro x hx
        rcases List.mem_cons.mp hx with h4 | h4
        · rw [h4]
          exact ha
        · exact h x h4
      · right
        refine ⟨a :: pre, b, post, by rw [h1]; rfl, ?_, h3⟩
        intro x hx
        rcases List.mem_cons.mp hx with h4 | h4
        · rw [h4]
          exact ha
        · exact h2 x h4

/-- C4: `deleteWrappedObjectsAndFinalizer` issues the Deletes of the wrapped object
`<name>-<wds>` in the namespaces of the destinations of the spec, in order, and looks at the
answer of the ITS to each.  A Binding update can only be the last call issued, after the Delete
for every destination was answered with success or NotFound, and what it sends is the Binding
without the transport finalizer; when all Deletes are answered so and the Binding has the
finalizer, that update is issued.  If the ITS answers a Delete with another error, the method
returns an error right after that Delete, issues no Binding update, and the Bindings in the API
server are unchanged, so the finalizer stays. -/
theorem deletion_updates_binding_after_all_deletes (c : genericTransportController)
    (binding : Binding) (w : World) :
    (∀ b2, Call.bindingUpdate b2 ∈
        (deleteWrappedObjectsAndFinalizer c binding w).2.2.trace.drop w.trace.length →
      (deleteWrappedObjectsAndFinalizer c binding w).2.2.trace =
        w.trace ++ binding.destinations.map
          (fun d => Call.itsDelete d.clusterId (binding.name ++ "-" ++ c.wdsName)) ++
          [Call.bindingUpdate b2] ∧
      (∀ a ∈ deleteAnswers (binding.name ++ "-" ++ c.wdsName) binding.destinations w,
        Tolerated a = true) ∧
      b2.name = binding.name ∧
      b2.finalizers = binding.finalizers.filter (fun x => decide (x ≠ transportFinalizer))) ∧
    ((∀ a ∈ deleteAnswers (binding.name ++ "-" ++ c.wdsName) binding.destinations w,
        Tolerated a = true) →
      transportFinalizer ∈ binding.finalizers →
      ∃ b2, b2.name = binding.name ∧
        b2.finalizers = binding.finalizers.filter (fun x => decide (x ≠ transportFinalizer)) ∧
        (deleteWrappedObjectsAndFinalizer c binding w).2.2.trace =
          w.trace ++ binding.destinations.map
            (fun d => Call.itsDelete d.clusterId (binding.name ++ "-" ++ c.wdsName)) ++
            [Call.bindingUpdate b2]) ∧
    (∀ pre a post,
      deleteAnswers (binding.name ++ "-" ++ c.wdsName) binding.destinations w =
        pre ++ a :: post →
      (∀ x ∈ pre, Tolerated x = true) → Tolerated a = false →
      (∃ e, (deleteWrappedObjectsAndFinalizer c binding w).1 = some e) ∧
      (deleteWrappedObjectsAndFinalizer c binding w).2.2.trace =
        w.trace ++ (binding.destinations.take (pre.length + 1)).map
          (fun d => Call.itsDelete d.clusterId (binding.name ++ "-" ++ c.wdsName)) ∧
      (∀ b2, Call.bindingUpdate b2 ∉
        (deleteWrappedObjectsAndFinalizer c binding w).2.2.trace.drop w.trace.length) ∧
      (deleteWrappedObjectsAndFinalizer c binding w).2.2.bindings = w.bindings) := by
  have hold := deletion_trace_shape c binding w
  have hans := deleteFromDestinations_answers (binding.name ++ "-" ++ c.wdsName)
    binding.destinations w
  refine ⟨?_, ?_, ?_⟩
  · intro b2 hb2
    rcases hold.1 b2 hb2 with ⟨h1, h2, h3, h4⟩
    refine ⟨h1, ?_, h3, h4⟩
    rcases tolerated_split (deleteAnswers (binding.name ++ "-" ++ c.wdsName)
      binding.destinations w) with hall | ⟨pre, a, post, hs, hp, ha⟩
    · exact hall
    · rcases (hans.2 pre a post hs hp ha).1 with ⟨e, he⟩
      rw [h2] at he
      cases he
  · intro hall hf
    rcases hans.1 hall with ⟨hnone, htr⟩
    rcases hd : deleteFromDestinations (binding.name ++ "-" ++ c.wdsName)
      binding.destinations w with ⟨r, w1⟩
    rw [hd] at hnone htr
    simp only at hnone htr
    subst hnone
    have hres : (deleteWrappedObjectsAndFinalizer c binding w).2.2 =
        (removeFinalizerFromBinding binding w1).2.2 := by
      unfold deleteWrappedObjectsAndFinalizer
      rw [hd]
      simp only
      rcases removeFinalizerFromBinding binding w1 with ⟨r, g, w2⟩
      cases r <;> rfl
    rcases removeFinalizerFromBinding_present binding w1 hf with ⟨b3, h1, h2, h3, _⟩
    refine ⟨b3, h2, h1, ?_⟩
    rw [hres, h3, bindingUpdate_trace, htr]
  · intro pre a post hs hp ha
    rcases hans.2 pre a post hs hp ha with ⟨⟨e, he⟩, htr⟩
    rcases hold.2 e he with ⟨h1, _, h3, h4⟩
    refine ⟨⟨e, h1⟩, ?_, h3, h4⟩
    rcases hd : deleteFromDestinations (binding.name ++ "-" ++ c.wdsName)
      binding.destinations w with ⟨r, w1⟩
    rw [hd] at he htr
    simp only at he htr
    subst he
    have hres : (deleteWrappedObjectsAndFinalizer c binding w).2.2 = w1 := by
      unfold deleteWrappedObjectsAndFinalizer
      rw [hd]
    rw [hres]
    exact htr

theorem deletion_updates_binding_after_all_deletes_witness :
    (∃ b2, b2.name = "b1" ∧ b2.finalizers = ["other"] ∧
      (deleteWrappedObjectsAndFinalizer exController
        (exBinding (some "t") ["other", transportFinalizer] [⟨"A"⟩, ⟨"B"⟩])
        (exWorldOf (exBinding (some "t") ["other", transportFinalizer] [⟨"A"⟩, ⟨"B"⟩])
          [exLabelled "A"])).2.2.trace =
        [] ++ [Call.itsDelete "A" "b1-wds1", Call.itsDelete "B" "b1-wds1"] ++
          [Call.bindingUpdate b2]) ∧
    ((∃ e, (deleteWrappedObjectsAndFinalizer exController
        (exBinding (some "t") ["other", transportFinalizer] [⟨"A"⟩, ⟨"B"⟩])
        { exWorldOf (exBinding (some "t") ["other", transportFinalizer] [⟨"A"⟩, ⟨"B"⟩])
            [exLabelled "A"] with faults := [none, some "boom"] }).1 = some e) ∧
      (deleteWrappedObjectsAndFinalizer exController
        (exBinding (some "t") ["other", transportFinalizer] [⟨"A"⟩, ⟨"B"⟩])
        { exWorldOf (exBinding (some "t") ["other", transportFinalizer] [⟨"A"⟩, ⟨"B"⟩])
            [exLabelled "A"] with faults := [none, some "boom"] }).2.2.trace =
        [] ++ [Call.itsDelete "A" "b1-wds1", Call.itsDelete "B" "b1-wds1"] ∧
      (∀ b2, Call.bindingUpdate b2 ∉
        (deleteWrappedObjectsAndFinalizer exController
          (exBinding (some "t") ["other", transportFinalizer] [⟨"A"⟩, ⟨"B"⟩])
          { exWorldOf (exBinding (some "t") ["other", transportFinalizer] [⟨"A"⟩, ⟨"B"⟩])
              [exLabelled "A"] with faults := [none, some "boom"] }).2.2.trace.drop 0) ∧
      (deleteWrappedObjectsAndFinalizer exController
        (exBinding (some "t") ["other", transportFinalizer] [⟨"A"⟩, ⟨"B"⟩])
        { exWorldOf (exBinding (some "t") ["other", transportFinalizer] [⟨"A"⟩, ⟨"B"⟩])
            [exLabelled "A"] with faults := [none, some "boom"] }).2.2.bindings =
        [exBinding (some "t") ["other", transportFinalizer] [⟨"A"⟩, ⟨"B"⟩]]) :=
  ⟨(deletion_updates_binding_after_all_deletes exController
      (exBinding (some "t") ["other", transportFinalizer] [⟨"A"⟩, ⟨"B"⟩])
      (exWorldOf (exBinding (some "t") ["other", transportFinalizer] [⟨"A"⟩, ⟨"B"⟩])
        [exLabelled "A"])).2.1 (by decide) (by decide),
   (deletion_updates_binding_after_all_deletes exController
      (exBinding (some "t") ["other", transportFinalizer] [⟨"A"⟩, ⟨"B"⟩])
      { exWorldOf (exBinding (some "t") ["other", transportFinalizer] [⟨"A"⟩, ⟨"B"⟩])
          [exLabelled "A"] with faults := [none, some "boom"] }).2.2
      [none] (some (transientErr "boom")) [] (by decide) (by decide) (by decide)⟩

/-- C5, refuted: Binding `b1` is marked for deletion with destination `A` only, and the ITS holds
a wrapped object with the labels of `b1` in namespace `C`.  The deletion path returns without
error and that wrapped object is still in the ITS. -/
theorem deletion_leaves_labelled_object_elsewhere :
    (syncBinding exController "b1"
        (exWorldOf (exBinding (some "t") [transportFinalizer] [⟨"A"⟩])
          [exLabelled "A", exLabelled "C"])).1 = .ok () ∧
    exLabelled "C" ∈ (syncBinding exController "b1"
        (exWorldOf (exBinding (some "t") [transportFinalizer] [⟨"A"⟩])
          [exLabelled "A", exLabelled "C"])).2.its ∧
    matchesSelector (bindingSelector exController "b1") (exLabelled "C") = true := by
  decide

/-- C5, amended: take an ITS in which every wrapped object with the labels of Binding `b` (of this
WDS) is named `<b.name>-<wds>` and lies in the namespace of a destination of the spec of `b`.  If
`b` is marked for deletion and `syncBinding` returns without error, no wrapped object with those
labels is left in the ITS, and if `b` had the transport finalizer, the Binding of that name in the
API server is there without it. -/
theorem deletion_removes_objects_of_destinations (c : genericTransportController)
    (objectName : String) (w w2 : World) (b : Binding)
    (hb : bindingListerGet objectName w = .ok b)
    (hdel : isObjectBeingDeleted b = true)
    (hits : ∀ u ∈ w.its, matchesSelector (bindingSelector c b.name) u = true →
      u.name = b.name ++ "-" ++ c.wdsName ∧ u.ns ∈ b.destinations.map Destination.clusterId)
    (hok : syncBinding c objectName w = (.ok (), w2)) :
    (∀ u ∈ w2.its, matchesSelector (bindingSelector c b.name) u = false) ∧
    (transportFinalizer ∈ b.finalizers →
      (∃ x ∈ w2.bindings, x.name = b.name) ∧
      ∀ x ∈ w2.bindings, x.name = b.name → transportFinalizer ∉ x.finalizers) := by
  unfold syncBinding at hok
  rw [hb] at hok
  simp only [hdel, if_true] at hok
  unfold deleteWrappedObjectsAndFinalizer at hok
  have hi := deleteFromDestinations_its (b.name ++ "-" ++ c.wdsName) b.destinations
    (setBindingSensitivities b.name none w)
  rcases hd : deleteFromDestinations (b.name ++ "-" ++ c.wdsName) b.destinations
    (setBindingSensitivities b.name none w) with ⟨r, w1⟩
  rw [hd] at hok hi
  have hsetits : (setBindingSensitivities b.name none w).its = w.its := rfl
  cases r with
  | some e => simp at hok
  | none =>
    simp only at hok hi
    have hi := hi trivial
    have hclean : ∀ u ∈ w1.its, matchesSelector (bindingSelector c b.name) u = false := by
      intro u hu
      rcases hi u hu with ⟨hm, hnot⟩
      rw [hsetits] at hm
      cases hsel : matchesSelector (bindingSelector c b.name) u with
      | false => rfl
      | true =>
        rcases hits u hm hsel with ⟨hn, hns⟩
        rcases List.mem_map.mp hns with ⟨d, hd1, hd2⟩
        have := hnot d hd1
        simp [Unstructured.isAt, hn, hd2] at this
    by_cases hf : transportFinalizer ∈ b.finalizers
    · rcases removeFinalizerFromBinding_present b w1 hf with ⟨b3, h1, h2, h3, h4⟩
      rcases hx : removeFinalizerFromBinding b w1 with ⟨r2, given, w3⟩
      rw [hx] at hok h3 h4
      simp only at h3 h4
      cases r2 with
      | some e => simp at hok
      | none =>
        simp only [Prod.mk.injEq, true_and] at hok
        rcases h4 rfl with ⟨x, hxok⟩
        have hbu := bindingUpdate_ok b3 w1 x hxok
        rw [← h3] at hbu
        have hits3 : w3.its = w1.its := by rw [h3]; exact bindingUpdate_its b3 w1
        subst hok
        refine ⟨?_, fun _ => ⟨?_, ?_⟩⟩
        · intro u hu
          apply hclean u
          rw [← hits3]
          exact hu
        · rcases hbu.1 with ⟨y, hy, hyn⟩
          exact ⟨y, hy, hyn.trans h2⟩
        · intro y hy hyn
          have := hbu.2 y hy (hyn.trans h2.symm)
          rw [this, h1]
          simp
    · have h0 := removeFinalizerFromBinding_absent b w1 hf
      rcases hx : removeFinalizerFromBinding b w1 with ⟨r2, given, w3⟩
      rw [hx] at hok h0
      simp only at h0
      cases r2 with
      | some e => simp at hok
      | none =>
        simp only [Prod.mk.injEq, true_and] at hok
        subst hok
        refine ⟨?_, fun h => absurd h hf⟩
        intro u hu
        apply hclean u
        rw [← h0.2]
        exact hu

theorem deletion_removes_objects_of_destinations_witness :
    (syncBinding exController "b1"
        (exWorldOf (exBinding (some "t") [transportFinalizer] [⟨"A"⟩, ⟨"B"⟩])
          [exLabelled "A", exLabelled "B", exEnvelope "C" "1"])).2.its = [exEnvelope "C" "1"] ∧
    ∀ u ∈ (syncBinding exController "b1"
        (exWorldOf (exBinding (some "t") [transportFinalizer] [⟨"A"⟩, ⟨"B"⟩])
          [exLabelled "A", exLabelled "B", exEnvelope "C" "1"])).2.its,
      matchesSelector (bindingSelector exController "b1") u = false :=
  ⟨by decide,
    (deletion_removes_objects_of_destinations exController "b1"
      (exWorldOf (exBinding (some "t") [transportFinalizer] [⟨"A"⟩, ⟨"B"⟩])
        [exLabelled "A", exLabelled "B", exEnvelope "C" "1"])
      (syncBinding exController "b1"
        (exWorldOf (exBinding (some "t") [transportFinalizer] [⟨"A"⟩, ⟨"B"⟩])
          [exLabelled "A", exLabelled "B", exEnvelope "C" "1"])).2
      (exBinding (some "t") [transportFinalizer] [⟨"A"⟩, ⟨"B"⟩])
      (by decide) (by decide) (by decide) (by decide)).1⟩

/-- C6, refuted: the lister answers NotFound for `b1`, `syncBinding` returns nil, and the entry
that `bindingSensitiveDestinations` held for `b1` is still there afterwards. -/
theorem sync_notfound_keeps_sensitivity_entry :
    bindingListerGet "b1" { exWorld with bindingSensitiveDestinations := [("b1", [⟨"A"⟩])] }
      = .error ⟨true, "binding \"b1\" not found"⟩ ∧
    (syncBinding exController "b1"
      { exWorld with bindingSensitiveDestinations := [("b1", [⟨"A"⟩])] }).1 = .ok () ∧
    (syncBinding exController "b1"
      { exWorld with bindingSensitiveDestinations := [("b1", [⟨"A"⟩])] }
      ).2.bindingSensitiveDestinations.lookup "b1" = some [⟨"A"⟩] := by
  decide

/-- C6, amended: when the lister answers NotFound for the name, `syncBinding` returns nil and
changes nothing: no API call is issued and `bindingSensitiveDestinations` holds for that name
exactly the entry it held before (the entry is erased on the deletion path, not here). -/
theorem sync_notfound_changes_nothing (c : genericTransportController) (objectName : String)
    (w : World) (e : Err)
    (hget : bindingListerGet objectName w = .error e) (hnf : e.notFound = true) :
    syncBinding c objectName w = (.ok (), w) ∧
    (syncBinding c objectName w).2.bindingSensitiveDestinations.lookup objectName =
      w.bindingSensitiveDestinations.lookup objectName ∧
    (syncBinding c objectName w).2.trace = w.trace := by
  have h : syncBinding c objectName w = (.ok (), w) := by
    unfold syncBinding
    rw [hget]
    simp [hnf]
  rw [h]
  exact ⟨rfl, rfl, rfl⟩

theorem sync_notfound_changes_nothing_witness :
    syncBinding exController "b1"
      { exWorld with bindingSensitiveDestinations := [("b1", [⟨"A"⟩])] } =
      (.ok (), { exWorld with bindingSensitiveDestinations := [("b1", [⟨"A"⟩])] }) :=
  (sync_notfound_changes_nothing exController "b1"
    { exWorld with bindingSensitiveDestinations := [("b1", [⟨"A"⟩])] }
    ⟨true, "binding \"b1\" not found"⟩ (by decide) (by decide)).1

/-! ## Facts about `updateWrappedObjectsAndFinalizer` -/

theorem itsList_spec (selector : StrMap) (w : World) :
    (itsList selector w).2.trace = w.trace ++ [Call.itsList selector] ∧
    (itsList selector w).2.its = w.its ∧
    ∀ items, (itsList selector w).1 = .ok items → items = w.its.filter (matchesSelector selector) := by
  unfold itsList
  have ht := call_trace w (Call.itsList selector)
  have hi := call_its w (Call.itsList selector)
  rcases hc : w.call (Call.itsList selector) with ⟨f, w1⟩
  rw [hc] at ht hi
  simp only at ht hi
  cases f with
  | some m => exact ⟨ht, hi, fun items h => by cases h⟩
  | none =>
    refine ⟨ht, hi, fun items h => ?_⟩
    simp only [Except.ok.injEq] at h
    rw [← h, hi]

theorem bindingUpdateStatus_spec (b : Binding) (w : World) :
    (bindingUpdateStatus b w).2.trace = w.trace ++ [Call.bindingUpdateStatus b] ∧
    (bindingUpdateStatus b w).2.its = w.its := by
  unfold bindingUpdateStatus
  have ht := call_trace w (Call.bindingUpdateStatus b)
  have hi := call_its w (Call.bindingUpdateStatus b)
  rcases hc : w.call (Call.bindingUpdateStatus b) with ⟨f, w1⟩
  rw [hc] at ht hi
  cases f with
  | some m => exact ⟨ht, hi⟩
  | none =>
    simp only
    split <;> exact ⟨ht, hi⟩

theorem addFinalizerToBinding_spec (binding : Binding) (w : World) :
    (addFinalizerToBinding binding w).2.2.its = w.its ∧
    ((addFinalizerToBinding binding w).2.2.trace = w.trace ∨
      ∃ b2, (addFinalizerToBinding binding w).2.2.trace = w.trace ++ [Call.bindingUpdate b2]) := by
  unfold addFinalizerToBinding updateBinding
  simp only
  cases (addFinalizer binding transportFinalizer).2 with
  | false => exact ⟨rfl, Or.inl rfl⟩
  | true =>
    simp only
    have ht := bindingUpdate_trace (addFinalizer binding transportFinalizer).1 w
    have hi := bindingUpdate_its (addFinalizer binding transportFinalizer).1 w
    rcases hx : bindingUpdate (addFinalizer binding transportFinalizer).1 w with ⟨r, w1⟩
    rw [hx] at ht hi
    cases r <;> exact ⟨hi, Or.inr ⟨_, ht⟩⟩

theorem deleteLeftovers_prefix (items : List Unstructured) (w : World) :
    ∃ k, (deleteLeftovers items w).2.trace = w.trace ++ (items.take k).map deleteCall ∧
      ((deleteLeftovers items w).1 = none → k = items.length) := by
  induction items generalizing w with
  | nil => exact ⟨0, by simp [deleteLeftovers], fun _ => rfl⟩
  | cons u rest ih =>
    rw [deleteLeftovers]
    have ht := deleteWrappedObject_trace u.ns u.name w
    rcases hd : deleteWrappedObject u.ns u.name w with ⟨r, w1⟩
    rw [hd] at ht
    simp only at ht
    cases r with
    | some e =>
      refine ⟨1, by simp [ht, deleteCall], ?_⟩
      intro h
      simp at h
    | none =>
      rcases ih w1 with ⟨k, h1, h2⟩
      refine ⟨k + 1, ?_, ?_⟩
      · simp only
        rw [h1, ht]
        simp [deleteCall]
      · intro h
        simp [h2 h]

theorem deleteLeftovers_its (items : List Unstructured) (w : World)
    (h : (deleteLeftovers items w).1 = none) :
    ∀ u ∈ (deleteLeftovers items w).2.its,
      u ∈ w.its ∧ ∀ x ∈ items, u.isAt x.ns x.name = false := by
  induction items generalizing w with
  | nil =>
    intro u hu
    exact ⟨hu, by simp⟩
  | cons x rest ih =>
    rw [deleteLeftovers] at h ⊢
    have hi := deleteWrappedObject_its x.ns x.name w
    rcases hd : deleteWrappedObject x.ns x.name w with ⟨r, w1⟩
    rw [hd] at hi h
    cases r with
    | some e => simp at h
    | none =>
      simp only at h hi ⊢
      intro u hu
      have := ih w1 h u hu
      rw [hi trivial, List.mem_filter] at this
      refine ⟨this.1.1, ?_⟩
      intro y hy
      rcases List.mem_cons.mp hy with h3 | h3
      · rw [h3]
        simpa using this.1.2
      · exact this.2 y h3

theorem getObjectsFromWDS_empty (c : genericTransportController) (binding : Binding) (w : World)
    (hc : binding.clusterScope = []) (hn : binding.namespaceScope = []) :
    getObjectsFromWDS c binding w = (.ok [], w) := by
  simp [getObjectsFromWDS, getClusterScoped, getNamespaceScoped, hc, hn]

theorem computeDestToWrappedObjects_empty (c : genericTransportController) (binding : Binding)
    (w : World) (hc : binding.clusterScope = []) (hn : binding.namespaceScope = []) :
    computeDestToWrappedObjects c binding w = (.ok ⟨none, [], []⟩, w) := by
  simp [computeDestToWrappedObjects, getObjectsFromWDS_empty c binding w hc hn]

theorem update_empty_shape (c : genericTransportController) (binding : Binding) (w : World)
    (hc : binding.clusterScope = []) (hn : binding.namespaceScope = []) :
    ∃ pre k, (∀ x ∈ pre, x.touchesWrappedObject = false ∧ x.isDelete = false) ∧
      (updateWrappedObjectsAndFinalizer c binding w).2.trace =
        w.trace ++ pre ++
          ((w.its.filter (matchesSelector (bindingSelector c binding.name))).take k).map
            deleteCall ∧
      ((updateWrappedObjectsAndFinalizer c binding w).1 = .ok () →
        k = (w.its.filter (matchesSelector (bindingSelector c binding.name))).length ∧
        ∀ u ∈ (updateWrappedObjectsAndFinalizer c binding w).2.its,
          u ∈ w.its ∧ matchesSelector (bindingSelector c binding.name) u = false) := by
  unfold updateWrappedObjectsAndFinalizer
  have h1 := addFinalizerToBinding_spec binding w
  rcases hx1 : addFinalizerToBinding binding w with ⟨r1, g1, w1⟩
  rw [hx1] at h1
  simp only at h1
  have hpre1 : ∃ pre1, (∀ x ∈ pre1, x.touchesWrappedObject = false ∧ x.isDelete = false) ∧
      w1.trace = w.trace ++ pre1 := by
    rcases h1.2 with h | ⟨b2, h⟩
    · exact ⟨[], by simp, by simp [h]⟩
    · exact ⟨[Call.bindingUpdate b2], by simp [Call.touchesWrappedObject, Call.isDelete], h⟩
  rcases hpre1 with ⟨pre1, hp1, ht1⟩
  cases r1 with
  | some e =>
    exact ⟨pre1, 0, hp1, by simp [ht1], fun h => by simp at h⟩
  | none =>
    simp only
    have h2 := itsList_spec (bindingSelector c binding.name) w1
    rcases hx2 : itsList (bindingSelector c binding.name) w1 with ⟨r2, w2⟩
    rw [hx2] at h2
    simp only at h2
    have hp2 : ∀ x ∈ pre1 ++ [Call.itsList (bindingSelector c binding.name)],
        x.touchesWrappedObject = false ∧ x.isDelete = false := by
      intro x hx
      rcases List.mem_append.mp hx with h | h
      · exact hp1 x h
      · simp only [List.mem_singleton] at h
        subst h
        exact ⟨rfl, rfl⟩
    have ht2 : w2.trace = w.trace ++ (pre1 ++ [Call.itsList (bindingSelector c binding.name)]) := by
      rw [h2.1, ht1, List.append_assoc]
    cases r2 with
    | error e =>
      exact ⟨_, 0, hp2, by simp [ht2], fun h => by simp at h⟩
    | ok items =>
      simp only
      have hitems := h2.2.2 items rfl
      rw [h1.1] at hitems
      rw [computeDestToWrappedObjects_empty c binding w2 hc hn]
      simp only [converge, writeStatus]
      by_cases hst : (binding.status.observedGeneration != binding.generation ||
          !(binding.status.errors == ([] : List String))) = true
      · simp only [hst, if_true]
        have h3 := bindingUpdateStatus_spec
          { binding with status := ⟨binding.generation, []⟩ } w2
        rcases hx3 : bindingUpdateStatus { binding with status := ⟨binding.generation, []⟩ } w2
          with ⟨r3, w3⟩
        rw [hx3] at h3
        simp only at h3
        have hp3 : ∀ x ∈ pre1 ++ [Call.itsList (bindingSelector c binding.name)] ++
            [Call.bindingUpdateStatus { binding with status := ⟨binding.generation, []⟩ }],
            x.touchesWrappedObject = false ∧ x.isDelete = false := by
          intro x hx
          rcases List.mem_append.mp hx with h | h
          · exact hp2 x h
          · simp only [List.mem_singleton] at h
            subst h
            exact ⟨rfl, rfl⟩
        have ht3 : w3.trace = w.trace ++ (pre1 ++ [Call.itsList (bindingSelector c binding.name)] ++
            [Call.bindingUpdateStatus { binding with status := ⟨binding.generation, []⟩ }]) := by
          rw [h3.1, ht2, List.append_assoc]
        cases r3 with
        | error e =>
          exact ⟨_, 0, hp3, by simp [ht3], fun h => by simp at h⟩
        | ok b3 =>
          simp only [propagateWrappedObjectToClusters]
          rcases deleteLeftovers_prefix items w3 with ⟨k, hk1, hk2⟩
          have hdi := deleteLeftovers_its items w3
          rcases hx4 : deleteLeftovers items w3 with ⟨r4, w4⟩
          rw [hx4] at hk1 hk2 hdi
          simp only at hk1 hk2 hdi
          rw [← hitems]
          cases r4 with
          | some e =>
            exact ⟨_, k, hp3, by simp only; rw [hk1, ht3, List.append_assoc],
              fun h => by simp at h⟩
          | none =>
            refine ⟨_, k, hp3, by simp only; rw [hk1, ht3, List.append_assoc], fun _ => ⟨hk2 rfl, ?_⟩⟩
            intro u hu
            rcases hdi rfl u hu with ⟨hm, hnot⟩
            rw [h3.2, h2.2.1, h1.1] at hm
            refine ⟨hm, ?_⟩
            cases hsel : matchesSelector (bindingSelector c binding.name) u with
            | false => rfl
            | true =>
              have hmem : u ∈ items := by
                rw [hitems, List.mem_filter]
                exact ⟨hm, hsel⟩
              have := hnot u hmem
              simp [Unstructured.isAt] at this
      · simp only [hst, if_false, Bool.false_eq_true, propagateWrappedObjectToClusters]
        rcases deleteLeftovers_prefix items w2 with ⟨k, hk1, hk2⟩
        have hdi := deleteLeftovers_its items w2
        rcases hx4 : deleteLeftovers items w2 with ⟨r4, w4⟩
        rw [hx4] at hk1 hk2 hdi
        simp only at hk1 hk2 hdi
        rw [← hitems]
        cases r4 with
        | some e =>
          exact ⟨_, k, hp2, by simp only; rw [hk1, ht2, List.append_assoc],
            fun h => by simp at h⟩
        | none =>
          refine ⟨_, k, hp2, by simp only; rw [hk1, ht2, List.append_assoc], fun _ => ⟨hk2 rfl, ?_⟩⟩
          intro u hu
          rcases hdi rfl u hu with ⟨hm, hnot⟩
          rw [h2.2.1, h1.1] at hm
          refine ⟨hm, ?_⟩
          cases hsel : matchesSelector (bindingSelector c binding.name) u with
          | false => rfl
          | true =>
            have hmem : u ∈ items := by
              rw [hitems, List.mem_filter]
              exact ⟨hm, hsel⟩
            have := hnot u hmem
            simp [Unstructured.isAt] at this

/-! ## Claims about the empty workload -/

/-- C10: for a Binding whose workload lists no cluster-scoped and no namespace-scoped object,
`computeDestToWrappedObjects` returns the nil function with no errors and issues no call; the
reconcile issues no Get, Create or Update of a wrapped object; and when the reconcile returns
without error, it has issued one Delete for every object of the current list (the objects of the
ITS with the labels of the Binding), whatever their namespace, after which no object with those
labels is left in the ITS. -/
theorem empty_workload_deletes_every_listed_object (c : genericTransportController)
    (binding : Binding) (w : World)
    (hc : binding.clusterScope = []) (hn : binding.namespaceScope = []) :
    computeDestToWrappedObjects c binding w = (.ok ⟨none, [], []⟩, w) ∧
    (∀ x ∈ newCalls w (updateWrappedObjectsAndFinalizer c binding w).2,
      x.touchesWrappedObject = false) ∧
    ((updateWrappedObjectsAndFinalizer c binding w).1 = .ok () →
      (∃ pre, (∀ x ∈ pre, x.isDelete = false) ∧
        newCalls w (updateWrappedObjectsAndFinalizer c binding w).2 =
          pre ++ (w.its.filter (matchesSelector (bindingSelector c binding.name))).map
            deleteCall) ∧
      ∀ u ∈ (updateWrappedObjectsAndFinalizer c binding w).2.its,
        matchesSelector (bindingSelector c binding.name) u = false) := by
  refine ⟨computeDestToWrappedObjects_empty c binding w hc hn, ?_⟩
  rcases update_empty_shape c binding w hc hn with ⟨pre, k, hpre, htr, hok⟩
  have hnew : newCalls w (updateWrappedObjectsAndFinalizer c binding w).2 =
      pre ++ ((w.its.filter (matchesSelector (bindingSelector c binding.name))).take k).map
        deleteCall := by
    unfold newCalls
    rw [htr, List.append_assoc, List.drop_left]
  constructor
  · intro x hx
    rw [hnew] at hx
    rcases List.mem_append.mp hx with h | h
    · exact (hpre x h).1
    · rcases List.mem_map.mp h with ⟨u, _, hu⟩
      rw [← hu]
      rfl
  · intro h
    rcases hok h with ⟨hk, hclean⟩
    refine ⟨⟨pre, fun x hx => (hpre x hx).2, ?_⟩, fun u hu => (hclean u hu).2⟩
    rw [hnew, hk, List.take_length]

theorem empty_workload_deletes_every_listed_object_witness :
    (updateWrappedObjectsAndFinalizer exController (exBinding none [transportFinalizer] [⟨"A"⟩])
      (exWorldOf (exBinding none [transportFinalizer] [⟨"A"⟩])
        [exLabelled "A", exLabelled "C"])).1 = .ok () ∧
    newCalls (exWorldOf (exBinding none [transportFinalizer] [⟨"A"⟩])
        [exLabelled "A", exLabelled "C"])
      (updateWrappedObjectsAndFinalizer exController (exBinding none [transportFinalizer] [⟨"A"⟩])
        (exWorldOf (exBinding none [transportFinalizer] [⟨"A"⟩])
          [exLabelled "A", exLabelled "C"])).2 =
      [Call.itsList (bindingSelector exController "b1"),
        Call.bindingUpdateStatus
          { exBinding none [transportFinalizer] [⟨"A"⟩] with status := ⟨1, []⟩ },
        Call.itsDelete "A" "b1-wds1", Call.itsDelete "C" "b1-wds1"] ∧
    ∀ u ∈ (updateWrappedObjectsAndFinalizer exController
        (exBinding none [transportFinalizer] [⟨"A"⟩])
        (exWorldOf (exBinding none [transportFinalizer] [⟨"A"⟩])
          [exLabelled "A", exLabelled "C"])).2.its,
      matchesSelector (bindingSelector exController "b1") u = false :=
  ⟨by decide, by decide,
    ((empty_workload_deletes_every_listed_object exController
      (exBinding none [transportFinalizer] [⟨"A"⟩])
      (exWorldOf (exBinding none [transportFinalizer] [⟨"A"⟩]) [exLabelled "A", exLabelled "C"])
      rfl rfl).2.2 (by decide)).2⟩

/-! ## Facts about fetching the workload -/

theorem wdsGet_spec (gvr : GroupVersionResource) (ns name : String) (w : World) :
    (wdsGet gvr ns name w).2.trace = w.trace ++ [Call.wdsGet gvr ns name] ∧
    (wdsGet gvr ns name w).2.wds = w.wds ∧
    (∀ o, (wdsGet gvr ns name w).1 = .ok o → wdsHas w gvr ns name = true) := by
  unfold wdsGet
  have ht := call_trace w (Call.wdsGet gvr ns name)
  have hw : (w.call (Call.wdsGet gvr ns name)).2.wds = w.wds := by
    unfold World.call
    split <;> rfl
  rcases hc : w.call (Call.wdsGet gvr ns name) with ⟨f, w1⟩
  rw [hc] at ht hw
  simp only at ht hw
  cases f with
  | some m => exact ⟨ht, hw, fun o h => by cases h⟩
  | none =>
    simp only
    cases hf : w1.wds.find? (fun e => e.1 == gvr && e.2.isAt ns name) with
    | none => exact ⟨ht, hw, fun o h => by cases h⟩
    | some e =>
      refine ⟨ht, hw, fun o _ => ?_⟩
      unfold wdsHas
      rw [← hw, List.any_eq_true]
      exact ⟨e, List.mem_of_find?_eq_some hf,
        @List.find?_some _ (fun e => e.1 == gvr && e.2.isAt ns name) e _ hf⟩

theorem wdsHas_congr (w w1 : World) (h : w1.wds = w.wds) (gvr : GroupVersionResource)
    (ns name : String) : wdsHas w1 gvr ns name = wdsHas w gvr ns name := by
  unfold wdsHas
  rw [h]

theorem getClusterScoped_spec (c : genericTransportController)
    (objs : List ClusterScopeDownsyncObject) (acc : List Unstructured) (w : World) :
    (getClusterScoped c objs acc w).2.wds = w.wds ∧
    (∃ calls, (getClusterScoped c objs acc w).2.trace = w.trace ++ calls ∧
      ∀ x ∈ calls, ∃ g ns n, x = Call.wdsGet g ns n) ∧
    (∀ r, (getClusterScoped c objs acc w).1 = .ok r →
      ∀ o ∈ objs, wdsHas w o.gvr "" o.name = true) ∧
    (∀ e, (getClusterScoped c objs acc w).1 = .error e →
      ∃ o ∈ objs, (getClusterScoped c objs acc w).2.trace.getLast? =
          some (Call.wdsGet o.gvr "" o.name) ∧
        ∃ inner, e.msg = "failed to get required cluster-scoped object '" ++ o.name ++
          "' with gvr " ++ o.gvr.toStr ++ " from WDS - " ++ inner) := by
  induction objs generalizing acc w with
  | nil =>
    rw [getClusterScoped]
    refine ⟨rfl, ⟨[], by simp, by simp⟩, ?_, ?_⟩
    · intro r _ o ho
      cases ho
    · intro e h
      cases h
  | cons o rest ih =>
    rw [getClusterScoped]
    have hg := wdsGet_spec o.gvr "" o.name w
    rcases hx : wdsGet o.gvr "" o.name w with ⟨r, w1⟩
    rw [hx] at hg
    simp only at hg
    cases r with
    | error e =>
      simp only
      refine ⟨hg.2.1, ⟨[Call.wdsGet o.gvr "" o.name], hg.1, ?_⟩, ?_, ?_⟩
      · intro x hx2
        simp only [List.mem_singleton] at hx2
        exact ⟨_, _, _, hx2⟩
      · intro r h
        cases h
      · intro e2 he
        simp only [Except.error.injEq] at he
        refine ⟨o, by simp, by rw [hg.1]; simp, e.msg, ?_⟩
        rw [← he]
        rfl
    | ok obj =>
      simp only
      rcases ih (acc ++ [cleanObject c obj]) w1 with ⟨h1, ⟨calls, h2, h3⟩, h4, h5⟩
      refine ⟨h1.trans hg.2.1, ⟨Call.wdsGet o.gvr "" o.name :: calls, ?_, ?_⟩, ?_, ?_⟩
      · rw [h2, hg.1]
        simp
      · intro x hx2
        rcases List.mem_cons.mp hx2 with h | h
        · exact ⟨_, _, _, h⟩
        · exact h3 x h
      · intro r hr o2 ho2
        rcases List.mem_cons.mp ho2 with h | h
        · rw [h]
          exact hg.2.2 obj rfl
        · rw [← wdsHas_congr w w1 hg.2.1]
          exact h4 r hr o2 h
      · intro e he
        rcases h5 e he with ⟨o2, ho2, hl, hm⟩
        exact ⟨o2, List.mem_cons_of_mem _ ho2, hl, hm⟩

theorem getNamespaceScoped_spec (c : genericTransportController)
    (objs : List NamespaceScopeDownsyncObject) (acc : List Unstructured) (w : World) :
    (getNamespaceScoped c objs acc w).2.wds = w.wds ∧
    (∃ calls, (getNamespaceScoped c objs acc w).2.trace = w.trace ++ calls ∧
      ∀ x ∈ calls, ∃ g ns n, x = Call.wdsGet g ns n) ∧
    (∀ r, (getNamespaceScoped c objs acc w).1 = .ok r →
      ∀ o ∈ objs, wdsHas w o.gvr o.ns o.name = true) ∧
    (∀ e, (getNamespaceScoped c objs acc w).1 = .error e →
      ∃ o ∈ objs, (getNamespaceScoped c objs acc w).2.trace.getLast? =
          some (Call.wdsGet o.gvr o.ns o.name) ∧
        ∃ inner, e.msg = "failed to get required namespace-scoped object '" ++ o.name ++
          "' in namespace '" ++ o.ns ++ "' with gvr '" ++ o.gvr.toStr ++ "' from WDS - " ++
          inner) := by
  induction objs generalizing acc w with
  | nil =>
    rw [getNamespaceScoped]
    refine ⟨rfl, ⟨[], by simp, by simp⟩, ?_, ?_⟩
    · intro r _ o ho
      cases ho
    · intro e h
      cases h
  | cons o rest ih =>
    rw [getNamespaceScoped]
    have hg := wdsGet_spec o.gvr o.ns o.name w
    rcases hx : wdsGet o.gvr o.ns o.name w with ⟨r, w1⟩
    rw [hx] at hg
    simp only at hg
    cases r with
    | error e =>
      simp only
      refine ⟨hg.2.1, ⟨[Call.wdsGet o.gvr o.ns o.name], hg.1, ?_⟩, ?_, ?_⟩
      · intro x hx2
        simp only [List.mem_singleton] at hx2
        exact ⟨_, _, _, hx2⟩
      · intro r h
        cases h
      · intro e2 he
        simp only [Except.error.injEq] at he
        refine ⟨o, by simp, by rw [hg.1]; simp, e.msg, ?_⟩
        rw [← he]
        rfl
    | ok obj =>
      simp only
      rcases ih (acc ++ [cleanObject c obj]) w1 with ⟨h1, ⟨calls, h2, h3⟩, h4, h5⟩
      refine ⟨h1.trans hg.2.1, ⟨Call.wdsGet o.gvr o.ns o.name :: calls, ?_, ?_⟩, ?_, ?_⟩
      · rw [h2, hg.1]
        simp
      · intro x hx2
        rcases List.mem_cons.mp hx2 with h | h
        · exact ⟨_, _, _, h⟩
        · exact h3 x h
      · intro r hr o2 ho2
        rcases List.mem_cons.mp ho2 with h | h
        · rw [h]
          exact hg.2.2 obj rfl
        · rw [← wdsHas_congr w w1 hg.2.1]
          exact h4 r hr o2 h
      · intro e he
        rcases h5 e he with ⟨o2, ho2, hl, hm⟩
        exact ⟨o2, List.mem_cons_of_mem _ ho2, hl, hm⟩

theorem mentions_object (p a n b q : String) :
    Mentions (p ++ (a ++ "object '" ++ n ++ "'" ++ b ++ q)) ("object '" ++ n ++ "'") :=
  ⟨p ++ a, b ++ q, by simp only [String.append_assoc]⟩

theorem getObjectsFromWDS_missing (c : genericTransportController) (binding : Binding)
    (w : World)
    (hmiss : (∃ o ∈ binding.clusterScope, wdsHas w o.gvr "" o.name = false) ∨
      ∃ o ∈ binding.namespaceScope, wdsHas w o.gvr o.ns o.name = false) :
    (∃ calls, (getObjectsFromWDS c binding w).2.trace = w.trace ++ calls ∧
      ∀ x ∈ calls, ∃ g ns n, x = Call.wdsGet g ns n) ∧
    ∃ e, (getObjectsFromWDS c binding w).1 = .error e ∧
      ∃ g ns n, (n ∈ binding.clusterScope.map (fun o => o.name) ∨
          n ∈ binding.namespaceScope.map (fun o => o.name)) ∧
        (getObjectsFromWDS c binding w).2.trace.getLast? = some (Call.wdsGet g ns n) ∧
        ∀ p, Mentions (p ++ e.msg) ("object '" ++ n ++ "'") := by
  have hl1 : "failed to get required cluster-scoped object '" =
      "failed to get required cluster-scoped " ++ "object '" := by decide
  have hl2 : "' with gvr " = "'" ++ " with gvr " := by decide
  have hl3 : "failed to get required namespace-scoped object '" =
      "failed to get required namespace-scoped " ++ "object '" := by decide
  have hl4 : "' in namespace '" = "'" ++ " in namespace '" := by decide
  unfold getObjectsFromWDS
  rcases getClusterScoped_spec c binding.clusterScope [] w with ⟨h1, ⟨calls1, h2, h3⟩, h4, h5⟩
  rcases hx : getClusterScoped c binding.clusterScope [] w with ⟨r, w1⟩
  rw [hx] at h1 h2 h4 h5
  simp only at h1 h2 h4 h5
  cases r with
  | error e =>
    simp only
    refine ⟨⟨calls1, h2, h3⟩, e, rfl, ?_⟩
    rcases h5 e rfl with ⟨o, ho, hlast, inner, hm⟩
    refine ⟨o.gvr, "", o.name, Or.inl (List.mem_map_of_mem _ ho), hlast, fun p => ?_⟩
    rw [hm, hl1, hl2]
    have := mentions_object p "failed to get required cluster-scoped " o.name
      (" with gvr " ++ o.gvr.toStr ++ " from WDS - ") inner
    simpa only [String.append_assoc] using this
  | ok objs =>
    simp only
    rcases getNamespaceScoped_spec c binding.namespaceScope objs w1 with
      ⟨_, ⟨calls2, k2, k3⟩, k4, k5⟩
    rcases hy : getNamespaceScoped c binding.namespaceScope objs w1 with ⟨r2, w2⟩
    rw [hy] at k2 k4 k5
    simp only at k2 k4 k5
    refine ⟨⟨calls1 ++ calls2, by rw [k2, h2, List.append_assoc], ?_⟩, ?_⟩
    · intro x hx2
      rcases List.mem_append.mp hx2 with h | h
      · exact h3 x h
      · exact k3 x h
    · cases r2 with
      | ok objs2 =>
        exfalso
        rcases hmiss with ⟨o, ho, hno⟩ | ⟨o, ho, hno⟩
        · rw [h4 objs rfl o ho] at hno
          cases hno
        · rw [← wdsHas_congr w w1 h1, k4 objs2 rfl o ho] at hno
          cases hno
      | error e =>
        refine ⟨e, rfl, ?_⟩
        rcases k5 e rfl with ⟨o, ho, hlast, inner, hm⟩
        refine ⟨o.gvr, o.ns, o.name, Or.inr (List.mem_map_of_mem _ ho), hlast, fun p => ?_⟩
        rw [hm, hl3, hl4]
        have := mentions_object p "failed to get required namespace-scoped " o.name
          (" in namespace '" ++ o.ns ++ "' with gvr '" ++ o.gvr.toStr ++ "' from WDS - ") inner
        simpa only [String.append_assoc] using this

theorem call_wds (w : World) (c : Call) : (w.call c).2.wds = w.wds := by
  unfold World.call
  split <;> rfl

theorem addFinalizerToBinding_wds (binding : Binding) (w : World) :
    (addFinalizerToBinding binding w).2.2.wds = w.wds := by
  unfold addFinalizerToBinding updateBinding
  simp only
  cases (addFinalizer binding transportFinalizer).2 with
  | false => rfl
  | true =>
    simp only
    have hi : (bindingUpdate (addFinalizer binding transportFinalizer).1 w).2.wds = w.wds := by
      unfold bindingUpdate
      have ht := call_wds w (Call.bindingUpdate (addFinalizer binding transportFinalizer).1)
      rcases hc : w.call (Call.bindingUpdate (addFinalizer binding transportFinalizer).1)
        with ⟨f, w1⟩
      rw [hc] at ht
      cases f with
      | some m => exact ht
      | none =>
        simp only
        split <;> exact ht
    rcases hx : bindingUpdate (addFinalizer binding transportFinalizer).1 w with ⟨r, w1⟩
    rw [hx] at hi
    cases r <;> exact hi

theorem itsList_wds (selector : StrMap) (w : World) : (itsList selector w).2.wds = w.wds := by
  unfold itsList
  have ht := call_wds w (Call.itsList selector)
  rcases hc : w.call (Call.itsList selector) with ⟨f, w1⟩
  rw [hc] at ht
  cases f <;> exact ht

/-! ## Claims about a workload object missing from the WDS -/

/-- C1, refuted: Binding `b1` is not marked for deletion and names the namespace `ns1`, which the
WDS does not hold.  The reconcile returns an error after the List of the wrapped objects and the
Get of `ns1`: no status update is issued and the Binding in the API server keeps its status with
no errors, so no message naming `ns1` is written to it. -/
theorem missing_object_writes_no_status :
    wdsHas (exWorldOf exBindingNs1 []) ⟨"", "v1", "namespaces"⟩ "" "ns1" = false ∧
    (∃ e, (updateWrappedObjectsAndFinalizer exController exBindingNs1
      (exWorldOf exBindingNs1 [])).1 = .err e) ∧
    (updateWrappedObjectsAndFinalizer exController exBindingNs1
      (exWorldOf exBindingNs1 [])).2.trace =
      [Call.itsList (bindingSelector exController "b1"),
        Call.wdsGet ⟨"", "v1", "namespaces"⟩ "" "ns1"] ∧
    (updateWrappedObjectsAndFinalizer exController exBindingNs1
      (exWorldOf exBindingNs1 [])).2.bindings.map (fun b => b.status.errors) = [[]] := by
  refine ⟨by decide, ⟨_, rfl⟩, by decide, by decide⟩

/-- C1, amended: for every Binding whose spec names a workload object (cluster-scoped or
namespace-scoped) that the WDS does not hold, the reconcile returns an error, to be retried.  The
error is the failure to add the finalizer, the failure to list the current wrapped objects, or
else the failure of the Get of a workload object of the spec, which is then the last call issued
and whose name the message contains.  The reconcile issues no status update and no Get, Create,
Update or Delete of a wrapped object. -/
theorem missing_object_fails_reconcile (c : genericTransportController) (binding : Binding)
    (w : World)
    (hmiss : (∃ o ∈ binding.clusterScope, wdsHas w o.gvr "" o.name = false) ∨
      ∃ o ∈ binding.namespaceScope, wdsHas w o.gvr o.ns o.name = false) :
    (∃ e, (updateWrappedObjectsAndFinalizer c binding w).1 = .err e ∧
      ((∃ post, e.msg = "failed to add finalizer to Binding object '" ++ post) ∨
       (∃ post, e.msg = "failed to get current wrapped objects that are owned by Binding '" ++
          post) ∨
       ∃ g ns n, (n ∈ binding.clusterScope.map (fun o => o.name) ∨
            n ∈ binding.namespaceScope.map (fun o => o.name)) ∧
          (updateWrappedObjectsAndFinalizer c binding w).2.trace.getLast? =
            some (Call.wdsGet g ns n) ∧
          Mentions e.msg ("object '" ++ n ++ "'"))) ∧
    (∀ x ∈ newCalls w (updateWrappedObjectsAndFinalizer c binding w).2,
      x.touchesWrappedObject = false ∧ x.isDelete = false ∧ x.isStatusUpdate = false) := by
  unfold updateWrappedObjectsAndFinalizer
  have h1 := addFinalizerToBinding_spec binding w
  have h1w := addFinalizerToBinding_wds binding w
  rcases hx1 : addFinalizerToBinding binding w with ⟨r1, g1, w1⟩
  rw [hx1] at h1 h1w
  simp only at h1 h1w
  have hpre1 : ∃ pre1, (∀ x ∈ pre1, x.touchesWrappedObject = false ∧ x.isDelete = false ∧
      x.isStatusUpdate = false) ∧ w1.trace = w.trace ++ pre1 := by
    rcases h1.2 with h | ⟨b2, h⟩
    · exact ⟨[], by simp, by simp [h]⟩
    · exact ⟨[Call.bindingUpdate b2],
        by simp [Call.touchesWrappedObject, Call.isDelete, Call.isStatusUpdate], h⟩
  rcases hpre1 with ⟨pre1, hp1, ht1⟩
  cases r1 with
  | some e =>
    simp only
    refine ⟨⟨_, rfl, Or.inl ⟨binding.name ++ "' - " ++ e.msg, ?_⟩⟩, ?_⟩
    · simp only [Err.wrapf, String.append_assoc]
    · intro x hx
      unfold newCalls at hx
      rw [ht1, List.drop_left] at hx
      exact hp1 x hx
  | none =>
    simp only
    have h2 := itsList_spec (bindingSelector c binding.name) w1
    have h2w := itsList_wds (bindingSelector c binding.name) w1
    rcases hx2 : itsList (bindingSelector c binding.name) w1 with ⟨r2, w2⟩
    rw [hx2] at h2 h2w
    simp only at h2 h2w
    have hp2 : ∀ x ∈ pre1 ++ [Call.itsList (bindingSelector c binding.name)],
        x.touchesWrappedObject = false ∧ x.isDelete = false ∧ x.isStatusUpdate = false := by
      intro x hx
      rcases List.mem_append.mp hx with h | h
      · exact hp1 x h
      · simp only [List.mem_singleton] at h
        subst h
        exact ⟨rfl, rfl, rfl⟩
    have ht2 : w2.trace = w.trace ++ (pre1 ++ [Call.itsList (bindingSelector c binding.name)]) := by
      rw [h2.1, ht1, List.append_assoc]
    cases r2 with
    | error e =>
      simp only
      refine ⟨⟨_, rfl, Or.inr (Or.inl ⟨binding.name ++ "' - " ++ e.msg, ?_⟩)⟩, ?_⟩
      · simp only [Err.wrapf, String.append_assoc]
      · intro x hx
        unfold newCalls at hx
        rw [ht2, List.drop_left] at hx
        exact hp2 x hx
    | ok items =>
      simp only
      have hmiss2 : (∃ o ∈ binding.clusterScope, wdsHas w2 o.gvr "" o.name = false) ∨
          ∃ o ∈ binding.namespaceScope, wdsHas w2 o.gvr o.ns o.name = false := by
        have hw : w2.wds = w.wds := h2w.trans h1w
        rcases hmiss with ⟨o, ho, hno⟩ | ⟨o, ho, hno⟩
        · exact Or.inl ⟨o, ho, by rw [wdsHas_congr w w2 hw]; exact hno⟩
        · exact Or.inr ⟨o, ho, by rw [wdsHas_congr w w2 hw]; exact hno⟩
      rcases getObjectsFromWDS_missing c binding w2 hmiss2 with
        ⟨⟨calls, hc1, hc2⟩, e, he, g, ns, n, hn, hlast, hment⟩
      unfold computeDestToWrappedObjects
      rcases hx3 : getObjectsFromWDS c binding w2 with ⟨r3, w3⟩
      rw [hx3] at hc1 he hlast
      simp only at hc1 he hlast
      subst he
      simp only
      refine ⟨⟨_, rfl, Or.inr (Or.inr ⟨g, ns, n, hn, hlast, ?_⟩)⟩, ?_⟩
      · have := hment (("failed to build wrapped object(s) from Binding '" ++ binding.name ++
          "' - ") ++ ("failed to get objects to propagate to WECs from Binding object '" ++
          binding.name ++ "' - "))
        simpa only [Err.wrapf, String.append_assoc] using this
      · intro x hx
        unfold newCalls at hx
        rw [hc1, ht2, List.append_assoc, List.drop_left] at hx
        rcases List.mem_append.mp hx with h | h
        · exact hp2 x h
        · rcases hc2 x h with ⟨g2, ns2, n2, hx2⟩
          subst hx2
          exact ⟨rfl, rfl, rfl⟩

theorem missing_object_fails_reconcile_witness :
    wdsHas (exWorldOf exBindingNs1 [exLabelled "A"]) ⟨"", "v1", "namespaces"⟩ "" "ns1" = false ∧
    ∀ x ∈ newCalls (exWorldOf exBindingNs1 [exLabelled "A"])
        (updateWrappedObjectsAndFinalizer exController exBindingNs1
          (exWorldOf exBindingNs1 [exLabelled "A"])).2,
      x.touchesWrappedObject = false ∧ x.isDelete = false ∧ x.isStatusUpdate = false :=
  ⟨by decide,
    (missing_object_fails_reconcile exController exBindingNs1
      (exWorldOf exBindingNs1 [exLabelled "A"])
      (Or.inl ⟨⟨⟨"", "v1", "namespaces"⟩, "ns1"⟩, by decide, by decide⟩)).2⟩

/-! ## Claims about running the reconcile twice -/

/-- C9, refuted: the first reconcile of `exBindingNs1` against an empty ITS completes
successfully, writing the status and creating the wrapped object in namespace `A`.  The second
reconcile, with the same spec and generation, the same workload object, and the ITS and the
Binding status the first one left, issues a Get and an Update of that wrapped object: the object
the ITS holds carries the namespace `A`, the freshly wrapped one carries none, so they are not
deep-equal. -/
theorem second_reconcile_updates_again :
    updateWrappedObjectsAndFinalizer exController exBindingNs1 exWorldNs1 =
      (.ok (), { exWorldNs1 with
        bindings := [exBindingNs1Synced]
        its := [{ exWrappedNs1 with ns := "A" }]
        bindingSensitiveDestinations := [("b1", [])]
        trace := [Call.itsList (bindingSelector exController "b1"),
          Call.wdsGet ⟨"", "v1", "namespaces"⟩ "" "ns1",
          Call.bindingUpdateStatus exBindingNs1Synced,
          Call.itsGet "A" "b1-wds1", Call.itsCreate "A" exWrappedNs1] }) ∧
    (updateWrappedObjectsAndFinalizer exController exBindingNs1Synced
      (updateWrappedObjectsAndFinalizer exController exBindingNs1 exWorldNs1).2).1 = .ok () ∧
    newCalls (updateWrappedObjectsAndFinalizer exController exBindingNs1 exWorldNs1).2
      (updateWrappedObjectsAndFinalizer exController exBindingNs1Synced
        (updateWrappedObjectsAndFinalizer exController exBindingNs1 exWorldNs1).2).2 =
      [Call.itsList (bindingSelector exController "b1"),
        Call.wdsGet ⟨"", "v1", "namespaces"⟩ "" "ns1",
        Call.itsGet "A" "b1-wds1", Call.itsUpdate "A" exWrappedNs1] := by
  decide

/-! ## Facts about the inputs of the desired state -/

theorem call_inputs (w : World) (c : Call) : (w.call c).2.inputs = w.inputs := by
  unfold World.call
  split <;> rfl

theorem itsGet_inputs (ns name : String) (w : World) :
    (itsGet ns name w).2.inputs = w.inputs := by
  unfold itsGet
  have ht := call_inputs w (Call.itsGet ns name)
  rcases hc : w.call (Call.itsGet ns name) with ⟨f, w1⟩
  rw [hc] at ht
  cases f with
  | some m => exact ht
  | none =>
    simp only
    split <;> exact ht

theorem itsCreate_inputs (ns : String) (obj : Unstructured) (w : World) :
    (itsCreate ns obj w).2.inputs = w.inputs := by
  unfold itsCreate
  have ht := call_inputs w (Call.itsCreate ns obj)
  rcases hc : w.call (Call.itsCreate ns obj) with ⟨f, w1⟩
  rw [hc] at ht
  cases f with
  | some m => exact ht
  | none =>
    simp only
    split
    · exact ht
    · split <;> exact ht

theorem itsUpdate_inputs (ns : String) (obj : Unstructured) (w : World) :
    (itsUpdate ns obj w).2.inputs = w.inputs := by
  unfold itsUpdate
  have ht := call_inputs w (Call.itsUpdate ns obj)
  rcases hc : w.call (Call.itsUpdate ns obj) with ⟨f, w1⟩
  rw [hc] at ht
  cases f with
  | some m => exact ht
  | none =>
    simp only
    split
    · exact ht
    · split <;> exact ht

theorem itsDelete_inputs (ns name : String) (w : World) :
    (itsDelete ns name w).2.inputs = w.inputs := by
  unfold itsDelete
  have ht := call_inputs w (Call.itsDelete ns name)
  rcases hc : w.call (Call.itsDelete ns name) with ⟨f, w1⟩
  rw [hc] at ht
  cases f with
  | some m => exact ht
  | none =>
    simp only
    split <;> exact ht

theorem itsList_inputs (selector : StrMap) (w : World) :
    (itsList selector w).2.inputs = w.inputs := by
  unfold itsList
  have ht := call_inputs w (Call.itsList selector)
  rcases hc : w.call (Call.itsList selector) with ⟨f, w1⟩
  rw [hc] at ht
  cases f <;> exact ht

theorem wdsGet_inputs (gvr : GroupVersionResource) (ns name : String) (w : World) :
    (wdsGet gvr ns name w).2.inputs = w.inputs := by
  unfold wdsGet
  have ht := call_inputs w (Call.wdsGet gvr ns name)
  rcases hc : w.call (Call.wdsGet gvr ns name) with ⟨f, w1⟩
  rw [hc] at ht
  cases f with
  | some m => exact ht
  | none =>
    simp only
    split <;> exact ht

theorem bindingUpdate_inputs (b : Binding) (w : World) :
    (bindingUpdate b w).2.inputs = w.inputs := by
  unfold bindingUpdate
  have ht := call_inputs w (Call.bindingUpdate b)
  rcases hc : w.call (Call.bindingUpdate b) with ⟨f, w1⟩
  rw [hc] at ht
  cases f with
  | some m => exact ht
  | none =>
    simp only
    split <;> exact ht

theorem bindingUpdateStatus_inputs (b : Binding) (w : World) :
    (bindingUpdateStatus b w).2.inputs = w.inputs := by
  unfold bindingUpdateStatus
  have ht := call_inputs w (Call.bindingUpdateStatus b)
  rcases hc : w.call (Call.bindingUpdateStatus b) with ⟨f, w1⟩
  rw [hc] at ht
  cases f with
  | some m => exact ht
  | none =>
    simp only
    split <;> exact ht

theorem addFinalizerToBinding_inputs (binding : Binding) (w : World) :
    (addFinalizerToBinding binding w).2.2.inputs = w.inputs := by
  unfold addFinalizerToBinding updateBinding
  simp only
  cases (addFinalizer binding transportFinalizer).2 with
  | false => rfl
  | true =>
    simp only
    have hi := bindingUpdate_inputs (addFinalizer binding transportFinalizer).1 w
    rcases hx : bindingUpdate (addFinalizer binding transportFinalizer).1 w with ⟨r, w1⟩
    rw [hx] at hi
    cases r <;> exact hi

theorem deleteWrappedObject_inputs (ns name : String) (w : World) :
    (deleteWrappedObject ns name w).2.inputs = w.inputs := by
  unfold deleteWrappedObject
  have ht := itsDelete_inputs ns name w
  rcases hd : itsDelete ns name w with ⟨r, w1⟩
  rw [hd] at ht
  cases r with
  | none => exact ht
  | some e =>
    simp only
    split <;> exact ht

theorem deleteLeftovers_inputs (items : List Unstructured) (w : World) :
    (deleteLeftovers items w).2.inputs = w.inputs := by
  induction items generalizing w with
  | nil => rfl
  | cons u rest ih =>
    rw [deleteLeftovers]
    have ht := deleteWrappedObject_inputs u.ns u.name w
    rcases hd : deleteWrappedObject u.ns u.name w with ⟨r, w1⟩
    rw [hd] at ht
    cases r with
    | some e => exact ht
    | none =>
      simp only
      rw [ih w1]
      exact ht

theorem createOrUpdate_inputs (ns : String) (p : Nat) (obj : Unstructured) (heap : Heap)
    (w : World) : (createOrUpdateWrappedObject ns p obj heap w).2.2.inputs = w.inputs := by
  unfold createOrUpdateWrappedObject
  have hg := itsGet_inputs ns obj.name w
  rcases hget : itsGet ns obj.name w with ⟨r, w1⟩
  rw [hget] at hg
  simp only at hg
  cases r with
  | error e =>
    simp only
    split
    · exact hg
    · have hc := itsCreate_inputs ns (obj.setResourceVersion "") w1
      rcases hcr : itsCreate ns (obj.setResourceVersion "") w1 with ⟨r2, w2⟩
      rw [hcr] at hc
      cases r2 <;> exact hc.trans hg
  | ok existing =>
    simp only
    have hc := itsUpdate_inputs ns (obj.setResourceVersion existing.resourceVersion) w1
    rcases hcr : itsUpdate ns (obj.setResourceVersion existing.resourceVersion) w1 with ⟨r2, w2⟩
    rw [hcr] at hc
    cases r2 <;> exact hc.trans hg

theorem propagateStep_cases (desired : DestToWrapped) (broken : Bool) (d : Destination)
    (items : List Unstructured) (heap : Heap) (w : World) :
    ((propagateStep desired broken d items heap w).world = w ∧
      (propagateStep desired broken d items heap w).heap = heap) ∨
    ∃ p des, (desired d).1 = some p ∧ heap[p]? = some des ∧ broken = false ∧
      (propagateStep desired broken d items heap w).world =
        (createOrUpdateWrappedObject d.clusterId p des heap w).2.2 ∧
      (propagateStep desired broken d items heap w).heap =
        (createOrUpdateWrappedObject d.clusterId p des heap w).2.1 ∧
      ((propagateStep desired broken d items heap w).res = .ok () ↔
        (createOrUpdateWrappedObject d.clusterId p des heap w).1 = none) := by
  unfold propagateStep
  simp only
  cases broken with
  | true => exact Or.inl ⟨rfl, rfl⟩
  | false =>
    simp only [Bool.false_eq_true, if_false]
    cases hp : (desired d).1 with
    | none => exact Or.inl ⟨rfl, rfl⟩
    | some p =>
      simp only
      cases hd : heap[p]? with
      | none => exact Or.inl ⟨rfl, rfl⟩
      | some des =>
        simp only
        cases ha : (popWrappedObjectByNamespace items d.clusterId).1.any
            (fun cur => deepEqual cur des) with
        | true => exact Or.inl ⟨rfl, rfl⟩
        | false =>
          simp only [Bool.false_eq_true, if_false]
          right
          refine ⟨p, des, rfl, hd, trivial, ?_⟩
          rcases createOrUpdateWrappedObject d.clusterId p des heap w with ⟨r, h1, w1⟩
          cases r with
          | none => exact ⟨rfl, rfl, by simp⟩
          | some e => exact ⟨rfl, rfl, by simp⟩

theorem propagateStep_inputs (desired : DestToWrapped) (broken : Bool) (d : Destination)
    (items : List Unstructured) (heap : Heap) (w : World) :
    (propagateStep desired broken d items heap w).world.inputs = w.inputs := by
  rcases propagateStep_cases desired broken d items heap w with h | ⟨p, des, _, _, _, h, _⟩
  · rw [h.1]
  · rw [h]
    exact createOrUpdate_inputs d.clusterId p des heap w

theorem propagateLoop_inputs (desired : DestToWrapped) (broken : Bool) (ds : List Destination)
    (items : List Unstructured) (heap : Heap) (w : World) :
    (propagateLoop desired broken ds items heap w).world.inputs = w.inputs := by
  induction ds generalizing items heap w with
  | nil => rfl
  | cons d rest ih =>
    by_cases hs : (propagateStep desired broken d items heap w).res = .ok ()
    · rw [propagateLoop_cons_ok _ _ _ _ _ _ _ hs, ih]
      exact propagateStep_inputs _ _ _ _ _ _
    · rw [propagateLoop_cons_stop _ _ _ _ _ _ _ hs]
      exact propagateStep_inputs _ _ _ _ _ _

theorem propsFor_of_inputs (c : genericTransportController) (w w2 : World)
    (h : w2.inputs = w.inputs) (d : Destination) : propsFor c w2 d = propsFor c w d := by
  simp only [World.inputs, Prod.mk.injEq] at h
  unfold propsFor collectPropertiesForDestination
  rw [h.2.2.2, h.2.1, h.2.2.1]

theorem sameInputs_of_inputs (c : genericTransportController) (w w2 : World)
    (h : w2.inputs = w.inputs) : SameInputs c w w2 := by
  refine ⟨?_, propsFor_of_inputs c w w2 h⟩
  simp only [World.inputs, Prod.mk.injEq] at h
  exact h.1

theorem SameInputs.trans {c : genericTransportController} {w w2 w3 : World}
    (h1 : SameInputs c w w2) (h2 : SameInputs c w2 w3) : SameInputs c w w3 :=
  ⟨h2.1.trans h1.1, fun d => (h2.2 d).trans (h1.2 d)⟩

theorem SameInputs.symm {c : genericTransportController} {w w2 : World}
    (h : SameInputs c w w2) : SameInputs c w2 w :=
  ⟨h.1.symm, fun d => (h.2 d).symm⟩

/-! ## Facts about Go maps -/

theorem lookup_map_other {κ ν : Type} [BEq κ] [LawfulBEq κ] (m : List (κ × ν)) (k k2 : κ)
    (v : ν) (h : (k2 == k) = false) :
    (m.map fun e => if e.1 == k then (k, v) else e).lookup k2 = m.lookup k2 := by
  induction m with
  | nil => rfl
  | cons a t ih =>
    rcases a with ⟨a, b⟩
    simp only [List.map_cons]
    by_cases hak : (a == k) = true
    · have hka : (k2 == a) = false := by
        rw [eq_of_beq hak]
        exact h
      simp only [hak, if_true, List.lookup_cons, h, hka, ih]
    · simp only [hak, if_false, Bool.false_eq_true, List.lookup_cons, ih]

theorem lookup_map_same {κ ν : Type} [BEq κ] [LawfulBEq κ] (m : List (κ × ν)) (k : κ) (v : ν)
    (h : (m.any fun e => e.1 == k) = true) :
    (m.map fun e => if e.1 == k then (k, v) else e).lookup k = some v := by
  induction m with
  | nil => simp at h
  | cons a t ih =>
    rcases a with ⟨a, b⟩
    simp only [List.map_cons]
    by_cases hak : (a == k) = true
    · simp only [hak, if_true, List.lookup_cons, beq_self_eq_true]
    · have hka : (k == a) = false := by
        cases hx : (k == a) with
        | false => rfl
        | true =>
          exfalso
          apply hak
          rw [eq_of_beq hx]
          exact beq_self_eq_true a
      simp only [List.any_cons, hak, Bool.false_or, Bool.false_eq_true] at h
      simp only [hak, if_false, Bool.false_eq_true, List.lookup_cons, hka]
      exact ih h

theorem lookup_append_single {κ ν : Type} [BEq κ] [LawfulBEq κ] (m : List (κ × ν)) (k k2 : κ)
    (v : ν) :
    (m ++ [(k, v)]).lookup k2 =
      match m.lookup k2 with
      | some x => some x
      | none => if k2 == k then some v else none := by
  induction m with
  | nil =>
    simp only [List.nil_append, List.lookup_cons, List.lookup_nil]
    cases (k2 == k) <;> rfl
  | cons a t ih =>
    rcases a with ⟨a, b⟩
    simp only [List.cons_append, List.lookup_cons]
    cases (k2 == a) with
    | true => rfl
    | false => exact ih

theorem lookup_none_of_not_any {κ ν : Type} [BEq κ] [LawfulBEq κ] (m : List (κ × ν)) (k : κ)
    (h : (m.any fun e => e.1 == k) = false) : m.lookup k = none := by
  induction m with
  | nil => rfl
  | cons a t ih =>
    rcases a with ⟨a, b⟩
    simp only [List.any_cons, Bool.or_eq_false_iff] at h
    have hka : (k == a) = false := by
      cases hx : (k == a) with
      | false => rfl
      | true =>
        rw [eq_of_beq hx, beq_self_eq_true] at h
        cases h.1
    simp only [List.lookup_cons, hka]
    exact ih h.2

theorem lookup_mapSet {κ ν : Type} [BEq κ] [LawfulBEq κ] (m : List (κ × ν)) (k k2 : κ) (v : ν) :
    (mapSet m k v).lookup k2 = if k2 == k then some v else m.lookup k2 := by
  unfold mapSet
  by_cases ha : (m.any fun e => e.1 == k) = true
  · simp only [ha, if_true]
    by_cases hk : (k2 == k) = true
    · simp only [hk, if_true]
      rw [eq_of_beq hk]
      exact lookup_map_same m k v ha
    · simp only [hk, if_false, Bool.false_eq_true]
      exact lookup_map_other m k k2 v (Bool.eq_false_iff.mpr hk)
  · simp only [ha, if_false, Bool.false_eq_true]
    rw [lookup_append_single]
    by_cases hk : (k2 == k) = true
    · simp only [hk, if_true]
      rw [eq_of_beq hk, lookup_none_of_not_any m k (Bool.eq_false_iff.mpr ha)]
    · simp only [hk, if_false, Bool.false_eq_true]
      cases m.lookup k2 <;> rfl

/-! ## The desired state is a function of its inputs -/

theorem collect_congr (c : genericTransportController) (invName : String) (w w2 : World)
    (h1 : w2.inventory = w.inventory) (h2 : w2.propCfgMaps = w.propCfgMaps) :
    collectPropertiesForDestination c invName w2 = collectPropertiesForDestination c invName w := by
  unfold collectPropertiesForDestination
  rw [h1, h2]

theorem getPropertiesForDestination_spec (c : genericTransportController) (bindingName : String)
    (dest : Destination) (w : World) :
    (getPropertiesForDestination c bindingName dest w).1 = propsFor c w dest ∧
    (getPropertiesForDestination c bindingName dest w).2.wds = w.wds ∧
    (getPropertiesForDestination c bindingName dest w).2.its = w.its ∧
    (getPropertiesForDestination c bindingName dest w).2.trace = w.trace ∧
    ∀ d, propsFor c (getPropertiesForDestination c bindingName dest w).2 d = propsFor c w d := by
  unfold getPropertiesForDestination
  simp only
  cases hl : w.destinationProperties.lookup dest with
  | some props =>
    simp only
    refine ⟨?_, trivial, trivial, trivial, fun d => ?_⟩
    · simp only [propsFor, hl]
    · exact propsFor_of_inputs c _ _ rfl d
  | none =>
    simp only
    refine ⟨?_, trivial, trivial, trivial, fun d => ?_⟩
    · simp only [propsFor, hl]
      exact collect_congr c _ _ _ rfl rfl
    · simp only [propsFor]
      rw [lookup_mapSet]
      by_cases hd : (d == dest) = true
      · simp only [hd, if_true]
        rw [eq_of_beq hd, hl]
        exact collect_congr c _ _ _ rfl rfl
      · simp only [hd, if_false, Bool.false_eq_true]
        cases w.destinationProperties.lookup d with
        | some p => rfl
        | none => exact collect_congr c _ _ _ rfl rfl

theorem customizeStep_same (c : genericTransportController) (objs : List Unstructured)
    (b b2 : Binding) (objIdx : Nat) (obj : Unstructured) (req : Bool) (destIdx : Nat)
    (dest : Destination) (s s2 : CustomizeState)
    (hd : b2.destinations = b.destinations) (h : SameCustomize c s s2) :
    SameCustomize c (customizeStep c objs b objIdx obj req destIdx dest s)
      (customizeStep c objs b2 objIdx obj req destIdx dest s2) := by
  rcases s with ⟨m, e, f1, f2, w⟩
  rcases s2 with ⟨m2, e2, g1, g2, w2⟩
  rcases h with ⟨hm, he, hf1, hf2, hwds, hp⟩
  simp only at hm he hf1 hf2 hwds hp
  subst hm he hf1 hf2
  have k1 := getPropertiesForDestination_spec c b.name dest w
  have k2 := getPropertiesForDestination_spec c b2.name dest w2
  unfold customizeStep SameCustomize
  simp only [hd]
  by_cases hc : (req && (destIdx == 0 || g1)) = true
  · simp only [hc, if_true]
    rw [k2.1, hp dest, ← k1.1]
    generalize (getPropertiesForDestination c b.name dest w).1 = props
    have hsame : SameInputs c (getPropertiesForDestination c b.name dest w).2
        (getPropertiesForDestination c b2.name dest w2).2 :=
      ⟨by rw [k2.2.1, k1.2.1, hwds], fun d => by rw [k2.2.2.2.2 d, k1.2.2.2.2 d, hp d]⟩
    generalize (getPropertiesForDestination c b.name dest w).2 = wa at hsame ⊢
    generalize (getPropertiesForDestination c b2.name dest w2).2 = wb at hsame ⊢
    split <;> exact ⟨rfl, rfl, rfl, rfl, hsame⟩
  · simp only [hc, if_false, Bool.false_eq_true]
    split <;> exact ⟨rfl, rfl, rfl, rfl, hwds, hp⟩

theorem customizeDests_same (c : genericTransportController) (objs : List Unstructured)
    (b b2 : Binding) (objIdx : Nat) (obj : Unstructured) (req : Bool) (destIdx : Nat)
    (dests : List Destination) (s s2 : CustomizeState)
    (hd : b2.destinations = b.destinations) (h : SameCustomize c s s2) :
    SameCustomize c (customizeDests c objs b objIdx obj req destIdx dests s)
      (customizeDests c objs b2 objIdx obj req destIdx dests s2) := by
  induction dests generalizing destIdx s s2 with
  | nil => exact h
  | cons d rest ih =>
    rw [customizeDests, customizeDests]
    exact ih _ _ _ (customizeStep_same c objs b b2 objIdx obj req destIdx d s s2 hd h)

theorem customizeObjects_same (c : genericTransportController) (objs : List Unstructured)
    (b b2 : Binding) (objIdx : Nat) (todo : List Unstructured) (s s2 : CustomizeState)
    (hd : b2.destinations = b.destinations) (h : SameCustomize c s s2) :
    SameCustomize c (customizeObjects c objs b objIdx todo s)
      (customizeObjects c objs b2 objIdx todo s2) := by
  induction todo generalizing objIdx s s2 with
  | nil => exact h
  | cons o rest ih =>
    rw [customizeObjects, customizeObjects]
    simp only [hd]
    apply ih
    apply customizeDests_same c objs b b2 _ _ _ _ _ _ _ hd
    exact ⟨h.1, h.2.1, rfl, rfl, h.2.2.2.2⟩

theorem setBindingSensitivities_inputs (name : String) (dests : Option (List Destination))
    (w : World) : (setBindingSensitivities name dests w).inputs = w.inputs := by
  unfold setBindingSensitivities
  cases dests <;> rfl

theorem computeDestToCustomizedObjects_same (c : genericTransportController)
    (objs : List Unstructured) (b b2 : Binding) (w w2 : World)
    (hd : b2.destinations = b.destinations) (h : SameInputs c w w2) :
    (computeDestToCustomizedObjects c objs b2 w2).1 =
        (computeDestToCustomizedObjects c objs b w).1 ∧
    (computeDestToCustomizedObjects c objs b2 w2).2.1 =
        (computeDestToCustomizedObjects c objs b w).2.1 := by
  have hs := customizeObjects_same c objs b b2 0 objs ⟨none, [], false, false, w⟩
    ⟨none, [], false, false, w2⟩ hd ⟨rfl, rfl, rfl, rfl, h⟩
  unfold computeDestToCustomizedObjects
  exact ⟨hs.1, hs.2.1⟩

theorem customizeStep_world (c : genericTransportController) (objs : List Unstructured)
    (b : Binding) (objIdx : Nat) (obj : Unstructured) (req : Bool) (destIdx : Nat)
    (dest : Destination) (s : CustomizeState) :
    SameInputs c s.world (customizeStep c objs b objIdx obj req destIdx dest s).world ∧
    (customizeStep c objs b objIdx obj req destIdx dest s).world.its = s.world.its ∧
    (customizeStep c objs b objIdx obj req destIdx dest s).world.trace = s.world.trace := by
  have k1 := getPropertiesForDestination_spec c b.name dest s.world
  unfold customizeStep
  simp only
  by_cases hc : (req && (destIdx == 0 || s.customizeThisObject)) = true
  · simp only [hc, if_true]
    split <;> exact ⟨⟨k1.2.1, k1.2.2.2.2⟩, k1.2.2.1, k1.2.2.2.1⟩
  · simp only [hc, if_false, Bool.false_eq_true]
    split <;> exact ⟨⟨rfl, fun _ => rfl⟩, rfl, rfl⟩

theorem customizeDests_world (c : genericTransportController) (objs : List Unstructured)
    (b : Binding) (objIdx : Nat) (obj : Unstructured) (req : Bool) (destIdx : Nat)
    (dests : List Destination) (s : CustomizeState) :
    SameInputs c s.world (customizeDests c objs b objIdx obj req destIdx dests s).world ∧
    (customizeDests c objs b objIdx obj req destIdx dests s).world.its = s.world.its ∧
    (customizeDests c objs b objIdx obj req destIdx dests s).world.trace = s.world.trace := by
  induction dests generalizing destIdx s with
  | nil => exact ⟨⟨rfl, fun _ => rfl⟩, rfl, rfl⟩
  | cons d rest ih =>
    rw [customizeDests]
    have h1 := customizeStep_world c objs b objIdx obj req destIdx d s
    have h2 := ih (destIdx + 1) (customizeStep c objs b objIdx obj req destIdx d s)
    exact ⟨h1.1.trans h2.1, h2.2.1.trans h1.2.1, h2.2.2.trans h1.2.2⟩

theorem customizeObjects_world (c : genericTransportController) (objs : List Unstructured)
    (b : Binding) (objIdx : Nat) (todo : List Unstructured) (s : CustomizeState) :
    SameInputs c s.world (customizeObjects c objs b objIdx todo s).world ∧
    (customizeObjects c objs b objIdx todo s).world.its = s.world.its ∧
    (customizeObjects c objs b objIdx todo s).world.trace = s.world.trace := by
  induction todo generalizing objIdx s with
  | nil => exact ⟨⟨rfl, fun _ => rfl⟩, rfl, rfl⟩
  | cons o rest ih =>
    rw [customizeObjects]
    have h1 := customizeDests_world c objs b objIdx o
      (o.annotations.lookup TemplateExpansionAnnotationKey == some "true") 0 b.destinations
      { s with customizeThisObject := false, reportedSomeErrors := false }
    have h2 := ih (objIdx + 1) (customizeDests c objs b objIdx o
      (o.annotations.lookup TemplateExpansionAnnotationKey == some "true") 0 b.destinations
      { s with customizeThisObject := false, reportedSomeErrors := false })
    exact ⟨h1.1.trans h2.1, h2.2.1.trans h1.2.1, h2.2.2.trans h1.2.2⟩

theorem computeDestToCustomizedObjects_world (c : genericTransportController)
    (objs : List Unstructured) (b : Binding) (w : World) :
    SameInputs c w (computeDestToCustomizedObjects c objs b w).2.2 ∧
    (computeDestToCustomizedObjects c objs b w).2.2.its = w.its ∧
    (computeDestToCustomizedObjects c objs b w).2.2.trace = w.trace := by
  have h := customizeObjects_world c objs b 0 objs ⟨none, [], false, false, w⟩
  unfold computeDestToCustomizedObjects
  simp only
  refine ⟨h.1.trans (sameInputs_of_inputs c _ _ (setBindingSensitivities_inputs _ _ _)), ?_, ?_⟩
  · exact h.2.1
  · exact h.2.2

theorem wdsGet_found (gvr : GroupVersionResource) (ns name : String) (w : World)
    (o : Unstructured) (h : (wdsGet gvr ns name w).1 = .ok o) :
    (w.wds.find? (fun e => e.1 == gvr && e.2.isAt ns name)).map (fun e => e.2) = some o := by
  unfold wdsGet at h
  have hw := call_wds w (Call.wdsGet gvr ns name)
  rcases hc : w.call (Call.wdsGet gvr ns name) with ⟨f, w1⟩
  rw [hc] at h hw
  simp only at hw
  cases f with
  | some m => cases h
  | none =>
    simp only at h
    rw [← hw]
    cases hf : w1.wds.find? (fun e => e.1 == gvr && e.2.isAt ns name) with
    | none =>
      rw [hf] at h
      cases h
    | some e =>
      rw [hf] at h
      simp only [Except.ok.injEq] at h
      simp [h]

theorem wdsGet_its (gvr : GroupVersionResource) (ns name : String) (w : World) :
    (wdsGet gvr ns name w).2.its = w.its := by
  unfold wdsGet
  have ht := call_its w (Call.wdsGet gvr ns name)
  rcases hc : w.call (Call.wdsGet gvr ns name) with ⟨f, w1⟩
  rw [hc] at ht
  cases f with
  | some m => exact ht
  | none =>
    simp only
    split <;> exact ht

theorem getClusterScoped_frame (c : genericTransportController)
    (objs : List ClusterScopeDownsyncObject) (acc : List Unstructured) (w : World) :
    (getClusterScoped c objs acc w).2.its = w.its ∧
    (getClusterScoped c objs acc w).2.inputs = w.inputs := by
  induction objs generalizing acc w with
  | nil => exact ⟨rfl, rfl⟩
  | cons o rest ih =>
    rw [getClusterScoped]
    have h1 := wdsGet_its o.gvr "" o.name w
    have h2 := wdsGet_inputs o.gvr "" o.name w
    rcases hx : wdsGet o.gvr "" o.name w with ⟨r, w1⟩
    rw [hx] at h1 h2
    cases r with
    | error e => exact ⟨h1, h2⟩
    | ok obj =>
      simp only
      have := ih (acc ++ [cleanObject c obj]) w1
      exact ⟨this.1.trans h1, this.2.trans h2⟩

theorem getNamespaceScoped_frame (c : genericTransportController)
    (objs : List NamespaceScopeDownsyncObject) (acc : List Unstructured) (w : World) :
    (getNamespaceScoped c objs acc w).2.its = w.its ∧
    (getNamespaceScoped c objs acc w).2.inputs = w.inputs := by
  induction objs generalizing acc w with
  | nil => exact ⟨rfl, rfl⟩
  | cons o rest ih =>
    rw [getNamespaceScoped]
    have h1 := wdsGet_its o.gvr o.ns o.name w
    have h2 := wdsGet_inputs o.gvr o.ns o.name w
    rcases hx : wdsGet o.gvr o.ns o.name w with ⟨r, w1⟩
    rw [hx] at h1 h2
    cases r with
    | error e => exact ⟨h1, h2⟩
    | ok obj =>
      simp only
      have := ih (acc ++ [cleanObject c obj]) w1
      exact ⟨this.1.trans h1, this.2.trans h2⟩

theorem getClusterScoped_same (c : genericTransportController)
    (objs : List ClusterScopeDownsyncObject) (acc : List Unstructured) (w w2 : World)
    (r r2 : List Unstructured) (hw : w2.wds = w.wds)
    (h1 : (getClusterScoped c objs acc w).1 = .ok r)
    (h2 : (getClusterScoped c objs acc w2).1 = .ok r2) : r2 = r := by
  induction objs generalizing acc w w2 with
  | nil =>
    rw [getClusterScoped] at h1 h2
    cases h1
    cases h2
    rfl
  | cons o rest ih =>
    rw [getClusterScoped] at h1 h2
    have f1 := wdsGet_found o.gvr "" o.name w
    have f2 := wdsGet_found o.gvr "" o.name w2
    have s1 := (wdsGet_spec o.gvr "" o.name w).2.1
    have s2 := (wdsGet_spec o.gvr "" o.name w2).2.1
    rcases hx : wdsGet o.gvr "" o.name w with ⟨a, w1⟩
    rcases hy : wdsGet o.gvr "" o.name w2 with ⟨a2, w3⟩
    rw [hx] at h1 f1 s1
    rw [hy] at h2 f2 s2
    cases a with
    | error e => cases h1
    | ok obj =>
      cases a2 with
      | error e => cases h2
      | ok obj2 =>
        simp only at h1 h2 s1 s2
        have e1 := f1 obj rfl
        have e2 := f2 obj2 rfl
        rw [hw, e1] at e2
        simp only [Option.some.injEq] at e2
        subst e2
        exact ih _ w1 w3 (by rw [s2, s1, hw]) h1 h2

theorem getNamespaceScoped_same (c : genericTransportController)
    (objs : List NamespaceScopeDownsyncObject) (acc : List Unstructured) (w w2 : World)
    (r r2 : List Unstructured) (hw : w2.wds = w.wds)
    (h1 : (getNamespaceScoped c objs acc w).1 = .ok r)
    (h2 : (getNamespaceScoped c objs acc w2).1 = .ok r2) : r2 = r := by
  induction objs generalizing acc w w2 with
  | nil =>
    rw [getNamespaceScoped] at h1 h2
    cases h1
    cases h2
    rfl
  | cons o rest ih =>
    rw [getNamespaceScoped] at h1 h2
    have f1 := wdsGet_found o.gvr o.ns o.name w
    have f2 := wdsGet_found o.gvr o.ns o.name w2
    have s1 := (wdsGet_spec o.gvr o.ns o.name w).2.1
    have s2 := (wdsGet_spec o.gvr o.ns o.name w2).2.1
    rcases hx : wdsGet o.gvr o.ns o.name w with ⟨a, w1⟩
    rcases hy : wdsGet o.gvr o.ns o.name w2 with ⟨a2, w3⟩
    rw [hx] at h1 f1 s1
    rw [hy] at h2 f2 s2
    cases a with
    | error e => cases h1
    | ok obj =>
      cases a2 with
      | error e => cases h2
      | ok obj2 =>
        simp only at h1 h2 s1 s2
        have e1 := f1 obj rfl
        have e2 := f2 obj2 rfl
        rw [hw, e1] at e2
        simp only [Option.some.injEq] at e2
        subst e2
        exact ih _ w1 w3 (by rw [s2, s1, hw]) h1 h2

theorem getObjectsFromWDS_frame (c : genericTransportController) (b : Binding) (w : World) :
    (getObjectsFromWDS c b w).2.its = w.its ∧
    (getObjectsFromWDS c b w).2.inputs = w.inputs ∧
    ∃ calls, (getObjectsFromWDS c b w).2.trace = w.trace ++ calls ∧
      ∀ x ∈ calls, ∃ g ns n, x = Call.wdsGet g ns n := by
  unfold getObjectsFromWDS
  have h1 := getClusterScoped_frame c b.clusterScope [] w
  rcases (getClusterScoped_spec c b.clusterScope [] w).2.1 with ⟨calls1, t1, p1⟩
  rcases hx : getClusterScoped c b.clusterScope [] w with ⟨r, w1⟩
  rw [hx] at h1 t1
  simp only at h1 t1
  cases r with
  | error e => exact ⟨h1.1, h1.2, calls1, t1, p1⟩
  | ok objs =>
    simp only
    have h2 := getNamespaceScoped_frame c b.namespaceScope objs w1
    rcases (getNamespaceScoped_spec c b.namespaceScope objs w1).2.1 with ⟨calls2, t2, p2⟩
    refine ⟨h2.1.trans h1.1, h2.2.trans h1.2, calls1 ++ calls2, ?_, ?_⟩
    · rw [t2, t1, List.append_assoc]
    · intro x hx2
      rcases List.mem_append.mp hx2 with h | h
      · exact p1 x h
      · exact p2 x h

theorem getObjectsFromWDS_same (c : genericTransportController) (b b2 : Binding)
    (w w2 : World) (r r2 : List Unstructured) (hs : SameSpec b b2) (hw : w2.wds = w.wds)
    (h1 : (getObjectsFromWDS c b w).1 = .ok r)
    (h2 : (getObjectsFromWDS c b2 w2).1 = .ok r2) : r2 = r := by
  unfold getObjectsFromWDS at h1 h2
  rw [hs.2.2.1, hs.2.2.2.1] at h2
  have k1 := getClusterScoped_same c b.clusterScope [] w w2
  have s1 := (getClusterScoped_spec c b.clusterScope [] w).1
  have s2 := (getClusterScoped_spec c b.clusterScope [] w2).1
  rcases hx : getClusterScoped c b.clusterScope [] w with ⟨a, w1⟩
  rcases hy : getClusterScoped c b.clusterScope [] w2 with ⟨a2, w3⟩
  rw [hx] at h1 k1 s1
  rw [hy] at h2 k1 s2
  cases a with
  | error e => cases h1
  | ok objs =>
    cases a2 with
    | error e => cases h2
    | ok objs2 =>
      simp only at h1 h2 s1 s2
      have := k1 objs objs2 hw rfl rfl
      subst this
      exact getNamespaceScoped_same c b.namespaceScope objs2 w1 w3 r r2 (by rw [s2, s1, hw]) h1 h2

theorem computeDestToWrappedObjects_frame (c : genericTransportController) (b : Binding)
    (w : World) :
    SameInputs c w (computeDestToWrappedObjects c b w).2 ∧
    (computeDestToWrappedObjects c b w).2.its = w.its ∧
    ∃ calls, (computeDestToWrappedObjects c b w).2.trace = w.trace ++ calls ∧
      ∀ x ∈ calls, ∃ g ns n, x = Call.wdsGet g ns n := by
  unfold computeDestToWrappedObjects
  rcases getObjectsFromWDS_frame c b w with ⟨h1, h2, calls, h3, h4⟩
  rcases hx : getObjectsFromWDS c b w with ⟨r, w1⟩
  rw [hx] at h1 h2 h3
  simp only at h1 h2 h3
  have hs1 := sameInputs_of_inputs c w w1 h2
  cases r with
  | error e => exact ⟨hs1, h1, calls, h3, h4⟩
  | ok objs =>
    simp only
    split
    · exact ⟨hs1, h1, calls, h3, h4⟩
    · have k := computeDestToCustomizedObjects_world c objs b w1
      rcases hy : computeDestToCustomizedObjects c objs b w1 with ⟨m, errs, w2⟩
      rw [hy] at k
      simp only at k
      have hfin : SameInputs c w w2 ∧ w2.its = w.its ∧
          ∃ calls, w2.trace = w.trace ++ calls ∧ ∀ x ∈ calls, ∃ g ns n, x = Call.wdsGet g ns n :=
        ⟨hs1.trans k.1, k.2.1.trans h1, calls, k.2.2.trans h3, h4⟩
      cases m with
      | some dm =>
        simp only
        split <;> exact hfin
      | none =>
        simp only
        split <;> exact hfin

theorem computeDestToWrappedObjects_same (c : genericTransportController) (b b2 : Binding)
    (w w2 : World) (out out2 : WrappedOut) (hs : SameSpec b b2) (hi : SameInputs c w w2)
    (h1 : (computeDestToWrappedObjects c b w).1 = .ok out)
    (h2 : (computeDestToWrappedObjects c b2 w2).1 = .ok out2) :
    out2.bindingErrors = out.bindingErrors ∧
    out2.destToWrappedObject.isSome = out.destToWrappedObject.isSome := by
  unfold computeDestToWrappedObjects at h1 h2
  have g1 := getObjectsFromWDS_same c b b2 w w2
  have f1 := (getObjectsFromWDS_frame c b w).2.1
  have f2 := (getObjectsFromWDS_frame c b2 w2).2.1
  rcases hx : getObjectsFromWDS c b w with ⟨r, w1⟩
  rcases hy : getObjectsFromWDS c b2 w2 with ⟨r2, w3⟩
  rw [hx] at h1 g1 f1
  rw [hy] at h2 g1 f2
  cases r with
  | error e => cases h1
  | ok objs =>
    cases r2 with
    | error e => cases h2
    | ok objs2 =>
      have := g1 objs objs2 hs hi.1 rfl rfl
      subst this
      simp only at h1 h2 f1 f2
      by_cases hl : objs2.length = 0
      · simp only [hl, if_true, Except.ok.injEq] at h1 h2
        subst h1 h2
        exact ⟨rfl, rfl⟩
      · simp only [hl, if_false] at h1 h2
        have hi2 : SameInputs c w1 w3 :=
          ((sameInputs_of_inputs c w w1 f1).symm.trans hi).trans (sameInputs_of_inputs c w2 w3 f2)
        have k := computeDestToCustomizedObjects_same c objs2 b b2 w1 w3 hs.2.2.2.2 hi2
        rcases hp : computeDestToCustomizedObjects c objs2 b w1 with ⟨m, errs, w4⟩
        rcases hq : computeDestToCustomizedObjects c objs2 b2 w3 with ⟨m2, errs2, w5⟩
        rw [hp, hq] at k
        rw [hp] at h1
        rw [hq] at h2
        simp only at k
        rcases k with ⟨km, ke⟩
        subst km ke
        cases m2 with
        | some dm =>
          simp only at h1 h2
          cases ha : wrapAll c b dm with
          | error e =>
            rw [ha] at h1
            cases h1
          | ok x =>
            rw [ha] at h1
            cases hb : wrapAll c b2 dm with
            | error e =>
              rw [hb] at h2
              cases h2
            | ok y =>
              rw [hb] at h2
              simp only [Except.ok.injEq] at h1 h2
              subst h1 h2
              exact ⟨rfl, rfl⟩
        | none =>
          simp only at h1 h2
          cases ha : wrap c objs2 b with
          | error e =>
            rw [ha] at h1
            cases h1
          | ok x =>
            rw [ha] at h1
            cases hb : wrap c objs2 b2 with
            | error e =>
              rw [hb] at h2
              cases h2
            | ok y =>
              rw [hb] at h2
              simp only [Except.ok.injEq] at h1 h2
              subst h1 h2
              exact ⟨rfl, rfl⟩

theorem writeStatus_spec (binding : Binding) (errs : List String) (w : World) :
    (writeStatus binding errs w).2.its = w.its ∧
    (writeStatus binding errs w).2.inputs = w.inputs ∧
    (((binding.status.observedGeneration = binding.generation ∧ binding.status.errors = errs) ∧
        writeStatus binding errs w = (none, w)) ∨
      (writeStatus binding errs w).2.trace = w.trace ++
        [Call.bindingUpdateStatus { binding with status := ⟨binding.generation, errs⟩ }]) := by
  unfold writeStatus
  by_cases hst : (binding.status.observedGeneration != binding.generation ||
      !(binding.status.errors == errs)) = true
  · simp only [hst, if_true]
    have h3 := bindingUpdateStatus_spec { binding with status := ⟨binding.generation, errs⟩ } w
    have h4 := bindingUpdateStatus_inputs { binding with status := ⟨binding.generation, errs⟩ } w
    rcases hx : bindingUpdateStatus { binding with status := ⟨binding.generation, errs⟩ } w
      with ⟨r, w1⟩
    rw [hx] at h3 h4
    cases r <;> exact ⟨h3.2, h4, Or.inr h3.1⟩
  · simp only [hst, if_false, Bool.false_eq_true]
    refine ⟨trivial, trivial, Or.inl ⟨?_, trivial⟩⟩
    simp only [Bool.or_eq_true, bne_iff_ne, ne_eq, Bool.not_eq_true', beq_eq_false_iff_ne,
      not_or, not_not] at hst
    exact hst

/-! ## Facts about a reconcile that succeeds -/

theorem createOrUpdate_calls (ns : String) (p : Nat) (obj : Unstructured) (heap : Heap)
    (w : World) :
    ∃ calls, (createOrUpdateWrappedObject ns p obj heap w).2.2.trace = w.trace ++ calls ∧
      ∀ x ∈ calls, x.touchesWrappedObject = true := by
  rcases createOrUpdate_invokes ns p obj heap w with ⟨rest, h1, h2⟩
  refine ⟨Call.itsGet ns obj.name :: rest, h1, ?_⟩
  intro x hx
  rcases List.mem_cons.mp hx with h | h
  · rw [h]
    rfl
  · rcases h2 x h with h3 | ⟨rv, h3⟩
    · rw [h3]
      rfl
    · rw [h3]
      rfl

theorem propagateStep_calls (desired : DestToWrapped) (broken : Bool) (d : Destination)
    (items : List Unstructured) (heap : Heap) (w : World) :
    ∃ calls, (propagateStep desired broken d items heap w).world.trace = w.trace ++ calls ∧
      ∀ x ∈ calls, x.touchesWrappedObject = true := by
  rcases propagateStep_cases desired broken d items heap w with h | ⟨p, des, _, _, _, h, _⟩
  · exact ⟨[], by rw [h.1]; simp, by simp⟩
  · rw [h]
    exact createOrUpdate_calls d.clusterId p des heap w

theorem propagateLoop_calls (desired : DestToWrapped) (broken : Bool) (ds : List Destination)
    (items : List Unstructured) (heap : Heap) (w : World) :
    ∃ calls, (propagateLoop desired broken ds items heap w).world.trace = w.trace ++ calls ∧
      ∀ x ∈ calls, x.touchesWrappedObject = true := by
  induction ds generalizing items heap w with
  | nil => exact ⟨[], by simp [propagateLoop], by simp⟩
  | cons d rest ih =>
    rcases propagateStep_calls desired broken d items heap w with ⟨c1, h1, h2⟩
    by_cases hs : (propagateStep desired broken d items heap w).res = .ok ()
    · rw [propagateLoop_cons_ok _ _ _ _ _ _ _ hs]
      rcases ih (propagateStep desired broken d items heap w).items
        (propagateStep desired broken d items heap w).heap
        (propagateStep desired broken d items heap w).world with ⟨c2, h3, h4⟩
      refine ⟨c1 ++ c2, by rw [h3, h1, List.append_assoc], ?_⟩
      intro x hx
      rcases List.mem_append.mp hx with h | h
      · exact h2 x h
      · exact h4 x h
    · rw [propagateLoop_cons_stop _ _ _ _ _ _ _ hs]
      exact ⟨c1, h1, h2⟩

theorem propagate_calls (desired : Option DestToWrapped) (items : List Unstructured)
    (heap : Heap) (ds : List Destination) (broken : Bool) (w : World) :
    ∃ calls, (propagateWrappedObjectToClusters desired items heap ds broken w).world.trace =
        w.trace ++ calls ∧
      ∀ x ∈ calls, x.touchesWrappedObject = true := by
  unfold propagateWrappedObjectToClusters
  cases desired with
  | none => exact ⟨[], by simp, by simp⟩
  | some f => exact propagateLoop_calls f broken ds items heap w

theorem propagate_inputs (desired : Option DestToWrapped) (items : List Unstructured)
    (heap : Heap) (ds : List Destination) (broken : Bool) (w : World) :
    (propagateWrappedObjectToClusters desired items heap ds broken w).world.inputs = w.inputs := by
  unfold propagateWrappedObjectToClusters
  cases desired with
  | none => rfl
  | some f => exact propagateLoop_inputs f broken ds items heap w

theorem update_ok_decompose (c : genericTransportController) (b : Binding) (w w1 : World)
    (h : updateWrappedObjectsAndFinalizer c b w = (.ok (), w1)) :
    ∃ wb out wc wd items2 heap2 we,
      (addFinalizerToBinding b w).1 = none ∧
      itsList (bindingSelector c b.name) (addFinalizerToBinding b w).2.2 =
        (.ok ((addFinalizerToBinding b w).2.2.its.filter
          (matchesSelector (bindingSelector c b.name))), wb) ∧
      computeDestToWrappedObjects c b wb = (.ok out, wc) ∧
      writeStatus b out.bindingErrors wc = (none, wd) ∧
      propagateWrappedObjectToClusters out.destToWrappedObject
        ((addFinalizerToBinding b w).2.2.its.filter (matchesSelector (bindingSelector c b.name)))
        out.heap b.destinations (out.bindingErrors.length != 0) wd = ⟨.ok (), items2, heap2, we⟩ ∧
      deleteLeftovers items2 we = (none, w1) := by
  unfold updateWrappedObjectsAndFinalizer at h
  rcases hx1 : addFinalizerToBinding b w with ⟨r1, g1, wa⟩
  rw [hx1] at h
  cases r1 with
  | some e => cases h
  | none =>
    simp only at h
    have hl := (itsList_spec (bindingSelector c b.name) wa).2.2
    rcases hx2 : itsList (bindingSelector c b.name) wa with ⟨r2, wb⟩
    rw [hx2] at h hl
    cases r2 with
    | error e => cases h
    | ok items =>
      simp only at h
      have hitems := hl items rfl
      subst hitems
      rcases hx3 : computeDestToWrappedObjects c b wb with ⟨r3, wc⟩
      rw [hx3] at h
      cases r3 with
      | error e => cases h
      | ok out =>
        simp only [converge] at h
        rcases hx4 : writeStatus b out.bindingErrors wc with ⟨r4, wd⟩
        rw [hx4] at h
        cases r4 with
        | some e => cases h
        | none =>
          simp only at h
          rcases hx5 : propagateWrappedObjectToClusters out.destToWrappedObject
            (wa.its.filter (matchesSelector (bindingSelector c b.name))) out.heap b.destinations
            (out.bindingErrors.length != 0) wd with ⟨r5, items2, heap2, we⟩
          rw [hx5] at h
          cases r5 with
          | err e => cases h
          | crash => cases h
          | ok u =>
            simp only at h
            rcases hx6 : deleteLeftovers items2 we with ⟨r6, wf⟩
            rw [hx6] at h
            cases r6 with
            | some e => cases h
            | none =>
              simp only [Prod.mk.injEq, true_and] at h
              subst h
              exact ⟨wb, out, wc, wd, items2, heap2, we, rfl, rfl, hx3, hx4, hx5, hx6⟩

/-! ## Facts about writes to the ITS -/

theorem itsGet_spec (ns name : String) (w : World) :
    (itsGet ns name w).2.its = w.its ∧
    (∀ u, (itsGet ns name w).1 = .ok u → presentIn w.its ns name = true) ∧
    (∀ e, (itsGet ns name w).1 = .error e → e.notFound = true →
      presentIn w.its ns name = false) := by
  unfold itsGet
  have hi := call_its w (Call.itsGet ns name)
  rcases hc : w.call (Call.itsGet ns name) with ⟨f, w1⟩
  rw [hc] at hi
  simp only at hi
  cases f with
  | some m =>
    refine ⟨hi, ?_, ?_⟩
    · intro u h
      cases h
    · intro e h hn
      simp only [Except.error.injEq] at h
      rw [← h] at hn
      cases hn
  | none =>
    simp only
    cases hf : w1.its.find? (fun u => u.isAt ns name) with
    | some u =>
      refine ⟨hi, ?_, ?_⟩
      · intro _ _
        unfold presentIn
        rw [← hi, List.any_eq_true]
        exact ⟨u, List.mem_of_find?_eq_some hf,
          @List.find?_some _ (fun u => u.isAt ns name) u _ hf⟩
      · intro e h
        cases h
    | none =>
      refine ⟨hi, ?_, ?_⟩
      · intro u h
        cases h
      · intro e _ _
        unfold presentIn
        rw [← hi]
        rw [List.find?_eq_none] at hf
        cases ha : w1.its.any (fun u => u.isAt ns name) with
        | false => rfl
        | true =>
          rcases List.any_eq_true.mp ha with ⟨u, hu, hat⟩
          exact absurd hat (hf u hu)

theorem itsCreate_spec (ns : String) (obj : Unstructured) (w : World) :
    (∀ e, (itsCreate ns obj w).1 = .error e → (itsCreate ns obj w).2.its = w.its) ∧
    (∀ u, (itsCreate ns obj w).1 = .ok u →
      (itsCreate ns obj w).2.its = w.its ++ [{ obj with ns := ns }] ∧
      presentIn w.its ns obj.name = false) := by
  unfold itsCreate
  have hi := call_its w (Call.itsCreate ns obj)
  rcases hc : w.call (Call.itsCreate ns obj) with ⟨f, w1⟩
  rw [hc] at hi
  simp only at hi
  cases f with
  | some m =>
    refine ⟨fun _ _ => hi, ?_⟩
    intro u h
    cases h
  | none =>
    by_cases h1 : obj.ns ≠ "" ∧ obj.ns ≠ ns
    · simp only [if_pos h1]
      refine ⟨fun _ _ => hi, ?_⟩
      intro u h
      cases h
    · simp only [if_neg h1]
      by_cases h2 : (w1.its.any fun u => u.isAt ns obj.name) = true
      · simp only [if_pos h2]
        refine ⟨fun _ _ => hi, ?_⟩
        intro u h
        cases h
      · simp only [if_neg h2]
        refine ⟨?_, ?_⟩
        · intro e h
          cases h
        · intro u _
          refine ⟨by rw [hi], ?_⟩
          unfold presentIn
          rw [← hi]
          exact Bool.eq_false_iff.mpr h2

theorem itsUpdate_spec (ns : String) (obj : Unstructured) (w : World) :
    (∀ e, (itsUpdate ns obj w).1 = .error e → (itsUpdate ns obj w).2.its = w.its) ∧
    (∀ u, (itsUpdate ns obj w).1 = .ok u →
      (itsUpdate ns obj w).2.its =
        w.its.map (fun x => if x.isAt ns obj.name then { obj with ns := ns } else x) ∧
      presentIn w.its ns obj.name = true) := by
  unfold itsUpdate
  have hi := call_its w (Call.itsUpdate ns obj)
  rcases hc : w.call (Call.itsUpdate ns obj) with ⟨f, w1⟩
  rw [hc] at hi
  simp only at hi
  cases f with
  | some m =>
    refine ⟨fun _ _ => hi, ?_⟩
    intro u h
    cases h
  | none =>
    by_cases h1 : obj.ns ≠ "" ∧ obj.ns ≠ ns
    · simp only [if_pos h1]
      refine ⟨fun _ _ => hi, ?_⟩
      intro u h
      cases h
    · simp only [if_neg h1]
      by_cases h2 : (w1.its.any fun u => u.isAt ns obj.name) = true
      · simp only [if_pos h2]
        refine ⟨?_, ?_⟩
        · intro e h
          cases h
        · intro u _
          refine ⟨by rw [hi], ?_⟩
          unfold presentIn
          rw [← hi]
          exact h2
      · simp only [if_neg h2]
        refine ⟨fun _ _ => hi, ?_⟩
        intro u h
        cases h

theorem createOrUpdate_ok (ns : String) (p : Nat) (des : Unstructured) (heap : Heap)
    (w : World) (h : (createOrUpdateWrappedObject ns p des heap w).1 = none) :
    ∃ rv, (createOrUpdateWrappedObject ns p des heap w).2.1 =
        heap.set p (des.setResourceVersion rv) ∧
      WriteStep ns des.name { des.setResourceVersion rv with ns := ns } w.its
        (createOrUpdateWrappedObject ns p des heap w).2.2.its := by
  unfold createOrUpdateWrappedObject at h ⊢
  have hg := itsGet_spec ns des.name w
  rcases hget : itsGet ns des.name w with ⟨r, w1⟩
  rw [hget] at hg h
  simp only at hg h
  cases r with
  | error e =>
    simp only at h ⊢
    by_cases hn : e.notFound = true
    · simp only [hn, Bool.not_true, Bool.false_eq_true, if_false] at h ⊢
      have hc := itsCreate_spec ns (des.setResourceVersion "") w1
      rcases hcr : itsCreate ns (des.setResourceVersion "") w1 with ⟨r2, w2⟩
      rw [hcr] at hc h
      cases r2 with
      | error e2 => simp at h
      | ok x =>
        simp only
        have := hc.2 x rfl
        simp only at this
        refine ⟨"", rfl, rfl, rfl, Or.inl ⟨?_, ?_⟩⟩
        · rw [this.1, hg.1]
        · rw [← hg.1]
          exact this.2
    · simp [hn] at h
  | ok existing =>
    simp only at h ⊢
    have hc := itsUpdate_spec ns (des.setResourceVersion existing.resourceVersion) w1
    rcases hcr : itsUpdate ns (des.setResourceVersion existing.resourceVersion) w1 with ⟨r2, w2⟩
    rw [hcr] at hc h
    cases r2 with
    | error e2 => simp at h
    | ok x =>
      simp only
      have := hc.2 x rfl
      simp only at this
      refine ⟨existing.resourceVersion, rfl, rfl, rfl, Or.inr ⟨?_, ?_⟩⟩
      · rw [this.1, hg.1]
        rfl
      · rw [← hg.1]
        exact this.2

theorem createOrUpdate_present (ns : String) (p : Nat) (des : Unstructured) (heap : Heap)
    (w : World) (hp : presentIn w.its ns des.name = true) :
    (∀ x ∈ newCalls w (createOrUpdateWrappedObject ns p des heap w).2.2,
      x.isCreate = false ∧ x.isDelete = false ∧ x.isStatusUpdate = false) ∧
    ((createOrUpdateWrappedObject ns p des heap w).1 ≠ none →
      (createOrUpdateWrappedObject ns p des heap w).2.2.its = w.its) := by
  unfold createOrUpdateWrappedObject newCalls
  have hg := itsGet_spec ns des.name w
  have ht := itsGet_trace ns des.name w
  rcases hget : itsGet ns des.name w with ⟨r, w1⟩
  rw [hget] at hg ht
  simp only at hg ht
  cases r with
  | error e =>
    simp only
    by_cases hn : e.notFound = true
    · have := hg.2.2 e rfl hn
      rw [hp] at this
      cases this
    · simp only [hn, Bool.not_false, if_true]
      refine ⟨?_, fun _ => hg.1⟩
      intro x hx
      rw [ht, List.drop_left] at hx
      simp only [List.mem_singleton] at hx
      subst hx
      exact ⟨rfl, rfl, rfl⟩
  | ok existing =>
    simp only
    have hc := itsUpdate_spec ns (des.setResourceVersion existing.resourceVersion) w1
    have hu := itsUpdate_trace ns (des.setResourceVersion existing.resourceVersion) w1
    rcases hcr : itsUpdate ns (des.setResourceVersion existing.resourceVersion) w1 with ⟨r2, w2⟩
    rw [hcr] at hc hu
    simp only at hc hu
    have hcalls : ∀ x ∈ List.drop w.trace.length w2.trace,
        x.isCreate = false ∧ x.isDelete = false ∧ x.isStatusUpdate = false := by
      intro x hx
      rw [hu, ht, List.append_assoc, List.drop_left] at hx
      simp only [List.singleton_append, List.mem_cons, List.mem_singleton, List.not_mem_nil,
        or_false] at hx
      rcases hx with h | h <;> subst h <;> exact ⟨rfl, rfl, rfl⟩
    cases r2 with
    | error e2 => exact ⟨hcalls, fun _ => (hc.1 e2 rfl).trans hg.1⟩
    | ok x => exact ⟨hcalls, fun h => absurd rfl h⟩

theorem isAt_iff_key (u : Unstructured) (ns name : String) :
    u.isAt ns name = true ↔ u.key = (ns, name) := by
  simp [Unstructured.isAt, Unstructured.key]

theorem presentIn_iff (its : List Unstructured) (ns name : String) :
    presentIn its ns name = true ↔ (ns, name) ∈ its.map Unstructured.key := by
  unfold presentIn
  rw [List.any_eq_true, List.mem_map]
  constructor
  · rintro ⟨u, hu, h⟩
    exact ⟨u, hu, (isAt_iff_key u ns name).mp h⟩
  · rintro ⟨u, hu, h⟩
    exact ⟨u, hu, (isAt_iff_key u ns name).mpr h⟩

theorem writeStep_keys (ns name : String) (s : Unstructured) (its its2 : List Unstructured)
    (h : WriteStep ns name s its its2) :
    (its2.map Unstructured.key = its.map Unstructured.key ++ [(ns, name)] ∧
        (ns, name) ∉ its.map Unstructured.key) ∨
    (its2.map Unstructured.key = its.map Unstructured.key ∧
        (ns, name) ∈ its.map Unstructured.key) := by
  rcases h with ⟨hns, hname, ⟨h1, h2⟩ | ⟨h1, h2⟩⟩
  · left
    constructor
    · rw [h1, List.map_append]
      simp [Unstructured.key, hns, hname]
    · intro hm
      have := (presentIn_iff its ns name).mpr hm
      rw [h2] at this
      cases this
  · right
    constructor
    · rw [h1, List.map_map]
      apply List.map_congr_left
      intro u _
      simp only [Function.comp]
      by_cases hat : u.isAt ns name = true
      · simp only [hat, if_true]
        rw [(isAt_iff_key u ns name).mp hat]
        simp [Unstructured.key, hns, hname]
      · simp only [hat, if_false, Bool.false_eq_true]
    · exact (presentIn_iff its ns name).mp h2

theorem writeStep_mem (ns name : String) (s : Unstructured) (its its2 : List Unstructured)
    (h : WriteStep ns name s its its2) : ∀ u ∈ its2, u ∈ its ∨ u = s := by
  rcases h with ⟨_, _, ⟨h1, _⟩ | ⟨h1, _⟩⟩
  · intro u hu
    rw [h1] at hu
    rcases List.mem_append.mp hu with h | h
    · exact Or.inl h
    · exact Or.inr (by simpa using h)
  · intro u hu
    rw [h1] at hu
    rcases List.mem_map.mp hu with ⟨v, hv, hr⟩
    by_cases hat : v.isAt ns name = true
    · simp only [hat, if_true] at hr
      exact Or.inr hr.symm
    · simp only [hat, if_false, Bool.false_eq_true] at hr
      exact Or.inl (hr ▸ hv)

theorem writeStep_present (ns name : String) (s : Unstructured) (its its2 : List Unstructured)
    (h : WriteStep ns name s its its2) :
    presentIn its2 ns name = true ∧
    ∀ a b, presentIn its a b = true → presentIn its2 a b = true := by
  rcases writeStep_keys ns name s its its2 h with ⟨hk, _⟩ | ⟨hk, hm⟩
  · constructor
    · rw [presentIn_iff, hk]
      simp
    · intro a b hab
      rw [presentIn_iff] at hab ⊢
      rw [hk]
      exact List.mem_append_left _ hab
  · constructor
    · rw [presentIn_iff, hk]
      exact hm
    · intro a b hab
      rw [presentIn_iff] at hab ⊢
      rw [hk]
      exact hab

theorem storeInv_write (sel : StrMap) (name : String) (cids : List String)
    (its its2 items : List Unstructured) (ns : String) (s : Unstructured)
    (hinv : StoreInv sel name cids its items) (hns : ns ∈ cids)
    (h : WriteStep ns name s its its2) : StoreInv sel name cids its2 items := by
  rcases hinv with ⟨i1, i2, i3, i4⟩
  have hmem := writeStep_mem ns name s its its2 h
  have hpres := writeStep_present ns name s its its2 h
  refine ⟨?_, ?_, ?_, ?_⟩
  · rcases writeStep_keys ns name s its its2 h with ⟨hk, hnot⟩ | ⟨hk, _⟩
    · rw [hk]
      apply List.Nodup.append i1 (List.nodup_singleton _)
      intro k hk1 hk2
      simp only [List.mem_singleton] at hk2
      subst hk2
      exact hnot hk1
    · rw [hk]
      exact i1
  · intro u hu hm
    rcases hmem u hu with h1 | h1
    · exact i2 u h1 hm
    · rw [h1]
      exact h.2.1
  · intro u hu hm
    rcases hmem u hu with h1 | h1
    · exact i3 u h1 hm
    · right
      rw [h1, h.1]
      exact hns
  · intro u hu
    exact hpres.2 _ _ (i4 u hu)

theorem pop_mem (items : List Unstructured) (ns : String) :
    (∀ u ∈ (popWrappedObjectByNamespace items ns).2, u ∈ items) ∧
    (∀ u ∈ items, u ∈ (popWrappedObjectByNamespace items ns).2 ∨ u.ns = ns) ∧
    (∀ cur, (popWrappedObjectByNamespace items ns).1 = some cur → cur ∈ items ∧ cur.ns = ns) := by
  rcases pop_spec items ns with ⟨h1, _⟩ | ⟨l1, x, l2, h1, h2, _, h4, h5⟩
  · rw [h1]
    refine ⟨fun u hu => hu, fun u hu => Or.inl hu, ?_⟩
    intro cur h
    cases h
  · refine ⟨?_, ?_, ?_⟩
    · intro u hu
      have := h5.mem_iff.mp hu
      rw [h1]
      rcases List.mem_append.mp this with h | h
      · exact List.mem_append_left _ h
      · exact List.mem_append_right _ (List.mem_cons_of_mem _ h)
    · intro u hu
      rw [h1] at hu
      rcases List.mem_append.mp hu with h | h
      · exact Or.inl (h5.mem_iff.mpr (List.mem_append_left _ h))
      · rcases List.mem_cons.mp h with h3 | h3
        · right
          rw [h3]
          exact h2
        · exact Or.inl (h5.mem_iff.mpr (List.mem_append_right _ h3))
    · intro cur hc
      rw [h4] at hc
      cases hc
      exact ⟨by rw [h1]; simp, h2⟩

theorem storeInv_pop (sel : StrMap) (name : String) (cids : List String)
    (its items : List Unstructured) (ns : String)
    (hinv : StoreInv sel name cids its items) (hns : ns ∈ cids) :
    StoreInv sel name cids its (popWrappedObjectByNamespace items ns).2 := by
  rcases hinv with ⟨i1, i2, i3, i4⟩
  have hp := pop_mem items ns
  refine ⟨i1, i2, ?_, fun u hu => i4 u (hp.1 u hu)⟩
  intro u hu hm
  rcases i3 u hu hm with h | h
  · rcases hp.2.1 u h with h2 | h2
    · exact Or.inl h2
    · right
      rw [h2]
      exact hns
  · exact Or.inr h

theorem deleteLeftovers_its_eq (items : List Unstructured) (w : World)
    (h : (deleteLeftovers items w).1 = none) :
    (deleteLeftovers items w).2.its =
      w.its.filter fun u => items.all fun x => !u.isAt x.ns x.name := by
  induction items generalizing w with
  | nil => simp [deleteLeftovers]
  | cons x rest ih =>
    rw [deleteLeftovers] at h ⊢
    have hi := deleteWrappedObject_its x.ns x.name w
    rcases hd : deleteWrappedObject x.ns x.name w with ⟨r, w1⟩
    rw [hd] at hi h
    cases r with
    | some e => simp at h
    | none =>
      simp only at h hi ⊢
      rw [ih w1 h, hi trivial, List.filter_filter]
      apply List.filter_congr
      intro u _
      simp only [List.all_cons]
      rw [Bool.and_comm]

/-! ## The ITS along the loop of `propagateWrappedObjectToClusters` -/

theorem deepEqual_name (x y : Unstructured) (h : deepEqual x y = true) : x.name = y.name := by
  simp only [deepEqual, Bool.and_eq_true, beq_iff_eq] at h
  exact h.1.1.1.1.1.1.1.1.1.1.1.1.1.2

theorem propagateStep_ok_cases (desired : DestToWrapped) (d : Destination)
    (items : List Unstructured) (heap : Heap) (w : World)
    (hok : (propagateStep desired false d items heap w).res = .ok ()) :
    (∃ p des cur, (desired d).1 = some p ∧ heap[p]? = some des ∧
        (popWrappedObjectByNamespace items d.clusterId).1 = some cur ∧
        deepEqual cur des = true ∧
        (propagateStep desired false d items heap w).world = w ∧
        (propagateStep desired false d items heap w).heap = heap) ∨
    (∃ p des, (desired d).1 = some p ∧ heap[p]? = some des ∧
        (createOrUpdateWrappedObject d.clusterId p des heap w).1 = none ∧
        (propagateStep desired false d items heap w).world =
          (createOrUpdateWrappedObject d.clusterId p des heap w).2.2 ∧
        (propagateStep desired false d items heap w).heap =
          (createOrUpdateWrappedObject d.clusterId p des heap w).2.1) := by
  unfold propagateStep at hok ⊢
  simp only [Bool.false_eq_true, if_false] at hok ⊢
  cases hp : (desired d).1 with
  | none =>
    rw [hp] at hok
    cases hok
  | some p =>
    rw [hp] at hok
    simp only at hok ⊢
    cases hd : heap[p]? with
    | none =>
      rw [hd] at hok
      cases hok
    | some des =>
      rw [hd] at hok
      simp only at hok ⊢
      cases ha : (popWrappedObjectByNamespace items d.clusterId).1.any
          (fun cur => deepEqual cur des) with
      | true =>
        left
        simp only [if_true]
        cases hc : (popWrappedObjectByNamespace items d.clusterId).1 with
        | none =>
          rw [hc] at ha
          cases ha
        | some cur =>
          rw [hc] at ha
          exact ⟨p, des, cur, rfl, hd, rfl, by simpa using ha, trivial, trivial⟩
      | false =>
        right
        rw [ha] at hok
        simp only [Bool.false_eq_true, if_false] at hok ⊢
        refine ⟨p, des, rfl, hd, ?_⟩
        rcases hx : createOrUpdateWrappedObject d.clusterId p des heap w with ⟨r, h1, w1⟩
        rw [hx] at hok
        cases r with
        | none => exact ⟨rfl, rfl, rfl⟩
        | some e => cases hok

theorem propagateStep_inv (desired : DestToWrapped) (broken : Bool) (d : Destination)
    (items : List Unstructured) (heap : Heap) (w : World) (sel : StrMap) (name : String)
    (cids : List String) (hd : d.clusterId ∈ cids)
    (hinv : StoreInv sel name cids w.its items) (hheap : ∀ o ∈ heap, o.name = name)
    (hok : (propagateStep desired broken d items heap w).res = .ok ()) :
    StoreInv sel name cids (propagateStep desired broken d items heap w).world.its
        (propagateStep desired broken d items heap w).items ∧
    (∀ o ∈ (propagateStep desired broken d items heap w).heap, o.name = name) ∧
    (∀ a b, presentIn w.its a b = true →
      presentIn (propagateStep desired broken d items heap w).world.its a b = true) ∧
    (broken = false →
      presentIn (propagateStep desired broken d items heap w).world.its d.clusterId name
        = true) := by
  rw [propagateStep_items]
  have hpop := storeInv_pop sel name cids w.its items d.clusterId hinv hd
  cases broken with
  | true =>
    rw [propagateStep_broken]
    refine ⟨hpop, hheap, fun _ _ h => h, ?_⟩
    intro h
    cases h
  | false =>
    rcases propagateStep_ok_cases desired d items heap w hok with
      ⟨p, des, cur, _, hdes, hcur, heq, hw, hh⟩ | ⟨p, des, _, hdes, hnone, hw, hh⟩
    · rw [hw, hh]
      refine ⟨hpop, hheap, fun _ _ h => h, fun _ => ?_⟩
      have hc := (pop_mem items d.clusterId).2.2 cur hcur
      have hn : cur.name = name := by
        rw [deepEqual_name cur des heq]
        exact hheap des (List.getElem?_mem hdes)
      have := hinv.2.2.2 cur hc.1
      rw [hc.2, hn] at this
      exact this
    · rcases createOrUpdate_ok d.clusterId p des heap w hnone with ⟨rv, hheap2, hws⟩
      rw [hw, hh, hheap2]
      have hn : des.name = name := hheap des (List.getElem?_mem hdes)
      rw [hn] at hws
      have hpres := writeStep_present _ _ _ _ _ hws
      refine ⟨storeInv_write sel name cids _ _ _ d.clusterId _ hpop hd hws, ?_, hpres.2,
        fun _ => hpres.1⟩
      intro o ho
      rcases List.mem_or_eq_of_mem_set ho with h | h
      · exact hheap o h
      · rw [h]
        exact hn

theorem propagateLoop_inv (desired : DestToWrapped) (broken : Bool) (ds : List Destination)
    (items : List Unstructured) (heap : Heap) (w : World) (sel : StrMap) (name : String)
    (cids : List String) (hd : ∀ d ∈ ds, d.clusterId ∈ cids)
    (hinv : StoreInv sel name cids w.its items) (hheap : ∀ o ∈ heap, o.name = name)
    (hok : (propagateLoop desired broken ds items heap w).res = .ok ()) :
    StoreInv sel name cids (propagateLoop desired broken ds items heap w).world.its
        (propagateLoop desired broken ds items heap w).items ∧
    (∀ a b, presentIn w.its a b = true →
      presentIn (propagateLoop desired broken ds items heap w).world.its a b = true) ∧
    (broken = false → ∀ d ∈ ds,
      presentIn (propagateLoop desired broken ds items heap w).world.its d.clusterId name
        = true) := by
  induction ds generalizing items heap w with
  | nil =>
    rw [propagateLoop]
    refine ⟨hinv, fun _ _ h => h, ?_⟩
    intro _ d hd2
    cases hd2
  | cons d rest ih =>
    by_cases hs : (propagateStep desired broken d items heap w).res = .ok ()
    · rw [propagateLoop_cons_ok _ _ _ _ _ _ _ hs] at hok ⊢
      rcases propagateStep_inv desired broken d items heap w sel name cids
        (hd d (List.mem_cons_self _ _)) hinv hheap hs with ⟨s1, s2, s3, s4⟩
      rcases ih _ _ _ (fun x hx => hd x (List.mem_cons_of_mem _ hx)) s1 s2 hok with ⟨k1, k2, k3⟩
      refine ⟨k1, fun a b h => k2 a b (s3 a b h), ?_⟩
      intro hb x hx
      rcases List.mem_cons.mp hx with h | h
      · rw [h]
        exact k2 _ _ (s4 hb)
      · exact k3 hb x h
    · rw [propagateLoop_cons_stop _ _ _ _ _ _ _ hs] at hok
      exact absurd hok hs

theorem wrap_name (c : genericTransportController) (objs : List Unstructured) (b : Binding)
    (x : Unstructured) (h : wrap c objs b = .ok x) : x.name = b.name ++ "-" ++ c.wdsName := by
  unfold wrap at h
  cases hw : c.wrapObjects objs with
  | error e =>
    rw [hw] at h
    cases h
  | ok y =>
    rw [hw] at h
    simp only [Except.ok.injEq] at h
    rw [← h]

theorem wrapAll_names (c : genericTransportController) (b : Binding)
    (m : List (Destination × List Unstructured)) (dests : List Destination) (heap : Heap)
    (h : wrapAll c b m = .ok (dests, heap)) :
    ∀ o ∈ heap, o.name = b.name ++ "-" ++ c.wdsName := by
  induction m generalizing dests heap with
  | nil =>
    rw [wrapAll] at h
    simp only [Except.ok.injEq, Prod.mk.injEq] at h
    intro o ho
    rw [← h.2] at ho
    cases ho
  | cons e rest ih =>
    rcases e with ⟨dest, objects⟩
    rw [wrapAll] at h
    cases hw : wrap c objects b with
    | error e2 =>
      rw [hw] at h
      cases h
    | ok x =>
      rw [hw] at h
      simp only at h
      cases hr : wrapAll c b rest with
      | error e2 =>
        rw [hr] at h
        cases h
      | ok y =>
        rcases y with ⟨ds2, hp2⟩
        rw [hr] at h
        simp only [Except.ok.injEq, Prod.mk.injEq] at h
        intro o ho
        rw [← h.2] at ho
        rcases List.mem_cons.mp ho with h1 | h1
        · rw [h1]
          exact wrap_name c objects b x hw
        · exact ih ds2 hp2 hr o h1

theorem computeDestToWrappedObjects_names (c : genericTransportController) (b : Binding)
    (w : World) (out : WrappedOut) (h : (computeDestToWrappedObjects c b w).1 = .ok out) :
    ∀ o ∈ out.heap, o.name = b.name ++ "-" ++ c.wdsName := by
  unfold computeDestToWrappedObjects at h
  rcases hx : getObjectsFromWDS c b w with ⟨r, w1⟩
  rw [hx] at h
  cases r with
  | error e => cases h
  | ok objs =>
    simp only at h
    by_cases hl : objs.length = 0
    · simp only [hl, if_true, Except.ok.injEq] at h
      rw [← h]
      intro o ho
      cases ho
    · simp only [hl, if_false] at h
      rcases hp : computeDestToCustomizedObjects c objs b w1 with ⟨m, errs, w2⟩
      rw [hp] at h
      cases m with
      | some dm =>
        simp only at h
        cases ha : wrapAll c b dm with
        | error e =>
          rw [ha] at h
          cases h
        | ok y =>
          rcases y with ⟨ds2, hp2⟩
          rw [ha] at h
          simp only [Except.ok.injEq] at h
          rw [← h]
          exact wrapAll_names c b dm ds2 hp2 ha
      | none =>
        simp only at h
        cases ha : wrap c objs b with
        | error e =>
          rw [ha] at h
          cases h
        | ok x =>
          rw [ha] at h
          simp only [Except.ok.injEq] at h
          rw [← h]
          intro o ho
          simp only [List.mem_singleton] at ho
          rw [ho]
          exact wrap_name c objs b x ha

theorem nodup_ns_of_keys (sel : StrMap) (name : String) (its : List Unstructured)
    (hk : (its.map Unstructured.key).Nodup)
    (hn : ∀ u ∈ its, matchesSelector sel u = true → u.name = name) :
    ((its.filter (matchesSelector sel)).map Unstructured.ns).Nodup := by
  have h1 : ((its.filter (matchesSelector sel)).map Unstructured.key).Nodup :=
    (List.Sublist.map _ (List.filter_sublist _)).nodup hk
  have h2 : (its.filter (matchesSelector sel)).map Unstructured.key =
      ((its.filter (matchesSelector sel)).map Unstructured.ns).map (fun n => (n, name)) := by
    rw [List.map_map]
    apply List.map_congr_left
    intro u hu
    rw [List.mem_filter] at hu
    simp only [Unstructured.key, Function.comp, hn u hu.1 hu.2]
  rw [h2] at h1
  exact List.Nodup.of_map _ h1

theorem storeInv_init (sel : StrMap) (name : String) (cids : List String)
    (its : List Unstructured) (hk : (its.map Unstructured.key).Nodup)
    (hn : ∀ u ∈ its, matchesSelector sel u = true → u.name = name) :
    StoreInv sel name cids its (its.filter (matchesSelector sel)) := by
  refine ⟨hk, hn, ?_, ?_⟩
  · intro u hu hm
    exact Or.inl (List.mem_filter.mpr ⟨hu, hm⟩)
  · intro u hu
    rw [List.mem_filter] at hu
    unfold presentIn
    rw [List.any_eq_true]
    exact ⟨u, hu.1, by simp [Unstructured.isAt]⟩

theorem converge_ok_decompose (b : Binding) (items : List Unstructured) (out : WrappedOut)
    (w w1 : World) (h : converge b items out w = (.ok (), w1)) :
    ∃ wd items2 heap2 we,
      writeStatus b out.bindingErrors w = (none, wd) ∧
      propagateWrappedObjectToClusters out.destToWrappedObject items out.heap b.destinations
        (out.bindingErrors.length != 0) wd = ⟨.ok (), items2, heap2, we⟩ ∧
      deleteLeftovers items2 we = (none, w1) := by
  unfold converge at h
  rcases hx4 : writeStatus b out.bindingErrors w with ⟨r4, wd⟩
  rw [hx4] at h
  cases r4 with
  | some e => cases h
  | none =>
    simp only at h
    rcases hx5 : propagateWrappedObjectToClusters out.destToWrappedObject items out.heap
      b.destinations (out.bindingErrors.length != 0) wd with ⟨r5, items2, heap2, we⟩
    rw [hx5] at h
    cases r5 with
    | err e => cases h
    | crash => cases h
    | ok u =>
      simp only at h
      rcases hx6 : deleteLeftovers items2 we with ⟨r6, wf⟩
      rw [hx6] at h
      cases r6 with
      | some e => cases h
      | none =>
        simp only [Prod.mk.injEq, true_and] at h
        subst h
        exact ⟨wd, items2, heap2, we, rfl, hx5, hx6⟩

theorem converge_ok_store (b : Binding) (sel : StrMap) (name : String) (out : WrappedOut)
    (w w1 : World)
    (hk : (w.its.map Unstructured.key).Nodup)
    (hn : ∀ u ∈ w.its, matchesSelector sel u = true → u.name = name)
    (hheap : ∀ o ∈ out.heap, o.name = name)
    (h : converge b (w.its.filter (matchesSelector sel)) out w = (.ok (), w1)) :
    (w1.its.map Unstructured.key).Nodup ∧
    (∀ u ∈ w1.its, matchesSelector sel u = true →
      out.destToWrappedObject.isSome = true ∧ u.name = name ∧
        u.ns ∈ b.destinations.map Destination.clusterId) ∧
    (out.destToWrappedObject.isSome = true → out.bindingErrors = [] →
      ∀ d ∈ b.destinations, presentIn w1.its d.clusterId name = true) := by
  rcases converge_ok_decompose b _ out w w1 h with ⟨wd, items2, heap2, we, e4, e5, e6⟩
  have hwd : wd.its = w.its := by
    have := (writeStatus_spec b out.bindingErrors w).1
    rw [e4] at this
    exact this
  have hinit := storeInv_init sel name (b.destinations.map Destination.clusterId) w.its hk hn
  have hdel := deleteLeftovers_its_eq items2 we (by rw [e6])
  rw [e6] at hdel
  simp only at hdel
  have hsub : w1.its.Sublist we.its := by
    rw [hdel]
    exact List.filter_sublist _
  have hgone : ∀ u ∈ w1.its, u ∉ items2 := by
    intro u hu hmem
    rw [hdel, List.mem_filter, List.all_eq_true] at hu
    have := hu.2 u hmem
    simp [Unstructured.isAt] at this
  unfold propagateWrappedObjectToClusters at e5
  cases hdes : out.destToWrappedObject with
  | none =>
    rw [hdes] at e5
    simp only [PropagateOut.mk.injEq, true_and] at e5
    rcases e5 with ⟨hi, _, hw⟩
    subst hi hw
    refine ⟨?_, ?_, ?_⟩
    · rw [← hwd] at hk
      exact (List.Sublist.map _ hsub).nodup hk
    · intro u hu hm
      exfalso
      apply hgone u hu
      rw [List.mem_filter]
      have := hsub.subset hu
      rw [hwd] at this
      exact ⟨this, hm⟩
    · intro hs
      cases hs
  | some f =>
    rw [hdes] at e5
    simp only at e5
    have hres : (propagateLoop f (out.bindingErrors.length != 0) b.destinations
        (w.its.filter (matchesSelector sel)) out.heap wd).res = .ok () := by rw [e5]
    have hinv := propagateLoop_inv f (out.bindingErrors.length != 0) b.destinations
      (w.its.filter (matchesSelector sel)) out.heap wd sel name
      (b.destinations.map Destination.clusterId)
      (fun d hd => List.mem_map_of_mem _ hd) (by rw [hwd]; exact hinit) hheap hres
    have hperm := propagateLoop_items f (out.bindingErrors.length != 0) b.destinations
      (w.its.filter (matchesSelector sel)) out.heap wd (nodup_ns_of_keys sel name w.its hk hn) hres
    rw [e5] at hinv hperm
    simp only at hinv hperm
    rcases hinv with ⟨⟨i1, i2, i3, _⟩, _, hpres⟩
    refine ⟨(List.Sublist.map _ hsub).nodup i1, ?_, ?_⟩
    · intro u hu hm
      have hwe := hsub.subset hu
      refine ⟨rfl, i2 u hwe hm, ?_⟩
      rcases i3 u hwe hm with h3 | h3
      · exact absurd h3 (hgone u hu)
      · exact h3
    · intro _ herr d hd
      have hb : (out.bindingErrors.length != 0) = false := by
        rw [herr]
        rfl
      have hp := hpres hb d hd
      unfold presentIn at hp ⊢
      rw [List.any_eq_true] at hp ⊢
      rcases hp with ⟨u, hu, hat⟩
      refine ⟨u, ?_, hat⟩
      rw [hdel, List.mem_filter, List.all_eq_true]
      refine ⟨hu, ?_⟩
      intro x hx
      have hxf := hperm.mem_iff.mp hx
      rw [List.mem_filter] at hxf
      have hxns : x.ns ∉ b.destinations.map Destination.clusterId := by simpa using hxf.2
      cases hxa : u.isAt x.ns x.name with
      | false => rfl
      | true =>
        exfalso
        apply hxns
        have h1 := (isAt_iff_key u x.ns x.name).mp hxa
        have h2 := (isAt_iff_key u d.clusterId name).mp hat
        rw [h1] at h2
        simp only [Prod.mk.injEq] at h2
        rw [h2.1]
        exact List.mem_map_of_mem _ hd

theorem newCalls_of_append (w w2 : World) (l : List Call) (h : w2.trace = w.trace ++ l) :
    newCalls w w2 = l := by
  unfold newCalls
  rw [h, List.drop_left]

theorem touches_not_status (x : Call) (h : x.touchesWrappedObject = true) :
    x.isStatusUpdate = false := by
  cases x <;> first | rfl | cases h

theorem propagateLoop_settled (desired : DestToWrapped) (ds : List Destination)
    (items : List Unstructured) (heap : Heap) (w : World) (name : String)
    (hp : ∀ d ∈ ds, presentIn w.its d.clusterId name = true)
    (hheap : ∀ o ∈ heap, o.name = name) :
    ∀ x ∈ newCalls w (propagateLoop desired false ds items heap w).world,
      x.isStatusUpdate = false ∧ x.isCreate = false ∧ x.isDelete = false := by
  induction ds generalizing items heap w with
  | nil =>
    intro x hx
    rw [propagateLoop] at hx
    unfold newCalls at hx
    simp at hx
  | cons d rest ih =>
    rcases propagateStep_calls desired false d items heap w with ⟨c1, t1, _⟩
    have hstep : (∀ x ∈ c1, x.isStatusUpdate = false ∧ x.isCreate = false ∧ x.isDelete = false) ∧
        ((propagateStep desired false d items heap w).res = .ok () →
          (∀ d2 ∈ rest, presentIn (propagateStep desired false d items heap w).world.its
            d2.clusterId name = true) ∧
          ∀ o ∈ (propagateStep desired false d items heap w).heap, o.name = name) := by
      rcases propagateStep_cases desired false d items heap w with
        ⟨hw, hh⟩ | ⟨p, des, _, hdes, _, hw, hh, hres⟩
      · rw [hw] at t1
        have : c1 = [] := by
          have := congrArg List.length t1
          simp at this
          exact this
        subst this
        refine ⟨by simp, fun _ => ?_⟩
        rw [hw, hh]
        exact ⟨fun d2 hd2 => hp d2 (List.mem_cons_of_mem _ hd2), hheap⟩
      · have hn : des.name = name := hheap des (List.getElem?_mem hdes)
        have hpd := hp d (List.mem_cons_self _ _)
        rw [← hn] at hpd
        have hcp := createOrUpdate_present d.clusterId p des heap w hpd
        rw [← hw] at hcp
        rw [newCalls_of_append _ _ _ t1] at hcp
        refine ⟨fun x hx => ⟨(hcp.1 x hx).2.2, (hcp.1 x hx).1, (hcp.1 x hx).2.1⟩, fun hok => ?_⟩
        have hnone := hres.mp hok
        rcases createOrUpdate_ok d.clusterId p des heap w hnone with ⟨rv, hheap2, hws⟩
        rw [hw, hh, hheap2]
        have hpres := writeStep_present _ _ _ _ _ hws
        refine ⟨fun d2 hd2 => hpres.2 _ _ (hp d2 (List.mem_cons_of_mem _ hd2)), ?_⟩
        intro o ho
        rcases List.mem_or_eq_of_mem_set ho with h | h
        · exact hheap o h
        · rw [h]
          exact hn
    by_cases hs : (propagateStep desired false d items heap w).res = .ok ()
    · rw [propagateLoop_cons_ok _ _ _ _ _ _ _ hs]
      rcases hstep.2 hs with ⟨hp2, hheap2⟩
      have hrest := ih (propagateStep desired false d items heap w).items _ _ hp2 hheap2
      rcases propagateLoop_calls desired false rest
        (propagateStep desired false d items heap w).items
        (propagateStep desired false d items heap w).heap
        (propagateStep desired false d items heap w).world with ⟨c2, t2, _⟩
      rw [newCalls_of_append _ _ _ t2] at hrest
      rw [newCalls_of_append w _ (c1 ++ c2) (by rw [t2, t1, List.append_assoc])]
      intro x hx
      rcases List.mem_append.mp hx with h | h
      · exact hstep.1 x h
      · exact hrest x h
    · rw [propagateLoop_cons_stop _ _ _ _ _ _ _ hs, newCalls_of_append _ _ _ t1]
      exact hstep.1

theorem converge_settled (b : Binding) (sel : StrMap) (name : String) (out : WrappedOut)
    (w : World)
    (hst : b.status.observedGeneration = b.generation ∧ b.status.errors = out.bindingErrors)
    (hk : (w.its.map Unstructured.key).Nodup)
    (hm : ∀ u ∈ w.its, matchesSelector sel u = true →
      out.destToWrappedObject.isSome = true ∧ u.name = name ∧
        u.ns ∈ b.destinations.map Destination.clusterId)
    (hp : out.destToWrappedObject.isSome = true → out.bindingErrors = [] →
      ∀ d ∈ b.destinations, presentIn w.its d.clusterId name = true)
    (hheap : ∀ o ∈ out.heap, o.name = name) :
    ∀ x ∈ newCalls w (converge b (w.its.filter (matchesSelector sel)) out w).2,
      x.isStatusUpdate = false ∧ x.isCreate = false ∧ x.isDelete = false := by
  have hws : writeStatus b out.bindingErrors w = (none, w) := by
    unfold writeStatus
    have : (b.status.observedGeneration != b.generation ||
        !(b.status.errors == out.bindingErrors)) = false := by
      rw [hst.1, hst.2]
      simp
    simp only [this, Bool.false_eq_true, if_false]
  have hnd := nodup_ns_of_keys sel name w.its hk (fun u hu hmu => (hm u hu hmu).2.1)
  have hfil : (w.its.filter (matchesSelector sel)).filter
      (fun e => decide (e.ns ∉ b.destinations.map Destination.clusterId)) = [] := by
    rw [List.filter_eq_nil_iff]
    intro u hu
    rw [List.mem_filter] at hu
    simpa using (hm u hu.1 hu.2).2.2
  unfold converge
  rw [hws]
  simp only
  unfold propagateWrappedObjectToClusters
  cases hdes : out.destToWrappedObject with
  | none =>
    have hnil : w.its.filter (matchesSelector sel) = [] := by
      rw [List.filter_eq_nil_iff]
      intro u hu hmu
      have := (hm u hu hmu).1
      rw [hdes] at this
      cases this
    simp only [hnil, deleteLeftovers]
    intro x hx
    unfold newCalls at hx
    simp at hx
  | some f =>
    simp only
    by_cases hb : (out.bindingErrors.length != 0) = true
    · rw [hb]
      have hl := propagateLoop_broken f b.destinations (w.its.filter (matchesSelector sel))
        out.heap w
      have hperm := propagateLoop_items f true b.destinations
        (w.its.filter (matchesSelector sel)) out.heap w hnd hl.1
      rw [hfil] at hperm
      have hnil := List.perm_nil.mp hperm
      rcases hx : propagateLoop f true b.destinations (w.its.filter (matchesSelector sel))
        out.heap w with ⟨r, i2, h2, w2⟩
      rw [hx] at hl hnil
      simp only at hl hnil
      rcases hl with ⟨hr, _, hw2⟩
      subst hr hnil hw2
      simp only [deleteLeftovers]
      intro x hx2
      unfold newCalls at hx2
      simp at hx2
    · have hb2 : (out.bindingErrors.length != 0) = false := Bool.eq_false_iff.mpr hb
      have herr : out.bindingErrors = [] := by
        simp only [bne_iff_ne, ne_eq, Bool.not_eq_true, bne_eq_false_iff_eq] at hb
        exact List.length_eq_zero.mp (not_not.mp hb)
      rw [hb2]
      have hcalls := propagateLoop_settled f b.destinations
        (w.its.filter (matchesSelector sel)) out.heap w name
        (hp (by rw [hdes]; rfl) herr) hheap
      have hperm := propagateLoop_items f false b.destinations
        (w.its.filter (matchesSelector sel)) out.heap w hnd
      rcases hx : propagateLoop f false b.destinations (w.its.filter (matchesSelector sel))
        out.heap w with ⟨r, i2, h2, w2⟩
      rw [hx] at hcalls hperm
      simp only at hcalls hperm
      cases r with
      | err e => exact hcalls
      | crash => exact hcalls
      | ok u =>
        have := hperm rfl
        rw [hfil] at this
        have hnil := List.perm_nil.mp this
        subst hnil
        simp only [deleteLeftovers]
        exact hcalls

theorem writeStatus_extends (b : Binding) (errs : List String) (w : World) :
    ∃ l, (writeStatus b errs w).2.trace = w.trace ++ l := by
  rcases (writeStatus_spec b errs w).2.2 with ⟨_, h⟩ | h
  · exact ⟨[], by rw [h]; simp⟩
  · exact ⟨_, h⟩

theorem converge_extends (b : Binding) (items : List Unstructured) (out : WrappedOut)
    (w : World) : ∃ l, (converge b items out w).2.trace = w.trace ++ l := by
  unfold converge
  rcases writeStatus_extends b out.bindingErrors w with ⟨l1, t1⟩
  rcases hx4 : writeStatus b out.bindingErrors w with ⟨r4, wd⟩
  rw [hx4] at t1
  simp only at t1
  cases r4 with
  | some e => exact ⟨l1, t1⟩
  | none =>
    simp only
    rcases propagate_calls out.destToWrappedObject items out.heap b.destinations
      (out.bindingErrors.length != 0) wd with ⟨l2, t2, _⟩
    rcases hx5 : propagateWrappedObjectToClusters out.destToWrappedObject items out.heap
      b.destinations (out.bindingErrors.length != 0) wd with ⟨r5, items2, heap2, we⟩
    rw [hx5] at t2
    simp only at t2
    cases r5 with
    | err e => exact ⟨l1 ++ l2, by simp only; rw [t2, t1, List.append_assoc]⟩
    | crash => exact ⟨l1 ++ l2, by simp only; rw [t2, t1, List.append_assoc]⟩
    | ok u =>
      simp only
      rcases deleteLeftovers_prefix items2 we with ⟨k, t3, _⟩
      rcases hx6 : deleteLeftovers items2 we with ⟨r6, wf⟩
      rw [hx6] at t3
      simp only at t3
      cases r6 with
      | some e =>
        exact ⟨l1 ++ (l2 ++ (items2.take k).map deleteCall),
          by simp only; rw [t3, t2, t1, List.append_assoc, List.append_assoc]⟩
      | none =>
        exact ⟨l1 ++ (l2 ++ (items2.take k).map deleteCall),
          by simp only; rw [t3, t2, t1, List.append_assoc, List.append_assoc]⟩

theorem converge_ok_trace (b : Binding) (items : List Unstructured) (out : WrappedOut)
    (w w1 : World) (h : converge b items out w = (.ok (), w1)) :
    w1.inputs = w.inputs ∧
    ∃ post, (∀ x ∈ post, x.isStatusUpdate = false) ∧
      ((w1.trace = w.trace ++ post ∧ b.status.observedGeneration = b.generation ∧
          b.status.errors = out.bindingErrors) ∨
        w1.trace = w.trace ++ Call.bindingUpdateStatus
          { b with status := ⟨b.generation, out.bindingErrors⟩ } :: post) := by
  rcases converge_ok_decompose b items out w w1 h with ⟨wd, items2, heap2, we, e4, e5, e6⟩
  have hs := writeStatus_spec b out.bindingErrors w
  rw [e4] at hs
  simp only at hs
  have hp := propagate_calls out.destToWrappedObject items out.heap b.destinations
    (out.bindingErrors.length != 0) wd
  have hpi := propagate_inputs out.destToWrappedObject items out.heap b.destinations
    (out.bindingErrors.length != 0) wd
  rw [e5] at hp hpi
  simp only at hp hpi
  rcases hp with ⟨l2, t2, c2⟩
  rcases deleteLeftovers_prefix items2 we with ⟨k, t3, _⟩
  have hdi := deleteLeftovers_inputs items2 we
  rw [e6] at t3 hdi
  simp only at t3 hdi
  refine ⟨hdi.trans (hpi.trans hs.2.1), l2 ++ (items2.take k).map deleteCall, ?_, ?_⟩
  · intro x hx
    rcases List.mem_append.mp hx with h1 | h1
    · exact touches_not_status x (c2 x h1)
    · rcases List.mem_map.mp h1 with ⟨u, _, hu⟩
      rw [← hu]
      rfl
  · rcases hs.2.2 with ⟨heq, hw⟩ | ht
    · left
      simp only [Prod.mk.injEq, true_and] at hw
      refine ⟨?_, heq.1, heq.2⟩
      rw [t3, t2, ← hw, List.append_assoc]
    · right
      rw [t3, t2, ht]
      simp

theorem update_prefix (c : genericTransportController) (b : Binding) (w : World) :
    ∃ pre, (∀ x ∈ pre, x.isStatusUpdate = false ∧ x.isCreate = false ∧ x.isDelete = false) ∧
      (((updateWrappedObjectsAndFinalizer c b w).2.trace = w.trace ++ pre ∧
          (updateWrappedObjectsAndFinalizer c b w).1 ≠ .ok ()) ∨
        ∃ wb out wc, wb.inputs = w.inputs ∧
          computeDestToWrappedObjects c b wb = (.ok out, wc) ∧
          wc.its = w.its ∧ wc.trace = w.trace ++ pre ∧
          updateWrappedObjectsAndFinalizer c b w =
            converge b (w.its.filter (matchesSelector (bindingSelector c b.name))) out wc) := by
  unfold updateWrappedObjectsAndFinalizer
  have h1 := addFinalizerToBinding_spec b w
  have h1i := addFinalizerToBinding_inputs b w
  rcases hx1 : addFinalizerToBinding b w with ⟨r1, g1, wa⟩
  rw [hx1] at h1 h1i
  simp only at h1 h1i
  have hpre1 : ∃ pre1, (∀ x ∈ pre1, x.isStatusUpdate = false ∧ x.isCreate = false ∧
      x.isDelete = false) ∧ wa.trace = w.trace ++ pre1 := by
    rcases h1.2 with h | ⟨b2, h⟩
    · exact ⟨[], by simp, by simp [h]⟩
    · exact ⟨[Call.bindingUpdate b2],
        by simp [Call.isStatusUpdate, Call.isCreate, Call.isDelete], h⟩
  rcases hpre1 with ⟨pre1, hp1, ht1⟩
  cases r1 with
  | some e => exact ⟨pre1, hp1, Or.inl ⟨ht1, by simp⟩⟩
  | none =>
    simp only
    have h2 := itsList_spec (bindingSelector c b.name) wa
    have h2i := itsList_inputs (bindingSelector c b.name) wa
    rcases hx2 : itsList (bindingSelector c b.name) wa with ⟨r2, wb⟩
    rw [hx2] at h2 h2i
    simp only at h2 h2i
    have hp2 : ∀ x ∈ pre1 ++ [Call.itsList (bindingSelector c b.name)],
        x.isStatusUpdate = false ∧ x.isCreate = false ∧ x.isDelete = false := by
      intro x hx
      rcases List.mem_append.mp hx with h | h
      · exact hp1 x h
      · simp only [List.mem_singleton] at h
        subst h
        exact ⟨rfl, rfl, rfl⟩
    have ht2 : wb.trace = w.trace ++ (pre1 ++ [Call.itsList (bindingSelector c b.name)]) := by
      rw [h2.1, ht1, List.append_assoc]
    cases r2 with
    | error e => exact ⟨_, hp2, Or.inl ⟨ht2, by simp⟩⟩
    | ok items =>
      simp only
      have hitems := h2.2.2 items rfl
      rw [h1.1] at hitems
      rcases computeDestToWrappedObjects_frame c b wb with ⟨_, f2, calls, f3, f4⟩
      rcases hx3 : computeDestToWrappedObjects c b wb with ⟨r3, wc⟩
      rw [hx3] at f2 f3
      simp only at f2 f3
      have hp3 : ∀ x ∈ pre1 ++ [Call.itsList (bindingSelector c b.name)] ++ calls,
          x.isStatusUpdate = false ∧ x.isCreate = false ∧ x.isDelete = false := by
        intro x hx
        rcases List.mem_append.mp hx with h | h
        · exact hp2 x h
        · rcases f4 x h with ⟨g, ns, n, hxe⟩
          subst hxe
          exact ⟨rfl, rfl, rfl⟩
      have ht3 : wc.trace = w.trace ++
          (pre1 ++ [Call.itsList (bindingSelector c b.name)] ++ calls) := by
        rw [f3, ht2, List.append_assoc]
      cases r3 with
      | error e => exact ⟨_, hp3, Or.inl ⟨ht3, by simp⟩⟩
      | ok out =>
        refine ⟨_, hp3, Or.inr ⟨wb, out, wc, h2i.trans h1i, hx3, ?_, ht3, ?_⟩⟩
        · rw [f2, h2.2.1, h1.1]
        · simp only
          rw [hitems]

/-- C9, amended: let a first reconcile complete successfully from an ITS in which no two objects
share namespace and name and every object with the labels of the Binding has the name of its
wrapped objects.  A second reconcile with the same Binding name, generation and spec, the same
workload objects and destination properties, the ITS the first one left and the Binding status
the first one left issues no status update, no Create and no Delete of a wrapped object.  (It
may issue a Get and an Update per destination.) -/
theorem second_reconcile_creates_and_deletes_nothing (c : genericTransportController)
    (b b2 : Binding) (w w1 w2 : World)
    (h1 : updateWrappedObjectsAndFinalizer c b w = (.ok (), w1))
    (hs : SameSpec b b2)
    (hst : (∃ bu, Call.bindingUpdateStatus bu ∈ newCalls w w1 ∧ b2.status = bu.status) ∨
      ((∀ bu, Call.bindingUpdateStatus bu ∉ newCalls w w1) ∧ b2.status = b.status))
    (hi : SameInputs c w1 w2) (hits : w2.its = w1.its)
    (hkeys : (w.its.map Unstructured.key).Nodup)
    (hnames : ∀ u ∈ w.its, matchesSelector (bindingSelector c b.name) u = true →
      u.name = b.name ++ "-" ++ c.wdsName) :
    ∀ x ∈ newCalls w2 (updateWrappedObjectsAndFinalizer c b2 w2).2,
      x.isStatusUpdate = false ∧ x.isCreate = false ∧ x.isDelete = false := by
  rcases update_prefix c b w with
    ⟨pre, hpre, ⟨_, hne⟩ | ⟨wb, out, wc, hwbi, hcomp, hwcits, hwct, hupd⟩⟩
  · rw [h1] at hne
    exact absurd rfl hne
  rw [h1] at hupd
  have conv1 := hupd.symm
  have hnames1 := computeDestToWrappedObjects_names c b wb out (by rw [hcomp])
  have store1 := converge_ok_store b (bindingSelector c b.name) (b.name ++ "-" ++ c.wdsName) out
    wc w1 (by rw [hwcits]; exact hkeys) (by rw [hwcits]; exact hnames) hnames1
    (by rw [hwcits]; exact conv1)
  rcases converge_ok_trace b _ out wc w1 conv1 with ⟨hinp1, post, hpost, htr⟩
  have hstatus : b2.status.observedGeneration = b.generation ∧
      b2.status.errors = out.bindingErrors := by
    rcases htr with ⟨ht, hg, he⟩ | ht
    · have hnew : newCalls w w1 = pre ++ post :=
        newCalls_of_append w w1 _ (by rw [ht, hwct, List.append_assoc])
      rcases hst with ⟨bu, hbu, _⟩ | ⟨_, hsame⟩
      · rw [hnew] at hbu
        rcases List.mem_append.mp hbu with h | h
        · have := (hpre _ h).1
          cases this
        · have := hpost _ h
          cases this
      · rw [hsame]
        exact ⟨hg, he⟩
    · have hnew : newCalls w w1 = pre ++ Call.bindingUpdateStatus
          { b with status := ⟨b.generation, out.bindingErrors⟩ } :: post :=
        newCalls_of_append w w1 _ (by rw [ht, hwct, List.append_assoc])
      rcases hst with ⟨bu, hbu, hsame⟩ | ⟨hno, _⟩
      · rw [hnew] at hbu
        rcases List.mem_append.mp hbu with h | h
        · have := (hpre _ h).1
          cases this
        · rcases List.mem_cons.mp h with h2 | h2
          · simp only [Call.bindingUpdateStatus.injEq] at h2
            rw [hsame, h2]
            exact ⟨rfl, rfl⟩
          · have := hpost _ h2
            cases this
      · exfalso
        apply hno { b with status := ⟨b.generation, out.bindingErrors⟩ }
        rw [hnew]
        simp
  rcases update_prefix c b2 w2 with
    ⟨pre2, hpre2, ⟨ht2, _⟩ | ⟨wb2, out2, wc2, hwb2i, hcomp2, hwc2its, hwc2t, hupd2⟩⟩
  · rw [newCalls_of_append _ _ _ ht2]
    exact hpre2
  rw [hupd2]
  rcases converge_extends b2
    (w2.its.filter (matchesSelector (bindingSelector c b2.name))) out2 wc2 with ⟨l, hl⟩
  rw [newCalls_of_append w2 _ (pre2 ++ l) (by rw [hl, hwc2t, List.append_assoc])]
  have hsame : SameInputs c wb wb2 := by
    have s1 : SameInputs c wb wc := by
      have := (computeDestToWrappedObjects_frame c b wb).1
      rw [hcomp] at this
      exact this
    exact ((s1.trans (sameInputs_of_inputs c wc w1 hinp1)).trans hi).trans
      (sameInputs_of_inputs c w2 wb2 hwb2i)
  have hcs := computeDestToWrappedObjects_same c b b2 wb wb2 out out2 hs hsame
    (by rw [hcomp]) (by rw [hcomp2])
  have hnames2 := computeDestToWrappedObjects_names c b2 wb2 out2 (by rw [hcomp2])
  rcases hs with ⟨hsn, hsg, _, _, hsd⟩
  rw [hsn] at hnames2
  have hwc2 : wc2.its = w1.its := hwc2its.trans hits
  have hsettled := converge_settled b2 (bindingSelector c b.name) (b.name ++ "-" ++ c.wdsName)
    out2 wc2 ⟨by rw [hsg]; exact hstatus.1, by rw [hcs.1]; exact hstatus.2⟩
    (by rw [hwc2]; exact store1.1)
    (by
      intro u hu hm
      rw [hwc2] at hu
      have := store1.2.1 u hu hm
      rw [hcs.2, hsd]
      exact this)
    (by
      intro hsome herr d hd
      rw [hwc2]
      rw [hsd] at hd
      exact store1.2.2 (by rw [← hcs.2]; exact hsome) (by rw [← hcs.1]; exact herr) d hd)
    hnames2
  rw [hsn, ← hwc2its] at hl
  rw [newCalls_of_append _ _ _ hl] at hsettled
  intro x hx
  rcases List.mem_append.mp hx with h | h
  · exact hpre2 x h
  · exact hsettled x h

theorem second_reconcile_creates_and_deletes_nothing_witness :
    updateWrappedObjectsAndFinalizer exController exBindingNs1 exWorldNs1 =
      (.ok (), (updateWrappedObjectsAndFinalizer exController exBindingNs1 exWorldNs1).2) ∧
    ∀ x ∈ newCalls (updateWrappedObjectsAndFinalizer exController exBindingNs1 exWorldNs1).2
        (updateWrappedObjectsAndFinalizer exController exBindingNs1Synced
          (updateWrappedObjectsAndFinalizer exController exBindingNs1 exWorldNs1).2).2,
      x.isStatusUpdate = false ∧ x.isCreate = false ∧ x.isDelete = false :=
  ⟨by decide,
    second_reconcile_creates_and_deletes_nothing exController exBindingNs1 exBindingNs1Synced
      exWorldNs1 (updateWrappedObjectsAndFinalizer exController exBindingNs1 exWorldNs1).2
      (updateWrappedObjectsAndFinalizer exController exBindingNs1 exWorldNs1).2
      (by decide) ⟨rfl, rfl, rfl, rfl, rfl⟩ (Or.inl ⟨exBindingNs1Synced, by decide, rfl⟩)
      ⟨rfl, fun _ => rfl⟩ rfl (by decide) (by decide)⟩

/-- A second reconcile is free of Deletes only if every object with the labels of the Binding has
the name of its wrapped objects: with an object of another name and those labels in namespace
`A`, the first reconcile creates `b1-wds1` beside it, and the second reconcile, which pops the other object for
`A`, updates `b1-wds1` and then deletes it as a leftover. -/
theorem second_reconcile_deletes_beside_misnamed_object :
    (updateWrappedObjectsAndFinalizer exController exBindingNs1
      { exWorldNs1 with its := [{ exLabelled "A" with name := "x" }] }).1 = .ok () ∧
    (updateWrappedObjectsAndFinalizer exController exBindingNs1Synced
      (updateWrappedObjectsAndFinalizer exController exBindingNs1
        { exWorldNs1 with its := [{ exLabelled "A" with name := "x" }] }).2).1 = .ok () ∧
    Call.itsDelete "A" "b1-wds1" ∈
      newCalls
        (updateWrappedObjectsAndFinalizer exController exBindingNs1
          { exWorldNs1 with its := [{ exLabelled "A" with name := "x" }] }).2
        (updateWrappedObjectsAndFinalizer exController exBindingNs1Synced
          (updateWrappedObjectsAndFinalizer exController exBindingNs1
            { exWorldNs1 with its := [{ exLabelled "A" with name := "x" }] }).2).2 := by
  decide

/-! ## Claims about the status of the Binding -/

theorem writeStatus_calls (b : Binding) (errs : List String) (w : World) :
    ((b.status.observedGeneration ≠ b.generation ∨ b.status.errors ≠ errs) →
      (writeStatus b errs w).2.trace = w.trace ++
        [Call.bindingUpdateStatus { b with status := ⟨b.generation, errs⟩ }]) ∧
    (¬(b.status.observedGeneration ≠ b.generation ∨ b.status.errors ≠ errs) →
      writeStatus b errs w = (none, w)) := by
  rcases (writeStatus_spec b errs w).2.2 with ⟨heq, hw⟩ | ht
  · constructor
    · intro h
      rcases h with h | h
      · exact absurd heq.1 h
      · exact absurd heq.2 h
    · intro _
      exact hw
  · constructor
    · intro _
      exact ht
    · intro hn
      unfold writeStatus
      have : (b.status.observedGeneration != b.generation || !(b.status.errors == errs)) = false := by
        simp only [not_or, not_not] at hn
        rw [hn.1, hn.2]
        simp
      simp only [this, Bool.false_eq_true, if_false]

theorem converge_calls (b : Binding) (items : List Unstructured) (out : WrappedOut)
    (w : World) :
    ∃ post, (∀ x ∈ post, x.isStatusUpdate = false) ∧
      (converge b items out w).2.trace = (writeStatus b out.bindingErrors w).2.trace ++ post := by
  unfold converge
  rcases hx4 : writeStatus b out.bindingErrors w with ⟨r4, wd⟩
  cases r4 with
  | some e => exact ⟨[], by simp, by simp⟩
  | none =>
    simp only
    rcases propagate_calls out.destToWrappedObject items out.heap b.destinations
      (out.bindingErrors.length != 0) wd with ⟨l2, t2, c2⟩
    rcases hx5 : propagateWrappedObjectToClusters out.destToWrappedObject items out.heap
      b.destinations (out.bindingErrors.length != 0) wd with ⟨r5, items2, heap2, we⟩
    rw [hx5] at t2
    simp only at t2
    have hl2 : ∀ x ∈ l2, x.isStatusUpdate = false := fun x hx => touches_not_status x (c2 x hx)
    cases r5 with
    | err e => exact ⟨l2, hl2, t2⟩
    | crash => exact ⟨l2, hl2, t2⟩
    | ok u =>
      simp only
      rcases deleteLeftovers_prefix items2 we with ⟨k, t3, _⟩
      have hall : ∀ x ∈ l2 ++ (items2.take k).map deleteCall, x.isStatusUpdate = false := by
        intro x hx
        rcases List.mem_append.mp hx with h1 | h1
        · exact hl2 x h1
        · rcases List.mem_map.mp h1 with ⟨u2, _, hu⟩
          rw [← hu]
          rfl
      rcases hx6 : deleteLeftovers items2 we with ⟨r6, wf⟩
      rw [hx6] at t3
      simp only at t3
      cases r6 with
      | some e => exact ⟨_, hall, by simp only; rw [t3, t2, List.append_assoc]⟩
      | none => exact ⟨_, hall, by simp only; rw [t3, t2, List.append_assoc]⟩

/-- The status step, once it is reached: the finalizer is in place, the current wrapped objects
are listed and `computeDestToWrappedObjects` returned its bindingErrors.  UpdateStatus is then
called if and only if the observed generation lags or the errors differ, and it carries the
generation and the errors. -/
theorem status_step_iff (c : genericTransportController)
    (b given : Binding) (w wa wb wc : World) (items : List Unstructured) (out : WrappedOut)
    (h1 : addFinalizerToBinding b w = (none, given, wa))
    (h2 : itsList (bindingSelector c b.name) wa = (.ok items, wb))
    (h3 : computeDestToWrappedObjects c b wb = (.ok out, wc)) :
    ((∃ bu, Call.bindingUpdateStatus bu ∈
        newCalls w (updateWrappedObjectsAndFinalizer c b w).2) ↔
      (b.status.observedGeneration ≠ b.generation ∨ b.status.errors ≠ out.bindingErrors)) ∧
    (∀ bu, Call.bindingUpdateStatus bu ∈
        newCalls w (updateWrappedObjectsAndFinalizer c b w).2 →
      bu = { b with status := ⟨b.generation, out.bindingErrors⟩ } ∧
      bu.status = ⟨b.generation, out.bindingErrors⟩) := by
  have hupd : updateWrappedObjectsAndFinalizer c b w = converge b items out wc := by
    simp only [updateWrappedObjectsAndFinalizer, h1, h2, h3]
  have ta := (addFinalizerToBinding_spec b w).2
  have tb := (itsList_spec (bindingSelector c b.name) wa).1
  rcases (computeDestToWrappedObjects_frame c b wb).2.2 with ⟨calls, tc, hc⟩
  rw [h1] at ta
  rw [h2] at tb
  rw [h3] at tc
  simp only at ta tb tc
  have hpre : ∃ pre, (∀ x ∈ pre, x.isStatusUpdate = false) ∧ wc.trace = w.trace ++ pre := by
    rcases ta with h | ⟨b2, h⟩
    · refine ⟨Call.itsList (bindingSelector c b.name) :: calls, ?_, ?_⟩
      · intro x hx
        rcases List.mem_cons.mp hx with h4 | h4
        · rw [h4]
          rfl
        · rcases hc x h4 with ⟨g, ns, n, hx2⟩
          rw [hx2]
          rfl
      · rw [tc, tb, h]
        simp
    · refine ⟨Call.bindingUpdate b2 :: Call.itsList (bindingSelector c b.name) :: calls, ?_, ?_⟩
      · intro x hx
        rcases List.mem_cons.mp hx with h4 | h4
        · rw [h4]
          rfl
        · rcases List.mem_cons.mp h4 with h5 | h5
          · rw [h5]
            rfl
          · rcases hc x h5 with ⟨g, ns, n, hx2⟩
            rw [hx2]
            rfl
      · rw [tc, tb, h]
        simp
  rcases hpre with ⟨pre, hpre, tpre⟩
  rcases converge_calls b items out wc with ⟨post, hpost, tpost⟩
  have hws := writeStatus_calls b out.bindingErrors wc
  rw [hupd]
  by_cases hcond : b.status.observedGeneration ≠ b.generation ∨
      b.status.errors ≠ out.bindingErrors
  · have hnew : newCalls w (converge b items out wc).2 =
        pre ++ [Call.bindingUpdateStatus { b with status := ⟨b.generation, out.bindingErrors⟩ }]
          ++ post :=
      newCalls_of_append _ _ _ (by rw [tpost, hws.1 hcond, tpre]; simp)
    rw [hnew]
    constructor
    · exact ⟨fun _ => hcond,
        fun _ => ⟨{ b with status := ⟨b.generation, out.bindingErrors⟩ }, by simp⟩⟩
    · intro bu hbu
      rcases List.mem_append.mp hbu with h | h
      · rcases List.mem_append.mp h with h4 | h4
        · have := hpre _ h4
          cases this
        · simp only [List.mem_singleton, Call.bindingUpdateStatus.injEq] at h4
          rw [h4]
          exact ⟨rfl, rfl⟩
      · have := hpost _ h
        cases this
  · have hnew : newCalls w (converge b items out wc).2 = pre ++ post :=
      newCalls_of_append _ _ _ (by rw [tpost, hws.2 hcond, tpre]; simp)
    rw [hnew]
    have hno : ∀ bu, Call.bindingUpdateStatus bu ∉ pre ++ post := by
      intro bu hbu
      rcases List.mem_append.mp hbu with h | h
      · have := hpre _ h
        cases this
      · have := hpost _ h
        cases this
    constructor
    · constructor
      · rintro ⟨bu, hbu⟩
        exact absurd hbu (hno bu)
      · intro h
        exact absurd h hcond
    · intro bu hbu
      exact absurd hbu (hno bu)

/-- C11, as the code has it: the status is written only if the reconcile gets as far as the
status step.  For the Binding `exBindingNs1`, whose observed generation 0 lags its generation 1,
a reconcile whose List of the current wrapped objects fails returns an error and calls no
UpdateStatus. -/
theorem lagging_status_not_written_when_list_fails :
    exBindingNs1.status.observedGeneration ≠ exBindingNs1.generation ∧
    (updateWrappedObjectsAndFinalizer exController exBindingNs1
      { exWorldNs1 with faults := [some "boom"] }).1 =
      .err ⟨false,
        "failed to get current wrapped objects that are owned by Binding 'b1' - boom"⟩ ∧
    newCalls { exWorldNs1 with faults := [some "boom"] }
      (updateWrappedObjectsAndFinalizer exController exBindingNs1
        { exWorldNs1 with faults := [some "boom"] }).2 =
      [Call.itsList (bindingSelector exController "b1")] := by
  decide

/-- C11, amended: if `updateWrappedObjectsAndFinalizer` gets as far as the status step, that is,
the finalizer step succeeded, the current wrapped objects were listed and
`computeDestToWrappedObjects` returned its bindingErrors, then it calls UpdateStatus if and only
if `status.observedGeneration` differs from `generation` or `status.errors` is not equal, element
by element, to the computed bindingErrors, and the only UpdateStatus it issues carries the Binding
with the status observedGeneration = generation, errors = bindingErrors.  If one of the three
steps before fails, it returns an error and calls no UpdateStatus. -/
theorem status_update_iff_lagging_or_errors_differ (c : genericTransportController)
    (b : Binding) (w : World) :
    (∀ given wa items wb out wc,
      addFinalizerToBinding b w = (none, given, wa) →
      itsList (bindingSelector c b.name) wa = (.ok items, wb) →
      computeDestToWrappedObjects c b wb = (.ok out, wc) →
      ((∃ bu, Call.bindingUpdateStatus bu ∈
          newCalls w (updateWrappedObjectsAndFinalizer c b w).2) ↔
        (b.status.observedGeneration ≠ b.generation ∨ b.status.errors ≠ out.bindingErrors)) ∧
      (∀ bu, Call.bindingUpdateStatus bu ∈
          newCalls w (updateWrappedObjectsAndFinalizer c b w).2 →
        bu = { b with status := ⟨b.generation, out.bindingErrors⟩ } ∧
        bu.status = ⟨b.generation, out.bindingErrors⟩)) ∧
    (((∃ e, (addFinalizerToBinding b w).1 = some e) ∨
      (∃ e, (itsList (bindingSelector c b.name) (addFinalizerToBinding b w).2.2).1 = .error e) ∨
      (∃ e, (computeDestToWrappedObjects c b
        (itsList (bindingSelector c b.name) (addFinalizerToBinding b w).2.2).2).1 = .error e)) →
      (∀ x ∈ newCalls w (updateWrappedObjectsAndFinalizer c b w).2, x.isStatusUpdate = false) ∧
      ∃ e, (updateWrappedObjectsAndFinalizer c b w).1 = .err e) := by
  constructor
  · intro given wa items wb out wc h1 h2 h3
    exact status_step_iff c b given w wa wb wc items out h1 h2 h3
  · intro hfail
    have ta := (addFinalizerToBinding_spec b w).2
    unfold updateWrappedObjectsAndFinalizer
    rcases h1 : addFinalizerToBinding b w with ⟨r1, given, wa⟩
    rw [h1] at ta hfail
    simp only at ta hfail
    have hpreA : ∃ la, wa.trace = w.trace ++ la ∧ ∀ x ∈ la, x.isStatusUpdate = false := by
      rcases ta with h | ⟨b2, h⟩
      · exact ⟨[], by rw [h]; simp, by simp⟩
      · refine ⟨_, h, ?_⟩
        intro x hx
        rw [List.mem_singleton] at hx
        rw [hx]
        rfl
    rcases hpreA with ⟨la, tla, hla⟩
    cases r1 with
    | some e =>
      simp only
      rw [newCalls_of_append _ _ _ tla]
      exact ⟨hla, _, rfl⟩
    | none =>
      simp only
      have tb := (itsList_spec (bindingSelector c b.name) wa).1
      rcases h2 : itsList (bindingSelector c b.name) wa with ⟨r2, wb⟩
      rw [h2] at tb hfail
      simp only at tb hfail
      have hlb : ∀ x ∈ la ++ [Call.itsList (bindingSelector c b.name)],
          x.isStatusUpdate = false := by
        intro x hx
        rcases List.mem_append.mp hx with h | h
        · exact hla x h
        · rw [List.mem_singleton] at h
          rw [h]
          rfl
      have tlb : wb.trace = w.trace ++ (la ++ [Call.itsList (bindingSelector c b.name)]) := by
        rw [tb, tla, List.append_assoc]
      cases r2 with
      | error e =>
        simp only
        rw [newCalls_of_append _ _ _ tlb]
        exact ⟨hlb, _, rfl⟩
      | ok items =>
        simp only
        rcases (computeDestToWrappedObjects_frame c b wb).2.2 with ⟨calls, tc, hc⟩
        rcases h3 : computeDestToWrappedObjects c b wb with ⟨r3, wc⟩
        rw [h3] at tc hfail
        simp only at tc hfail
        cases r3 with
        | error e =>
          simp only
          have tlc : wc.trace =
              w.trace ++ ((la ++ [Call.itsList (bindingSelector c b.name)]) ++ calls) := by
            rw [tc, tlb, List.append_assoc]
          rw [newCalls_of_append _ _ _ tlc]
          refine ⟨?_, _, rfl⟩
          intro x hx
          rcases List.mem_append.mp hx with h | h
          · exact hlb x h
          · rcases hc x h with ⟨g, ns, n, hx2⟩
            rw [hx2]
            rfl
        | ok out =>
          exfalso
          rcases hfail with ⟨e, he⟩ | ⟨e, he⟩ | ⟨e, he⟩
          · cases he
          · cases he
          · cases he

theorem status_update_iff_lagging_or_errors_differ_witness :
    ((∃ bu, Call.bindingUpdateStatus bu ∈
        newCalls exWorldNs1
          (updateWrappedObjectsAndFinalizer exController exBindingNs1 exWorldNs1).2) ↔
      (exBindingNs1.status.observedGeneration ≠ exBindingNs1.generation ∨
        exBindingNs1.status.errors ≠ ([] : List String))) ∧
    ((∀ x ∈ newCalls { exWorldNs1 with faults := [some "boom"] }
        (updateWrappedObjectsAndFinalizer exController exBindingNs1
          { exWorldNs1 with faults := [some "boom"] }).2, x.isStatusUpdate = false) ∧
      ∃ e, (updateWrappedObjectsAndFinalizer exController exBindingNs1
        { exWorldNs1 with faults := [some "boom"] }).1 = .err e) :=
  ⟨((status_update_iff_lagging_or_errors_differ exController exBindingNs1 exWorldNs1).1
      exBindingNs1 exWorldNs1 []
      (itsList (bindingSelector exController "b1") exWorldNs1).2
      ⟨some exDesired, [exWrappedNs1], []⟩
      (computeDestToWrappedObjects exController exBindingNs1
        (itsList (bindingSelector exController "b1") exWorldNs1).2).2
      (by decide) (by decide) rfl).1,
   (status_update_iff_lagging_or_errors_differ exController exBindingNs1
      { exWorldNs1 with faults := [some "boom"] }).2
      (Or.inr (Or.inl ⟨transientErr "boom", by decide⟩))⟩

/-! ## Claims about the wrapped object of a Binding -/

/-- C12: whenever the plugin returns an envelope for the objects, `wrap` returns it with
metadata.name equal to the Binding name, a hyphen and the WDS name, with the label
`originOwnerReferenceLabel` equal to the Binding name, the label `originWdsLabel` equal to the WDS
name and the annotation for the generation equal to the decimal text of `binding.generation`;
every other label and annotation reads as the plugin set it, and so does everything of the
envelope besides name, labels and annotations. -/
theorem wrap_sets_identity_and_keeps_the_rest (c : genericTransportController)
    (objs : List Unstructured) (b : Binding) (envelope : Unstructured)
    (h : c.wrapObjects objs = .ok envelope) :
    ∃ wrapped, wrap c objs b = .ok wrapped ∧
      wrapped.name = b.name ++ "-" ++ c.wdsName ∧
      wrapped.labels.lookup originOwnerReferenceLabel = some b.name ∧
      wrapped.labels.lookup originWdsLabel = some c.wdsName ∧
      wrapped.annotations.lookup originOwnerGenerationAnnotation =
        some (toString b.generation) ∧
      (∀ k, k ≠ originOwnerReferenceLabel → k ≠ originWdsLabel →
        wrapped.labels.lookup k = envelope.labels.lookup k) ∧
      (∀ k, k ≠ originOwnerGenerationAnnotation →
        wrapped.annotations.lookup k = envelope.annotations.lookup k) ∧
      { wrapped with name := envelope.name, labels := envelope.labels,
                     annotations := envelope.annotations } = envelope := by
  refine ⟨{ envelope with
      name := b.name ++ "-" ++ c.wdsName
      labels := mapSet (mapSet envelope.labels originOwnerReferenceLabel b.name)
        originWdsLabel c.wdsName
      annotations := mapSet envelope.annotations originOwnerGenerationAnnotation
        (toString b.generation) }, by simp only [wrap, h], rfl, ?_, ?_, ?_, ?_, ?_, rfl⟩
  · simp only [lookup_mapSet]
    have : (originOwnerReferenceLabel == originWdsLabel) = false := by decide
    simp [this]
  · simp only [lookup_mapSet]
    simp
  · simp only [lookup_mapSet]
    simp
  · intro k h1 h2
    simp only [lookup_mapSet]
    have e1 : (k == originWdsLabel) = false := by simpa using h2
    have e2 : (k == originOwnerReferenceLabel) = false := by simpa using h1
    simp [e1, e2]
  · intro k h1
    simp only [lookup_mapSet]
    have e1 : (k == originOwnerGenerationAnnotation) = false := by simpa using h1
    simp [e1]

theorem wrap_sets_identity_and_keeps_the_rest_witness :
    ∃ wrapped, wrap exController [exNs1] exBindingNs1 = .ok wrapped ∧
      wrapped.name = "b1" ++ "-" ++ "wds1" ∧
      wrapped.labels.lookup originOwnerReferenceLabel = some "b1" ∧
      wrapped.labels.lookup originWdsLabel = some "wds1" ∧
      wrapped.annotations.lookup originOwnerGenerationAnnotation = some "1" ∧
      (∀ k, k ≠ originOwnerReferenceLabel → k ≠ originWdsLabel →
        wrapped.labels.lookup k = none) ∧
      (∀ k, k ≠ originOwnerGenerationAnnotation → wrapped.annotations.lookup k = none) ∧
      { wrapped with name := "", labels := [], annotations := [] } =
        { Unstructured.empty with kind := "Envelope", body := "ns1" } :=
  wrap_sets_identity_and_keeps_the_rest exController [exNs1] exBindingNs1
    { Unstructured.empty with kind := "Envelope", body := "ns1" } rfl

/-- C13: the names `wrap` assigns are not unique across WDS instances.  The Binding `a-b` of the
WDS `c` and the Binding `a` of the WDS `b-c` are different pairs, and `wrap` names the wrapped
object of both `a-b-c`. -/
theorem wrap_names_collide_across_wds :
    (("a-b", "c") : String × String) ≠ ("a", "b-c") ∧
    (wrap (exControllerOf "c") [] (exBindingNamed "a-b")).map Unstructured.name = .ok "a-b-c" ∧
    (wrap (exControllerOf "b-c") [] (exBindingNamed "a")).map Unstructured.name = .ok "a-b-c" := by
  decide

/-! ## Claims about the properties of a destination -/

theorem enumerate_nil (c : genericTransportController) (props : clusterProperties) :
    enumeratePropertiesInMapStringToString c [] props = props := rfl

theorem enumerate_cons (c : genericTransportController) (kv : String × String) (rest : StrMap)
    (props : clusterProperties) :
    enumeratePropertiesInMapStringToString c (kv :: rest) props =
      enumeratePropertiesInMapStringToString c rest
        (if IsIdentifier c kv.1 then mapSet props kv.1 kv.2 else props) := rfl

theorem enumerate_lookup_other (c : genericTransportController) (m : StrMap)
    (props : clusterProperties) (k : String)
    (h : k ∉ keysOf m ∨ IsIdentifier c k = false) :
    (enumeratePropertiesInMapStringToString c m props).lookup k = props.lookup k := by
  induction m generalizing props with
  | nil => rfl
  | cons kv rest ih =>
    rw [enumerate_cons, ih]
    · by_cases hid : IsIdentifier c kv.1 = true
      · rw [if_pos hid, lookup_mapSet]
        have hne : (k == kv.1) = false := by
          rcases h with h | h
          · simp only [keysOf, List.map_cons, List.mem_cons, not_or] at h
            simpa using h.1
          · have : k ≠ kv.1 := by
              intro e
              rw [e, hid] at h
              cases h
            simpa using this
        simp only [hne, Bool.false_eq_true, if_false]
      · rw [if_neg hid]
    · rcases h with h | h
      · left
        simp only [keysOf, List.map_cons, List.mem_cons, not_or] at h
        exact h.2
      · exact Or.inr h

theorem enumerate_lookup_mem (c : genericTransportController) (m : StrMap)
    (props : clusterProperties) (k v : String) (hnd : (keysOf m).Nodup)
    (hid : IsIdentifier c k = true) (h : m.lookup k = some v) :
    (enumeratePropertiesInMapStringToString c m props).lookup k = some v := by
  induction m generalizing props with
  | nil => cases h
  | cons kv rest ih =>
    rcases kv with ⟨k1, v1⟩
    simp only [keysOf, List.map_cons, List.nodup_cons] at hnd
    rw [enumerate_cons]
    by_cases hk : k = k1
    · subst hk
      simp only [List.lookup_cons, beq_self_eq_true, Option.some.injEq] at h
      subst h
      rw [enumerate_lookup_other c rest _ k (Or.inl hnd.1), if_pos hid, lookup_mapSet]
      simp
    · have hb : (k == k1) = false := by simpa using hk
      simp only [List.lookup_cons, hb] at h
      exact ih _ hnd.2 h

theorem lookup_ne_none_iff_mem_keys (m : StrMap) (k : String) :
    m.lookup k ≠ none ↔ k ∈ keysOf m := by
  induction m with
  | nil => simp [keysOf]
  | cons kv rest ih =>
    rcases kv with ⟨k1, v1⟩
    by_cases hk : k = k1
    · subst hk
      simp [keysOf, List.lookup_cons]
    · have hb : (k == k1) = false := by simpa using hk
      simp only [List.lookup_cons, hb, keysOf, List.map_cons, List.mem_cons, hk, false_or]
      exact ih

theorem enumerate_lookup_present (c : genericTransportController) (m : StrMap)
    (props : clusterProperties) (k : String) :
    (enumeratePropertiesInMapStringToString c m props).lookup k ≠ none ↔
      (props.lookup k ≠ none ∨ (k ∈ keysOf m ∧ IsIdentifier c k = true)) := by
  induction m generalizing props with
  | nil => simp [enumerate_nil, keysOf]
  | cons kv rest ih =>
    rcases kv with ⟨k1, v1⟩
    rw [enumerate_cons, ih]
    simp only [keysOf, List.map_cons, List.mem_cons]
    by_cases hid : IsIdentifier c k1 = true
    · rw [if_pos hid, lookup_mapSet]
      by_cases hk : k = k1
      · subst hk
        simp [hid]
      · have hb : (k == k1) = false := by simpa using hk
        simp only [hb, Bool.false_eq_true, if_false, hk, false_or]
    · rw [if_neg hid]
      by_cases hk : k = k1
      · subst hk
        simp [hid]
      · simp only [hk, false_or]

theorem collect_eq (c : genericTransportController) (invName : String) (w : World) :
    collectPropertiesForDestination c invName w =
      enumeratePropertiesInMapStringToString c (cfgMapBinaryData w invName)
        (enumeratePropertiesInMapStringToString c (cfgMapData w invName)
          (enumeratePropertiesInMapStringToString c (inventoryAnnotations w invName)
            (enumeratePropertiesInMapStringToString c (inventoryLabels w invName)
              [("clusterName", invName)]))) := by
  unfold collectPropertiesForDestination inventoryLabels inventoryAnnotations cfgMapData
    cfgMapBinaryData enumeratePropsInConfigMap
  cases w.inventory.find? (fun e => e.1 == invName) <;>
    cases w.propCfgMaps.find? (fun e => e.1 == invName) <;> rfl

theorem identifierChars_iff (c : genericTransportController) (first : Bool) (l : List Char) :
    identifierChars c first l = true ↔
      (∀ ch ∈ l, c.isLetter ch = true ∨ ch = '_' ∨ c.isDigit ch = true) ∧
      (first = true → ∀ ch, l.head? = some ch → c.isLetter ch = true ∨ ch = '_') := by
  induction l generalizing first with
  | nil => simp [identifierChars]
  | cons ch rest ih =>
    rw [identifierChars]
    by_cases hrej : (!c.isLetter ch && ch != '_' && (first || !c.isDigit ch)) = true
    · rw [if_pos hrej]
      simp only [Bool.and_eq_true, Bool.not_eq_true', bne_iff_ne, ne_eq, Bool.or_eq_true] at hrej
      rcases hrej with ⟨⟨hL, hu⟩, hfd⟩
      constructor
      · intro h
        cases h
      · rintro ⟨hall, hfirst⟩
        rcases hfd with hf | hd
        · rcases hfirst hf ch rfl with h | h
          · rw [hL] at h
            cases h
          · exact absurd h hu
        · rcases hall ch (List.mem_cons_self _ _) with h | h | h
          · rw [hL] at h
            cases h
          · exact absurd h hu
          · rw [hd] at h
            cases h
    · rw [if_neg hrej, ih]
      have hacc : c.isLetter ch = true ∨ ch = '_' ∨ (first = false ∧ c.isDigit ch = true) := by
        by_cases hL : c.isLetter ch = true
        · exact Or.inl hL
        · by_cases hu : ch = '_'
          · exact Or.inr (Or.inl hu)
          · refine Or.inr (Or.inr ?_)
            have hL2 : c.isLetter ch = false := Bool.eq_false_iff.mpr hL
            have hu2 : (ch != '_') = true := by simpa using hu
            rw [hL2, hu2] at hrej
            cases hf : first <;> cases hD : c.isDigit ch <;> rw [hf, hD] at hrej <;>
              simp at hrej ⊢
      constructor
      · rintro ⟨hall, _⟩
        constructor
        · intro x hx
          rcases List.mem_cons.mp hx with h | h
          · rw [h]
            rcases hacc with h1 | h1 | h1
            · exact Or.inl h1
            · exact Or.inr (Or.inl h1)
            · exact Or.inr (Or.inr h1.2)
          · exact hall x h
        · intro hf x hx
          simp only [List.head?_cons, Option.some.injEq] at hx
          rw [← hx]
          rcases hacc with h1 | h1 | h1
          · exact Or.inl h1
          · exact Or.inr h1
          · rw [hf] at h1
            cases h1.1
      · rintro ⟨hall, _⟩
        refine ⟨fun x hx => hall x (List.mem_cons_of_mem _ hx), ?_⟩
        intro h
        cases h

theorem IsIdentifier_iff (c : genericTransportController) (name : String) :
    IsIdentifier c name = true ↔
      name ≠ "" ∧ name ∉ goKeywords ∧
      (∀ ch ∈ name.toList, c.isLetter ch = true ∨ ch = '_' ∨ c.isDigit ch = true) ∧
      (∀ ch, name.toList.head? = some ch → c.isLetter ch = true ∨ ch = '_') := by
  unfold IsIdentifier
  by_cases h : (name == "" || goKeywords.contains name) = true
  · rw [if_pos h]
    simp only [Bool.or_eq_true, beq_iff_eq, List.contains_iff_exists_mem_beq] at h
    constructor
    · intro h2
      cases h2
    · rintro ⟨h1, h2, _⟩
      rcases h with h | ⟨x, hx, hb⟩
      · exact absurd h h1
      · rw [hb] at h2
        exact absurd hx h2
  · rw [if_neg h, identifierChars_iff]
    simp only [Bool.or_eq_true, beq_iff_eq, not_or] at h
    have hk : name ∉ goKeywords := by
      intro hm
      exact h.2 (List.contains_iff_exists_mem_beq.mpr ⟨name, hm, beq_self_eq_true _⟩)
    constructor
    · rintro ⟨h1, h2⟩
      exact ⟨h.1, hk, h1, h2 rfl⟩
    · rintro ⟨_, _, h1, h2⟩
      exact ⟨h1, fun _ => h2⟩

/-- C18, as the code has it: a label of the inventory object whose key is `clusterName` replaces
the entry the map starts with.  For the inventory object `A` with the label clusterName = B the
map returned for `A` maps `clusterName` to `B`. -/
theorem collect_label_overrides_clusterName :
    (collectPropertiesForDestination exController "A"
      (exWorldProps [("clusterName", "B")] [] [] [])).lookup "clusterName" = some "B" ∧
    "B" ≠ "A" := by
  decide

/-- C18, amended: the map `collectPropertiesForDestination` returns always has the key
`clusterName`, and maps it to `invName` whenever the key `clusterName` occurs neither in the
labels or annotations of the inventory object nor in the data or binaryData of the property
ConfigMap. -/
theorem collect_clusterName_unless_overridden (c : genericTransportController)
    (invName : String) (w : World) :
    (collectPropertiesForDestination c invName w).lookup "clusterName" ≠ none ∧
    ("clusterName" ∉ keysOf (inventoryLabels w invName) →
      "clusterName" ∉ keysOf (inventoryAnnotations w invName) →
      "clusterName" ∉ keysOf (cfgMapData w invName) →
      "clusterName" ∉ keysOf (cfgMapBinaryData w invName) →
      (collectPropertiesForDestination c invName w).lookup "clusterName" = some invName) := by
  rw [collect_eq]
  constructor
  · rw [enumerate_lookup_present, enumerate_lookup_present, enumerate_lookup_present,
      enumerate_lookup_present]
    left; left; left; left
    simp
  · intro h1 h2 h3 h4
    rw [enumerate_lookup_other c _ _ _ (Or.inl h4), enumerate_lookup_other c _ _ _ (Or.inl h3),
      enumerate_lookup_other c _ _ _ (Or.inl h2), enumerate_lookup_other c _ _ _ (Or.inl h1)]
    simp

theorem collect_clusterName_unless_overridden_witness :
    (collectPropertiesForDestination exController "A"
      (exWorldProps [("region", "east")] [("owner", "me")] [("zone", "z1")]
        [("clusterName2", "x")])).lookup "clusterName" = some "A" :=
  (collect_clusterName_unless_overridden exController "A"
    (exWorldProps [("region", "east")] [("owner", "me")] [("zone", "z1")]
      [("clusterName2", "x")])).2 (by decide) (by decide) (by decide) (by decide)

/-- C19, as the code has it: a key that is a keyword of Go is left out, though it is a non-empty
string of letters that does not start with a digit.  The label `type` of the inventory object `A`
is not in the map returned for `A`, while the label `region` is. -/
theorem collect_leaves_out_keyword_key :
    "type" ≠ "clusterName" ∧
    "type" ∈ keysOf (inventoryLabels (exWorldProps [("type", "x"), ("region", "east")] [] [] []) "A") ∧
    "type" ≠ "" ∧
    (∀ ch ∈ "type".toList, exController.isLetter ch = true) ∧
    (collectPropertiesForDestination exController "A"
      (exWorldProps [("type", "x"), ("region", "east")] [] [] [])).lookup "type" = none ∧
    (collectPropertiesForDestination exController "A"
      (exWorldProps [("type", "x"), ("region", "east")] [] [] [])).lookup "region" = some "east" := by
  decide

/-- C19, amended: a key other than `clusterName` is present in the map
`collectPropertiesForDestination` returns if and only if it occurs in the labels or annotations of
the inventory object or in the data or binaryData of the property ConfigMap and is an identifier
of Go: a non-empty string of letters, digits and underscores whose first character is a letter or
an underscore, and which is not a keyword of Go. -/
theorem collect_key_present_iff (c : genericTransportController) (invName : String) (w : World)
    (k : String) (hk : k ≠ "clusterName") :
    ((collectPropertiesForDestination c invName w).lookup k ≠ none ↔
      ((k ∈ keysOf (inventoryLabels w invName) ∨ k ∈ keysOf (inventoryAnnotations w invName) ∨
        k ∈ keysOf (cfgMapData w invName) ∨ k ∈ keysOf (cfgMapBinaryData w invName)) ∧
       IsIdentifier c k = true)) ∧
    (IsIdentifier c k = true ↔
      k ≠ "" ∧ k ∉ goKeywords ∧
      (∀ ch ∈ k.toList, c.isLetter ch = true ∨ ch = '_' ∨ c.isDigit ch = true) ∧
      (∀ ch, k.toList.head? = some ch → c.isLetter ch = true ∨ ch = '_')) := by
  refine ⟨?_, IsIdentifier_iff c k⟩
  rw [collect_eq, enumerate_lookup_present, enumerate_lookup_present, enumerate_lookup_present,
    enumerate_lookup_present]
  have hb : (k == "clusterName") = false := by simpa using hk
  have h0 : ¬ (List.lookup k [("clusterName", invName)] ≠ none) := by
    simp [List.lookup_cons, hb]
  constructor
  · rintro ((((h | h) | h) | h) | h)
    · exact absurd h h0
    · exact ⟨Or.inl h.1, h.2⟩
    · exact ⟨Or.inr (Or.inl h.1), h.2⟩
    · exact ⟨Or.inr (Or.inr (Or.inl h.1)), h.2⟩
    · exact ⟨Or.inr (Or.inr (Or.inr h.1)), h.2⟩
  · rintro ⟨h | h | h | h, hid⟩
    · exact Or.inl (Or.inl (Or.inl (Or.inr ⟨h, hid⟩)))
    · exact Or.inl (Or.inl (Or.inr ⟨h, hid⟩))
    · exact Or.inl (Or.inr ⟨h, hid⟩)
    · exact Or.inr ⟨h, hid⟩

theorem collect_key_present_iff_witness :
    ((collectPropertiesForDestination exController "A"
        (exWorldProps [("type", "x"), ("region", "east")] [] [("9lives", "cat")] [])).lookup
          "region" ≠ none ↔
      (("region" ∈ keysOf (inventoryLabels
            (exWorldProps [("type", "x"), ("region", "east")] [] [("9lives", "cat")] []) "A") ∨
        "region" ∈ keysOf (inventoryAnnotations
            (exWorldProps [("type", "x"), ("region", "east")] [] [("9lives", "cat")] []) "A") ∨
        "region" ∈ keysOf (cfgMapData
            (exWorldProps [("type", "x"), ("region", "east")] [] [("9lives", "cat")] []) "A") ∨
        "region" ∈ keysOf (cfgMapBinaryData
            (exWorldProps [("type", "x"), ("region", "east")] [] [("9lives", "cat")] []) "A")) ∧
       IsIdentifier exController "region" = true)) ∧
    IsIdentifier exController "9lives" = false ∧
    IsIdentifier exController "type" = false :=
  ⟨(collect_key_present_iff exController "A"
      (exWorldProps [("type", "x"), ("region", "east")] [] [("9lives", "cat")] []) "region"
      (by decide)).1, by decide, by decide⟩

/-- C20: for a key that is an identifier, and sources that each hold a key once, the value
`collectPropertiesForDestination` returns is the one of the binaryData of the property ConfigMap
if the key occurs there, else the one of its data, else the one of the annotations of the
inventory object, else the one of its labels. -/
theorem collect_value_from_highest_source (c : genericTransportController) (invName : String)
    (w : World) (k : String) (hid : IsIdentifier c k = true)
    (n1 : (keysOf (inventoryLabels w invName)).Nodup)
    (n2 : (keysOf (inventoryAnnotations w invName)).Nodup)
    (n3 : (keysOf (cfgMapData w invName)).Nodup)
    (n4 : (keysOf (cfgMapBinaryData w invName)).Nodup) :
    (∀ v, (cfgMapBinaryData w invName).lookup k = some v →
      (collectPropertiesForDestination c invName w).lookup k = some v) ∧
    ((cfgMapBinaryData w invName).lookup k = none →
      ∀ v, (cfgMapData w invName).lookup k = some v →
        (collectPropertiesForDestination c invName w).lookup k = some v) ∧
    ((cfgMapBinaryData w invName).lookup k = none → (cfgMapData w invName).lookup k = none →
      ∀ v, (inventoryAnnotations w invName).lookup k = some v →
        (collectPropertiesForDestination c invName w).lookup k = some v) ∧
    ((cfgMapBinaryData w invName).lookup k = none → (cfgMapData w invName).lookup k = none →
      (inventoryAnnotations w invName).lookup k = none →
      ∀ v, (inventoryLabels w invName).lookup k = some v →
        (collectPropertiesForDestination c invName w).lookup k = some v) := by
  have hnone : ∀ m : StrMap, m.lookup k = none → k ∉ keysOf m := by
    intro m hm hmem
    exact (lookup_ne_none_iff_mem_keys m k).mpr hmem hm
  rw [collect_eq]
  refine ⟨?_, ?_, ?_, ?_⟩
  · intro v hv
    exact enumerate_lookup_mem c _ _ k v n4 hid hv
  · intro h4 v hv
    rw [enumerate_lookup_other c _ _ _ (Or.inl (hnone _ h4))]
    exact enumerate_lookup_mem c _ _ k v n3 hid hv
  · intro h4 h3 v hv
    rw [enumerate_lookup_other c _ _ _ (Or.inl (hnone _ h4)),
      enumerate_lookup_other c _ _ _ (Or.inl (hnone _ h3))]
    exact enumerate_lookup_mem c _ _ k v n2 hid hv
  · intro h4 h3 h2 v hv
    rw [enumerate_lookup_other c _ _ _ (Or.inl (hnone _ h4)),
      enumerate_lookup_other c _ _ _ (Or.inl (hnone _ h3)),
      enumerate_lookup_other c _ _ _ (Or.inl (hnone _ h2))]
    exact enumerate_lookup_mem c _ _ k v n1 hid hv

theorem collect_value_from_highest_source_witness :
    (collectPropertiesForDestination exController "A"
      (exWorldProps [("zone", "l")] [("zone", "a")] [("zone", "d")] [("zone", "b")])).lookup
        "zone" = some "b" ∧
    (collectPropertiesForDestination exController "A"
      (exWorldProps [("zone", "l")] [("zone", "a")] [("zone", "d")] [("other", "b")])).lookup
        "zone" = some "d" ∧
    (collectPropertiesForDestination exController "A"
      (exWorldProps [("zone", "l")] [("zone", "a")] [] [])).lookup "zone" = some "a" :=
  ⟨(collect_value_from_highest_source exController "A"
      (exWorldProps [("zone", "l")] [("zone", "a")] [("zone", "d")] [("zone", "b")]) "zone"
      (by decide) (by decide) (by decide) (by decide) (by decide)).1 "b" (by decide),
   (collect_value_from_highest_source exController "A"
      (exWorldProps [("zone", "l")] [("zone", "a")] [("zone", "d")] [("other", "b")]) "zone"
      (by decide) (by decide) (by decide) (by decide) (by decide)).2.1 (by decide) "d"
        (by decide),
   (collect_value_from_highest_source exController "A"
      (exWorldProps [("zone", "l")] [("zone", "a")] [] []) "zone"
      (by decide) (by decide) (by decide) (by decide) (by decide)).2.2.1 (by decide) (by decide)
        "a" (by decide)⟩

/-! ## Claims about customization -/
theorem eraseDups_loop_mem (x : Destination) (as bs : List Destination) :
    x ∈ List.eraseDups.loop as bs ↔ x ∈ as ∨ x ∈ bs := by
  induction as generalizing bs with
  | nil => simp [List.eraseDups.loop]
  | cons a rest ih =>
    rw [List.eraseDups.loop]
    cases he : List.elem a bs with
    | true =>
      simp only
      rw [ih]
      have hab : a ∈ bs := List.elem_iff.mp he
      constructor
      · rintro (h | h)
        · exact Or.inl (List.mem_cons_of_mem _ h)
        · exact Or.inr h
      · rintro (h | h)
        · rcases List.mem_cons.mp h with h1 | h1
          · rw [h1]
            exact Or.inr hab
          · exact Or.inl h1
        · exact Or.inr h
    | false =>
      simp only
      rw [ih]
      simp only [List.mem_cons]
      tauto

theorem mem_setsNew (x : Destination) (dests : List Destination) :
    x ∈ setsNew dests ↔ x ∈ dests := by
  unfold setsNew List.eraseDups
  rw [eraseDups_loop_mem]
  simp

theorem getPropertiesForDestination_sensitive_other (c : genericTransportController)
    (bindingName : String) (dest : Destination) (w : World) (name : String)
    (h : name ≠ bindingName) :
    (getPropertiesForDestination c bindingName dest w).2.bindingSensitiveDestinations.lookup name =
      w.bindingSensitiveDestinations.lookup name := by
  have hb : (name == bindingName) = false := by simpa using h
  unfold getPropertiesForDestination
  simp only
  cases hl : w.destinationProperties.lookup dest with
  | some props =>
    simp only
    rw [lookup_mapSet]
    simp only [hb, Bool.false_eq_true, if_false]
  | none =>
    simp only
    rw [lookup_mapSet]
    simp only [hb, Bool.false_eq_true, if_false]

theorem customizeStep_sensitive_other (c : genericTransportController)
    (objs : List Unstructured) (b : Binding) (i : Nat) (o : Unstructured) (r : Bool) (j : Nat)
    (dest : Destination) (s : CustomizeState) (name : String) (h : name ≠ b.name) :
    (customizeStep c objs b i o r j dest s).world.bindingSensitiveDestinations.lookup name =
      s.world.bindingSensitiveDestinations.lookup name := by
  unfold customizeStep
  simp only
  by_cases hc : (r && (j == 0 || s.customizeThisObject)) = true
  · simp only [hc, if_true]
    split <;> exact getPropertiesForDestination_sensitive_other c b.name dest s.world name h
  · simp only [hc, if_false, Bool.false_eq_true]
    split <;> rfl

theorem customizeDests_sensitive_other (c : genericTransportController)
    (objs : List Unstructured) (b : Binding) (i : Nat) (o : Unstructured) (r : Bool) (j : Nat)
    (dests : List Destination) (s : CustomizeState) (name : String) (h : name ≠ b.name) :
    (customizeDests c objs b i o r j dests s).world.bindingSensitiveDestinations.lookup name =
      s.world.bindingSensitiveDestinations.lookup name := by
  induction dests generalizing j s with
  | nil => rfl
  | cons d rest ih =>
    rw [customizeDests, ih, customizeStep_sensitive_other c objs b i o r j d s name h]

theorem customizeObjects_sensitive_other (c : genericTransportController)
    (objs : List Unstructured) (b : Binding) (i : Nat) (rest : List Unstructured)
    (s : CustomizeState) (name : String) (h : name ≠ b.name) :
    (customizeObjects c objs b i rest s).world.bindingSensitiveDestinations.lookup name =
      s.world.bindingSensitiveDestinations.lookup name := by
  induction rest generalizing i s with
  | nil => rfl
  | cons o rest ih =>
    rw [customizeObjects, ih, customizeDests_sensitive_other c objs b i o _ 0 _ _ name h]

/-- C16: after `computeDestToCustomizedObjects` returns for the Binding `b`, the entry of `b` in
`bindingSensitiveDestinations` is the set of the destinations of the spec if the map returned is
not nil, and the empty set if it is nil: whatever the entry held before is gone.  The entry of
every other Binding reads as before. -/
theorem customize_sets_sensitivities (c : genericTransportController)
    (objs : List Unstructured) (b : Binding) (w : World) :
    (computeDestToCustomizedObjects c objs b w).2.2.bindingSensitiveDestinations.lookup b.name =
      some (if (computeDestToCustomizedObjects c objs b w).1.isSome then setsNew b.destinations
        else []) ∧
    (∀ d, d ∈ setsNew b.destinations ↔ d ∈ b.destinations) ∧
    (∀ name, name ≠ b.name →
      (computeDestToCustomizedObjects c objs b w).2.2.bindingSensitiveDestinations.lookup name =
        w.bindingSensitiveDestinations.lookup name) := by
  refine ⟨?_, fun d => mem_setsNew d b.destinations, ?_⟩
  · unfold computeDestToCustomizedObjects setBindingSensitivities
    simp only
    rw [lookup_mapSet]
    simp only [beq_self_eq_true, if_true]
    split
    · rename_i v hv
      rw [if_pos (by rw [hv]; rfl)]
    · rename_i hv
      rw [if_neg (by rw [hv]; simp)]
  · intro name h
    have hb : (name == b.name) = false := by simpa using h
    unfold computeDestToCustomizedObjects setBindingSensitivities
    simp only
    rw [lookup_mapSet]
    simp only [hb, Bool.false_eq_true, if_false]
    exact customizeObjects_sensitive_other c objs b 0 objs _ name h

theorem customizeForDestination_eq (c : genericTransportController) (o : Unstructured)
    (dst : String) (p : clusterProperties) :
    customizeForDestination c o dst p =
      if (c.expandTemplates dst o p).2.1 then
        ((c.expandTemplates dst o p).1, (c.expandTemplates dst o p).2.2, true)
      else (o, [], false) := by
  unfold customizeForDestination
  rcases c.expandTemplates dst o p with ⟨x, b, e⟩
  cases b <;> rfl

theorem customizeStep_spec (c : genericTransportController) (objs : List Unstructured)
    (b : Binding) (i : Nat) (o : Unstructured) (j : Nat) (dest : Destination)
    (s : CustomizeState) (w : World) (wanted : Unstructured → Bool)
    (hw : ∀ dst x p, (c.expandTemplates dst x p).2.1 = wanted x)
    (hprops : ∀ d, propsFor c s.world d = propsFor c w d)
    (hcto : s.customizeThisObject = (decide (j ≠ 0) && (requestsExpansion o && wanted o))) :
    (customizeStep c objs b i o (requestsExpansion o) j dest s).customizeThisObject =
      (requestsExpansion o && wanted o) ∧
    (∀ d, propsFor c (customizeStep c objs b i o (requestsExpansion o) j dest s).world d =
      propsFor c w d) ∧
    (customizeStep c objs b i o (requestsExpansion o) j dest s).bindingErrors =
      s.bindingErrors ++
        (if (requestsExpansion o && wanted o) && ((expansionFor c w o dest).2.2.length != 0 &&
            !s.reportedSomeErrors) then (expansionFor c w o dest).2.2 else []) ∧
    (customizeStep c objs b i o (requestsExpansion o) j dest s).reportedSomeErrors =
      (s.reportedSomeErrors ||
        ((requestsExpansion o && wanted o) && (expansionFor c w o dest).2.2.length != 0)) ∧
    (customizeStep c objs b i o (requestsExpansion o) j dest s).destToCustomizedObjects =
      (match (if (requestsExpansion o && wanted o) && s.destToCustomizedObjects.isNone then
          some (backfill objs b i) else s.destToCustomizedObjects) with
        | none => none
        | some m =>
          some (mapSet m dest ((m.lookup dest).getD [] ++ [customizedEntry c w dest o]))) := by
  have hgot := getPropertiesForDestination_spec c b.name dest s.world
  have hwant : (expansionFor c w o dest).2.1 = wanted o := hw _ _ _
  unfold customizeStep
  simp only
  by_cases hc : (requestsExpansion o && (j == 0 || s.customizeThisObject)) = true
  · have hr : requestsExpansion o = true := by
      simp only [Bool.and_eq_true] at hc
      exact hc.1
    simp only [hc, if_true, customizeForDestination_eq, hgot.1, hprops dest]
    have he : c.expandTemplates (dest.clusterId ++ "/" ++ c.refToString o) o (propsFor c w dest) =
        expansionFor c w o dest := rfl
    simp only [he, hwant, customizedEntry, hr, Bool.true_and]
    cases hwo : wanted o
    · simp only [Bool.false_eq_true, if_false, List.length_nil, bne_self_eq_false,
        Bool.false_and, List.append_nil, Bool.or_false]
      refine ⟨?_, ?_, ?_, ?_, ?_⟩
      · split <;> rfl
      · intro d
        rw [← hprops d]
        split <;> exact hgot.2.2.2.2 d
      · split <;> rfl
      · split <;> rfl
      · split <;> simp_all
    · simp only [if_true, Bool.true_and]
      refine ⟨?_, ?_, ?_, ?_, ?_⟩
      · split <;> rfl
      · intro d
        rw [← hprops d]
        split <;> exact hgot.2.2.2.2 d
      · split <;>
          (cases hrep : s.reportedSomeErrors <;> cases hee : (expansionFor c w o dest).2.2 <;>
            simp)
      · split <;>
          (cases hrep : s.reportedSomeErrors <;> cases hee : (expansionFor c w o dest).2.2 <;>
            simp)
      · split <;> simp_all [backfill]
  · have hq : (requestsExpansion o && wanted o) = false := by
      cases hr : requestsExpansion o
      · rfl
      · rw [hr] at hc hcto
        simp only [Bool.true_and, Bool.or_eq_true, beq_iff_eq, not_or, Bool.not_eq_true] at hc
        rw [hc.2] at hcto
        have : decide (j ≠ 0) = true := by simpa using hc.1
        rw [this] at hcto
        simpa using hcto.symm
    have hs : s.customizeThisObject = false := by
      rw [hcto, hq, Bool.and_false]
    simp only [hc, if_false, Bool.false_eq_true]
    simp only [hq, hs, Bool.false_and, List.append_nil, Bool.or_false, Bool.false_eq_true,
      if_false]
    have hentry : customizedEntry c w dest o = o := by
      unfold customizedEntry
      rw [hwant, hq]
      rfl
    rw [hentry]
    refine ⟨?_, ?_, ?_, ?_, ?_⟩
    · split <;> rfl
    · intro d
      rw [← hprops d]
      split <;> rfl
    · split <;> rfl
    · split <;> rfl
    · split <;> simp_all

theorem firstErrors_cons (c : genericTransportController) (w : World) (d : Destination)
    (rest : List Destination) (o : Unstructured) :
    firstErrors c w (d :: rest) o =
      if (expansionFor c w o d).2.2.length != 0 then (expansionFor c w o d).2.2
      else firstErrors c w rest o := by
  unfold firstErrors
  simp only [List.map_cons, List.find?_cons]
  cases h : ((expansionFor c w o d).2.2.length != 0) <;> simp [h]

theorem customizeDests_spec (c : genericTransportController) (objs : List Unstructured)
    (b : Binding) (i : Nat) (o : Unstructured) (w : World) (wanted : Unstructured → Bool)
    (hw : ∀ dst x p, (c.expandTemplates dst x p).2.1 = wanted x)
    (ds : List Destination) (j : Nat) (s : CustomizeState)
    (hprops : ∀ d, propsFor c s.world d = propsFor c w d)
    (hcto : s.customizeThisObject = (decide (j ≠ 0) && (requestsExpansion o && wanted o))) :
    (∀ d, propsFor c (customizeDests c objs b i o (requestsExpansion o) j ds s).world d =
      propsFor c w d) ∧
    (customizeDests c objs b i o (requestsExpansion o) j ds s).bindingErrors =
      s.bindingErrors ++
        (if (requestsExpansion o && wanted o) && !s.reportedSomeErrors then
          firstErrors c w ds o else []) ∧
    (customizeDests c objs b i o (requestsExpansion o) j ds s).destToCustomizedObjects =
      (match (if (requestsExpansion o && wanted o) && s.destToCustomizedObjects.isNone &&
            !ds.isEmpty then some (backfill objs b i) else s.destToCustomizedObjects) with
        | none => none
        | some m =>
          some (ds.foldl (fun m d =>
            mapSet m d ((m.lookup d).getD [] ++ [customizedEntry c w d o])) m)) := by
  induction ds generalizing j s with
  | nil =>
    rw [customizeDests]
    refine ⟨hprops, ?_, ?_⟩
    · unfold firstErrors
      simp
    · simp only [List.isEmpty_nil, Bool.not_true, Bool.and_false, Bool.false_eq_true, if_false,
        List.foldl_nil]
      cases s.destToCustomizedObjects <;> rfl
  | cons d rest ih =>
    rw [customizeDests]
    have hstep := customizeStep_spec c objs b i o j d s w wanted hw hprops hcto
    rcases hstep with ⟨h1, h2, h3, h4, h5⟩
    have hcto2 : (customizeStep c objs b i o (requestsExpansion o) j d s).customizeThisObject =
        (decide (j + 1 ≠ 0) && (requestsExpansion o && wanted o)) := by
      rw [h1]
      simp
    rcases ih (j + 1) (customizeStep c objs b i o (requestsExpansion o) j d s) h2 hcto2 with
      ⟨k1, k2, k3⟩
    refine ⟨k1, ?_, ?_⟩
    · rw [k2, h3, h4, firstErrors_cons, List.append_assoc]
      congr 1
      cases hq : (requestsExpansion o && wanted o) <;> cases hrep : s.reportedSomeErrors <;>
        cases hne : ((expansionFor c w o d).2.2.length != 0) <;> simp
    · rw [k3, h5]
      simp only [List.isEmpty_cons, Bool.not_false, Bool.and_true, List.foldl_cons]
      cases hq : (requestsExpansion o && wanted o) <;>
        cases hm : s.destToCustomizedObjects <;> simp

theorem customizeObjects_cons (c : genericTransportController) (objs : List Unstructured)
    (b : Binding) (i : Nat) (o : Unstructured) (rest : List Unstructured) (s : CustomizeState) :
    customizeObjects c objs b i (o :: rest) s =
      customizeObjects c objs b (i + 1) rest
        (customizeDests c objs b i o (requestsExpansion o) 0 b.destinations
          { s with customizeThisObject := false, reportedSomeErrors := false }) := rfl

theorem customizeObjects_errors (c : genericTransportController) (objs : List Unstructured)
    (b : Binding) (w : World) (wanted : Unstructured → Bool)
    (hw : ∀ dst x p, (c.expandTemplates dst x p).2.1 = wanted x)
    (rest : List Unstructured) (i : Nat) (s : CustomizeState)
    (hprops : ∀ d, propsFor c s.world d = propsFor c w d) :
    (customizeObjects c objs b i rest s).bindingErrors =
      s.bindingErrors ++
        (rest.map fun o =>
          if requestsExpansion o && wanted o then firstErrors c w b.destinations o
          else []).flatten := by
  induction rest generalizing i s with
  | nil =>
    rw [customizeObjects]
    simp
  | cons o rest ih =>
    rw [customizeObjects_cons]
    have hd := customizeDests_spec c objs b i o w wanted hw b.destinations 0
      { s with customizeThisObject := false, reportedSomeErrors := false } hprops (by simp)
    rw [ih (i + 1) _ hd.1, hd.2.1]
    simp only [Bool.not_false, Bool.and_true, List.map_cons, List.flatten_cons,
      List.append_assoc]

/-- C17, as the code has it: errors the engine reports without wanting a change are dropped.
The engine of `exComplaining` reports the error `boom` for the object `t`, which asks for
expansion, and the first destination `A`; the bindingErrors returned are empty. -/
theorem customize_drops_errors_without_wanted_change :
    requestsExpansion (exTemplated "t") = true ∧
    (expansionFor exComplaining exWorld (exTemplated "t") ⟨"A"⟩).2.2 = ["boom"] ∧
    (computeDestToCustomizedObjects exComplaining [exTemplated "t"]
      (exBinding none [] [⟨"A"⟩]) exWorld).2.1 = [] := by
  decide

/-- C17, amended: let the engine's wantedChange depend only on the object.  The bindingErrors
`computeDestToCustomizedObjects` returns are the concatenation, over the workload objects in
order, of this: for an object that carries the annotation asking for expansion and for which the
engine reports wantedChange, the errors the engine reports for the first destination in the order
of the spec for which it reports a non-empty list; nothing for any other object.  Errors the
engine reports for later destinations of the same object are not included. -/
theorem customize_errors_from_first_troubled_destination (c : genericTransportController)
    (objs : List Unstructured) (b : Binding) (w : World) (wanted : Unstructured → Bool)
    (hw : ∀ dst x p, (c.expandTemplates dst x p).2.1 = wanted x) :
    (computeDestToCustomizedObjects c objs b w).2.1 =
      (objs.map fun o =>
        if requestsExpansion o && wanted o then firstErrors c w b.destinations o
        else []).flatten := by
  unfold computeDestToCustomizedObjects
  simp only
  rw [customizeObjects_errors c objs b w wanted hw objs 0 _ (fun _ => rfl)]
  rfl

theorem customize_errors_from_first_troubled_destination_witness :
    (computeDestToCustomizedObjects exExpanding
        [exPlain "p", exTemplated "t", exTemplated "u"]
        (exBinding none [] [⟨"A"⟩, ⟨"bad1"⟩, ⟨"bad2"⟩]) exWorld).2.1 =
      ([exPlain "p", exTemplated "t", exTemplated "u"].map fun o =>
        if requestsExpansion o && true then
          firstErrors exExpanding exWorld [⟨"A"⟩, ⟨"bad1"⟩, ⟨"bad2"⟩] o
        else []).flatten ∧
    firstErrors exExpanding exWorld [⟨"A"⟩, ⟨"bad1"⟩, ⟨"bad2"⟩] (exTemplated "t") =
      ["no template for bad1"] :=
  ⟨customize_errors_from_first_troubled_destination exExpanding
      [exPlain "p", exTemplated "t", exTemplated "u"]
      (exBinding none [] [⟨"A"⟩, ⟨"bad1"⟩, ⟨"bad2"⟩]) exWorld (fun _ => true)
      (fun _ _ _ => rfl), by decide⟩

theorem mapSet_keys_mem {ν : Type} (m : List (Destination × ν)) (k : Destination) (v : ν)
    (h : k ∈ m.map Prod.fst) : (mapSet m k v).map Prod.fst = m.map Prod.fst := by
  unfold mapSet
  have ha : (m.any fun e => e.1 == k) = true := by
    rcases List.mem_map.mp h with ⟨e, he, hk⟩
    exact List.any_eq_true.mpr ⟨e, he, by simp [hk]⟩
  rw [if_pos ha, List.map_map]
  apply List.map_congr_left
  intro e _
  by_cases hk : (e.1 == k) = true
  · simp only [Function.comp, hk, if_true]
    exact (eq_of_beq hk).symm
  · simp only [Function.comp, hk, if_false, Bool.false_eq_true]

theorem mapSet_keys_not_mem {ν : Type} (m : List (Destination × ν)) (k : Destination) (v : ν)
    (h : k ∉ m.map Prod.fst) : (mapSet m k v).map Prod.fst = m.map Prod.fst ++ [k] := by
  unfold mapSet
  have ha : ¬ (m.any fun e => e.1 == k) = true := by
    intro ha
    rcases List.any_eq_true.mp ha with ⟨e, he, hk⟩
    exact h (List.mem_map.mpr ⟨e, he, eq_of_beq hk⟩)
  rw [if_neg ha]
  simp

theorem backfill_fold (v : List Unstructured) (ds : List Destination)
    (m0 : List (Destination × List Unstructured)) (hnd : ds.Nodup)
    (hdis : ∀ d ∈ ds, d ∉ m0.map Prod.fst) :
    (ds.foldl (fun m d => mapSet m d v) m0).map Prod.fst = m0.map Prod.fst ++ ds ∧
    ∀ d, (ds.foldl (fun m d => mapSet m d v) m0).lookup d =
      if d ∈ ds then some v else m0.lookup d := by
  induction ds generalizing m0 with
  | nil => simp
  | cons d rest ih =>
    rw [List.nodup_cons] at hnd
    have hk := mapSet_keys_not_mem m0 d v (hdis d (List.mem_cons_self _ _))
    have hdis2 : ∀ x ∈ rest, x ∉ (mapSet m0 d v).map Prod.fst := by
      intro x hx hmem
      rw [hk] at hmem
      rcases List.mem_append.mp hmem with h | h
      · exact hdis x (List.mem_cons_of_mem _ hx) h
      · rw [List.mem_singleton] at h
        rw [h] at hx
        exact hnd.1 hx
    rcases ih (mapSet m0 d v) hnd.2 hdis2 with ⟨k1, k2⟩
    rw [List.foldl_cons]
    refine ⟨?_, ?_⟩
    · rw [k1, hk]
      simp
    · intro x
      rw [k2, lookup_mapSet]
      by_cases hx : x ∈ rest
      · simp [hx]
      · by_cases hxd : x = d
        · subst hxd
          simp
        · have hb : (x == d) = false := by simpa using hxd
          simp [hx, hxd, hb]

theorem backfill_spec (objs : List Unstructured) (b : Binding) (i : Nat)
    (hnd : b.destinations.Nodup) :
    HoldsLists (backfill objs b i) b.destinations (fun _ => objs.take i) := by
  rcases backfill_fold (objs.take i) b.destinations [] hnd (by simp) with ⟨k1, k2⟩
  refine ⟨by simpa using k1, ?_⟩
  intro d hd
  unfold backfill
  rw [k2 d, if_pos hd]

theorem append_fold (f : Destination → Unstructured) (ds : List Destination)
    (m : List (Destination × List Unstructured)) (hnd : ds.Nodup)
    (hk : ∀ d ∈ ds, d ∈ m.map Prod.fst) :
    (ds.foldl (fun m d => mapSet m d ((m.lookup d).getD [] ++ [f d])) m).map Prod.fst =
      m.map Prod.fst ∧
    ∀ d, (ds.foldl (fun m d => mapSet m d ((m.lookup d).getD [] ++ [f d])) m).lookup d =
      if d ∈ ds then some ((m.lookup d).getD [] ++ [f d]) else m.lookup d := by
  induction ds generalizing m with
  | nil => simp
  | cons d rest ih =>
    rw [List.nodup_cons] at hnd
    have hkeys := mapSet_keys_mem m d ((m.lookup d).getD [] ++ [f d])
      (hk d (List.mem_cons_self _ _))
    have hk2 : ∀ x ∈ rest, x ∈ (mapSet m d ((m.lookup d).getD [] ++ [f d])).map Prod.fst := by
      intro x hx
      rw [hkeys]
      exact hk x (List.mem_cons_of_mem _ hx)
    rcases ih (mapSet m d ((m.lookup d).getD [] ++ [f d])) hnd.2 hk2 with ⟨k1, k2⟩
    rw [List.foldl_cons]
    refine ⟨k1.trans hkeys, ?_⟩
    intro x
    rw [k2, lookup_mapSet]
    by_cases hx : x ∈ rest
    · have hxd : x ≠ d := by
        intro e
        rw [e] at hx
        exact hnd.1 hx
      have hb : (x == d) = false := by simpa using hxd
      simp [hx, hb]
    · by_cases hxd : x = d
      · subst hxd
        simp [hx]
      · have hb : (x == d) = false := by simpa using hxd
        simp [hx, hxd, hb]

theorem append_holds (f : Destination → Unstructured) (dests : List Destination)
    (m : List (Destination × List Unstructured)) (L : Destination → List Unstructured)
    (hnd : dests.Nodup) (h : HoldsLists m dests L) :
    HoldsLists (dests.foldl (fun m d => mapSet m d ((m.lookup d).getD [] ++ [f d])) m) dests
      (fun d => L d ++ [f d]) := by
  rcases append_fold f dests m hnd (by rw [h.1]; exact fun _ hd => hd) with ⟨k1, k2⟩
  refine ⟨k1.trans h.1, ?_⟩
  intro d hd
  rw [k2 d, if_pos hd, h.2 d hd]
  rfl

theorem customizedEntry_unwanted (c : genericTransportController) (w : World)
    (wanted : Unstructured → Bool)
    (hw : ∀ dst x p, (c.expandTemplates dst x p).2.1 = wanted x) (d : Destination)
    (o : Unstructured) (h : (requestsExpansion o && wanted o) = false) :
    customizedEntry c w d o = o := by
  unfold customizedEntry
  have : (expansionFor c w o d).2.1 = wanted o := hw _ _ _
  rw [this, h]
  rfl

theorem customizeObjects_map (c : genericTransportController) (objs : List Unstructured)
    (b : Binding) (w : World) (wanted : Unstructured → Bool)
    (hw : ∀ dst x p, (c.expandTemplates dst x p).2.1 = wanted x)
    (hnd : b.destinations.Nodup)
    (rest pre : List Unstructured) (hobjs : objs = pre ++ rest) (s : CustomizeState)
    (hprops : ∀ d, propsFor c s.world d = propsFor c w d)
    (hnone : s.destToCustomizedObjects = none →
      b.destinations = [] ∨ ∀ o ∈ pre, (requestsExpansion o && wanted o) = false)
    (hsome : ∀ m, s.destToCustomizedObjects = some m →
      HoldsLists m b.destinations (fun d => pre.map (customizedEntry c w d))) :
    ∀ m, (customizeObjects c objs b pre.length rest s).destToCustomizedObjects = some m →
      HoldsLists m b.destinations (fun d => objs.map (customizedEntry c w d)) := by
  induction rest generalizing pre s with
  | nil =>
    intro m hm
    rw [customizeObjects] at hm
    rw [hobjs, List.append_nil]
    exact hsome m hm
  | cons o rest ih =>
    rw [customizeObjects_cons]
    have hd := customizeDests_spec c objs b pre.length o w wanted hw b.destinations 0
      { s with customizeThisObject := false, reportedSomeErrors := false } hprops (by simp)
    have hlen : pre.length + 1 = (pre ++ [o]).length := by simp
    rw [hlen]
    have htake : objs.take pre.length = pre := by
      rw [hobjs]
      simp
    apply ih (pre ++ [o]) (by rw [hobjs]; simp) _ hd.1
    · intro hn
      rw [hd.2.2] at hn
      simp only at hn
      cases hs : s.destToCustomizedObjects with
      | some m0 =>
        rw [hs] at hn
        simp at hn
      | none =>
        rw [hs] at hn
        by_cases hcond : (requestsExpansion o && wanted o && true && !b.destinations.isEmpty) = true
        · simp only [Option.isNone_none, hcond, if_true] at hn
          cases hn
        · simp only [Bool.and_true, Bool.and_eq_true, Bool.not_eq_true', not_and,
            Bool.not_eq_false] at hcond
          by_cases hq : (requestsExpansion o && wanted o) = true
          · left
            have := hcond (by simpa using hq)
            simpa using this
          · rcases hnone hs with h | h
            · exact Or.inl h
            · right
              intro x hx
              rcases List.mem_append.mp hx with h1 | h1
              · exact h x h1
              · rw [List.mem_singleton] at h1
                rw [h1]
                exact Bool.eq_false_iff.mpr hq
    · intro m1 hm1
      rw [hd.2.2] at hm1
      simp only at hm1
      have hL : ∀ m0, HoldsLists m0 b.destinations (fun d => pre.map (customizedEntry c w d)) →
          m1 = b.destinations.foldl (fun m d =>
            mapSet m d ((m.lookup d).getD [] ++ [customizedEntry c w d o])) m0 →
          HoldsLists m1 b.destinations (fun d => (pre ++ [o]).map (customizedEntry c w d)) := by
        intro m0 h0 he
        rw [he]
        have := append_holds (fun d => customizedEntry c w d o) b.destinations m0 _ hnd h0
        simpa using this
      cases hs : s.destToCustomizedObjects with
      | some m0 =>
        rw [hs] at hm1
        simp only [Option.isNone_some, Bool.and_false, Bool.false_and, Bool.false_eq_true,
          if_false, Option.some.injEq] at hm1
        exact hL m0 (hsome m0 hs) hm1.symm
      | none =>
        rw [hs] at hm1
        by_cases hcond : (requestsExpansion o && wanted o && true && !b.destinations.isEmpty) = true
        · simp only [Option.isNone_none, hcond, if_true, Option.some.injEq] at hm1
          have hne : b.destinations ≠ [] := by
            intro e
            rw [e] at hcond
            simp at hcond
          have hpre : ∀ x ∈ pre, (requestsExpansion x && wanted x) = false := by
            rcases hnone hs with h | h
            · exact absurd h hne
            · exact h
          have hb := backfill_spec objs b pre.length hnd
          rw [htake] at hb
          have hb2 : HoldsLists (backfill objs b pre.length) b.destinations
              (fun d => pre.map (customizedEntry c w d)) := by
            refine ⟨hb.1, ?_⟩
            intro d hd
            rw [hb.2 d hd]
            congr 1
            symm
            calc pre.map (customizedEntry c w d) = pre.map id :=
                  List.map_congr_left (fun x hx =>
                    customizedEntry_unwanted c w wanted hw d x (hpre x hx))
              _ = pre := List.map_id _
          exact hL _ hb2 hm1.symm
        · simp only [Option.isNone_none, hcond, if_false, Bool.false_eq_true] at hm1
          cases hm1

/-- C14: let the destinations of the Binding be pairwise distinct and the engine's wantedChange
depend only on the object.  If `computeDestToCustomizedObjects` returns a map that is not nil,
then the keys of the map are exactly the destinations of the spec, and the list of each
destination holds one entry per workload object, in the order of the workload: the expansion the
engine returns for the object with the properties of the destination if the object carries the
annotation asking for expansion and the engine reports wantedChange for it, and the object itself
otherwise. -/
theorem customized_map_holds_every_object (c : genericTransportController)
    (objs : List Unstructured) (b : Binding) (w : World) (wanted : Unstructured → Bool)
    (hnd : b.destinations.Nodup)
    (hw : ∀ dst x p, (c.expandTemplates dst x p).2.1 = wanted x)
    (m : List (Destination × List Unstructured))
    (hm : (computeDestToCustomizedObjects c objs b w).1 = some m) :
    m.map Prod.fst = b.destinations ∧
    (∀ d ∈ b.destinations, m.lookup d = some (objs.map (customizedEntry c w d))) ∧
    (∀ d o, customizedEntry c w d o =
      if requestsExpansion o && wanted o then
        (c.expandTemplates (d.clusterId ++ "/" ++ c.refToString o) o (propsFor c w d)).1
      else o) := by
  have h := customizeObjects_map c objs b w wanted hw hnd objs [] rfl
    ⟨none, [], false, false, w⟩ (fun _ => rfl) (fun _ => Or.inr (by simp))
    (fun m0 h0 => by cases h0) m hm
  refine ⟨h.1, h.2, ?_⟩
  intro d o
  unfold customizedEntry
  have : (expansionFor c w o d).2.1 = wanted o := hw _ _ _
  rw [this]
  rfl

theorem customized_map_holds_every_object_witness :
    (((computeDestToCustomizedObjects exExpanding [exPlain "p", exTemplated "t"]
        (exBinding none [] [⟨"A"⟩, ⟨"B"⟩]) exWorld).1.get (by decide)).map Prod.fst =
      [⟨"A"⟩, ⟨"B"⟩]) ∧
    ((computeDestToCustomizedObjects exExpanding [exPlain "p", exTemplated "t"]
        (exBinding none [] [⟨"A"⟩, ⟨"B"⟩]) exWorld).1.get (by decide)).lookup ⟨"B"⟩ =
      some [exPlain "p", { exTemplated "t" with body := "data@B" }] :=
  ⟨(customized_map_holds_every_object exExpanding [exPlain "p", exTemplated "t"]
      (exBinding none [] [⟨"A"⟩, ⟨"B"⟩]) exWorld (fun _ => true) (by decide)
      (fun _ _ _ => rfl) _ (Option.some_get _).symm).1,
   ((customized_map_holds_every_object exExpanding [exPlain "p", exTemplated "t"]
      (exBinding none [] [⟨"A"⟩, ⟨"B"⟩]) exWorld (fun _ => true) (by decide)
      (fun _ _ _ => rfl) _ (Option.some_get _).symm).2.1 ⟨"B"⟩ (by decide)).trans (by decide)⟩

/-- C15: a destination listed twice changes the result.  For the workload of the plain object `p`
and the object `t`, which the engine expands, the list returned for the destination `A` holds
`p`, `t` for the destinations `A`, and `p`, `t`, `t` for the destinations `A`, `A`. -/
theorem customize_duplicate_destination_doubles_entries :
    ((computeDestToCustomizedObjects exExpanding [exPlain "p", exTemplated "t"]
        (exBinding none [] [⟨"A"⟩]) exWorld).1.bind fun m => m.lookup ⟨"A"⟩) =
      some [exPlain "p", { exTemplated "t" with body := "data@A" }] ∧
    ((computeDestToCustomizedObjects exExpanding [exPlain "p", exTemplated "t"]
        (exBinding none [] [⟨"A"⟩, ⟨"A"⟩]) exWorld).1.bind fun m => m.lookup ⟨"A"⟩) =
      some [exPlain "p", { exTemplated "t" with body := "data@A" },
        { exTemplated "t" with body := "data@A" }] ∧
    setsNew [⟨"A"⟩, ⟨"A"⟩] = [⟨"A"⟩] := by
  decide

theorem customize_sets_sensitivities_witness :
    (computeDestToCustomizedObjects exExpanding [exTemplated "t"]
        (exBinding none [] [⟨"A"⟩, ⟨"B"⟩])
        { exWorld with bindingSensitiveDestinations :=
            [("b1", [⟨"Z"⟩]), ("b2", [⟨"Y"⟩])] }).2.2.bindingSensitiveDestinations =
      [("b1", [⟨"A"⟩, ⟨"B"⟩]), ("b2", [⟨"Y"⟩])] ∧
    (computeDestToCustomizedObjects exExpanding [exTemplated "t"]
        (exBinding none [] [⟨"A"⟩, ⟨"B"⟩])
        { exWorld with bindingSensitiveDestinations :=
            [("b1", [⟨"Z"⟩]), ("b2", [⟨"Y"⟩])] }).2.2.bindingSensitiveDestinations.lookup "b2" =
      some [⟨"Y"⟩] :=
  ⟨by decide,
   (customize_sets_sensitivities exExpanding [exTemplated "t"]
      (exBinding none [] [⟨"A"⟩, ⟨"B"⟩])
      { exWorld with bindingSensitiveDestinations :=
          [("b1", [⟨"Z"⟩]), ("b2", [⟨"Y"⟩])] }).2.2 "b2" (by decide)⟩

/-! ## Claims about the helpers of the reconcile -/

theorem findIdx_first (p : Unstructured → Bool) (l1 l2 : List Unstructured) (x : Unstructured)
    (h1 : ∀ y ∈ l1, p y = false) (hx : p x = true) :
    (l1 ++ x :: l2).findIdx p = l1.length := by
  induction l1 with
  | nil => simp [List.findIdx_cons, hx]
  | cons a t ih =>
    have ha : p a = false := h1 a (List.mem_cons_self _ _)
    simp only [List.cons_append, List.findIdx_cons, ha, cond_false, List.length_cons]
    rw [ih (fun y hy => h1 y (List.mem_cons_of_mem _ hy))]

theorem findIdx_none (p : Unstructured → Bool) (l : List Unstructured)
    (h : ∀ y ∈ l, p y = false) : l.findIdx p = l.length := by
  induction l with
  | nil => rfl
  | cons a t ih =>
    have ha : p a = false := h a (List.mem_cons_self _ _)
    simp only [List.findIdx_cons, ha, cond_false, List.length_cons]
    rw [ih (fun y hy => h y (List.mem_cons_of_mem _ hy))]

/-- C27: `popWrappedObjectByNamespace` equals the reference definition for every list and
namespace.  If no item has the namespace it returns nil and the list unchanged.  Otherwise it
returns the item at the lowest index whose namespace matches, the list left is one shorter, and
the item returned together with the list left is a rearrangement of the original list. -/
theorem pop_equals_reference (items : List Unstructured) (ns : String) :
    popWrappedObjectByNamespace items ns = popReference items ns ∧
    ((∀ y ∈ items, y.ns ≠ ns) → popWrappedObjectByNamespace items ns = (none, items)) ∧
    (∀ x, (popWrappedObjectByNamespace items ns).1 = some x →
      (∃ l1 l2, items = l1 ++ x :: l2 ∧ x.ns = ns ∧ ∀ y ∈ l1, y.ns ≠ ns) ∧
      (popWrappedObjectByNamespace items ns).2.length + 1 = items.length ∧
      (x :: (popWrappedObjectByNamespace items ns).2).Perm items) := by
  have hloop := popLoop_spec ns items [] (by simp)
  simp only [List.nil_append, List.length_nil] at hloop
  rcases hloop with ⟨hnone, hall⟩ | ⟨l1, x, l2, hsplit, hxns, hl1, hpop⟩
  · have hp : popWrappedObjectByNamespace items ns = (none, items) := hnone
    refine ⟨?_, fun _ => hp, ?_⟩
    · rw [hp]
      unfold popReference
      simp only
      rw [findIdx_none _ items (fun y hy => by simpa using hall y hy)]
      simp
    · intro x hx
      rw [hp] at hx
      cases hx
  · have hp : popWrappedObjectByNamespace items ns =
        (some x, ((l1 ++ x :: l2).set l1.length
          ((l1 ++ x :: l2).getD ((l1 ++ x :: l2).length - 1) x)).take
            ((l1 ++ x :: l2).length - 1)) := hpop
    refine ⟨?_, ?_, ?_⟩
    · rw [hp]
      unfold popReference
      simp only
      have hget : (l1 ++ x :: l2)[l1.length]? = some x := by
        rw [List.getElem?_append_right (le_refl _)]
        simp
      rw [hsplit, findIdx_first _ l1 l2 x (fun y hy => by simpa using hl1 y hy)
        (by simpa using hxns)]
      simp only [hget]
      simp [List.dropLast_eq_take]
    · intro hno
      exact absurd hxns (hno x (by rw [hsplit]; simp))
    · intro y hy
      rw [hp] at hy
      simp only [Option.some.injEq] at hy
      subst hy
      refine ⟨⟨l1, l2, hsplit, hxns, hl1⟩, ?_, ?_⟩
      · rw [hp, hsplit]
        simp
        omega
      · rw [hp, hsplit]
        have hperm := set_last_take_perm l1 l2 x
        exact (List.Perm.cons x hperm).trans (List.perm_middle.symm)

theorem pop_equals_reference_witness :
    popWrappedObjectByNamespace [exEnvelope "A" "1", exEnvelope "B" "2", exEnvelope "C" "3"] "A" =
      (some (exEnvelope "A" "1"), [exEnvelope "C" "3", exEnvelope "B" "2"]) ∧
    ((popWrappedObjectByNamespace
        [exEnvelope "A" "1", exEnvelope "B" "2", exEnvelope "C" "3"] "A").2.length + 1 = 3) :=
  ⟨by decide,
   ((pop_equals_reference [exEnvelope "A" "1", exEnvelope "B" "2", exEnvelope "C" "3"] "A").2.2
      (exEnvelope "A" "1") (by decide)).2.1⟩

theorem removeFinalizerLoop_length (finalizer : String) (rest fl : List String) (index : Nat) :
    (removeFinalizerLoop finalizer rest fl index).1.length = fl.length := by
  induction rest generalizing fl index with
  | nil => rfl
  | cons a t ih =>
    rw [removeFinalizerLoop]
    by_cases h : a = finalizer
    · rw [if_pos h]
      exact ih fl index
    · rw [if_neg h, ih]
      simp

/-- C28: `removeFinalizer` returns the Binding it was given, and false, when the finalizer is not
among the finalizers of the Binding.  Otherwise it returns true and a Binding that equals the
input but for its finalizers, which are the original finalizers without any occurrence of the
finalizer, the others in their order. -/
theorem removeFinalizer_returns_filtered (binding : Binding) (finalizer : String) :
    (finalizer ∉ binding.finalizers →
      (removeFinalizer binding finalizer).1 = binding ∧
      (removeFinalizer binding finalizer).2.1 = false) ∧
    (finalizer ∈ binding.finalizers →
      (removeFinalizer binding finalizer).1 =
        { binding with finalizers := binding.finalizers.filter fun x => decide (x ≠ finalizer) } ∧
      (removeFinalizer binding finalizer).2.1 = true) := by
  have hspec := removeFinalizerLoop_spec finalizer binding.finalizers binding.finalizers 0
    (by simp)
  have hlen := removeFinalizerLoop_length finalizer binding.finalizers binding.finalizers 0
  simp only [Nat.zero_add, List.take_zero, List.nil_append] at hspec
  constructor
  · intro hnot
    have hfil : (binding.finalizers.filter fun x => decide (x ≠ finalizer)) =
        binding.finalizers := by
      apply List.filter_eq_self.mpr
      intro a ha
      have : a ≠ finalizer := fun e => hnot (e ▸ ha)
      simpa using this
    rw [hfil] at hspec
    have hidx : binding.finalizers.length =
        (removeFinalizerLoop finalizer binding.finalizers binding.finalizers 0).2 := hspec.1.symm
    have hsame : (removeFinalizerLoop finalizer binding.finalizers binding.finalizers 0).1 =
        binding.finalizers := by
      have h2 := hspec.2
      rw [← hidx, ← hlen, List.take_length] at h2
      exact h2
    unfold removeFinalizer
    simp only
    rw [if_pos hidx, hsame]
    exact ⟨rfl, rfl⟩
  · intro hmem
    have hlt : (binding.finalizers.filter fun x => decide (x ≠ finalizer)).length <
        binding.finalizers.length := by
      apply List.length_filter_lt_length_iff_exists.mpr
      exact ⟨finalizer, hmem, by simp⟩
    have hidx : ¬ binding.finalizers.length =
        (removeFinalizerLoop finalizer binding.finalizers binding.finalizers 0).2 := by
      rw [hspec.1]
      omega
    unfold removeFinalizer
    simp only
    rw [if_neg hidx]
    simp only [hspec.2, and_true]

theorem removeFinalizer_returns_filtered_witness :
    ((removeFinalizer (exBinding none ["keep", transportFinalizer, "last"] []) "absent").1 =
        exBinding none ["keep", transportFinalizer, "last"] [] ∧
      (removeFinalizer (exBinding none ["keep", transportFinalizer, "last"] []) "absent").2.1 =
        false) ∧
    ((removeFinalizer (exBinding none ["keep", transportFinalizer, "last"] [])
        transportFinalizer).1 = exBinding none ["keep", "last"] [] ∧
      (removeFinalizer (exBinding none ["keep", transportFinalizer, "last"] [])
        transportFinalizer).2.1 = true) :=
  ⟨(removeFinalizer_returns_filtered (exBinding none ["keep", transportFinalizer, "last"] [])
      "absent").1 (by decide),
   (removeFinalizer_returns_filtered (exBinding none ["keep", transportFinalizer, "last"] [])
      transportFinalizer).2 (by decide)⟩

/-- C29: `removeFinalizer` writes to the Binding it is given.  For a Binding whose finalizers are
the transport finalizer followed by `other`, the finalizers of the Binding passed in are
`other`, `other` after the call. -/
theorem removeFinalizer_overwrites_given_finalizers :
    (removeFinalizer (exBinding none [transportFinalizer, "other"] [])
      transportFinalizer).2.2.finalizers = ["other", "other"] ∧
    (exBinding none [transportFinalizer, "other"] []).finalizers =
      [transportFinalizer, "other"] ∧
    (removeFinalizer (exBinding none [transportFinalizer, "other"] [])
      transportFinalizer).1.finalizers = ["other"] := by
  decide

/-! ## Claims about the workqueue and the properties that changed -/

theorem mapEqual_iff (a b : StrMap) :
    mapEqual a b = true ↔ ∀ k, a.lookup k = b.lookup k := by
  unfold mapEqual
  simp only [Bool.and_eq_true, List.all_eq_true, beq_iff_eq]
  constructor
  · rintro ⟨h1, h2⟩ k
    by_cases ha : k ∈ keysOf a
    · rcases List.mem_map.mp ha with ⟨kv, hkv, hk⟩
      rw [← hk]
      exact (h1 kv hkv).symm
    · by_cases hb : k ∈ keysOf b
      · rcases List.mem_map.mp hb with ⟨kv, hkv, hk⟩
        rw [← hk]
        exact h2 kv hkv
      · have e1 : a.lookup k = none := by
          by_contra hne
          exact ha ((lookup_ne_none_iff_mem_keys a k).mp hne)
        have e2 : b.lookup k = none := by
          by_contra hne
          exact hb ((lookup_ne_none_iff_mem_keys b k).mp hne)
        rw [e1, e2]
  · intro h
    exact ⟨fun kv _ => (h kv.1).symm, fun kv _ => h kv.1⟩

/-- C21: `syncProperties` for the inventory name `inv` acts if and only if
`destinationProperties` holds an entry for the destination of `inv` and that entry is not equal,
as a map from strings to strings, to the properties collected now.  In that case it replaces that
entry with the new properties, leaves the keys of `destinationProperties`, its other entries and
`bindingSensitiveDestinations` as they are, and adds to the workqueue the names of exactly the
Bindings whose set of sensitive destinations holds the destination.  In every other case it adds
nothing to the workqueue and leaves the world as it is. -/
theorem syncProperties_acts_iff_cached_and_changed (c : genericTransportController)
    (inv : String) (w : World) :
    ((∃ old, w.destinationProperties.lookup ⟨inv⟩ = some old ∧
        ¬ (∀ k, old.lookup k = (collectPropertiesForDestination c inv w).lookup k)) →
      (syncProperties c inv w).2 =
        { w with destinationProperties :=
            mapSet w.destinationProperties ⟨inv⟩ (collectPropertiesForDestination c inv w) } ∧
      (syncProperties c inv w).2.destinationProperties.lookup ⟨inv⟩ =
        some (collectPropertiesForDestination c inv w) ∧
      (∀ d, d ≠ (⟨inv⟩ : Destination) →
        (syncProperties c inv w).2.destinationProperties.lookup d =
          w.destinationProperties.lookup d) ∧
      (syncProperties c inv w).2.destinationProperties.map Prod.fst =
        w.destinationProperties.map Prod.fst ∧
      (syncProperties c inv w).2.bindingSensitiveDestinations = w.bindingSensitiveDestinations ∧
      (∀ q, q ∈ (syncProperties c inv w).1 ↔
        ∃ name dests, q = QueueCall.add (.str name) ∧
          (name, dests) ∈ w.bindingSensitiveDestinations ∧ (⟨inv⟩ : Destination) ∈ dests)) ∧
    (¬ (∃ old, w.destinationProperties.lookup ⟨inv⟩ = some old ∧
        ¬ (∀ k, old.lookup k = (collectPropertiesForDestination c inv w).lookup k)) →
      syncProperties c inv w = ([], w)) := by
  constructor
  · rintro ⟨old, hold, hne⟩
    have hmeq : PrimitiveMapEqual old (collectPropertiesForDestination c inv w) = false := by
      unfold PrimitiveMapEqual
      cases hm : mapEqual old (collectPropertiesForDestination c inv w)
      · rfl
      · exact absurd ((mapEqual_iff _ _).mp hm) hne
    have hrun : syncProperties c inv w =
        (((w.bindingSensitiveDestinations.filter fun e => e.2.contains ⟨inv⟩).map
            fun e => QueueCall.add (.str e.1)),
          { w with destinationProperties :=
              mapSet w.destinationProperties ⟨inv⟩ (collectPropertiesForDestination c inv w) }) := by
      unfold syncProperties
      simp only [hold, hmeq, Bool.false_eq_true, if_false]
    have hkey : (⟨inv⟩ : Destination) ∈ w.destinationProperties.map Prod.fst := by
      by_contra hno
      have : w.destinationProperties.lookup ⟨inv⟩ = none := by
        apply lookup_none_of_not_any
        apply Bool.eq_false_iff.mpr
        intro hany
        rcases List.any_eq_true.mp hany with ⟨e, he, hk⟩
        exact hno (List.mem_map.mpr ⟨e, he, by simpa using hk⟩)
      rw [this] at hold
      cases hold
    rw [hrun]
    refine ⟨rfl, ?_, ?_, ?_, rfl, ?_⟩
    · simp only [lookup_mapSet, beq_self_eq_true, if_true]
    · intro d hd
      have hb : (d == (⟨inv⟩ : Destination)) = false := by simpa using hd
      simp only [lookup_mapSet, hb, Bool.false_eq_true, if_false]
    · exact mapSet_keys_mem _ _ _ hkey
    · intro q
      simp only [List.mem_map, List.mem_filter, List.contains_iff_exists_mem_beq]
      constructor
      · rintro ⟨e, ⟨he, x, hx, hxe⟩, hq⟩
        refine ⟨e.1, e.2, hq.symm, he, ?_⟩
        rw [eq_of_beq hxe]
        exact hx
      · rintro ⟨name, dests, hq, hmem, hd⟩
        exact ⟨(name, dests), ⟨hmem, ⟨⟨inv⟩, hd, beq_self_eq_true _⟩⟩, hq.symm⟩
  · intro hno
    unfold syncProperties
    simp only
    cases hold : w.destinationProperties.lookup ⟨inv⟩ with
    | none => rfl
    | some old =>
      simp only
      have hm : PrimitiveMapEqual old (collectPropertiesForDestination c inv w) = true := by
        unfold PrimitiveMapEqual
        apply (mapEqual_iff _ _).mpr
        by_contra hne
        exact hno ⟨old, hold, hne⟩
      rw [if_pos hm]

theorem syncProperties_acts_iff_cached_and_changed_witness :
    (syncProperties exController "A" exWorldCached).1 = [QueueCall.add (.str "b1")] ∧
    (syncProperties exController "A" exWorldCached).2.destinationProperties.lookup ⟨"A"⟩ =
      some (collectPropertiesForDestination exController "A" exWorldCached) ∧
    (syncProperties exController "A" exWorldCached).2.destinationProperties.map Prod.fst =
      [⟨"A"⟩, ⟨"B"⟩] ∧
    syncProperties exController "B" exWorldCached = ([], exWorldCached) ∧
    syncProperties exController "C" exWorldCached = ([], exWorldCached) :=
  ⟨by decide,
   ((syncProperties_acts_iff_cached_and_changed exController "A" exWorldCached).1
      ⟨[("clusterName", "A")], by decide, fun h => absurd (h "region") (by decide)⟩).2.1,
   ((syncProperties_acts_iff_cached_and_changed exController "A" exWorldCached).1
      ⟨[("clusterName", "A")], by decide, fun h => absurd (h "region") (by decide)⟩).2.2.2.1,
   (syncProperties_acts_iff_cached_and_changed exController "B" exWorldCached).2
      (by
        rintro ⟨old, hold, hne⟩
        have ho : old = [("clusterName", "B")] := by
          have : some old = some [("clusterName", "B")] := by
            rw [← hold]
            decide
          exact Option.some.inj this
        subst ho
        apply hne
        intro k
        have hc : collectPropertiesForDestination exController "B" exWorldCached =
            [("clusterName", "B")] := by decide
        rw [hc]),
   by decide⟩

/-- The shape of what `process` leaves, case by case on the item. -/
theorem process_cases (c : genericTransportController) (obj : Item) (w : World) :
    (∃ key e, obj = .str key ∧ SplitMetaNamespaceKey key = .error e ∧
      ∃ err, process c obj w = (some (some err, false), [QueueCall.done obj], w)) ∨
    (∃ key ns name, obj = .str key ∧ SplitMetaNamespaceKey key = .ok (ns, name) ∧
      ((∃ err, (syncBinding c name w).1 = .err err ∧
          process c obj w = (some (some err, true), [QueueCall.done obj], (syncBinding c name w).2)) ∨
       ((syncBinding c name w).1 = .ok () ∧
          process c obj w = (some (none, false), [QueueCall.done obj], (syncBinding c name w).2)) ∨
       ((syncBinding c name w).1 = .crash ∧
          process c obj w = (none, [QueueCall.done obj], (syncBinding c name w).2)))) ∨
    (∃ inv, obj = .recollectProperties inv ∧
      process c obj w = (some (none, false),
        (syncProperties c inv w).1 ++ [QueueCall.done obj], (syncProperties c inv w).2)) ∨
    (∃ text err, obj = .other text ∧
      process c obj w = (some (some err, false), [QueueCall.done obj], w)) := by
  cases obj with
  | str key =>
    cases hs : SplitMetaNamespaceKey key with
    | error e =>
      left
      exact ⟨key, e, rfl, hs, e.wrapf ("invalid object key '" ++ key ++ "' - "),
        by simp only [process, hs]⟩
    | ok p =>
      rcases p with ⟨ns, name⟩
      right
      left
      refine ⟨key, ns, name, rfl, hs, ?_⟩
      rcases hb : syncBinding c name w with ⟨r, w1⟩
      cases r with
      | err err => exact Or.inl ⟨err, rfl, by simp only [process, hs, hb]⟩
      | ok u => exact Or.inr (Or.inl ⟨rfl, by simp only [process, hs, hb]⟩)
      | crash => exact Or.inr (Or.inr ⟨rfl, by simp only [process, hs, hb]⟩)
  | recollectProperties inv =>
    right
    right
    left
    exact ⟨inv, rfl, rfl⟩
  | other text =>
    right
    right
    right
    exact ⟨text, _, rfl, rfl⟩

theorem syncProperties_frame (c : genericTransportController) (inv : String) (w : World) :
    (∀ x ∈ (syncProperties c inv w).1, ∃ name, x = QueueCall.add (.str name)) ∧
    (syncProperties c inv w).2.trace = w.trace ∧
    (syncProperties c inv w).2.bindings = w.bindings ∧
    (syncProperties c inv w).2.its = w.its := by
  unfold syncProperties
  simp only
  cases w.destinationProperties.lookup ⟨inv⟩ with
  | none => exact ⟨by simp, rfl, rfl, rfl⟩
  | some old =>
    simp only
    by_cases hm : PrimitiveMapEqual old (collectPropertiesForDestination c inv w) = true
    · rw [if_pos hm]
      exact ⟨by simp, rfl, rfl, rfl⟩
    · rw [if_neg hm]
      refine ⟨?_, rfl, rfl, rfl⟩
      intro x hx
      rcases List.mem_map.mp hx with ⟨e, _, he⟩
      exact ⟨e.1, he.symm⟩

/-- C24: for every item the workqueue hands out, `processNextWorkItem` calls `Done` once and
after it either `AddRateLimited` or `Forget`, both for the item.  It calls `AddRateLimited` if and
only if the item is a string whose key is well formed and `syncBinding` returned an error for its
name; in every other case it calls `Forget`.  Nothing else is called on the workqueue but the
`Add` of Binding names by `syncProperties`, which runs only for a `recollectProperties` item and
then leaves the calls to the API servers as they are; for a string the world left is the one
`syncBinding` leaves, or the world as it was when the key is malformed. -/
theorem processNextWorkItem_done_then_forget_or_retry (c : genericTransportController)
    (obj : Item) (w : World) :
    (∃ added, (∀ x ∈ added, ∃ name, x = QueueCall.add (.str name)) ∧
      (added ≠ [] → ∃ inv, obj = .recollectProperties inv) ∧
      ((processNextWorkItem c (some obj) w).2.1 =
          added ++ [QueueCall.done obj, QueueCall.addRateLimited obj] ∨
        (processNextWorkItem c (some obj) w).2.1 =
          added ++ [QueueCall.done obj, QueueCall.forget obj])) ∧
    (processNextWorkItem c (some obj) w).2.1.count (QueueCall.done obj) = 1 ∧
    (QueueCall.addRateLimited obj ∈ (processNextWorkItem c (some obj) w).2.1 ↔
      ∃ key ns name err, obj = .str key ∧ SplitMetaNamespaceKey key = .ok (ns, name) ∧
        (syncBinding c name w).1 = .err err) ∧
    (QueueCall.forget obj ∈ (processNextWorkItem c (some obj) w).2.1 ↔
      ¬ ∃ key ns name err, obj = .str key ∧ SplitMetaNamespaceKey key = .ok (ns, name) ∧
        (syncBinding c name w).1 = .err err) ∧
    (∀ inv, obj = .recollectProperties inv →
      (processNextWorkItem c (some obj) w).2.2 = (syncProperties c inv w).2 ∧
      (processNextWorkItem c (some obj) w).2.2.trace = w.trace ∧
      (processNextWorkItem c (some obj) w).2.2.bindings = w.bindings ∧
      (processNextWorkItem c (some obj) w).2.2.its = w.its) ∧
    (∀ key, obj = .str key →
      (∃ e, SplitMetaNamespaceKey key = .error e ∧ (processNextWorkItem c (some obj) w).2.2 = w) ∨
      (∃ ns name, SplitMetaNamespaceKey key = .ok (ns, name) ∧
        (processNextWorkItem c (some obj) w).2.2 = (syncBinding c name w).2)) ∧
    (∀ text, obj = .other text → (processNextWorkItem c (some obj) w).2.2 = w) := by
  have hcount : ∀ (added : List QueueCall) (last : QueueCall),
      (∀ x ∈ added, ∃ name, x = QueueCall.add (.str name)) →
      last ≠ QueueCall.done obj →
      (added ++ [QueueCall.done obj, last]).count (QueueCall.done obj) = 1 := by
    intro added last hadd hlast
    have h0 : added.count (QueueCall.done obj) = 0 := by
      apply List.count_eq_zero.mpr
      intro hmem
      rcases hadd _ hmem with ⟨name, hn⟩
      cases hn
    rw [List.count_append, h0]
    simp [List.count_cons, Ne.symm hlast]
  have hmemAdd : ∀ (added : List QueueCall) (q : QueueCall),
      (∀ x ∈ added, ∃ name, x = QueueCall.add (.str name)) →
      (∀ name, q ≠ QueueCall.add (.str name)) → q ∉ added := by
    intro added q hadd hq hmem
    rcases hadd q hmem with ⟨name, hn⟩
    exact hq name hn
  rcases process_cases c obj w with
    ⟨key, e, hobj, hsplit, err, hp⟩ |
    ⟨key, ns, name, hobj, hsplit, hsync⟩ |
    ⟨inv, hobj, hp⟩ |
    ⟨text, err, hobj, hp⟩
  · have hrun : processNextWorkItem c (some obj) w =
        (some true, [QueueCall.done obj, QueueCall.forget obj], w) := by
      simp only [processNextWorkItem, hp, List.singleton_append]
    have hno : ¬ ∃ key ns name err, obj = .str key ∧
        SplitMetaNamespaceKey key = .ok (ns, name) ∧ (syncBinding c name w).1 = .err err := by
      rintro ⟨key2, ns2, name2, err2, h1, h2, _⟩
      rw [hobj] at h1
      cases h1
      rw [hsplit] at h2
      cases h2
    rw [hrun]
    refine ⟨⟨[], by simp, fun h => absurd rfl h, Or.inr rfl⟩, ?_, ?_, ?_, ?_, ?_, ?_⟩
    · exact hcount [] _ (by simp) (by simp)
    · simp only [List.mem_cons, List.mem_singleton, List.not_mem_nil, or_false]
      constructor
      · rintro (h | h)
        · cases h
        · cases h
      · intro h
        exact absurd h hno
    · exact ⟨fun _ => hno, fun _ => by simp⟩
    · intro inv2 h
      rw [hobj] at h
      cases h
    · intro key2 h
      rw [hobj] at h
      cases h
      exact Or.inl ⟨e, hsplit, rfl⟩
    · intro text h
      rw [hobj] at h
  · rcases hsync with ⟨err, herr, hp⟩ | ⟨hok, hp⟩ | ⟨hcr, hp⟩
    · have hrun : processNextWorkItem c (some obj) w =
          (some true, [QueueCall.done obj, QueueCall.addRateLimited obj],
            (syncBinding c name w).2) := by
        simp only [processNextWorkItem, hp, List.singleton_append]
      have hyes : ∃ key ns name err, obj = .str key ∧
          SplitMetaNamespaceKey key = .ok (ns, name) ∧ (syncBinding c name w).1 = .err err :=
        ⟨key, ns, name, err, hobj, hsplit, herr⟩
      rw [hrun]
      refine ⟨⟨[], by simp, fun h => absurd rfl h, Or.inl rfl⟩, ?_, ?_, ?_, ?_, ?_, ?_⟩
      · exact hcount [] _ (by simp) (by simp)
      · exact ⟨fun _ => hyes, fun _ => by simp⟩
      · simp only [List.mem_cons, List.mem_singleton, List.not_mem_nil, or_false]
        constructor
        · rintro (h | h)
          · cases h
          · cases h
        · intro h
          exact absurd hyes h
      · intro inv2 h
        rw [hobj] at h
        cases h
      · intro key2 h
        rw [hobj] at h
        cases h
        exact Or.inr ⟨ns, name, hsplit, rfl⟩
      · intro text h
        rw [hobj] at h
        first | done | cases h
    · have hrun : processNextWorkItem c (some obj) w =
          (some true, [QueueCall.done obj, QueueCall.forget obj], (syncBinding c name w).2) := by
        simp only [processNextWorkItem, hp, List.singleton_append]
      have hno : ¬ ∃ key ns name err, obj = .str key ∧
          SplitMetaNamespaceKey key = .ok (ns, name) ∧ (syncBinding c name w).1 = .err err := by
        rintro ⟨key2, ns2, name2, err2, h1, h2, h3⟩
        rw [hobj] at h1
        cases h1
        rw [hsplit] at h2
        cases h2
        rw [hok] at h3
        cases h3
      rw [hrun]
      refine ⟨⟨[], by simp, fun h => absurd rfl h, Or.inr rfl⟩, ?_, ?_, ?_, ?_, ?_, ?_⟩
      · exact hcount [] _ (by simp) (by simp)
      · simp only [List.mem_cons, List.mem_singleton, List.not_mem_nil, or_false]
        constructor
        · rintro (h | h)
          · cases h
          · cases h
        · intro h
          exact absurd h hno
      · exact ⟨fun _ => hno, fun _ => by simp⟩
      · intro inv2 h
        rw [hobj] at h
        cases h
      · intro key2 h
        rw [hobj] at h
        cases h
        exact Or.inr ⟨ns, name, hsplit, rfl⟩
      · intro text h
        rw [hobj] at h
        first | done | cases h
    · have hrun : processNextWorkItem c (some obj) w =
          (none, [QueueCall.done obj, QueueCall.forget obj], (syncBinding c name w).2) := by
        simp only [processNextWorkItem, hp, List.singleton_append]
      have hno : ¬ ∃ key ns name err, obj = .str key ∧
          SplitMetaNamespaceKey key = .ok (ns, name) ∧ (syncBinding c name w).1 = .err err := by
        rintro ⟨key2, ns2, name2, err2, h1, h2, h3⟩
        rw [hobj] at h1
        cases h1
        rw [hsplit] at h2
        cases h2
        rw [hcr] at h3
        cases h3
      rw [hrun]
      refine ⟨⟨[], by simp, fun h => absurd rfl h, Or.inr rfl⟩, ?_, ?_, ?_, ?_, ?_, ?_⟩
      · exact hcount [] _ (by simp) (by simp)
      · simp only [List.mem_cons, List.mem_singleton, List.not_mem_nil, or_false]
        constructor
        · rintro (h | h)
          · cases h
          · cases h
        · intro h
          exact absurd h hno
      · exact ⟨fun _ => hno, fun _ => by simp⟩
      · intro inv2 h
        rw [hobj] at h
        cases h
      · intro key2 h
        rw [hobj] at h
        cases h
        exact Or.inr ⟨ns, name, hsplit, rfl⟩
      · intro text h
        rw [hobj] at h
        first | done | cases h
  · have hfr := syncProperties_frame c inv w
    have hrun : processNextWorkItem c (some obj) w =
        (some true, (syncProperties c inv w).1 ++ [QueueCall.done obj, QueueCall.forget obj],
          (syncProperties c inv w).2) := by
      simp only [processNextWorkItem, hp, List.append_assoc, List.singleton_append]
    have hno : ¬ ∃ key ns name err, obj = .str key ∧
        SplitMetaNamespaceKey key = .ok (ns, name) ∧ (syncBinding c name w).1 = .err err := by
      rintro ⟨key2, ns2, name2, err2, h1, _, _⟩
      rw [hobj] at h1
      cases h1
    rw [hrun]
    refine ⟨⟨_, hfr.1, fun _ => ⟨inv, hobj⟩, Or.inr rfl⟩, ?_, ?_, ?_, ?_, ?_, ?_⟩
    · exact hcount _ _ hfr.1 (by simp)
    · constructor
      · intro h
        rcases List.mem_append.mp h with h1 | h1
        · exact absurd h1 (hmemAdd _ _ hfr.1 (by simp))
        · simp at h1
      · intro h
        exact absurd h hno
    · exact ⟨fun _ => hno, fun _ => by simp⟩
    · intro inv2 h
      rw [hobj] at h
      cases h
      exact ⟨rfl, hfr.2.1, hfr.2.2.1, hfr.2.2.2⟩
    · intro key2 h
      rw [hobj] at h
      cases h
    · intro text h
      rw [hobj] at h
      first | done | cases h
  · have hrun : processNextWorkItem c (some obj) w =
        (some true, [QueueCall.done obj, QueueCall.forget obj], w) := by
      simp only [processNextWorkItem, hp, List.singleton_append]
    have hno : ¬ ∃ key ns name err, obj = .str key ∧
        SplitMetaNamespaceKey key = .ok (ns, name) ∧ (syncBinding c name w).1 = .err err := by
      rintro ⟨key2, ns2, name2, err2, h1, _, _⟩
      rw [hobj] at h1
      cases h1
    rw [hrun]
    refine ⟨⟨[], by simp, fun h => absurd rfl h, Or.inr rfl⟩, ?_, ?_, ?_, ?_, ?_, ?_⟩
    · exact hcount [] _ (by simp) (by simp)
    · simp only [List.mem_cons, List.mem_singleton, List.not_mem_nil, or_false]
      constructor
      · rintro (h | h)
        · cases h
        · cases h
      · intro h
        exact absurd h hno
    · exact ⟨fun _ => hno, fun _ => by simp⟩
    · intro inv2 h
      rw [hobj] at h
      cases h
    · intro key2 h
      rw [hobj] at h
      cases h
    · intro text _
      rfl

theorem processNextWorkItem_done_then_forget_or_retry_witness :
    QueueCall.addRateLimited (.str "b1") ∈
      (processNextWorkItem exController (some (.str "b1"))
        { exWorldNs1 with faults := [some "boom"] }).2.1 ∧
    (processNextWorkItem exController (some (.str "b1"))
      { exWorldNs1 with faults := [some "boom"] }).2.1 =
      [QueueCall.done (.str "b1"), QueueCall.addRateLimited (.str "b1")] ∧
    (processNextWorkItem exController (some (.str "a/b/c")) exWorldNs1).2.1 =
      [QueueCall.done (.str "a/b/c"), QueueCall.forget (.str "a/b/c")] ∧
    (processNextWorkItem exController (some (.recollectProperties "A")) exWorldCached).2.1 =
      [QueueCall.add (.str "b1"), QueueCall.done (.recollectProperties "A"),
        QueueCall.forget (.recollectProperties "A")] :=
  ⟨(processNextWorkItem_done_then_forget_or_retry exController (.str "b1")
      { exWorldNs1 with faults := [some "boom"] }).2.2.1.mpr
      ⟨"b1", "", "b1",
        ⟨false, "failed to get current wrapped objects that are owned by Binding 'b1' - boom"⟩,
        rfl, by decide, by decide⟩,
   by decide, by decide, by decide⟩

/-! ## Claims about the finalizer on the normal path -/

theorem addFinalizerToBinding_present (b : Binding) (w : World)
    (h : transportFinalizer ∈ b.finalizers) : addFinalizerToBinding b w = (none, b, w) := by
  have ha : (b.finalizers.any fun item => item == transportFinalizer) = true :=
    List.any_eq_true.mpr ⟨_, h, beq_self_eq_true _⟩
  simp only [addFinalizerToBinding, updateBinding, addFinalizer, ha, if_true]

theorem addFinalizerToBinding_absent (b : Binding) (w : World)
    (h : transportFinalizer ∉ b.finalizers) :
    (addFinalizerToBinding b w).2.2 = (bindingUpdate (withTransportFinalizer b) w).2 ∧
    (addFinalizerToBinding b w).2.2.trace =
      w.trace ++ [Call.bindingUpdate (withTransportFinalizer b)] ∧
    (∀ e, (bindingUpdate (withTransportFinalizer b) w).1 = .error e →
      ∃ e2, (addFinalizerToBinding b w).1 = some e2) ∧
    (∀ x, (bindingUpdate (withTransportFinalizer b) w).1 = .ok x →
      (addFinalizerToBinding b w).1 = none) := by
  have ha : ¬ (b.finalizers.any fun item => item == transportFinalizer) = true := by
    intro hany
    rcases List.any_eq_true.mp hany with ⟨x, hx, he⟩
    rw [eq_of_beq he] at hx
    exact h hx
  have ht := bindingUpdate_trace (withTransportFinalizer b) w
  simp only [addFinalizerToBinding, updateBinding, addFinalizer, ha, if_false,
    Bool.false_eq_true]
  rcases hu : bindingUpdate { b with finalizers := b.finalizers ++ [transportFinalizer] } w with
    ⟨r, w1⟩
  have hu2 : bindingUpdate (withTransportFinalizer b) w = (r, w1) := hu
  rw [hu2] at ht
  rw [hu2]
  cases r with
  | error e =>
    refine ⟨rfl, ht, fun _ _ => ⟨_, rfl⟩, ?_⟩
    intro x hx
    cases hx
  | ok x =>
    refine ⟨rfl, ht, ?_, fun _ _ => rfl⟩
    intro e he
    cases he

theorem converge_no_binding_update (b : Binding) (items : List Unstructured)
    (out : WrappedOut) (w : World) :
    ∃ l, (converge b items out w).2.trace = w.trace ++ l ∧
      ∀ x ∈ l, x.isBindingUpdate = false := by
  have hws : ∃ l0, (writeStatus b out.bindingErrors w).2.trace = w.trace ++ l0 ∧
      ∀ x ∈ l0, x.isBindingUpdate = false := by
    rcases (writeStatus_spec b out.bindingErrors w).2.2 with ⟨_, hw⟩ | ht
    · exact ⟨[], by rw [hw]; simp, by simp⟩
    · refine ⟨_, ht, ?_⟩
      intro x hx
      rw [List.mem_singleton] at hx
      rw [hx]
      rfl
  rcases hws with ⟨l0, t0, c0⟩
  unfold converge
  rcases hx4 : writeStatus b out.bindingErrors w with ⟨r4, wd⟩
  rw [hx4] at t0
  simp only at t0
  cases r4 with
  | some e => exact ⟨l0, t0, c0⟩
  | none =>
    simp only
    rcases propagate_calls out.destToWrappedObject items out.heap b.destinations
      (out.bindingErrors.length != 0) wd with ⟨l2, t2, c2⟩
    rcases hx5 : propagateWrappedObjectToClusters out.destToWrappedObject items out.heap
      b.destinations (out.bindingErrors.length != 0) wd with ⟨r5, items2, heap2, we⟩
    rw [hx5] at t2
    simp only at t2
    have hl2 : ∀ x ∈ l0 ++ l2, x.isBindingUpdate = false := by
      intro x hx
      rcases List.mem_append.mp hx with h | h
      · exact c0 x h
      · have := c2 x h
        cases x <;> first | rfl | cases this
    have t02 : we.trace = w.trace ++ (l0 ++ l2) := by
      rw [t2, t0, List.append_assoc]
    cases r5 with
    | err e => exact ⟨_, t02, hl2⟩
    | crash => exact ⟨_, t02, hl2⟩
    | ok u =>
      simp only
      rcases deleteLeftovers_prefix items2 we with ⟨k, t3, _⟩
      have hall : ∀ x ∈ (l0 ++ l2) ++ (items2.take k).map deleteCall,
          x.isBindingUpdate = false := by
        intro x hx
        rcases List.mem_append.mp hx with h1 | h1
        · exact hl2 x h1
        · rcases List.mem_map.mp h1 with ⟨u2, _, hu⟩
          rw [← hu]
          rfl
      rcases hx6 : deleteLeftovers items2 we with ⟨r6, wf⟩
      rw [hx6] at t3
      simp only at t3
      cases r6 with
      | some e => exact ⟨_, by simp only; rw [t3, t02, List.append_assoc], hall⟩
      | none => exact ⟨_, by simp only; rw [t3, t02, List.append_assoc], hall⟩

theorem update_after_addFinalizer (c : genericTransportController) (b : Binding) (w : World) :
    ∃ rest, (∀ x ∈ rest, x.isBindingUpdate = false) ∧
      (updateWrappedObjectsAndFinalizer c b w).2.trace =
        (addFinalizerToBinding b w).2.2.trace ++ rest ∧
      (∀ e, (addFinalizerToBinding b w).1 = some e →
        rest = [] ∧
        (updateWrappedObjectsAndFinalizer c b w).2 = (addFinalizerToBinding b w).2.2 ∧
        ∃ e2, (updateWrappedObjectsAndFinalizer c b w).1 = .err e2) := by
  unfold updateWrappedObjectsAndFinalizer
  rcases h1 : addFinalizerToBinding b w with ⟨r1, given, wa⟩
  cases r1 with
  | some e =>
    refine ⟨[], by simp, by simp, ?_⟩
    intro e2 _
    exact ⟨rfl, rfl, _, rfl⟩
  | none =>
    simp only
    have tb := (itsList_spec (bindingSelector c b.name) wa).1
    rcases h2 : itsList (bindingSelector c b.name) wa with ⟨r2, wb⟩
    rw [h2] at tb
    simp only at tb
    cases r2 with
    | error e =>
      refine ⟨[Call.itsList (bindingSelector c b.name)], ?_, tb, ?_⟩
      · intro x hx
        rw [List.mem_singleton] at hx
        rw [hx]
        rfl
      · intro e2 he
        cases he
    | ok items =>
      simp only
      rcases (computeDestToWrappedObjects_frame c b wb).2.2 with ⟨calls, tc, hc⟩
      rcases h3 : computeDestToWrappedObjects c b wb with ⟨r3, wc⟩
      rw [h3] at tc
      simp only at tc
      have hpre : ∀ x ∈ Call.itsList (bindingSelector c b.name) :: calls,
          x.isBindingUpdate = false := by
        intro x hx
        rcases List.mem_cons.mp hx with h | h
        · rw [h]
          rfl
        · rcases hc x h with ⟨g, ns, n, hx2⟩
          rw [hx2]
          rfl
      have tpre : wc.trace = wa.trace ++ Call.itsList (bindingSelector c b.name) :: calls := by
        rw [tc, tb]
        simp
      cases r3 with
      | error e =>
        refine ⟨_, hpre, tpre, ?_⟩
        intro e2 he
        cases he
      | ok out =>
        simp only
        rcases converge_no_binding_update b items out wc with ⟨l, tl, hl⟩
        refine ⟨(Call.itsList (bindingSelector c b.name) :: calls) ++ l, ?_, ?_, ?_⟩
        · intro x hx
          rcases List.mem_append.mp hx with h | h
          · exact hpre x h
          · exact hl x h
        · rw [tl, tpre, List.append_assoc]
        · intro e2 he
          cases he

theorem bindingUpdate_error_bindings (b : Binding) (w : World) (e : Err)
    (h : (bindingUpdate b w).1 = .error e) : (bindingUpdate b w).2.bindings = w.bindings := by
  unfold bindingUpdate at h ⊢
  have hb := call_bindings w (Call.bindingUpdate b)
  rcases hc : w.call (Call.bindingUpdate b) with ⟨f, w1⟩
  rw [hc] at h hb
  simp only at hb
  cases f with
  | some m => exact hb
  | none =>
    simp only at h ⊢
    cases hf : w1.bindings.find? (fun x => x.name == b.name) with
    | none => exact hb
    | some old =>
      rw [hf] at h
      cases h

/-- C22, as the code has it: the finalizer is added whatever the desired state.  For the Binding
`b1` without finalizer and with an empty workload, the first call of the reconcile is the update
that adds the transport finalizer; the reconcile succeeds, touches no wrapped object, and leaves
the Binding on the server with the finalizer. -/
theorem empty_workload_still_adds_finalizer :
    (exBinding none [] [⟨"A"⟩]).clusterScope = [] ∧
    (exBinding none [] [⟨"A"⟩]).namespaceScope = [] ∧
    (updateWrappedObjectsAndFinalizer exController (exBinding none [] [⟨"A"⟩])
      (exWorldOf (exBinding none [] [⟨"A"⟩]) [])).1 = .ok () ∧
    (newCalls (exWorldOf (exBinding none [] [⟨"A"⟩]) [])
      (updateWrappedObjectsAndFinalizer exController (exBinding none [] [⟨"A"⟩])
        (exWorldOf (exBinding none [] [⟨"A"⟩]) [])).2).head? =
      some (Call.bindingUpdate (exBinding none [transportFinalizer] [⟨"A"⟩])) ∧
    (newCalls (exWorldOf (exBinding none [] [⟨"A"⟩]) [])
      (updateWrappedObjectsAndFinalizer exController (exBinding none [] [⟨"A"⟩])
        (exWorldOf (exBinding none [] [⟨"A"⟩]) [])).2).all
      (fun x => !x.touchesWrappedObject) = true ∧
    (updateWrappedObjectsAndFinalizer exController (exBinding none [] [⟨"A"⟩])
      (exWorldOf (exBinding none [] [⟨"A"⟩]) [])).2.bindings.map Binding.finalizers =
      [[transportFinalizer]] := by
  decide

/-- C22, amended: on the normal path the reconcile adds the transport finalizer to every Binding
that lacks it, whatever the desired state: the first call `updateWrappedObjectsAndFinalizer`
issues for such a Binding is the update of the Binding with the finalizer appended, also when no
wrapped object is to be created.  For a Binding that has the finalizer it issues no update of the
Binding. -/
theorem reconcile_adds_missing_finalizer_first (c : genericTransportController) (b : Binding)
    (w : World) :
    (transportFinalizer ∉ b.finalizers →
      (newCalls w (updateWrappedObjectsAndFinalizer c b w).2).head? =
        some (Call.bindingUpdate { b with finalizers := b.finalizers ++ [transportFinalizer] })) ∧
    (transportFinalizer ∈ b.finalizers →
      ∀ x ∈ newCalls w (updateWrappedObjectsAndFinalizer c b w).2, x.isBindingUpdate = false) := by
  rcases update_after_addFinalizer c b w with ⟨rest, hrest, ht, _⟩
  constructor
  · intro h
    rw [(addFinalizerToBinding_absent b w h).2.1, List.append_assoc] at ht
    rw [newCalls_of_append _ _ _ ht]
    rfl
  · intro h
    rw [addFinalizerToBinding_present b w h] at ht
    rw [newCalls_of_append _ _ _ ht]
    exact hrest

theorem reconcile_adds_missing_finalizer_first_witness :
    (newCalls exWorldNs1
      (updateWrappedObjectsAndFinalizer exController
        { exBindingNs1 with finalizers := [] } exWorldNs1).2).head? =
      some (Call.bindingUpdate exBindingNs1) ∧
    ∀ x ∈ newCalls exWorldNs1
      (updateWrappedObjectsAndFinalizer exController exBindingNs1 exWorldNs1).2,
      x.isBindingUpdate = false :=
  ⟨(reconcile_adds_missing_finalizer_first exController
      { exBindingNs1 with finalizers := [] } exWorldNs1).1 (by decide),
   (reconcile_adds_missing_finalizer_first exController exBindingNs1 exWorldNs1).2 (by decide)⟩

/-- C23: `updateWrappedObjectsAndFinalizer` issues the update that adds the finalizer exactly
when the finalizer is missing, and then as its first call: every List, Get, Create, Update and
Delete in the ITS and every status update comes after it, and no second update of the Binding is
issued.  If that update fails, the reconcile returns an error and has issued no other call: the
ITS and the Bindings on the server are as before. -/
theorem finalizer_update_precedes_everything (c : genericTransportController) (b : Binding)
    (w : World) :
    (transportFinalizer ∈ b.finalizers →
      ∀ x ∈ newCalls w (updateWrappedObjectsAndFinalizer c b w).2, x.isBindingUpdate = false) ∧
    (transportFinalizer ∉ b.finalizers →
      ∃ rest, newCalls w (updateWrappedObjectsAndFinalizer c b w).2 =
          Call.bindingUpdate (withTransportFinalizer b) :: rest ∧
        ∀ x ∈ rest, x.isBindingUpdate = false) ∧
    (transportFinalizer ∉ b.finalizers →
      ∀ e, (bindingUpdate (withTransportFinalizer b) w).1 = .error e →
        (∃ e2, (updateWrappedObjectsAndFinalizer c b w).1 = .err e2) ∧
        newCalls w (updateWrappedObjectsAndFinalizer c b w).2 =
          [Call.bindingUpdate (withTransportFinalizer b)] ∧
        (updateWrappedObjectsAndFinalizer c b w).2.its = w.its ∧
        (updateWrappedObjectsAndFinalizer c b w).2.bindings = w.bindings) := by
  rcases update_after_addFinalizer c b w with ⟨rest, hrest, ht, hfail⟩
  refine ⟨?_, ?_, ?_⟩
  · intro h
    rw [addFinalizerToBinding_present b w h] at ht
    rw [newCalls_of_append _ _ _ ht]
    exact hrest
  · intro h
    rw [(addFinalizerToBinding_absent b w h).2.1, List.append_assoc] at ht
    exact ⟨rest, newCalls_of_append _ _ _ ht, hrest⟩
  · intro h e he
    have habs := addFinalizerToBinding_absent b w h
    rcases habs.2.2.1 e he with ⟨e2, he2⟩
    rcases hfail e2 he2 with ⟨hnil, hw, hres⟩
    rw [hnil, habs.2.1, List.append_nil] at ht
    refine ⟨hres, newCalls_of_append _ _ _ ht, ?_, ?_⟩
    · rw [hw, habs.1]
      exact bindingUpdate_its _ _
    · rw [hw, habs.1]
      exact bindingUpdate_error_bindings _ _ e he

theorem finalizer_update_precedes_everything_witness :
    (∃ e2, (updateWrappedObjectsAndFinalizer exController { exBindingNs1 with finalizers := [] }
        { exWorldNs1 with faults := [some "conflict"] }).1 = .err e2) ∧
    newCalls { exWorldNs1 with faults := [some "conflict"] }
        (updateWrappedObjectsAndFinalizer exController { exBindingNs1 with finalizers := [] }
          { exWorldNs1 with faults := [some "conflict"] }).2 =
      [Call.bindingUpdate exBindingNs1] ∧
    (updateWrappedObjectsAndFinalizer exController { exBindingNs1 with finalizers := [] }
        { exWorldNs1 with faults := [some "conflict"] }).2.its = [] ∧
    (updateWrappedObjectsAndFinalizer exController { exBindingNs1 with finalizers := [] }
        { exWorldNs1 with faults := [some "conflict"] }).2.bindings = [exBindingNs1] :=
  (finalizer_update_precedes_everything exController { exBindingNs1 with finalizers := [] }
    { exWorldNs1 with faults := [some "conflict"] }).2.2 (by decide)
    (transientErr "conflict") (by decide)

/-! ## Claims about cleaning a workload object -/

theorem lookup_mapDelete (m : StrMap) (k k2 : String) :
    (mapDelete m k).lookup k2 = if k2 == k then none else m.lookup k2 := by
  unfold mapDelete
  induction m with
  | nil => simp
  | cons kv rest ih =>
    rcases kv with ⟨a, v⟩
    by_cases hak : a = k
    · subst hak
      simp only [List.filter_cons, beq_self_eq_true, Bool.not_true, Bool.false_eq_true,
        if_false, ih, List.lookup_cons]
      by_cases h2 : k2 = a
      · subst h2
        simp
      · have hb : (k2 == a) = false := by simpa using h2
        simp [hb]
    · have hb : (a == k) = false := by simpa using hak
      simp only [List.filter_cons, hb, Bool.not_false, if_true, List.lookup_cons, ih]
      by_cases h2 : k2 = a
      · subst h2
        have hb2 : (k2 == k) = false := by simpa using hak
        simp [hb2]
      · have hb2 : (k2 == a) = false := by simpa using h2
        simp [hb2]

/-- C25, as the code has it: what `cleanObject` returns is what the filter for the kind makes of
the cleaned copy.  The filter of `exFiltering` reintroduces none of the cleared fields, yet the
body of the Service it returns is not the body of the input. -/
theorem cleanObject_filter_changes_other_fields :
    (∀ x, Cleaned x → Cleaned (exFiltering.cleanObjectSpecifics x)) ∧
    (cleanObject exFiltering exService).body = "" ∧
    exService.body = "clusterIP: 10.0.0.1" ∧
    (cleanObject exFiltering exService).resourceVersion = "" := by
  refine ⟨?_, by decide, by decide, by decide⟩
  intro x hx
  unfold exFiltering
  simp only
  by_cases hk : (x.kind == "Service") = true
  · rw [if_pos hk]
    exact hx
  · rw [if_neg hk]
    exact hx

/-- C25, amended: `cleanObject` returns what the kind-specific filter makes of a copy of the
object in which managedFields, finalizers, generation, ownerReferences, selfLink,
resourceVersion, uid and generateName are unset, the annotation of the last applied configuration
and the status are absent, and apiVersion, kind, name, namespace, labels, the other annotations
and the body are those of the input.  So the cleared fields are unset in the result given a
filter that does not reintroduce them, and the other fields are those of the input given a filter
that leaves them as they are. -/
theorem cleanObject_clears_and_keeps (c : genericTransportController) (o : Unstructured) :
    (∃ copy, cleanObject c o = c.cleanObjectSpecifics copy ∧ Cleaned copy ∧ SameRest o copy) ∧
    ((∀ x, Cleaned x → Cleaned (c.cleanObjectSpecifics x)) → Cleaned (cleanObject c o)) ∧
    ((∀ x, SameRest x (c.cleanObjectSpecifics x)) → SameRest o (cleanObject c o)) := by
  have hcopy : ∃ copy, cleanObject c o = c.cleanObjectSpecifics copy ∧ Cleaned copy ∧
      SameRest o copy := by
    refine ⟨_, rfl, ?_, ?_⟩
    · refine ⟨rfl, rfl, rfl, rfl, rfl, rfl, rfl, rfl, ?_, rfl⟩
      show (mapDelete o.annotations lastAppliedKey).lookup lastAppliedKey = none
      rw [lookup_mapDelete]
      simp
    · refine ⟨rfl, rfl, rfl, rfl, rfl, rfl, ?_⟩
      intro k hk
      show (mapDelete o.annotations lastAppliedKey).lookup k = o.annotations.lookup k
      rw [lookup_mapDelete]
      have hb : (k == lastAppliedKey) = false := by simpa using hk
      simp [hb]
  refine ⟨hcopy, ?_, ?_⟩
  · intro hf
    rcases hcopy with ⟨copy, he, hc, _⟩
    rw [he]
    exact hf copy hc
  · intro hf
    rcases hcopy with ⟨copy, he, _, hs⟩
    rw [he]
    have h2 := hf copy
    refine ⟨h2.1.trans hs.1, h2.2.1.trans hs.2.1, h2.2.2.1.trans hs.2.2.1,
      h2.2.2.2.1.trans hs.2.2.2.1, h2.2.2.2.2.1.trans hs.2.2.2.2.1,
      h2.2.2.2.2.2.1.trans hs.2.2.2.2.2.1, ?_⟩
    intro k hk
    rw [h2.2.2.2.2.2.2 k hk, hs.2.2.2.2.2.2 k hk]

theorem cleanObject_clears_and_keeps_witness :
    Cleaned (cleanObject exController exService) ∧
    SameRest exService (cleanObject exController exService) ∧
    (cleanObject exController exService).annotations = [("note", "keep")] :=
  ⟨(cleanObject_clears_and_keeps exController exService).2.1 (fun _ h => h),
   (cleanObject_clears_and_keeps exController exService).2.2
     (fun _ => ⟨rfl, rfl, rfl, rfl, rfl, rfl, fun _ _ => rfl⟩),
   by decide⟩

/-! ## Claims about the state the controller keeps and the desired function -/

/-- C26: an entry of `destinationProperties` outlives the last Binding that is sensitive to its
destination.  The reconcile of the Binding `b1`, whose object `t` is customized for the
destination `A`, leaves an entry for `A` in both maps.  After the Binding is marked for deletion
and reconciled again, no Binding is sensitive to any destination, and `destinationProperties`
still holds the entry for `A`; a later `syncProperties` for `A` does not remove it either. -/
theorem destination_properties_outlive_sensitivity :
    (syncBinding exExpanding "b1" exWorldT).1 = .ok () ∧
    (syncBinding exExpanding "b1" exWorldT).2.bindingSensitiveDestinations = [("b1", [⟨"A"⟩])] ∧
    (syncBinding exExpanding "b1" exWorldT).2.destinationProperties =
      [(⟨"A"⟩, [("clusterName", "A")])] ∧
    (syncBinding exExpanding "b1" exWorldTDeleted).1 = .ok () ∧
    (syncBinding exExpanding "b1" exWorldTDeleted).2.bindingSensitiveDestinations = [] ∧
    (syncBinding exExpanding "b1" exWorldTDeleted).2.destinationProperties =
      [(⟨"A"⟩, [("clusterName", "A")])] ∧
    (syncProperties exExpanding "A"
      (syncBinding exExpanding "b1" exWorldTDeleted).2).2.destinationProperties =
      [(⟨"A"⟩, [("clusterName", "A")])] := by
  decide

theorem mem_keys_mapSet {ν : Type} (m : List (Destination × ν)) (k x : Destination) (v : ν)
    (h : x ∈ m.map Prod.fst ∨ x = k) : x ∈ (mapSet m k v).map Prod.fst := by
  by_cases hk : k ∈ m.map Prod.fst
  · rw [mapSet_keys_mem m k v hk]
    rcases h with h | h
    · exact h
    · rw [h]
      exact hk
  · rw [mapSet_keys_not_mem m k v hk]
    rcases h with h | h
    · exact List.mem_append_left _ h
    · rw [h]
      simp

theorem backfill_fold_keys (v : List Unstructured) (ds : List Destination)
    (m0 : List (Destination × List Unstructured)) :
    ∀ d, d ∈ m0.map Prod.fst ∨ d ∈ ds →
      d ∈ (ds.foldl (fun m d => mapSet m d v) m0).map Prod.fst := by
  induction ds generalizing m0 with
  | nil =>
    intro d hd
    rcases hd with h | h
    · exact h
    · cases h
  | cons a rest ih =>
    intro d hd
    rw [List.foldl_cons]
    apply ih
    rcases hd with h | h
    · exact Or.inl (mem_keys_mapSet m0 a d v (Or.inl h))
    · rcases List.mem_cons.mp h with h1 | h1
      · exact Or.inl (mem_keys_mapSet m0 a d v (Or.inr h1))
      · exact Or.inr h1

theorem customizeStep_keys (c : genericTransportController) (objs : List Unstructured)
    (b : Binding) (i : Nat) (o : Unstructured) (r : Bool) (j : Nat) (dest : Destination)
    (s : CustomizeState)
    (hinv : ∀ m, s.destToCustomizedObjects = some m →
      ∀ d ∈ b.destinations, d ∈ m.map Prod.fst) :
    ∀ m, (customizeStep c objs b i o r j dest s).destToCustomizedObjects = some m →
      ∀ d ∈ b.destinations, d ∈ m.map Prod.fst := by
  have hback : ∀ d ∈ b.destinations,
      d ∈ (b.destinations.foldl (fun m d => mapSet m d (objs.take i)) []).map Prod.fst :=
    fun d hd => backfill_fold_keys (objs.take i) b.destinations [] d (Or.inr hd)
  have hbase : ∀ (cond : Bool) m0,
      (if cond = true then
          some (b.destinations.foldl (fun m d => mapSet m d (objs.take i)) [])
        else s.destToCustomizedObjects) = some m0 →
      ∀ d ∈ b.destinations, d ∈ m0.map Prod.fst := by
    intro cond m0 hm d hd
    cases cond with
    | true =>
      simp only [if_true, Option.some.injEq] at hm
      rw [← hm]
      exact hback d hd
    | false =>
      simp only [Bool.false_eq_true, if_false] at hm
      exact hinv m0 hm d hd
  intro m hm d hd
  unfold customizeStep at hm
  simp only at hm
  by_cases hc : (r && (j == 0 || s.customizeThisObject)) = true
  · simp only [hc, if_true] at hm
    split at hm
    · cases hm
    · rename_i m0 heq
      simp only [Option.some.injEq] at hm
      rw [← hm]
      exact mem_keys_mapSet _ _ _ _ (Or.inl (hbase _ m0 heq d hd))
  · simp only [hc, if_false, Bool.false_eq_true] at hm
    split at hm
    · cases hm
    · rename_i m0 heq
      simp only [Option.some.injEq] at hm
      rw [← hm]
      exact mem_keys_mapSet _ _ _ _ (Or.inl (hbase _ m0 heq d hd))

theorem customizeDests_keys (c : genericTransportController) (objs : List Unstructured)
    (b : Binding) (i : Nat) (o : Unstructured) (r : Bool) (ds : List Destination) (j : Nat)
    (s : CustomizeState)
    (hinv : ∀ m, s.destToCustomizedObjects = some m →
      ∀ d ∈ b.destinations, d ∈ m.map Prod.fst) :
    ∀ m, (customizeDests c objs b i o r j ds s).destToCustomizedObjects = some m →
      ∀ d ∈ b.destinations, d ∈ m.map Prod.fst := by
  induction ds generalizing j s with
  | nil => exact hinv
  | cons d rest ih =>
    rw [customizeDests]
    exact ih (j + 1) _ (customizeStep_keys c objs b i o r j d s hinv)

theorem customizeObjects_keys (c : genericTransportController) (objs : List Unstructured)
    (b : Binding) (rest : List Unstructured) (i : Nat) (s : CustomizeState)
    (hinv : ∀ m, s.destToCustomizedObjects = some m →
      ∀ d ∈ b.destinations, d ∈ m.map Prod.fst) :
    ∀ m, (customizeObjects c objs b i rest s).destToCustomizedObjects = some m →
      ∀ d ∈ b.destinations, d ∈ m.map Prod.fst := by
  induction rest generalizing i s with
  | nil => exact hinv
  | cons o rest ih =>
    rw [customizeObjects_cons]
    exact ih (i + 1) _ (customizeDests_keys c objs b i o _ b.destinations 0 _ hinv)

theorem wrapAll_keys (c : genericTransportController) (b : Binding)
    (m : List (Destination × List Unstructured)) (dests : List Destination) (heap : Heap)
    (h : wrapAll c b m = .ok (dests, heap)) :
    dests = m.map Prod.fst ∧ heap.length = dests.length := by
  induction m generalizing dests heap with
  | nil =>
    rw [wrapAll] at h
    simp only [Except.ok.injEq, Prod.mk.injEq] at h
    rw [← h.1, ← h.2]
    exact ⟨rfl, rfl⟩
  | cons e rest ih =>
    rcases e with ⟨dest, objects⟩
    rw [wrapAll] at h
    cases hw : wrap c objects b with
    | error err =>
      rw [hw] at h
      cases h
    | ok wrapped =>
      rw [hw] at h
      simp only at h
      cases hr : wrapAll c b rest with
      | error err =>
        rw [hr] at h
        cases h
      | ok p =>
        rcases p with ⟨ds, hp⟩
        rw [hr] at h
        simp only [Except.ok.injEq, Prod.mk.injEq] at h
        rcases ih ds hp hr with ⟨k1, k2⟩
        rw [← h.1, ← h.2, k1]
        exact ⟨rfl, by simp [k2, k1]⟩

theorem getClusterScoped_length (c : genericTransportController)
    (objs : List ClusterScopeDownsyncObject) (acc : List Unstructured) (w : World)
    (r : List Unstructured) (h : (getClusterScoped c objs acc w).1 = .ok r) :
    r.length = acc.length + objs.length := by
  induction objs generalizing acc w with
  | nil =>
    rw [getClusterScoped] at h
    simp only [Except.ok.injEq] at h
    rw [← h]
    rfl
  | cons o rest ih =>
    rw [getClusterScoped] at h
    rcases hg : wdsGet o.gvr "" o.name w with ⟨g, w1⟩
    rw [hg] at h
    cases g with
    | error e => cases h
    | ok object =>
      simp only at h
      rw [ih _ _ h]
      simp
      omega

theorem getNamespaceScoped_length (c : genericTransportController)
    (objs : List NamespaceScopeDownsyncObject) (acc : List Unstructured) (w : World)
    (r : List Unstructured) (h : (getNamespaceScoped c objs acc w).1 = .ok r) :
    r.length = acc.length + objs.length := by
  induction objs generalizing acc w with
  | nil =>
    rw [getNamespaceScoped] at h
    simp only [Except.ok.injEq] at h
    rw [← h]
    rfl
  | cons o rest ih =>
    rw [getNamespaceScoped] at h
    rcases hg : wdsGet o.gvr o.ns o.name w with ⟨g, w1⟩
    rw [hg] at h
    cases g with
    | error e => cases h
    | ok object =>
      simp only at h
      rw [ih _ _ h]
      simp
      omega

theorem getObjectsFromWDS_length (c : genericTransportController) (b : Binding) (w : World)
    (r : List Unstructured) (h : (getObjectsFromWDS c b w).1 = .ok r) :
    r.length = b.clusterScope.length + b.namespaceScope.length := by
  unfold getObjectsFromWDS at h
  rcases hc : getClusterScoped c b.clusterScope [] w with ⟨g, w1⟩
  rw [hc] at h
  cases g with
  | error e => cases h
  | ok objs =>
    simp only at h
    have h1 := getClusterScoped_length c b.clusterScope [] w objs (by rw [hc])
    rw [getNamespaceScoped_length c b.namespaceScope objs w1 r h, h1]
    simp

theorem createOrUpdate_heap_length (ns : String) (p : Nat) (obj : Unstructured) (heap : Heap)
    (w : World) : (createOrUpdateWrappedObject ns p obj heap w).2.1.length = heap.length := by
  unfold createOrUpdateWrappedObject
  rcases itsGet ns obj.name w with ⟨g, w1⟩
  cases g with
  | error e =>
    simp only
    by_cases hn : (!e.notFound) = true
    · rw [if_pos hn]
    · rw [if_neg hn]
      rcases itsCreate ns (obj.setResourceVersion "") w1 with ⟨r, w2⟩
      cases r <;> simp
  | ok existing =>
    simp only
    rcases itsUpdate ns (obj.setResourceVersion existing.resourceVersion) w1 with ⟨r, w2⟩
    cases r <;> simp

theorem propagateStep_safe (f : DestToWrapped) (broken : Bool) (d : Destination)
    (items : List Unstructured) (heap : Heap) (w : World) :
    (propagateStep f broken d items heap w).heap.length = heap.length ∧
    ((∃ p, (f d).1 = some p ∧ p < heap.length) →
      (propagateStep f broken d items heap w).res ≠ .crash) := by
  unfold propagateStep
  simp only
  cases broken with
  | true =>
    simp only [if_true]
    exact ⟨trivial, fun _ h => by cases h⟩
  | false =>
    simp only [Bool.false_eq_true, if_false]
    cases hf : (f d).1 with
    | none =>
      simp only
      refine ⟨trivial, ?_⟩
      rintro ⟨p, hp, _⟩
      cases hp
    | some p =>
      simp only
      cases hh : heap[p]? with
      | none =>
        simp only
        refine ⟨trivial, ?_⟩
        rintro ⟨p2, hp2, hlt⟩
        simp only [Option.some.injEq] at hp2
        rw [← hp2] at hlt
        rw [List.getElem?_eq_none_iff] at hh
        omega
      | some des =>
        simp only
        by_cases heq : ((popWrappedObjectByNamespace items d.clusterId).1.any
            fun cur => deepEqual cur des) = true
        · rw [if_pos heq]
          exact ⟨rfl, fun _ h => by cases h⟩
        · rw [if_neg heq]
          have hlen := createOrUpdate_heap_length d.clusterId p des heap w
          rcases hcu : createOrUpdateWrappedObject d.clusterId p des heap w with ⟨r, heap1, w1⟩
          rw [hcu] at hlen
          simp only at hlen
          cases r with
          | some e => exact ⟨hlen, fun _ h => by cases h⟩
          | none => exact ⟨hlen, fun _ h => by cases h⟩

theorem propagateLoop_safe (f : DestToWrapped) (broken : Bool) (ds : List Destination)
    (items : List Unstructured) (heap : Heap) (w : World)
    (h : ∀ d ∈ ds, ∃ p, (f d).1 = some p ∧ p < heap.length) :
    (propagateLoop f broken ds items heap w).res ≠ .crash := by
  induction ds generalizing items heap w with
  | nil =>
    rw [propagateLoop]
    intro hc
    cases hc
  | cons d rest ih =>
    have hs := propagateStep_safe f broken d items heap w
    by_cases hok : (propagateStep f broken d items heap w).res = .ok ()
    · rw [propagateLoop_cons_ok _ _ _ _ _ _ _ hok]
      apply ih
      intro x hx
      rcases h x (List.mem_cons_of_mem _ hx) with ⟨p, hp, hlt⟩
      exact ⟨p, hp, by rw [hs.1]; exact hlt⟩
    · rw [propagateLoop_cons_stop _ _ _ _ _ _ _ hok]
      exact hs.2 (h d (List.mem_cons_self _ _))

/-- C30: whenever `computeDestToWrappedObjects` returns a function (the workload is not empty, the
objects were read and wrapped), the function answers every destination of the spec with ok =
true and a pointer to a wrapped object, both when no object needs customization and when some
does; it returns a function whenever the spec names a workload object.  So
`updateWrappedObjectsAndFinalizer` never dereferences a nil desired wrapped object. -/
theorem desired_function_answers_every_destination (c : genericTransportController)
    (b : Binding) (w : World) :
    (∀ out w2, computeDestToWrappedObjects c b w = (.ok out, w2) →
      ((b.clusterScope ≠ [] ∨ b.namespaceScope ≠ []) → out.destToWrappedObject ≠ none) ∧
      ∀ f, out.destToWrappedObject = some f →
        ∀ d ∈ b.destinations, ∃ p obj, f d = (some p, true) ∧ out.heap[p]? = some obj) ∧
    (updateWrappedObjectsAndFinalizer c b w).1 ≠ .crash := by
  have hmain : ∀ (w0 : World) out w2, computeDestToWrappedObjects c b w0 = (.ok out, w2) →
      ((b.clusterScope ≠ [] ∨ b.namespaceScope ≠ []) → out.destToWrappedObject ≠ none) ∧
      ∀ f, out.destToWrappedObject = some f →
        ∀ d ∈ b.destinations, ∃ p obj, f d = (some p, true) ∧ out.heap[p]? = some obj := by
    intro w0 out w2 h
    unfold computeDestToWrappedObjects at h
    rcases hg : getObjectsFromWDS c b w0 with ⟨g, w1⟩
    rw [hg] at h
    cases g with
    | error e =>
      simp only [Prod.mk.injEq] at h
      cases h.1
    | ok objs =>
      simp only at h
      have hlen := getObjectsFromWDS_length c b w0 objs (by rw [hg])
      by_cases h0 : objs.length = 0
      · rw [if_pos h0] at h
        simp only [Prod.mk.injEq, Except.ok.injEq] at h
        rw [← h.1]
        refine ⟨?_, ?_⟩
        · intro hne
          exfalso
          rcases hne with hne | hne
          · have := List.length_pos.mpr hne
            omega
          · have := List.length_pos.mpr hne
            omega
        · intro f hf
          cases hf
      · rw [if_neg h0] at h
        have hkeys := customizeObjects_keys c objs b objs 0 ⟨none, [], false, false, w1⟩
          (fun m hm => by cases hm)
        rcases hcz : computeDestToCustomizedObjects c objs b w1 with ⟨mo, errs, w3⟩
        have hmo : (customizeObjects c objs b 0 objs
            ⟨none, [], false, false, w1⟩).destToCustomizedObjects = mo := by
          have : (computeDestToCustomizedObjects c objs b w1).1 = mo := by rw [hcz]
          exact this
        rw [hcz] at h
        cases mo with
        | some m =>
          simp only at h
          cases hwa : wrapAll c b m with
          | error e =>
            rw [hwa] at h
            simp only [Prod.mk.injEq] at h
            cases h.1
          | ok p =>
            rcases p with ⟨dests, heap⟩
            rw [hwa] at h
            simp only [Prod.mk.injEq, Except.ok.injEq] at h
            rcases wrapAll_keys c b m dests heap hwa with ⟨k1, k2⟩
            rw [← h.1]
            refine ⟨fun _ => by simp, ?_⟩
            intro f hf d hd
            simp only [Option.some.injEq] at hf
            rw [← hf]
            have hmem : d ∈ dests := by
              rw [k1]
              exact hkeys m hmo d hd
            have hidx : dests.indexOf d < heap.length := by
              rw [k2]
              exact List.indexOf_lt_length.mpr hmem
            refine ⟨dests.indexOf d, heap[dests.indexOf d], ?_, ?_⟩
            · unfold PrimitiveMapGet
              have hc : dests.contains d = true := by simpa using hmem
              simp only [hc, if_true]
            · exact List.getElem?_eq_getElem hidx
        | none =>
          simp only at h
          cases hwr : wrap c objs b with
          | error e =>
            rw [hwr] at h
            simp only [Prod.mk.injEq] at h
            cases h.1
          | ok wrapped =>
            rw [hwr] at h
            simp only [Prod.mk.injEq, Except.ok.injEq] at h
            rw [← h.1]
            refine ⟨fun _ => by simp, ?_⟩
            intro f hf d _
            simp only [Option.some.injEq] at hf
            rw [← hf]
            exact ⟨0, wrapped, rfl, rfl⟩
  refine ⟨hmain w, ?_⟩
  unfold updateWrappedObjectsAndFinalizer
  rcases addFinalizerToBinding b w with ⟨r1, given, wa⟩
  cases r1 with
  | some e =>
    intro h
    cases h
  | none =>
    simp only
    rcases itsList (bindingSelector c b.name) wa with ⟨r2, wb⟩
    cases r2 with
    | error e =>
      intro h
      cases h
    | ok items =>
      simp only
      rcases h3 : computeDestToWrappedObjects c b wb with ⟨r3, wc⟩
      cases r3 with
      | error e =>
        intro h
        cases h
      | ok out =>
        simp only
        have hout := (hmain wb out wc h3).2
        unfold converge
        rcases writeStatus b out.bindingErrors wc with ⟨r4, wd⟩
        cases r4 with
        | some e =>
          intro h
          cases h
        | none =>
          simp only
          have hsafe : (propagateWrappedObjectToClusters out.destToWrappedObject items out.heap
              b.destinations (out.bindingErrors.length != 0) wd).res ≠ .crash := by
            unfold propagateWrappedObjectToClusters
            cases hf : out.destToWrappedObject with
            | none =>
              intro h
              cases h
            | some f =>
              simp only
              apply propagateLoop_safe
              intro d hd
              rcases hout f hf d hd with ⟨p, obj, hp, hobj⟩
              refine ⟨p, by rw [hp], ?_⟩
              by_contra hge
              have : out.heap[p]? = none := List.getElem?_eq_none_iff.mpr (by omega)
              rw [this] at hobj
              cases hobj
          rcases hpr : propagateWrappedObjectToClusters out.destToWrappedObject items out.heap
            b.destinations (out.bindingErrors.length != 0) wd with ⟨r5, items2, heap2, we⟩
          rw [hpr] at hsafe
          cases r5 with
          | err e =>
            intro h
            cases h
          | crash => exact absurd rfl hsafe
          | ok u =>
            simp only
            rcases deleteLeftovers items2 we with ⟨r6, wf⟩
            cases r6 with
            | some e =>
              intro h
              cases h
            | none =>
              intro h
              cases h

theorem desired_function_answers_every_destination_witness :
    ∃ p obj, (fun (_ : Destination) => ((some 0 : Option Nat), true)) ⟨"A"⟩ = (some p, true) ∧
      [exWrappedNs1][p]? = some obj :=
  ((desired_function_answers_every_destination exController exBindingNs1 exWorldNs1).1
    ⟨some (fun _ => (some 0, true)), [exWrappedNs1], []⟩
    (computeDestToWrappedObjects exController exBindingNs1 exWorldNs1).2 rfl).2
    (fun _ => (some 0, true)) rfl ⟨"A"⟩ (by decide)

end Transport
